import Mathlib

/-!
Verification of the BoostNote.next storage registry (`createDbStoreCreator`),
its index mutator operations and its sync scheduler, against the
natural-language specification.

The registry code (createNote, updateNote, trashNote, untrashNote, purgeNote,
createFolder, renameFolder, removeFolder, removeTag, moveNoteToOtherStorage,
syncStorage, queueSyncingStorage, cancelSyncingStorageQueue) is embedded
shallowly below.  JavaScript objects used as string-keyed maps are embedded as
association lists with JavaScript assignment/spread/delete semantics; `Set`
becomes `Finset`.  The underlying document store (`NoteDb`) is not part of the
sources, so it is modelled from the specification (each such definition carries
a `Modelled from the spec:` comment).  Note ids, generated opaquely by the
store, are embedded as naturals drawn from a per-store counter.
-/

/-! ## Association-list maps with JavaScript object semantics

`lookupA` is property read, `osetA` is `obj[k] = v` (replaces the value in
place when the key exists, appends otherwise), `odelA` is `delete obj[k]`,
`omergeA a b` is the spread `{...a, ...b}`. -/

def lookupA {κ α : Type} [DecidableEq κ] : List (κ × α) → κ → Option α
  | [], _ => none
  | (k', v) :: rest, k => if k' = k then some v else lookupA rest k

def osetA {κ α : Type} [DecidableEq κ] : List (κ × α) → κ → α → List (κ × α)
  | [], k, v => [(k, v)]
  | (k', v') :: rest, k, v =>
      if k' = k then (k, v) :: rest else (k', v') :: osetA rest k v

def odelA {κ α : Type} [DecidableEq κ] : List (κ × α) → κ → List (κ × α)
  | [], _ => []
  | (k', v) :: rest, k =>
      if k' = k then odelA rest k else (k', v) :: odelA rest k

def omergeA {κ α : Type} [DecidableEq κ] (a b : List (κ × α)) : List (κ × α) :=
  b.foldl (fun m kv => osetA m kv.1 kv.2) a

def keysA {κ α : Type} (m : List (κ × α)) : List κ := m.map Prod.fst

def NoDupKeys {κ α : Type} (m : List (κ × α)) : Prop := (m.map Prod.fst).Nodup

instance {κ α : Type} [DecidableEq κ] (m : List (κ × α)) : Decidable (NoDupKeys m) := by
  unfold NoDupKeys; infer_instance

/-! ## Pathname helpers

The pathname utilities (`getAllParentFolderPathnames`, `isFolderPathnameValid`)
live in `lib/db/utils`, which is not among the sources; they are modelled from
the spec ("a `/`-separated hierarchical key; the root is `/`"; "intermediate
ancestors are lazily materialized").  They work on the character list of the
string so that they compute by kernel reduction. -/

/-- Models JavaScript `s.startsWith(p)`. -/
def strStartsWith (s p : String) : Bool := p.data.isPrefixOf s.data

/-- Models `p.split('/').length`: the number of separator occurrences plus one. -/
def pathDepth (p : String) : Nat := p.data.count '/' + 1

/-- Modelled from the spec: the proper ancestor pathnames of a folder pathname,
root first, e.g. `"/a/b"` has ancestors `["/", "/a"]`; `"/"` has none.  Every
ancestor is a strict character-prefix of the pathname ending just before a
separator. -/
def getAllParentFolderPathnames (p : String) : List String :=
  (List.range p.data.length).filterMap (fun i =>
    if i = 1 ∨ (2 ≤ i ∧ p.data.get? i = some '/') then
      some (String.mk (p.data.take i))
    else none)

/-- Modelled from the spec: checks that the segment part of a pathname (the
characters after the leading separator) is a nonempty-segment sequence.  The
flag records whether the scanner sits at a segment start. -/
def validSegChars : List Char → Bool → Bool
  | [], atStart => !atStart
  | c :: rest, atStart =>
      if c = '/' then !atStart && validSegChars rest true
      else validSegChars rest false

/-- Modelled from the spec: a folder pathname is valid iff it is the root `"/"`
or starts with `/`, has no empty segment and no trailing separator. -/
def isFolderPathnameValid (p : String) : Bool :=
  match p.data with
  | '/' :: rest => rest.isEmpty || validSegChars rest true
  | _ => false

/-- Models `folderPathname.replace(new RegExp('^' + escapeRegExp(pathname)), newPathname)`
for the strings it is applied to, which all start with `pathname`: the prefix
is replaced by `newPathname`. -/
def rewritePath (pathname newPathname fp : String) : String :=
  String.mk (newPathname.data ++ fp.data.drop pathname.data.length)

/-! ## Data model -/

structure NoteDoc where
  _id : Nat
  title : String
  content : String
  data : String
  tags : List String
  folderPathname : String
  trashed : Bool
deriving DecidableEq

structure FolderDoc where
  pathname : String
  noteIdSet : Finset Nat
deriving DecidableEq

structure TagDoc where
  name : String
  noteIdSet : Finset Nat
deriving DecidableEq

structure NoteProps where
  title : Option String := none
  content : Option String := none
  data : Option String := none
  tags : Option (List String) := none
  folderPathname : Option String := none
deriving DecidableEq

inductive RegError : Type
  | typeError
  | unprocessable (msg : String)
  | jsError (msg : String)
  | dbError
deriving DecidableEq

inductive Outcome (α : Type) : Type
  | ok (val : α)
  | silent
  | err (e : RegError)
deriving DecidableEq

/-! ## The document store

`NoteDb` is not among the sources; the registry only consumes it.  The
following model is built from the spec's external-interface section: CRUD on
note records keyed by generated ids, a set of materialized folder pathnames
(ancestors materialized on every folder-creating operation), a set of tag
names with `createTag`-equivalent-via-`getTag` semantics, and a fresh-id
counter for note creation. -/

structure Db where
  notes : List (Nat × NoteDoc)
  folders : List String
  tags : List String
  nextId : Nat
deriving DecidableEq

/-- Modelled from the spec: whether a folder record exists for a pathname. -/
def Db.hasFolder (db : Db) (p : String) : Bool := p ∈ db.folders

/-- Modelled from the spec: add a folder record for a pathname if missing. -/
def Db.addFolder (db : Db) (p : String) : Db :=
  if db.hasFolder p then db else { db with folders := p :: db.folders }

/-- Modelled from the spec: materialize a folder pathname together with all of
its missing ancestors. -/
def Db.materializeFolder (db : Db) (p : String) : Db :=
  (getAllParentFolderPathnames p).foldl Db.addFolder (db.addFolder p)

/-- Modelled from the spec: `getFolder(pathname)` returns the folder record or
not-found.  Only the pathname of the raw record is relevant to the registry. -/
def Db.getFolder (db : Db) (p : String) : Option String :=
  if db.hasFolder p then some p else none

/-- Modelled from the spec: `getFoldersByPathnames` returns the records of the
pathnames that exist, in the order queried. -/
def Db.getFoldersByPathnames (db : Db) (ps : List String) : List String :=
  ps.filter (fun p => db.hasFolder p)

/-- Modelled from the spec: `createFolder({pathname})` validates the pathname
(document-store-side "pathname validation"), materializes the folder and its
ancestors, and returns the folder record. -/
def Db.createFolder (db : Db) (p : String) : Except Unit (Db × String) :=
  if isFolderPathnameValid p then .ok (db.materializeFolder p, p) else .error ()

/-- Modelled from the spec: `getNote(id)` returns the record or not-found. -/
def Db.getNote (db : Db) (id : Nat) : Option NoteDoc := lookupA db.notes id

/-- Modelled from the spec: `createNote(props)` generates a fresh id, fills
missing properties with defaults (empty strings, no tags, root folder), stores
the note untrashed and materializes its folder pathname; an invalid pathname is
rejected by the store's own validation. -/
def Db.createNote (db : Db) (props : NoteProps) : Except Unit (Db × NoteDoc) :=
  let fp := props.folderPathname.getD "/"
  if isFolderPathnameValid fp then
    let note : NoteDoc :=
      { _id := db.nextId
        title := props.title.getD ""
        content := props.content.getD ""
        data := props.data.getD ""
        tags := props.tags.getD []
        folderPathname := fp
        trashed := false }
    .ok ({ (db.materializeFolder fp) with
             notes := osetA db.notes note._id note
             nextId := db.nextId + 1 }, note)
  else .error ()

/-- Modelled from the spec: `updateNote(id, props)` overwrites the given
properties on the stored record (or signals not-found), materializing a
changed folder pathname; an invalid new pathname is rejected. -/
def Db.updateNote (db : Db) (id : Nat) (props : NoteProps) :
    Except Unit (Db × Option NoteDoc) :=
  match lookupA db.notes id with
  | none => .ok (db, none)
  | some old =>
    let fp := props.folderPathname.getD old.folderPathname
    if isFolderPathnameValid fp then
      let note : NoteDoc :=
        { old with
            title := props.title.getD old.title
            content := props.content.getD old.content
            data := props.data.getD old.data
            tags := props.tags.getD old.tags
            folderPathname := fp }
      .ok ({ (db.materializeFolder fp) with notes := osetA db.notes id note },
           some note)
    else .error ()

/-- Modelled from the spec: `trashNote(id)` sets the trashed flag and returns
the record, or signals not-found. -/
def Db.trashNote (db : Db) (id : Nat) : Db × Option NoteDoc :=
  match lookupA db.notes id with
  | none => (db, none)
  | some old =>
    let note := { old with trashed := true }
    ({ db with notes := osetA db.notes id note }, some note)

/-- Modelled from the spec: `untrashNote(id)` clears the trashed flag and
returns the record, or signals not-found. -/
def Db.untrashNote (db : Db) (id : Nat) : Db × Option NoteDoc :=
  match lookupA db.notes id with
  | none => (db, none)
  | some old =>
    let note := { old with trashed := false }
    ({ db with notes := osetA db.notes id note }, some note)

/-- Modelled from the spec: `purgeNote(id)` irreversibly deletes the record;
deleting a missing record is a no-op not-found. -/
def Db.purgeNote (db : Db) (id : Nat) : Db :=
  { db with notes := odelA db.notes id }

/-- Modelled from the spec: `getTag(name)` is the createTag-equivalent — it
returns the tag record, creating it when missing.  Tag identity is the plain
name (the spec directs that the id-prefix convention be treated as an external
concern). -/
def Db.getTag (db : Db) (name : String) : Db × String :=
  if name ∈ db.tags then (db, name)
  else ({ db with tags := name :: db.tags }, name)

/-- Modelled from the spec: `removeTag(name)` removes the tag record. -/
def Db.removeTag (db : Db) (name : String) : Db :=
  { db with tags := db.tags.filter (fun t => decide (t ≠ name)) }

/-- Modelled from the spec: `findNotesByFolder(path)` lists the non-trashed
notes filed at exactly that pathname (the glossary defines note attribution to
a folder over non-trashed notes). -/
def Db.findNotesByFolder (db : Db) (p : String) : List NoteDoc :=
  (db.notes.filter (fun kv => decide (kv.2.folderPathname = p) && !kv.2.trashed)).map
    Prod.snd

/-- Modelled from the spec: `removeFolder(path)` deletes the folder record and
every descendant folder record and trashes every note filed under them. -/
def Db.removeFolder (db : Db) (p : String) : Db :=
  { db with
      folders := db.folders.filter
        (fun q => !(q = p || strStartsWith q (p ++ "/")))
      notes := db.notes.map (fun kv =>
        if kv.2.folderPathname = p ∨ strStartsWith kv.2.folderPathname (p ++ "/")
        then (kv.1, { kv.2 with trashed := true }) else kv) }

/-! ## The storage snapshot

`NoteStorage` is one storage's in-memory snapshot plus its document-store
handle.  `folderMap` values are `Option FolderDoc` because JavaScript lets an
object key be bound to `undefined` (which `trashNote` exploits, see below);
`== null` reads of `folderMap[p]` therefore go through `oget2`.  The
attachment map and the transient scheduler fields are disjoint from the index
maps and are modelled separately with the scheduler. -/

structure NoteStorage where
  id : String
  noteMap : List (Nat × NoteDoc)
  folderMap : List (String × Option FolderDoc)
  tagMap : List (String × TagDoc)
  db : Db
deriving DecidableEq

abbrev StorageMap := List (String × NoteStorage)

/-- Read of `storage.folderMap[p]` as tested by `== null`: the key may be
absent or bound to `undefined`. -/
def oget2 (m : List (String × Option FolderDoc)) (k : String) : Option FolderDoc :=
  (lookupA m k).bind id

/-! ## Registry operations

Each operation is the shallow embedding of the corresponding `useCallback` in
the store creator.  An early `return` with no value is the `.silent` outcome; a
thrown error is `.err`.  The document-store handle is a mutable object in the
source, so every return path writes the current store state back into the
storage entry.  `Promise.all` over the per-folder closures in `renameFolder` is
embedded as left-to-right sequential execution.  Navigation (`router.replace`)
and toast side effects carry no snapshot state and are omitted. -/

/-- The tag-refresh accumulation shared by `createNote`, `updateNote` and
`untrashNote`: fetch-or-reuse each tag entry (`getTag` creates a missing tag
record in the store) and add the note's id to its noteIdSet; the entry is
keyed by the tag document's name. -/
def refreshTagStep (tagMap : List (String × TagDoc)) (noteId : Nat)
    (acc : Db × List (String × TagDoc)) (tag : String) :
    Db × List (String × TagDoc) :=
  match lookupA tagMap tag with
  | none =>
    let got := acc.1.getTag tag
    (got.1, osetA acc.2 got.2 { name := got.2, noteIdSet := {noteId} })
  | some td =>
    (acc.1, osetA acc.2 td.name { td with noteIdSet := insert noteId td.noteIdSet })

/-- The tag-removal accumulation shared by `updateNote` (dropped tags) and
`purgeNote`: remove the note's id from each tag entry's noteIdSet
(`storage.tagMap[tag]!` dereferences undefined when the entry is missing). -/
def eraseTagStep (tagMap : List (String × TagDoc)) (noteId : Nat)
    (acc : List (String × TagDoc)) (tag : String) :
    Except RegError (List (String × TagDoc)) :=
  match lookupA tagMap tag with
  | none => Except.error RegError.typeError
  | some td =>
      Except.ok (osetA acc tag { td with noteIdSet := td.noteIdSet.erase noteId })

/-- `trashNote`'s tag accumulation: like `eraseTagStep` but a missing tag
entry is skipped (the reduce has an explicit null check). -/
def trashTagStep (tagMap : List (String × TagDoc)) (noteId : Nat)
    (acc : List (String × TagDoc)) (tag : String) : List (String × TagDoc) :=
  match lookupA tagMap tag with
  | none => acc
  | some td => osetA acc tag { td with noteIdSet := td.noteIdSet.erase noteId }

/-- Insert empty-noteIdSet entries for freshly materialized parent folders. -/
def refreshParentFolders (folderMap : List (String × Option FolderDoc))
    (ps : List String) : List (String × Option FolderDoc) :=
  ps.foldl (fun fm p => osetA fm p (some { pathname := p, noteIdSet := (∅ : Finset Nat) }))
    folderMap

/-- Write a list of populated folder docs into the folder map, keyed by
pathname. -/
def refreshFolders (folderMap : List (String × Option FolderDoc))
    (fs : List FolderDoc) : List (String × Option FolderDoc) :=
  fs.foldl (fun fm f => osetA fm f.pathname (some f)) folderMap

/-- Write a list of populated tag docs into the tag map, keyed by name. -/
def refreshTags (tagMap : List (String × TagDoc)) (ts : List TagDoc) :
    List (String × TagDoc) :=
  ts.foldl (fun tm td => osetA tm td.name td) tagMap

/-- Write a list of note docs into the note map, keyed by id. -/
def refreshNotes (noteMap : List (Nat × NoteDoc)) (ns : List NoteDoc) :
    List (Nat × NoteDoc) :=
  ns.foldl (fun m n => osetA m n._id n) noteMap

def createNote (sm : StorageMap) (storageId : String) (noteProps : NoteProps) :
    StorageMap × Outcome NoteDoc :=
  match lookupA sm storageId with
  | none => (sm, .silent)
  | some storage =>
    match storage.db.createNote noteProps with
    | .error _ => (sm, .err .dbError)
    | .ok (db1, noteDoc) =>
      let parentFolderPathnamesToCheck :=
        (getAllParentFolderPathnames noteDoc.folderPathname).filter
          (fun p => (oget2 storage.folderMap p).isNone)
      let parentFoldersToRefresh := db1.getFoldersByPathnames parentFolderPathnamesToCheck
      let folder : FolderDoc :=
        match oget2 storage.folderMap noteDoc.folderPathname with
        | none => { pathname := noteDoc.folderPathname, noteIdSet := {noteDoc._id} }
        | some f => { f with noteIdSet := insert noteDoc._id f.noteIdSet }
      let tagStep := noteDoc.tags.foldl
        (refreshTagStep storage.tagMap noteDoc._id) (db1, [])
      let modifiedTags := tagStep.2
      (osetA sm storageId
        { storage with
            noteMap := osetA storage.noteMap noteDoc._id noteDoc
            folderMap := osetA
              (refreshParentFolders storage.folderMap parentFoldersToRefresh)
              noteDoc.folderPathname (some folder)
            tagMap := omergeA storage.tagMap modifiedTags
            db := tagStep.1 },
       .ok noteDoc)

def updateNote (sm : StorageMap) (storageId : String) (noteId : Nat)
    (noteProps : NoteProps) : StorageMap × Outcome NoteDoc :=
  match lookupA sm storageId with
  | none => (sm, .silent)
  | some storage =>
    let previousNoteDoc0 := storage.db.getNote noteId
    match storage.db.updateNote noteId noteProps with
    | .error _ => (sm, .err .dbError)
    | .ok (db1, none) => (osetA sm storageId { storage with db := db1 }, .silent)
    | .ok (db1, some noteDoc) =>
      let previousNoteDoc := previousNoteDoc0.getD noteDoc
      let folderPathnameIsChanged := previousNoteDoc.folderPathname ≠ noteDoc.folderPathname
      let folderList1 : List FolderDoc :=
        if folderPathnameIsChanged then
          match oget2 storage.folderMap previousNoteDoc.folderPathname with
          | some previousFolder =>
              [{ previousFolder with noteIdSet := previousFolder.noteIdSet.erase noteId }]
          | none => []
        else []
      let parentFolderPathnamesToCheck :=
        (getAllParentFolderPathnames noteDoc.folderPathname).filter
          (fun p => (oget2 storage.folderMap p).isNone)
      let folderList2 : List FolderDoc :=
        (db1.getFoldersByPathnames parentFolderPathnamesToCheck).map
          (fun p => { pathname := p, noteIdSet := (∅ : Finset Nat) })
      let folder : FolderDoc :=
        match oget2 storage.folderMap noteDoc.folderPathname with
        | none => { pathname := noteDoc.folderPathname, noteIdSet := {noteDoc._id} }
        | some f => { f with noteIdSet := insert noteDoc._id f.noteIdSet }
      let folderListToRefresh := folderList1 ++ folderList2 ++ [folder]
      match lookupA storage.noteMap noteDoc._id with
      | none =>
          -- `storage.noteMap[noteDoc._id]!.tags` dereferences undefined
          (osetA sm storageId { storage with db := db1 }, .err .typeError)
      | some mapNote =>
        -- ramda difference: the tags of the indexed note absent from the new tags
        let droppedTags := (mapNote.tags.filter (fun t => decide (t ∉ noteDoc.tags))).dedup
        match droppedTags.foldlM (eraseTagStep storage.tagMap noteDoc._id)
            ([] : List (String × TagDoc)) with
        | .error e => (osetA sm storageId { storage with db := db1 }, .err e)
        | .ok removedTags =>
          let tagStep := noteDoc.tags.foldl
            (refreshTagStep storage.tagMap noteDoc._id) (db1, [])
          let modifiedTags := tagStep.2
          (osetA sm storageId
            { storage with
                noteMap := osetA storage.noteMap noteDoc._id noteDoc
                folderMap := refreshFolders storage.folderMap folderListToRefresh
                tagMap := omergeA (omergeA storage.tagMap removedTags) modifiedTags
                db := tagStep.1 },
           .ok noteDoc)

def trashNote (sm : StorageMap) (storageId : String) (noteId : Nat) :
    StorageMap × Outcome NoteDoc :=
  match lookupA sm storageId with
  | none => (sm, .silent)
  | some storage =>
    let trashStep := storage.db.trashNote noteId
    match trashStep.2 with
    | none => (osetA sm storageId { storage with db := trashStep.1 }, .silent)
    | some noteDoc =>
      let folder : Option FolderDoc :=
        match oget2 storage.folderMap noteDoc.folderPathname with
        | some f => some { f with noteIdSet := f.noteIdSet.erase noteDoc._id }
        | none => none
      let modifiedTags := noteDoc.tags.foldl
        (trashTagStep storage.tagMap noteDoc._id) []
      (osetA sm storageId
        { storage with
            noteMap := osetA storage.noteMap noteDoc._id noteDoc
            folderMap := osetA storage.folderMap noteDoc.folderPathname folder
            tagMap := omergeA storage.tagMap modifiedTags
            db := trashStep.1 },
       .ok noteDoc)

def untrashNote (sm : StorageMap) (storageId : String) (noteId : Nat) :
    StorageMap × Outcome NoteDoc :=
  match lookupA sm storageId with
  | none => (sm, .silent)
  | some storage =>
    let untrashStep := storage.db.untrashNote noteId
    match untrashStep.2 with
    | none =>
        -- the spread of undefined leaves `noteDoc.tags` undefined: TypeError
        (osetA sm storageId { storage with db := untrashStep.1 }, .err .typeError)
    | some noteDoc =>
      let folder : FolderDoc :=
        match oget2 storage.folderMap noteDoc.folderPathname with
        | none => { pathname := noteDoc.folderPathname, noteIdSet := {noteDoc._id} }
        | some f => { f with noteIdSet := insert noteDoc._id f.noteIdSet }
      let tagStep := noteDoc.tags.foldl
        (refreshTagStep storage.tagMap noteDoc._id) (untrashStep.1, [])
      let modifiedTags := tagStep.2
      (osetA sm storageId
        { storage with
            noteMap := osetA storage.noteMap noteDoc._id noteDoc
            folderMap := osetA storage.folderMap noteDoc.folderPathname (some folder)
            tagMap := omergeA storage.tagMap modifiedTags
            db := tagStep.1 },
       .ok noteDoc)

def purgeNote (sm : StorageMap) (storageId : String) (noteId : Nat) :
    StorageMap × Outcome Unit :=
  match lookupA sm storageId with
  | none => (sm, .silent)
  | some storage =>
    let db1 := storage.db.purgeNote noteId
    match lookupA storage.noteMap noteId with
    | none =>
        -- `storageMap[storageId]!.noteMap[noteId]!` dereferences undefined
        (osetA sm storageId { storage with db := db1 }, .err .typeError)
    | some noteDoc =>
      let noteMap' := odelA storage.noteMap noteId
      match oget2 storage.folderMap noteDoc.folderPathname with
      | none =>
          -- `storage.folderMap[noteDoc.folderPathname]!.noteIdSet` dereferences undefined
          (osetA sm storageId { storage with db := db1 }, .err .typeError)
      | some f =>
        let folder : FolderDoc := { f with noteIdSet := f.noteIdSet.erase noteDoc._id }
        match noteDoc.tags.foldlM (eraseTagStep storage.tagMap noteDoc._id)
            ([] : List (String × TagDoc)) with
        | .error e => (osetA sm storageId { storage with db := db1 }, .err e)
        | .ok modifiedTags =>
          (osetA sm storageId
            { storage with
                noteMap := noteMap'
                folderMap := osetA storage.folderMap noteDoc.folderPathname (some folder)
                tagMap := omergeA storage.tagMap modifiedTags
                db := db1 },
           .ok ())

/-- One insertion step of `createFolder`'s snapshot update: entries already
present in the pre-state folder map are not overwritten. -/
def createFolderInsertStep (preFolderMap : List (String × Option FolderDoc))
    (fm : List (String × Option FolderDoc)) (p : String) :
    List (String × Option FolderDoc) :=
  if (oget2 preFolderMap p).isNone
  then osetA fm p (some { pathname := p, noteIdSet := (∅ : Finset Nat) })
  else fm

def createFolder (sm : StorageMap) (storageId : String) (pathname : String) :
    StorageMap × Outcome Unit :=
  match lookupA sm storageId with
  | none => (sm, .silent)
  | some storage =>
    match storage.db.createFolder pathname with
    | .error _ => (sm, .silent)   -- caught: a toast is pushed and the callback returns
    | .ok (db1, folderPathname) =>
      let parentFolders := db1.getFoldersByPathnames (getAllParentFolderPathnames pathname)
      let createdFolders := (folderPathname :: parentFolders).reverse
      let folderMap' := createdFolders.foldl
        (createFolderInsertStep storage.folderMap) storage.folderMap
      (osetA sm storageId { storage with folderMap := folderMap', db := db1 }, .ok ())

structure RenameAcc where
  db : Db
  folderListToRefresh : List FolderDoc
  notesListToRefresh : List NoteDoc
deriving DecidableEq

/-- One `storage.db.updateNote` call of `renameFolder`'s note reassignment:
move a note to the rewritten pathname, collecting the updated record. -/
def rewriteNoteStep (newfolderPathname : String) (st : Db × List NoteDoc)
    (note : NoteDoc) : Except (Db × RegError) (Db × List NoteDoc) :=
  match st.1.updateNote note._id { folderPathname := some newfolderPathname } with
  | .error _ => Except.error (st.1, RegError.dbError)
  | .ok (db', none) => Except.error (db', RegError.typeError)
  | .ok (db', some n) => Except.ok (db', st.2 ++ [n])

/-- One iteration of the `allFoldersToRename.map` closure inside `renameFolder`:
validate this sub-path, then create the destination folder and reassign the
sub-path's notes. -/
def renameOneFolder (pathname newPathname : String) (acc : RenameAcc)
    (folderPathname : String) : Except (Db × RegError) RenameAcc :=
  let newfolderPathname := rewritePath pathname newPathname folderPathname
  match acc.db.getFolder folderPathname with
  | none => .error (acc.db, .unprocessable "this folder does not exist")
  | some _ =>
    if (acc.db.getFolder newfolderPathname).isSome then
      .error (acc.db, .unprocessable "this folder already exists")
    else if pathDepth folderPathname ≠ pathDepth newfolderPathname then
      .error (acc.db, .unprocessable "New name is invalid.")
    else
      let notes := acc.db.findNotesByFolder folderPathname
      match acc.db.createFolder newfolderPathname with
      | .error _ => .error (acc.db, .dbError)
      | .ok (db1, newFolder) =>
        match notes.foldlM (rewriteNoteStep newfolderPathname)
            (db1, ([] : List NoteDoc)) with
        | .error e => .error e
        | .ok (db2, rewrittenNotes) =>
          .ok { db := db2
                folderListToRefresh := acc.folderListToRefresh ++
                  [{ pathname := newFolder
                     noteIdSet := (rewrittenNotes.map (fun n => n._id)).toFinset }]
                notesListToRefresh := acc.notesListToRefresh ++ rewrittenNotes }

def renameFolder (sm : StorageMap) (storageId : String)
    (pathname newPathname : String) : StorageMap × Outcome Unit :=
  match lookupA sm storageId with
  | none => (sm, .silent)
  | some storage =>
    if ¬ isFolderPathnameValid pathname then
      (sm, .err (.unprocessable "pathname is invalid"))
    else if ¬ isFolderPathnameValid newPathname then
      (sm, .err (.unprocessable "pathname is invalid"))
    else
      let subFolders := (keysA storage.folderMap).filter
        (fun p => strStartsWith p (pathname ++ "/"))
      let allFoldersToRename := pathname :: subFolders
      match allFoldersToRename.foldlM (renameOneFolder pathname newPathname)
          { db := storage.db, folderListToRefresh := [], notesListToRefresh := [] } with
      | .error (dbE, e) => (osetA sm storageId { storage with db := dbE }, .err e)
      | .ok acc =>
        let db3 := acc.db.removeFolder pathname
        let noteMap' := refreshNotes storage.noteMap acc.notesListToRefresh
        let folderMap1 := refreshFolders storage.folderMap acc.folderListToRefresh
        let folderMap2 := allFoldersToRename.foldl odelA folderMap1
        (osetA sm storageId
          { storage with noteMap := noteMap', folderMap := folderMap2, db := db3 },
         .ok ())

/-- The `note.tags.forEach` accumulation inside `removeFolder`'s
`noteIds.reduce`: append this note's id to the affected list of each of its
tags. -/
def collectAffected (noteId : Nat) (m : List (String × List Nat))
    (tags : List String) : List (String × List Nat) :=
  tags.foldl (fun m tag =>
    match lookupA m tag with
    | some ids => osetA m tag (ids ++ [noteId])
    | none => osetA m tag [noteId]) m

/-- One step of `removeFolder`'s `noteIds.reduce`: a note filed under a
deleted pathname contributes its tags to the affected map and a trashed copy
of itself to the modified notes. -/
def removeFolderStep (deletedFolderPathnames : List String)
    (acc : List (String × List Nat) × List (Nat × NoteDoc)) (kv : Nat × NoteDoc) :
    List (String × List Nat) × List (Nat × NoteDoc) :=
  if kv.2.folderPathname ∈ deletedFolderPathnames then
    (collectAffected kv.1 acc.1 kv.2.tags,
     osetA acc.2 kv.1 { kv.2 with trashed := true })
  else acc

/-- One step of `removeFolder`'s affected-tag `reduce`: shrink the tag's
noteIdSet by the affected note ids (`storage.tagMap[tag]!` dereferences
undefined when the tag entry is missing). -/
def removeFolderTagStep (tagMap : List (String × TagDoc))
    (acc : List (String × TagDoc)) (kv : String × List Nat) :
    Except RegError (List (String × TagDoc)) :=
  match lookupA tagMap kv.1 with
  | none => Except.error RegError.typeError
  | some td => Except.ok (osetA acc kv.1
      { td with noteIdSet := kv.2.foldl (fun s i => s.erase i) td.noteIdSet })

def removeFolder (sm : StorageMap) (storageId : String) (pathname : String) :
    StorageMap × Outcome Unit :=
  match lookupA sm storageId with
  | none => (sm, .silent)
  | some storage =>
    let db1 := storage.db.removeFolder pathname
    let deletedFolderPathnames :=
      pathname :: (keysA storage.folderMap).filter
        (fun p => strStartsWith p (pathname ++ "/"))
    let step := storage.noteMap.foldl (removeFolderStep deletedFolderPathnames) ([], [])
    let affectedTagIdAndNotesIdMap := step.1
    let modifiedNotes := step.2
    match affectedTagIdAndNotesIdMap.foldlM (removeFolderTagStep storage.tagMap)
        ([] : List (String × TagDoc)) with
    | .error e => (osetA sm storageId { storage with db := db1 }, .err e)
    | .ok modifiedTags =>
      (osetA sm storageId
        { storage with
            folderMap := deletedFolderPathnames.foldl odelA storage.folderMap
            noteMap := omergeA storage.noteMap modifiedNotes
            tagMap := omergeA storage.tagMap modifiedTags
            db := db1 },
       .ok ())

/-- One step of `removeTag`'s note rewrite: strip the tag name from a note
that carries it. -/
def stripTagStep (tag : String) (acc : List (Nat × NoteDoc)) (kv : Nat × NoteDoc) :
    List (Nat × NoteDoc) :=
  if tag ∈ kv.2.tags then
    osetA acc kv.1
      { kv.2 with tags := kv.2.tags.filter (fun t => decide (t ≠ tag)) }
  else acc

def removeTag (sm : StorageMap) (storageId : String) (tag : String) :
    StorageMap × Outcome Unit :=
  match lookupA sm storageId with
  | none => (sm, .silent)
  | some storage =>
    let db1 := storage.db.removeTag tag
    let modifiedNotes := storage.noteMap.foldl (stripTagStep tag) []
    let newTagMap := odelA storage.tagMap tag
    (osetA sm storageId
      { storage with
          noteMap := omergeA storage.noteMap modifiedNotes
          tagMap := newTagMap
          db := db1 },
     .ok ())

/-- `moveNoteToOtherStorage`'s target-tag accumulation: fetch-or-reuse each
tag doc of the new note and add the new id. -/
def collectTargetTagStep (tagMap : List (String × TagDoc)) (noteId : Nat)
    (acc : Db × List TagDoc) (tagName : String) : Db × List TagDoc :=
  match lookupA tagMap tagName with
  | none =>
    let got := acc.1.getTag tagName
    (got.1, acc.2 ++ [{ name := got.2, noteIdSet := ({noteId} : Finset Nat) }])
  | some tagDoc =>
    (acc.1, acc.2 ++ [{ tagDoc with noteIdSet := insert noteId tagDoc.noteIdSet }])

def moveNoteToOtherStorage (sm : StorageMap) (originalStorageId : String)
    (noteId : Nat) (targetStorageId : String) (targetFolderPathname : String) :
    StorageMap × Outcome Unit :=
  match lookupA sm originalStorageId with
  | none => (sm, .err (.jsError "Original storage does not exist. Please refresh the app and try again."))
  | some originalStorage =>
    match lookupA sm targetStorageId with
    | none => (sm, .err (.jsError "Target storage does not exist. Please refresh the app and try again."))
    | some targetStorage =>
      match originalStorage.db.getNote noteId with
      | none => (sm, .err (.jsError "Target note does not exist. Please refresh the app and try again."))
      | some originalNote =>
        match targetStorage.db.createNote
            { title := some originalNote.title
              content := some originalNote.content
              tags := some originalNote.tags
              data := some originalNote.data
              folderPathname := some targetFolderPathname } with
        | .error _ => (sm, .err .dbError)
        | .ok (tdb1, newNote) =>
          -- when the two storage ids coincide, the two `.db` handles are the
          -- same mutable object: the store mutations compose in program order
          let odb1 := (if originalStorageId = targetStorageId then tdb1
                       else originalStorage.db).purgeNote originalNote._id
          let tdb2 := if originalStorageId = targetStorageId then odb1 else tdb1
          let modifiedTagsInOriginalStorage :=
            ((originalNote.tags.map
                (fun tagName => lookupA originalStorage.tagMap tagName)).filterMap id).map
              (fun tagDoc =>
                { tagDoc with noteIdSet := tagDoc.noteIdSet.erase originalNote._id })
          let modifiedFolderInOriginalStorage : Option FolderDoc :=
            (oget2 originalStorage.folderMap originalNote.folderPathname).map
              (fun f => { f with noteIdSet := f.noteIdSet.erase originalNote._id })
          let targetFolder : FolderDoc :=
            match oget2 targetStorage.folderMap targetFolderPathname with
            | none => { pathname := targetFolderPathname, noteIdSet := (∅ : Finset Nat) }
            | some f => f
          let modifiedFoldersInTargetStorage : List FolderDoc :=
            { targetFolder with noteIdSet := insert newNote._id targetFolder.noteIdSet } ::
              (tdb2.getFoldersByPathnames
                ((getAllParentFolderPathnames targetFolderPathname).filter
                  (fun p => (oget2 targetStorage.folderMap p).isNone))).map
                (fun p => { pathname := p, noteIdSet := (∅ : Finset Nat) })
          let tagStep := newNote.tags.foldl
            (collectTargetTagStep targetStorage.tagMap newNote._id) (tdb2, [])
          let modifiedTagsInTargetStorage := tagStep.2
          let tdb3 := tagStep.1
          let odbF := if originalStorageId = targetStorageId then tdb3 else odb1
          let sm1 := osetA sm originalStorageId
            { originalStorage with
                noteMap := odelA originalStorage.noteMap originalNote._id
                folderMap := (match modifiedFolderInOriginalStorage with
                  | some f => osetA originalStorage.folderMap f.pathname (some f)
                  | none => originalStorage.folderMap)
                tagMap := refreshTags originalStorage.tagMap modifiedTagsInOriginalStorage
                db := odbF }
          match lookupA sm1 targetStorageId with
          | none => (sm1, .err .typeError)   -- unreachable: the key was just written
          | some tcur =>
            (osetA sm1 targetStorageId
              { tcur with
                  noteMap := osetA tcur.noteMap newNote._id newNote
                  folderMap := refreshFolders tcur.folderMap modifiedFoldersInTargetStorage
                  tagMap := refreshTags tcur.tagMap modifiedTagsInTargetStorage
                  db := tdb3 },
             .ok ())

/-! ## The sync scheduler

The scheduler fields (`cloudStorage`, `syncTimer`, `sync`) are disjoint from
the index maps and touched by a disjoint set of callbacks, so they are
embedded on their own state.  Browser timers are modelled operationally: a
global pool of live timer handles, `clearTimeout` removes a handle, a handle
fires only while it is still in the pool.  A replication session is the
`storage.sync` handle; the model counts the sessions ever started so that "no
replication call" is observable.  `pushMessage` toasts accumulate in a list. -/

structure SyncStorage where
  cloudLinked : Bool
  syncTimer : Option Nat
  syncRunning : Bool
deriving DecidableEq

structure SyncState where
  storages : List (String × SyncStorage)
  activeTimers : List (Nat × String)
  nextTimer : Nat
  enableAutoSync : Bool
  userPresent : Bool
  messages : List String
  sessionsStarted : Nat
deriving DecidableEq

/-- Embeds `syncStorage` up to the point the duplex session is created: refuse
when there is no user, the storage is unknown, it has no cloud link, or a
session is already in flight; otherwise mark the session in flight. -/
def syncStorage (st : SyncState) (storageId : String) : SyncState :=
  if ¬ st.userPresent then st
  else
    match lookupA st.storages storageId with
    | none => st
    | some storage =>
      if ¬ storage.cloudLinked then st
      else if storage.syncRunning then st
      else
        { st with
            storages := osetA st.storages storageId { storage with syncRunning := true }
            sessionsStarted := st.sessionsStarted + 1 }

/-- Embeds `queueSyncingStorage`: no-op when auto-sync is disabled or the
storage is unknown; otherwise clear any armed timer and arm a fresh one. -/
def queueSyncingStorage (st : SyncState) (storageId : String) : SyncState :=
  if ¬ st.enableAutoSync then st
  else
    match lookupA st.storages storageId with
    | none => st
    | some storage =>
      let timers1 := match storage.syncTimer with
        | some t => st.activeTimers.filter (fun tv => decide (tv.1 ≠ t))
        | none => st.activeTimers
      { st with
          storages := osetA st.storages storageId
            { storage with syncTimer := some st.nextTimer }
          activeTimers := (st.nextTimer, storageId) :: timers1
          nextTimer := st.nextTimer + 1 }

/-- Embeds `cancelSyncingStorageQueue`: no-op when the storage is unknown or
has no armed timer; otherwise clear the timer and drop the field. -/
def cancelSyncingStorageQueue (st : SyncState) (storageId : String) : SyncState :=
  match lookupA st.storages storageId with
  | none => st
  | some storage =>
    match storage.syncTimer with
    | none => st
    | some t =>
      { st with
          storages := osetA st.storages storageId { storage with syncTimer := none }
          activeTimers := st.activeTimers.filter (fun tv => decide (tv.1 ≠ t)) }

/-- A timer handle fires: only a handle still in the live pool runs its
callback, which is `syncStorage(storageId, true)` followed by
`queueSyncingStorage(storageId)`. -/
def fireTimer (st : SyncState) (t : Nat) : SyncState :=
  match lookupA st.activeTimers t with
  | none => st
  | some storageId =>
    let st1 := { st with
      activeTimers := st.activeTimers.filter (fun tv => decide (tv.1 ≠ t)) }
    queueSyncingStorage (syncStorage st1 storageId) storageId

/-- Embeds `unlinkStorage`: delete the storage's cloud descriptor. -/
def unlinkStorage (st : SyncState) (storageId : String) : SyncState :=
  match lookupA st.storages storageId with
  | none => st
  | some storage =>
    { st with storages := osetA st.storages storageId { storage with cloudLinked := false } }

def pushMessageIf (st : SyncState) (cond : Bool) (title : String) : SyncState :=
  if cond then { st with messages := st.messages ++ [title] } else st

/-- Embeds the `.on('error', ...)` handler of `syncStorage`, including the
fall-through of `case 409` into `case 404` (there is no `break` between them);
afterwards the in-flight session handle is cleared. -/
def syncOnError (st : SyncState) (storageId : String) (status : Nat)
    (silent : Bool) : SyncState :=
  let st1 :=
    if status = 409 then
      -- case 409 body, then fall through into the case 404 body
      let stA := unlinkStorage (pushMessageIf st (!silent) "Size Limit") storageId
      unlinkStorage (pushMessageIf stA (!silent) "Not Found") storageId
    else if status = 404 then
      unlinkStorage (pushMessageIf st (!silent) "Not Found") storageId
    else
      pushMessageIf st (!silent) "Sync Error"
  match lookupA st1.storages storageId with
  | none => st1
  | some storage =>
    { st1 with storages := osetA st1.storages storageId { storage with syncRunning := false } }

/-! ## The operation surface as one type -/

inductive RegOp : Type
  | createNoteOp (storageId : String) (props : NoteProps)
  | updateNoteOp (storageId : String) (noteId : Nat) (props : NoteProps)
  | trashNoteOp (storageId : String) (noteId : Nat)
  | untrashNoteOp (storageId : String) (noteId : Nat)
  | purgeNoteOp (storageId : String) (noteId : Nat)
  | createFolderOp (storageId : String) (pathname : String)
  | renameFolderOp (storageId : String) (pathname newPathname : String)
  | removeFolderOp (storageId : String) (pathname : String)
  | removeTagOp (storageId : String) (tag : String)
  | moveNoteOp (originalStorageId : String) (noteId : Nat)
      (targetStorageId : String) (targetFolderPathname : String)
deriving DecidableEq

/-- The snapshot reached by running one registry operation (the outcome value
is projected away). -/
def applyOp (sm : StorageMap) : RegOp → StorageMap
  | .createNoteOp sid props => (createNote sm sid props).1
  | .updateNoteOp sid nid props => (updateNote sm sid nid props).1
  | .trashNoteOp sid nid => (trashNote sm sid nid).1
  | .untrashNoteOp sid nid => (untrashNote sm sid nid).1
  | .purgeNoteOp sid nid => (purgeNote sm sid nid).1
  | .createFolderOp sid p => (createFolder sm sid p).1
  | .renameFolderOp sid p q => (renameFolder sm sid p q).1
  | .removeFolderOp sid p => (removeFolder sm sid p).1
  | .removeTagOp sid t => (removeTag sm sid t).1
  | .moveNoteOp o nid t p => (moveNoteToOtherStorage sm o nid t p).1

/-! ## Option quantifiers (decidable helpers for stating the invariants) -/

def OptHolds {α : Type} (o : Option α) (P : α → Prop) : Prop :=
  match o with
  | none => False
  | some a => P a

instance {α : Type} (P : α → Prop) [inst : ∀ a, Decidable (P a)] :
    (o : Option α) → Decidable (OptHolds o P)
  | none => isFalse (fun h => h)
  | some a => inst a

def OptAll {α : Type} (o : Option α) (P : α → Prop) : Prop :=
  ∀ a, o = some a → P a

theorem optAll_some {α : Type} {P : α → Prop} (a : α) : OptAll (some a) P ↔ P a :=
  ⟨fun h => h a rfl, fun h b hb => by cases hb; exact h⟩

instance {α : Type} (P : α → Prop) [inst : ∀ a, Decidable (P a)] :
    (o : Option α) → Decidable (OptAll o P)
  | none => isTrue (fun a h => by cases h)
  | some a => decidable_of_iff (P a) (optAll_some a).symm

/-! ## The cross-index consistency invariant and storage well-formedness -/

/-- The invariant exactly as the specification states it, for one storage
snapshot: every non-trashed indexed note's id is in its folder entry's
`noteIdSet` and in each of its tags' `noteIdSet`s; trashed notes' ids are in
no set; and no set holds an id beyond those implied by the notes' current
fields. -/
def ConsistentStorage (s : NoteStorage) : Prop :=
  (∀ kv ∈ s.noteMap, kv.2.trashed = false →
    OptHolds (oget2 s.folderMap kv.2.folderPathname) (fun f => kv.1 ∈ f.noteIdSet) ∧
    ∀ t ∈ kv.2.tags, OptHolds (lookupA s.tagMap t) (fun td => kv.1 ∈ td.noteIdSet)) ∧
  (∀ kv ∈ s.noteMap, kv.2.trashed = true →
    (∀ pf ∈ s.folderMap, OptAll pf.2 (fun f => kv.1 ∉ f.noteIdSet)) ∧
    (∀ pt ∈ s.tagMap, kv.1 ∉ pt.2.noteIdSet)) ∧
  (∀ pf ∈ s.folderMap, OptAll pf.2 (fun f => ∀ i ∈ f.noteIdSet,
    OptHolds (lookupA s.noteMap i)
      (fun n => n.trashed = false ∧ n.folderPathname = pf.1))) ∧
  (∀ pt ∈ s.tagMap, ∀ i ∈ pt.2.noteIdSet,
    OptHolds (lookupA s.noteMap i) (fun n => n.trashed = false ∧ pt.1 ∈ n.tags))

instance (s : NoteStorage) : Decidable (ConsistentStorage s) := by
  unfold ConsistentStorage; infer_instance

/-- Well-formedness of one storage: duplicate-free maps, the consistency
invariant, tag closure (every indexed note's tags, trashed notes included,
have tag entries), key/field coherence, agreement between the snapshot and its
document store, and freshness of the store's id counter. -/
def WfStorage (s : NoteStorage) : Prop :=
  NoDupKeys s.noteMap ∧ NoDupKeys s.folderMap ∧ NoDupKeys s.tagMap ∧
  NoDupKeys s.db.notes ∧
  ConsistentStorage s ∧
  (∀ kv ∈ s.noteMap, ∀ t ∈ kv.2.tags, (lookupA s.tagMap t).isSome = true) ∧
  (∀ pt ∈ s.tagMap, pt.2.name = pt.1) ∧
  (∀ pf ∈ s.folderMap, OptAll pf.2 (fun f => f.pathname = pf.1)) ∧
  (∀ kv ∈ s.noteMap, lookupA s.db.notes kv.1 = some kv.2) ∧
  (∀ kv ∈ s.db.notes, lookupA s.noteMap kv.1 = some kv.2) ∧
  (∀ pf ∈ s.folderMap, s.db.hasFolder pf.1 = true) ∧
  (∀ kv ∈ s.noteMap, kv.1 < s.db.nextId) ∧
  (∀ kv ∈ s.noteMap, kv.2._id = kv.1)

instance (s : NoteStorage) : Decidable (WfStorage s) := by
  unfold WfStorage; infer_instance

def WfStorageMap (sm : StorageMap) : Prop :=
  NoDupKeys sm ∧ ∀ kv ∈ sm, kv.2.id = kv.1 ∧ WfStorage kv.2

instance (sm : StorageMap) : Decidable (WfStorageMap sm) := by
  unfold WfStorageMap; infer_instance

/-- The two operation uses on which the consistency invariant genuinely breaks
are excluded: `updateNote` must not be applied to a note that is trashed in
the index, and `moveNoteToOtherStorage` must be given two distinct storages. -/
def OpOk (sm : StorageMap) : RegOp → Prop
  | .updateNoteOp sid nid _ =>
      OptAll (lookupA sm sid) (fun s =>
        OptAll (lookupA s.noteMap nid) (fun n => n.trashed = false))
  | .moveNoteOp o _ t _ => o ≠ t
  | _ => True

instance (sm : StorageMap) (op : RegOp) : Decidable (OpOk sm op) := by
  cases op <;> (unfold OpOk; infer_instance)


/-! ## Lemmas about the association-map operations -/

section MapLemmas

variable {κ α : Type} [DecidableEq κ]

theorem lookupA_osetA (m : List (κ × α)) (k q : κ) (v : α) :
    lookupA (osetA m k v) q = if k = q then some v else lookupA m q := by
  induction m with
  | nil => simp only [osetA, lookupA]
  | cons kv rest ih =>
    obtain ⟨k₁, v₁⟩ := kv
    by_cases h₁ : k₁ = k
    · subst h₁
      simp only [osetA, if_pos rfl, lookupA]
      by_cases h₂ : k₁ = q <;> simp [h₂]
    · simp only [osetA, if_neg h₁, lookupA]
      by_cases h₂ : k₁ = q
      · subst h₂
        have hkq : ¬ k = k₁ := fun h => h₁ h.symm
        simp [if_neg hkq]
      · simp [h₂, ih]

theorem lookupA_odelA (m : List (κ × α)) (k q : κ) :
    lookupA (odelA m k) q = if k = q then none else lookupA m q := by
  induction m with
  | nil => simp [odelA, lookupA]
  | cons kv rest ih =>
    obtain ⟨k₁, v₁⟩ := kv
    by_cases h₁ : k₁ = k
    · subst h₁
      have hstep : odelA ((k₁, v₁) :: rest) k₁ = odelA rest k₁ := by simp [odelA]
      rw [hstep, ih]
      by_cases h₂ : k₁ = q
      · subst h₂; simp [lookupA]
      · simp [lookupA, h₂]
    · simp only [odelA, if_neg h₁, lookupA]
      by_cases h₂ : k₁ = q
      · subst h₂
        have hkq : ¬ k = k₁ := fun h => h₁ h.symm
        simp [if_neg hkq]
      · simp [h₂, ih]

theorem mem_keysA_of_lookupA {m : List (κ × α)} {k : κ} {v : α}
    (h : lookupA m k = some v) : k ∈ keysA m := by
  induction m with
  | nil => simp [lookupA] at h
  | cons kv rest ih =>
    obtain ⟨k₁, v₁⟩ := kv
    simp only [lookupA] at h
    by_cases h₁ : k₁ = k
    · subst h₁; simp [keysA]
    · simp only [if_neg h₁] at h
      simp only [keysA, List.map_cons, List.mem_cons]
      exact Or.inr (by simpa [keysA] using ih h)

theorem lookupA_isSome_of_mem_keys {m : List (κ × α)} {k : κ}
    (h : k ∈ keysA m) : (lookupA m k).isSome = true := by
  induction m with
  | nil => simp [keysA] at h
  | cons kv rest ih =>
    obtain ⟨k₁, v₁⟩ := kv
    simp only [keysA, List.map_cons, List.mem_cons] at h
    by_cases h₁ : k₁ = k
    · simp [lookupA, h₁]
    · rcases h with h | h
      · exact absurd h.symm h₁
      · simp only [lookupA, if_neg h₁]
        exact ih (by simpa [keysA] using h)

theorem lookupA_eq_none_of_not_mem {m : List (κ × α)} {k : κ}
    (h : k ∉ keysA m) : lookupA m k = none := by
  cases hl : lookupA m k with
  | none => rfl
  | some v => exact absurd (mem_keysA_of_lookupA hl) h

theorem not_mem_keys_of_lookupA_none {m : List (κ × α)} {k : κ}
    (h : lookupA m k = none) : k ∉ keysA m := by
  intro hmem
  have := lookupA_isSome_of_mem_keys hmem
  rw [h] at this
  simp at this

theorem mem_of_lookupA {m : List (κ × α)} {k : κ} {v : α}
    (h : lookupA m k = some v) : (k, v) ∈ m := by
  induction m with
  | nil => simp [lookupA] at h
  | cons kv rest ih =>
    obtain ⟨k₁, v₁⟩ := kv
    simp only [lookupA] at h
    by_cases h₁ : k₁ = k
    · subst h₁
      simp at h
      cases h
      exact List.mem_cons_self _ _
    · simp only [if_neg h₁] at h
      exact List.mem_cons_of_mem _ (ih h)

theorem lookupA_eq_of_mem {m : List (κ × α)} {k : κ} {v : α}
    (hnd : NoDupKeys m) (h : (k, v) ∈ m) : lookupA m k = some v := by
  induction m with
  | nil => simp at h
  | cons kv rest ih =>
    obtain ⟨k₁, v₁⟩ := kv
    simp only [NoDupKeys, List.map_cons, List.nodup_cons] at hnd
    rcases List.mem_cons.mp h with h | h
    · cases h
      simp [lookupA]
    · have hk : k₁ ≠ k := by
        intro he
        exact hnd.1 (he ▸ (List.mem_map.mpr ⟨(k, v), h, rfl⟩))
      simp only [lookupA, if_neg hk]
      exact ih hnd.2 h

theorem keysA_osetA (m : List (κ × α)) (k : κ) (v : α) :
    keysA (osetA m k v) = if k ∈ keysA m then keysA m else keysA m ++ [k] := by
  induction m with
  | nil => simp [osetA, keysA]
  | cons kv rest ih =>
    obtain ⟨k₁, v₁⟩ := kv
    by_cases h₁ : k₁ = k
    · subst h₁; simp [osetA, keysA]
    · have hk : ¬ k = k₁ := fun h => h₁ h.symm
      simp only [osetA, if_neg h₁, keysA, List.map_cons, List.mem_cons]
      simp only [keysA] at ih
      rw [ih]
      by_cases h₂ : k ∈ List.map Prod.fst rest <;> simp [h₂, hk]

theorem nodupKeys_osetA {m : List (κ × α)} (hnd : NoDupKeys m) (k : κ) (v : α) :
    NoDupKeys (osetA m k v) := by
  unfold NoDupKeys at hnd ⊢
  have heq : (osetA m k v).map Prod.fst = keysA (osetA m k v) := rfl
  rw [heq, keysA_osetA]
  by_cases h : k ∈ keysA m
  · rw [if_pos h]; exact hnd
  · rw [if_neg h, List.nodup_append]
    refine ⟨hnd, List.nodup_singleton k, ?_⟩
    intro a ha hb
    simp only [List.mem_singleton] at hb
    subst hb
    exact h ha

theorem keysA_odelA_sublist (m : List (κ × α)) (k : κ) :
    (keysA (odelA m k)).Sublist (keysA m) := by
  induction m with
  | nil => simp [odelA, keysA]
  | cons kv rest ih =>
    obtain ⟨k₁, v₁⟩ := kv
    by_cases h₁ : k₁ = k
    · subst h₁
      have hstep : odelA ((k₁, v₁) :: rest) k₁ = odelA rest k₁ := by simp [odelA]
      rw [hstep]
      exact List.Sublist.cons _ ih
    · have hstep : odelA ((k₁, v₁) :: rest) k = (k₁, v₁) :: odelA rest k := by
        simp [odelA, h₁]
      rw [hstep]
      exact List.Sublist.cons₂ _ ih

theorem nodupKeys_odelA {m : List (κ × α)} (hnd : NoDupKeys m) (k : κ) :
    NoDupKeys (odelA m k) := by
  unfold NoDupKeys at hnd ⊢
  exact List.Nodup.sublist (keysA_odelA_sublist m k) hnd

theorem lookupA_append (a b : List (κ × α)) (q : κ) :
    lookupA (a ++ b) q =
      match lookupA a q with
      | some v => some v
      | none => lookupA b q := by
  induction a with
  | nil => simp [lookupA]
  | cons kv rest ih =>
    obtain ⟨k₁, v₁⟩ := kv
    by_cases h₁ : k₁ = q <;> simp [lookupA, h₁, ih]

theorem lookupA_foldl_osetA (l : List (κ × α)) (m : List (κ × α)) (q : κ) :
    lookupA (l.foldl (fun mm kv => osetA mm kv.1 kv.2) m) q =
      match lookupA l.reverse q with
      | some v => some v
      | none => lookupA m q := by
  induction l generalizing m with
  | nil => simp [lookupA]
  | cons kv rest ih =>
    obtain ⟨k₁, v₁⟩ := kv
    simp only [List.foldl_cons, List.reverse_cons]
    rw [ih, lookupA_append]
    cases hl : lookupA rest.reverse q with
    | some v => simp
    | none =>
      simp only [lookupA, lookupA_osetA]
      by_cases h₁ : k₁ = q <;> simp [h₁]

theorem lookupA_reverse_of_nodup {m : List (κ × α)} (hnd : NoDupKeys m) (q : κ) :
    lookupA m.reverse q = lookupA m q := by
  have hnd' : NoDupKeys m.reverse := by
    unfold NoDupKeys
    rw [List.map_reverse]
    exact List.nodup_reverse.mpr hnd
  cases hl : lookupA m q with
  | some v =>
    exact lookupA_eq_of_mem hnd' (List.mem_reverse.mpr (mem_of_lookupA hl))
  | none =>
    refine lookupA_eq_none_of_not_mem (fun hmem => ?_)
    have hm : q ∈ keysA m := by
      have : q ∈ (m.reverse).map Prod.fst := hmem
      simp only [List.map_reverse, List.mem_reverse] at this
      exact this
    have := lookupA_isSome_of_mem_keys hm
    rw [hl] at this
    simp at this

theorem lookupA_omergeA (a b : List (κ × α)) (hb : NoDupKeys b) (q : κ) :
    lookupA (omergeA a b) q =
      match lookupA b q with
      | some v => some v
      | none => lookupA a q := by
  unfold omergeA
  rw [lookupA_foldl_osetA, lookupA_reverse_of_nodup hb]

theorem lookupA_foldl_odelA (ds : List κ) (m : List (κ × α)) (q : κ) :
    lookupA (ds.foldl odelA m) q = if q ∈ ds then none else lookupA m q := by
  induction ds generalizing m with
  | nil => simp
  | cons d rest ih =>
    simp only [List.foldl_cons, ih, lookupA_odelA, List.mem_cons]
    by_cases h₁ : q ∈ rest
    · simp [h₁]
    · by_cases h₂ : q = d
      · subst h₂; simp [h₁]
      · have : ¬ d = q := fun h => h₂ h.symm
        simp [h₁, h₂, this]

theorem osetA_self_of_lookup {m : List (κ × α)} {k : κ} {v : α}
    (h : lookupA m k = some v) : osetA m k v = m := by
  induction m with
  | nil => simp [lookupA] at h
  | cons kv rest ih =>
    obtain ⟨k₁, v₁⟩ := kv
    simp only [lookupA] at h
    by_cases h₁ : k₁ = k
    · subst h₁
      have h' : v₁ = v := by simpa using h
      subst h'
      simp [osetA]
    · simp only [if_neg h₁] at h
      simp [osetA, h₁, ih h]

theorem nodupKeys_foldl_osetA {β : Type} (l : List β) (key : β → κ) (val : β → α)
    (m : List (κ × α)) (hnd : NoDupKeys m) :
    NoDupKeys (l.foldl (fun mm b => osetA mm (key b) (val b)) m) := by
  induction l generalizing m with
  | nil => exact hnd
  | cons b rest ih => exact ih _ (nodupKeys_osetA hnd _ _)

theorem nodupKeys_foldl_odelA (ds : List κ) (m : List (κ × α)) (hnd : NoDupKeys m) :
    NoDupKeys (ds.foldl odelA m) := by
  induction ds generalizing m with
  | nil => exact hnd
  | cons d rest ih => exact ih _ (nodupKeys_odelA hnd d)

end MapLemmas

/-! ## Concrete states used by the scenario theorem, the counterexamples and
the witnesses -/

/-- Folder-map definedness: no folder-map key is bound to `undefined`. -/
def FolderMapDefined (sm : StorageMap) : Prop :=
  ∀ kv ∈ sm, ∀ pf ∈ kv.2.folderMap, pf.2.isSome = true

instance (sm : StorageMap) : Decidable (FolderMapDefined sm) := by
  unfold FolderMapDefined; infer_instance

def exNote1 : NoteDoc :=
  { _id := 0, title := "T", content := "C", data := "D", tags := ["urgent"],
    folderPathname := "/work", trashed := false }

def exStorageS : NoteStorage :=
  { id := "S"
    noteMap := [(0, exNote1)]
    folderMap := [("/", some ⟨"/", ∅⟩), ("/work", some ⟨"/work", {0}⟩)]
    tagMap := [("urgent", ⟨"urgent", {0}⟩)]
    db := { notes := [(0, exNote1)], folders := ["/", "/work"],
            tags := ["urgent"], nextId := 1 } }

def exStorageT : NoteStorage :=
  { id := "T"
    noteMap := []
    folderMap := [("/", some ⟨"/", ∅⟩)]
    tagMap := []
    db := { notes := [], folders := ["/"], tags := [], nextId := 5 } }

def exMoveMap : StorageMap := [("S", exStorageS), ("T", exStorageT)]

def exTrashedNote : NoteDoc :=
  { _id := 0, title := "T", content := "C", data := "D", tags := ["t"],
    folderPathname := "/f", trashed := true }

def exTrashedMap : StorageMap :=
  [("S",
    { id := "S"
      noteMap := [(0, exTrashedNote)]
      folderMap := [("/", some ⟨"/", ∅⟩), ("/f", some ⟨"/f", ∅⟩)]
      tagMap := [("t", ⟨"t", ∅⟩)]
      db := { notes := [(0, exTrashedNote)], folders := ["/", "/f"],
              tags := ["t"], nextId := 1 } })]

def exGhostNote : NoteDoc :=
  { _id := 0, title := "", content := "", data := "", tags := [],
    folderPathname := "/gone", trashed := true }

def exGhostMap : StorageMap :=
  [("S",
    { id := "S"
      noteMap := [(0, exGhostNote)]
      folderMap := [("/", some ⟨"/", ∅⟩)]
      tagMap := []
      db := { notes := [(0, exGhostNote)], folders := ["/"], tags := [],
              nextId := 1 } })]

def exStaleNote : NoteDoc :=
  { _id := 0, title := "a", content := "", data := "", tags := [],
    folderPathname := "/", trashed := false }

/-- A storage whose document store holds a note that the in-memory note index
does not (the situation claim C7 is about). -/
def exStaleMap : StorageMap :=
  [("S",
    { id := "S"
      noteMap := []
      folderMap := [("/", some ⟨"/", ∅⟩)]
      tagMap := []
      db := { notes := [(0, exStaleNote)], folders := ["/"], tags := [],
              nextId := 1 } })]

def exRenameNote : NoteDoc :=
  { _id := 0, title := "", content := "", data := "", tags := [],
    folderPathname := "/a", trashed := false }

/-- A storage with folders `/a`, `/a/x`, `/a/x/y` and a note in `/a`; the
folder-map insertion order lists `/a/x/y` before `/a/x`. -/
def exRenameMap : StorageMap :=
  [("S",
    { id := "S"
      noteMap := [(0, exRenameNote)]
      folderMap := [("/", some ⟨"/", ∅⟩), ("/a", some ⟨"/a", {0}⟩),
                    ("/a/x/y", some ⟨"/a/x/y", ∅⟩), ("/a/x", some ⟨"/a/x", ∅⟩)]
      tagMap := []
      db := { notes := [(0, exRenameNote)], folders := ["/", "/a", "/a/x", "/a/x/y"],
              tags := [], nextId := 1 } })]

def exRoundtripMap : StorageMap :=
  [("S",
    { id := "S"
      noteMap := []
      folderMap := [("/", some ⟨"/", ∅⟩)]
      tagMap := []
      db := { notes := [], folders := ["/"], tags := [], nextId := 0 } })]

def exSyncState : SyncState :=
  { storages := [("S", { cloudLinked := true, syncTimer := none, syncRunning := true })]
    activeTimers := [], nextTimer := 0, enableAutoSync := true, userPresent := true
    messages := [], sessionsStarted := 1 }

/-! ## Closed claim theorems -/

/-- C5: on storage S (folders `/`, `/work`, note N1 in `/work` tagged
`urgent`) and empty storage T, `moveNoteToOtherStorage(S, N1, T, "/inbox")`
creates in T a note with a new id and the same title, content, tags and data,
purges N1 from S, and leaves S's `/work` folder and `urgent` tag noteIdSets
empty and T's `/inbox` folder and `urgent` tag noteIdSets equal to the new
singleton. -/
theorem claim_C5_move_note_scenario :
    WfStorageMap exMoveMap ∧
    (moveNoteToOtherStorage exMoveMap "S" 0 "T" "/inbox").2 = .ok () ∧
    (lookupA (moveNoteToOtherStorage exMoveMap "S" 0 "T" "/inbox").1 "S").map
      (fun s => (oget2 s.folderMap "/work", lookupA s.tagMap "urgent", lookupA s.noteMap 0)) =
      some (some ⟨"/work", ∅⟩, some ⟨"urgent", ∅⟩, none) ∧
    (lookupA (moveNoteToOtherStorage exMoveMap "S" 0 "T" "/inbox").1 "T").map
      (fun s => (oget2 s.folderMap "/inbox", lookupA s.tagMap "urgent")) =
      some (some ⟨"/inbox", {5}⟩, some ⟨"urgent", {5}⟩) ∧
    (lookupA (moveNoteToOtherStorage exMoveMap "S" 0 "T" "/inbox").1 "T").map
      (fun s => lookupA s.noteMap 5) =
      some (some { _id := 5, title := "T", content := "C", data := "D",
                   tags := ["urgent"], folderPathname := "/inbox", trashed := false }) ∧
    (5 : Nat) ≠ exNote1._id := by
  decide

/-- C1 counterexample: from a well-formed, consistent state, `updateNote`
applied to a trashed note (which the claim's operation list admits) inserts
the trashed note's id into its folder's and its tags' noteIdSets, violating
the invariant that trashed notes' ids appear in no noteIdSet. -/
theorem claim_C1_counterexample :
    WfStorageMap exTrashedMap ∧
    ¬ (∀ kv ∈ applyOp exTrashedMap (.updateNoteOp "S" 0 { title := some "T2" }),
        ConsistentStorage kv.2) := by
  decide

/-- C2 counterexample: with folders `/a`, `/a/x`, `/a/x/y` (the folder map
listing `/a/x/y` before `/a/x`) and no `/b` anywhere, `renameFolder("/a","/b")`
fails validation only at the third sub-path (its destination `/b/x` was
materialized by the second sub-path's folder creation) — after the durable
mutations for the first two sub-paths were already issued: the document store
now has `/b` and the note reassigned to `/b`.  So validation of every sub-path
does not complete before durable mutation begins. -/
theorem claim_C2_counterexample :
    WfStorageMap exRenameMap ∧
    (renameFolder exRenameMap "S" "/a" "/b").2 =
      .err (.unprocessable "this folder already exists") ∧
    (lookupA (renameFolder exRenameMap "S" "/a" "/b").1 "S").map
      (fun s => (s.db.hasFolder "/b", (s.db.getNote 0).map (fun n => n.folderPathname))) =
      some (true, some "/b") ∧
    (lookupA exRenameMap "S").map (fun s => s.db.hasFolder "/b") = some false := by
  decide

/-- C6 counterexample: `createNote` into a previously absent folder `/new`
with a previously absent tag `t0`, followed by `purgeNote` of the returned id,
does not restore the snapshot's folder/tag noteIdSet maps to the pre-create
state: the entries materialized by the create survive with empty noteIdSets
where before the create there was no entry at all. -/
theorem claim_C6_counterexample :
    WfStorageMap exRoundtripMap ∧
    (createNote exRoundtripMap "S" { folderPathname := some "/new", tags := some ["t0"] }).2 =
      .ok { _id := 0, title := "", content := "", data := "", tags := ["t0"],
            folderPathname := "/new", trashed := false } ∧
    (purgeNote (createNote exRoundtripMap "S"
        { folderPathname := some "/new", tags := some ["t0"] }).1 "S" 0).2 = .ok () ∧
    (lookupA (purgeNote (createNote exRoundtripMap "S"
        { folderPathname := some "/new", tags := some ["t0"] }).1 "S" 0).1 "S").map
      (fun s => (oget2 s.folderMap "/new", lookupA s.tagMap "t0")) =
      some (some ⟨"/new", ∅⟩, some ⟨"t0", ∅⟩) ∧
    (lookupA exRoundtripMap "S").map
      (fun s => (oget2 s.folderMap "/new", lookupA s.tagMap "t0")) =
      some (none, none) := by
  decide

/-- C7: the claim is right and the code is wrong.  When the note is present in
the document store (so the store-side update succeeds) but absent from the
in-memory `noteMap`, `updateNote` does not complete: the unguarded
`storage.noteMap[noteDoc._id]!.tags` read throws a TypeError.  The snapshot
maps are left unchanged. -/
theorem claim_C7_bug :
    (lookupA exStaleMap "S").map (fun s => lookupA s.noteMap 0) = some none ∧
    (lookupA exStaleMap "S").map (fun s => (s.db.getNote 0).isSome) = some true ∧
    (updateNote exStaleMap "S" 0 { title := some "b" }).2 = .err .typeError ∧
    (lookupA (updateNote exStaleMap "S" 0 { title := some "b" }).1 "S").map
      (fun s => s.noteMap) = some [] ∧
    (lookupA (updateNote exStaleMap "S" 0 { title := some "b" }).1 "S").map
      (fun s => s.folderMap) = some [("/", some ⟨"/", ∅⟩)] ∧
    (lookupA (updateNote exStaleMap "S" 0 { title := some "b" }).1 "S").map
      (fun s => s.tagMap) = some [] := by
  decide

/-- C8: the claim is right and the code is wrong.  The error handler's
`case 409` body has no `break` and falls through into the `case 404` body, so
a quota-exceeded (409) error surfaces two user-visible notices ("Size Limit"
and then "Not Found") instead of exactly one, unlinking twice along the way;
404 and other statuses behave as the claim says. -/
theorem claim_C8_bug :
    (syncOnError exSyncState "S" 409 false).messages = ["Size Limit", "Not Found"] ∧
    (lookupA (syncOnError exSyncState "S" 409 false).storages "S").map
      (fun s => (s.cloudLinked, s.syncRunning)) = some (false, false) ∧
    (syncOnError exSyncState "S" 404 false).messages = ["Not Found"] ∧
    (lookupA (syncOnError exSyncState "S" 404 false).storages "S").map
      (fun s => s.cloudLinked) = some false ∧
    (syncOnError exSyncState "S" 500 false).messages = ["Sync Error"] ∧
    (lookupA (syncOnError exSyncState "S" 500 false).storages "S").map
      (fun s => (s.cloudLinked, s.syncRunning)) = some (true, false) ∧
    (syncOnError exSyncState "S" 500 true).messages = [] := by
  decide

/-- C10 counterexample: from a well-formed state in which a trashed note's
folder pathname has no folder-map entry (the situation `removeFolder` leaves
behind), `trashNote` on that note binds the folder-map key `/gone` to
`undefined` — the key is now present but carries no folder entry. -/
theorem claim_C10_counterexample :
    WfStorageMap exGhostMap ∧
    FolderMapDefined exGhostMap ∧
    (trashNote exGhostMap "S" 0).2 = .ok exGhostNote ∧
    (lookupA (trashNote exGhostMap "S" 0).1 "S").map
      (fun s => lookupA s.folderMap "/gone") = some (some none) ∧
    ¬ FolderMapDefined (applyOp exGhostMap (.trashNoteOp "S" 0)) := by
  decide

/-! ## Helper lemmas for the amended error-path theorems -/

theorem odelA_eq_of_not_mem {κ α : Type} [DecidableEq κ] {m : List (κ × α)} {k : κ}
    (h : lookupA m k = none) : odelA m k = m := by
  induction m with
  | nil => rfl
  | cons kv rest ih =>
    obtain ⟨k₁, v₁⟩ := kv
    simp only [lookupA] at h
    by_cases h₁ : k₁ = k
    · rw [if_pos h₁] at h; cases h
    · rw [if_neg h₁] at h
      simp [odelA, h₁, ih h]

/-- C2 (amended): `renameFolder("/a", "/b")` when both `/a` and `/b` exist in
the document store raises the ValidationError for the already-existing
destination during its first sub-path iteration, before any durable mutation,
and leaves the entire registry state — snapshot and document store — exactly
unchanged.  (A failure at a later sub-path is not all-or-nothing; see the
counterexample.) -/
theorem claim_C2_amended (sm : StorageMap) (sid : String) (storage : NoteStorage)
    (hs : lookupA sm sid = some storage)
    (ha : storage.db.hasFolder "/a" = true)
    (hb : storage.db.hasFolder "/b" = true) :
    renameFolder sm sid "/a" "/b" =
      (sm, .err (.unprocessable "this folder already exists")) := by
  have hstep : renameOneFolder "/a" "/b"
      { db := storage.db, folderListToRefresh := [], notesListToRefresh := [] } "/a" =
      .error (storage.db, .unprocessable "this folder already exists") := by
    unfold renameOneFolder
    have h1 : rewritePath "/a" "/b" "/a" = "/b" := by decide
    simp [h1, Db.getFolder, ha, hb]
  unfold renameFolder
  rw [hs]
  simp only [if_neg (by decide : ¬ ¬ isFolderPathnameValid "/a" = true),
    if_neg (by decide : ¬ ¬ isFolderPathnameValid "/b" = true)]
  rw [List.foldlM_cons, hstep]
  have hbind : (Except.error (storage.db, RegError.unprocessable "this folder already exists") >>=
      fun b' => List.foldlM (renameOneFolder "/a" "/b") b'
        ((keysA storage.folderMap).filter (fun p => strStartsWith p ("/a" ++ "/")))) =
      Except.error (ε := Db × RegError) (α := RenameAcc)
        (storage.db, RegError.unprocessable "this folder already exists") := rfl
  rw [hbind]
  show (osetA sm sid storage,
      Outcome.err (RegError.unprocessable "this folder already exists")) =
    (sm, .err (.unprocessable "this folder already exists"))
  rw [osetA_self_of_lookup hs]

def exRenameBStorage : NoteStorage :=
  { id := "S"
    noteMap := [(0, exRenameNote)]
    folderMap := [("/", some ⟨"/", ∅⟩), ("/a", some ⟨"/a", {0}⟩)]
    tagMap := []
    db := { notes := [(0, exRenameNote)], folders := ["/", "/a", "/b"],
            tags := [], nextId := 1 } }

def exRenameBMap : StorageMap := [("S", exRenameBStorage)]

theorem claim_C2_witness :
    renameFolder exRenameBMap "S" "/a" "/b" =
      (exRenameBMap, .err (.unprocessable "this folder already exists")) :=
  claim_C2_amended exRenameBMap "S" exRenameBStorage (by decide) (by decide) (by decide)

/-- C3 (amended): operations called with an unknown storage id do not raise a
typed not-found error: they return silently (undefined), leaving the snapshot
unchanged; only `moveNoteToOtherStorage` raises an error for an unknown
storage.  With a known storage but a missing note, `trashNote` and
`updateNote` return silently, while `untrashNote` and `purgeNote` throw an
untyped TypeError; in every case the snapshot is left unchanged (the index is
not corrupted, but most failures are silently swallowed rather than raised). -/
theorem claim_C3_amended (sm : StorageMap) (sid sid2 t2 : String) (nid nid2 : Nat)
    (props : NoteProps) (p q tagName : String)
    (hs : lookupA sm sid = none)
    (storage2 : NoteStorage) (hs2 : lookupA sm sid2 = some storage2)
    (hdb2 : lookupA storage2.db.notes nid2 = none)
    (hnm2 : lookupA storage2.noteMap nid2 = none) :
    createNote sm sid props = (sm, .silent) ∧
    updateNote sm sid nid props = (sm, .silent) ∧
    trashNote sm sid nid = (sm, .silent) ∧
    untrashNote sm sid nid = (sm, .silent) ∧
    purgeNote sm sid nid = (sm, .silent) ∧
    createFolder sm sid p = (sm, .silent) ∧
    renameFolder sm sid p q = (sm, .silent) ∧
    removeFolder sm sid p = (sm, .silent) ∧
    removeTag sm sid tagName = (sm, .silent) ∧
    moveNoteToOtherStorage sm sid nid t2 p =
      (sm, .err (.jsError "Original storage does not exist. Please refresh the app and try again.")) ∧
    trashNote sm sid2 nid2 = (sm, .silent) ∧
    updateNote sm sid2 nid2 props = (sm, .silent) ∧
    untrashNote sm sid2 nid2 = (sm, .err .typeError) ∧
    purgeNote sm sid2 nid2 = (sm, .err .typeError) := by
  refine ⟨?_, ?_, ?_, ?_, ?_, ?_, ?_, ?_, ?_, ?_, ?_, ?_, ?_, ?_⟩
  · unfold createNote; rw [hs]
  · unfold updateNote; rw [hs]
  · unfold trashNote; rw [hs]
  · unfold untrashNote; rw [hs]
  · unfold purgeNote; rw [hs]
  · unfold createFolder; rw [hs]
  · unfold renameFolder; rw [hs]
  · unfold removeFolder; rw [hs]
  · unfold removeTag; rw [hs]
  · unfold moveNoteToOtherStorage; rw [hs]
  · unfold trashNote Db.trashNote
    simp only [hs2, hdb2]
    show (osetA sm sid2 storage2, Outcome.silent) = (sm, .silent)
    rw [osetA_self_of_lookup hs2]
  · unfold updateNote Db.updateNote
    simp only [hs2, hdb2]
    show (osetA sm sid2 storage2, Outcome.silent) = (sm, .silent)
    rw [osetA_self_of_lookup hs2]
  · unfold untrashNote Db.untrashNote
    simp only [hs2, hdb2]
    show (osetA sm sid2 storage2, Outcome.err .typeError) = (sm, .err .typeError)
    rw [osetA_self_of_lookup hs2]
  · unfold purgeNote Db.purgeNote
    simp only [hs2, hnm2, odelA_eq_of_not_mem hdb2]
    show (osetA sm sid2 storage2, Outcome.err .typeError) = (sm, .err .typeError)
    rw [osetA_self_of_lookup hs2]

theorem claim_C3_witness :
    createNote exRoundtripMap "X" {} = (exRoundtripMap, .silent) ∧
    trashNote exRoundtripMap "S" 7 = (exRoundtripMap, .silent) ∧
    moveNoteToOtherStorage exRoundtripMap "X" 0 "S" "/" =
      (exRoundtripMap,
       .err (.jsError "Original storage does not exist. Please refresh the app and try again.")) := by
  obtain ⟨h1, _, h3, _, _, _, _, _, _, h10, h11, _⟩ :=
    claim_C3_amended exRoundtripMap "X" "S" "S" 0 7 {} "/" "/" "t" (by decide)
      { id := "S", noteMap := [], folderMap := [("/", some ⟨"/", ∅⟩)], tagMap := [],
        db := { notes := [], folders := ["/"], tags := [], nextId := 0 } }
      (by decide) (by decide) (by decide)
  exact ⟨h1, h11, h10⟩

/-- C3 counterexample: `createNote` invoked with an unknown storage id does
not raise a typed not-found error — it returns silently (undefined), exactly
what the claim says must not happen (the snapshot is unchanged, though). -/
theorem claim_C3_counterexample :
    lookupA exRoundtripMap "X" = none ∧
    createNote exRoundtripMap "X" {} = (exRoundtripMap, .silent) := by
  decide

/-! ## Scheduler state-machine invariant (claim C9) -/

/-- Scheduler well-formedness: duplicate-free storage and timer-pool keys,
every live timer handle is the one recorded in its storage's `syncTimer`
field, and all handles are below the fresh-handle counter. -/
def TimerWf (st : SyncState) : Prop :=
  NoDupKeys st.storages ∧ NoDupKeys st.activeTimers ∧
  (∀ tv ∈ st.activeTimers,
    OptHolds (lookupA st.storages tv.2) (fun s => s.syncTimer = some tv.1)) ∧
  (∀ tv ∈ st.activeTimers, tv.1 < st.nextTimer)

instance (st : SyncState) : Decidable (TimerWf st) := by
  unfold TimerWf; infer_instance

/-- The number of armed (live) timers belonging to one storage. -/
def armedCount (st : SyncState) (sid : String) : Nat :=
  (st.activeTimers.filter (fun tv => decide (tv.2 = sid))).length

theorem lookupA_filter_ne_self {κ α : Type} [DecidableEq κ]
    (l : List (κ × α)) (k : κ) :
    lookupA (l.filter (fun kv => decide (kv.1 ≠ k))) k = none := by
  induction l with
  | nil => rfl
  | cons kv rest ih =>
    obtain ⟨k₁, v₁⟩ := kv
    rw [List.filter_cons]
    by_cases h₁ : k₁ = k
    · rw [if_neg (by simp [h₁])]
      exact ih
    · rw [if_pos (by simp [h₁])]
      simp only [lookupA, if_neg h₁]
      exact ih

theorem armedCount_le_one (st : SyncState) (hwf : TimerWf st) (sid : String) :
    armedCount st sid ≤ 1 := by
  obtain ⟨hndS, hndT, hlink, hfresh⟩ := hwf
  unfold armedCount
  match hl : st.activeTimers.filter (fun tv => decide (tv.2 = sid)) with
  | [] => simp [hl]
  | [a] => simp [hl]
  | a :: b :: rest =>
    exfalso
    have hsub : (a :: b :: rest).Sublist st.activeTimers :=
      hl ▸ st.activeTimers.filter_sublist
    have hnd : ((a :: b :: rest).map Prod.fst).Nodup :=
      List.Nodup.sublist (hsub.map Prod.fst) hndT
    have hane : a.1 ≠ b.1 := by
      simp only [List.map_cons, List.nodup_cons, List.mem_cons] at hnd
      exact fun h => hnd.1 (Or.inl h)
    have ha : a ∈ st.activeTimers := hsub.subset (by simp)
    have hb : b ∈ st.activeTimers := hsub.subset (by simp)
    have haf : a ∈ st.activeTimers.filter (fun tv => decide (tv.2 = sid)) := by
      rw [hl]; simp
    have hbf : b ∈ st.activeTimers.filter (fun tv => decide (tv.2 = sid)) := by
      rw [hl]; simp
    have ha2 : a.2 = sid := by simpa using (List.mem_filter.mp haf).2
    have hb2 : b.2 = sid := by simpa using (List.mem_filter.mp hbf).2
    have hoa := hlink a ha
    have hob := hlink b hb
    rw [ha2] at hoa
    rw [hb2] at hob
    cases hls : lookupA st.storages sid with
    | none => rw [hls] at hoa; exact hoa
    | some s =>
      rw [hls] at hoa hob
      have h1 : s.syncTimer = some a.1 := hoa
      have h2 : s.syncTimer = some b.1 := hob
      rw [h1] at h2
      exact hane (Option.some.inj h2)

theorem timerWf_queueSyncingStorage (st : SyncState) (hwf : TimerWf st)
    (sid : String) : TimerWf (queueSyncingStorage st sid) := by
  obtain ⟨hndS, hndT, hlink, hfresh⟩ := hwf
  unfold queueSyncingStorage
  by_cases hen : st.enableAutoSync = true
  · simp only [hen, not_true, if_false]
    cases hls : lookupA st.storages sid with
    | none => exact ⟨hndS, hndT, hlink, hfresh⟩
    | some storage =>
      simp only []
      -- the new state
      refine ⟨nodupKeys_osetA hndS _ _, ?_, ?_, ?_⟩
      · -- NoDupKeys of the new timer pool
        have hsub1 : ((match storage.syncTimer with
            | some t => st.activeTimers.filter (fun tv => decide (tv.1 ≠ t))
            | none => st.activeTimers) : List (Nat × String)).Sublist st.activeTimers := by
          cases storage.syncTimer with
          | some t => exact st.activeTimers.filter_sublist
          | none => exact List.Sublist.refl _
        unfold NoDupKeys
        rw [List.map_cons, List.nodup_cons]
        constructor
        · intro hmem
          obtain ⟨tv, htv, heq⟩ := List.mem_map.mp hmem
          have htv' := hsub1.subset htv
          exact absurd (heq ▸ hfresh tv htv') (lt_irrefl _)
        · exact List.Nodup.sublist (hsub1.map Prod.fst) hndT
      · -- every live handle is its storage's recorded handle
        intro tv htv
        rcases List.mem_cons.mp htv with h | h
        · subst h
          simp only [lookupA_osetA, if_pos rfl]
          rfl
        · have hsub1 : ((match storage.syncTimer with
              | some t => st.activeTimers.filter (fun tv => decide (tv.1 ≠ t))
              | none => st.activeTimers) : List (Nat × String)).Sublist st.activeTimers := by
            cases storage.syncTimer with
            | some t => exact st.activeTimers.filter_sublist
            | none => exact List.Sublist.refl _
          have htv' := hsub1.subset h
          by_cases hsid : sid = tv.2
          · -- impossible: any live handle of this storage was the cleared one
            exfalso
            have hl := hlink tv htv'
            rw [← hsid, hls] at hl
            have hst : storage.syncTimer = some tv.1 := hl
            rw [hst] at h
            have := (List.mem_filter.mp h).2
            simp at this
          · simp only [lookupA_osetA, if_neg hsid]
            exact hlink tv htv'
      · -- freshness
        intro tv htv
        rcases List.mem_cons.mp htv with h | h
        · subst h; exact Nat.lt_succ_self _
        · have hsub1 : ((match storage.syncTimer with
              | some t => st.activeTimers.filter (fun tv => decide (tv.1 ≠ t))
              | none => st.activeTimers) : List (Nat × String)).Sublist st.activeTimers := by
            cases storage.syncTimer with
            | some t => exact st.activeTimers.filter_sublist
            | none => exact List.Sublist.refl _
          exact Nat.lt_succ_of_lt (hfresh tv (hsub1.subset h))
  · simp only [hen, not_false_iff, if_true]
    exact ⟨hndS, hndT, hlink, hfresh⟩

theorem timerWf_cancelSyncingStorageQueue (st : SyncState) (hwf : TimerWf st)
    (sid : String) : TimerWf (cancelSyncingStorageQueue st sid) := by
  obtain ⟨hndS, hndT, hlink, hfresh⟩ := hwf
  unfold cancelSyncingStorageQueue
  cases hls : lookupA st.storages sid with
  | none =>
    simp only [hls]
    exact ⟨hndS, hndT, hlink, hfresh⟩
  | some storage =>
    simp only [hls]
    cases hst : storage.syncTimer with
    | none =>
      simp only [hst]
      exact ⟨hndS, hndT, hlink, hfresh⟩
    | some t =>
      simp only [hst]
      have hsub1 : (st.activeTimers.filter
          (fun tv => decide (tv.1 ≠ t))).Sublist st.activeTimers :=
        st.activeTimers.filter_sublist
      refine ⟨nodupKeys_osetA hndS _ _, ?_, ?_, ?_⟩
      · exact List.Nodup.sublist (hsub1.map Prod.fst) hndT
      · intro tv htv
        have htv' := hsub1.subset htv
        by_cases hsid : sid = tv.2
        · exfalso
          have hl := hlink tv htv'
          rw [← hsid, hls] at hl
          have hst' : storage.syncTimer = some tv.1 := hl
          rw [hst] at hst'
          have htne := (List.mem_filter.mp htv).2
          simp at htne
          exact htne (Option.some.inj hst').symm
        · simp only [lookupA_osetA, if_neg hsid]
          exact hlink tv htv'
      · intro tv htv
        exact hfresh tv (hsub1.subset htv)

theorem timerWf_syncStorage (st : SyncState) (hwf : TimerWf st) (sid : String) :
    TimerWf (syncStorage st sid) := by
  obtain ⟨hndS, hndT, hlink, hfresh⟩ := hwf
  unfold syncStorage
  by_cases hu : st.userPresent = true
  · simp only [hu, not_true, if_false]
    cases hls : lookupA st.storages sid with
    | none => exact ⟨hndS, hndT, hlink, hfresh⟩
    | some storage =>
      by_cases hc : storage.cloudLinked = true
      · by_cases hr : storage.syncRunning = true
        · simp only [hc, hr, not_true, if_false, if_true]
          exact ⟨hndS, hndT, hlink, hfresh⟩
        · simp only [hc, hr, not_true, if_false, Bool.false_eq_true]
          refine ⟨nodupKeys_osetA hndS _ _, hndT, ?_, hfresh⟩
          intro tv htv
          by_cases hsid : sid = tv.2
          · have hl := hlink tv htv
            rw [← hsid] at hl ⊢
            rw [hls] at hl
            simp only [lookupA_osetA, if_pos rfl]
            exact hl
          · simp only [lookupA_osetA, if_neg hsid]
            exact hlink tv htv
      · simp only [hc, not_false_iff, if_true, Bool.false_eq_true]
        exact ⟨hndS, hndT, hlink, hfresh⟩
  · simp only [hu, not_false_iff, if_true]
    exact ⟨hndS, hndT, hlink, hfresh⟩

theorem timerWf_fireTimer (st : SyncState) (hwf : TimerWf st) (t : Nat) :
    TimerWf (fireTimer st t) := by
  obtain ⟨hndS, hndT, hlink, hfresh⟩ := hwf
  unfold fireTimer
  cases hlt : lookupA st.activeTimers t with
  | none => exact ⟨hndS, hndT, hlink, hfresh⟩
  | some storageId =>
    have hwf1 : TimerWf { st with
        activeTimers := st.activeTimers.filter (fun tv => decide (tv.1 ≠ t)) } := by
      have hsub1 : (st.activeTimers.filter
          (fun tv => decide (tv.1 ≠ t))).Sublist st.activeTimers :=
        st.activeTimers.filter_sublist
      refine ⟨hndS, List.Nodup.sublist (hsub1.map Prod.fst) hndT, ?_, ?_⟩
      · intro tv htv
        exact hlink tv (hsub1.subset htv)
      · intro tv htv
        exact hfresh tv (hsub1.subset htv)
    exact timerWf_queueSyncingStorage _ (timerWf_syncStorage _ hwf1 _) _

/-- C9: the scheduler keeps at most one armed timer and at most one in-flight
session per storage: every scheduler step preserves the timer invariant, the
invariant bounds a storage's armed timers by one (in particular after two
back-to-back `queueSyncingStorage` calls, which replace rather than stack),
firing a timer that `cancelSyncingStorageQueue` cleared is a complete no-op
(no replication call), and entering the running state is refused both when a
session is already in flight and when the storage has no linked remote. -/
theorem claim_C9_scheduler (st : SyncState) (hwf : TimerWf st) (sid : String) :
    (∀ s', TimerWf (queueSyncingStorage st s')) ∧
    (∀ s', TimerWf (cancelSyncingStorageQueue st s')) ∧
    (∀ s', TimerWf (syncStorage st s')) ∧
    (∀ t, TimerWf (fireTimer st t)) ∧
    (∀ s', armedCount st s' ≤ 1) ∧
    armedCount (queueSyncingStorage (queueSyncingStorage st sid) sid) sid ≤ 1 ∧
    (∀ s t, lookupA st.storages sid = some s → s.syncTimer = some t →
      fireTimer (cancelSyncingStorageQueue st sid) t = cancelSyncingStorageQueue st sid) ∧
    (∀ s, lookupA st.storages sid = some s → s.syncRunning = true →
      syncStorage st sid = st) ∧
    (∀ s, lookupA st.storages sid = some s → s.cloudLinked = false →
      syncStorage st sid = st) := by
  refine ⟨fun s' => timerWf_queueSyncingStorage st hwf s',
    fun s' => timerWf_cancelSyncingStorageQueue st hwf s',
    fun s' => timerWf_syncStorage st hwf s',
    fun t => timerWf_fireTimer st hwf t,
    fun s' => armedCount_le_one st hwf s',
    armedCount_le_one _ (timerWf_queueSyncingStorage _
      (timerWf_queueSyncingStorage _ hwf _) _) sid, ?_, ?_, ?_⟩
  · intro s t hls hst
    have hcan : (cancelSyncingStorageQueue st sid).activeTimers =
        st.activeTimers.filter (fun tv => decide (tv.1 ≠ t)) := by
      unfold cancelSyncingStorageQueue
      simp only [hls, hst]
    unfold fireTimer
    rw [hcan, lookupA_filter_ne_self]
  · intro s hls hr
    unfold syncStorage
    by_cases hu : st.userPresent = true
    · simp only [hu, not_true, if_false, hls, hr]
      by_cases hc : s.cloudLinked = true <;> simp [hc]
    · simp [hu]
  · intro s hls hc
    unfold syncStorage
    by_cases hu : st.userPresent = true
    · simp only [hu, not_true, if_false, hls, hc]
      simp
    · simp [hu]

theorem claim_C9_witness :
    TimerWf exSyncState ∧
    armedCount (queueSyncingStorage (queueSyncingStorage exSyncState "S") "S") "S" ≤ 1 ∧
    syncStorage exSyncState "S" = exSyncState := by
  refine ⟨by decide, ?_, ?_⟩
  · exact (claim_C9_scheduler exSyncState (by decide) "S").2.2.2.2.2.1
  · exact (claim_C9_scheduler exSyncState (by decide) "S").2.2.2.2.2.2.2.1
      { cloudLinked := true, syncTimer := none, syncRunning := true }
      (by decide) (by decide)

/-! ## Characterization of `removeFolder` (used by claims C4, C1, C10) -/

theorem mem_osetA {κ α : Type} [DecidableEq κ] {m : List (κ × α)} {k : κ} {v : α}
    {kv : κ × α} (h : kv ∈ osetA m k v) : kv = (k, v) ∨ kv ∈ m := by
  induction m with
  | nil => simpa [osetA] using h
  | cons kv₁ rest ih =>
    obtain ⟨k₁, v₁⟩ := kv₁
    by_cases h₁ : k₁ = k
    · rw [osetA, if_pos h₁] at h
      rcases List.mem_cons.mp h with h | h
      · exact Or.inl h
      · exact Or.inr (List.mem_cons_of_mem _ h)
    · rw [osetA, if_neg h₁] at h
      rcases List.mem_cons.mp h with h | h
      · exact Or.inr (h ▸ List.mem_cons_self _ _)
      · rcases ih h with h | h
        · exact Or.inl h
        · exact Or.inr (List.mem_cons_of_mem _ h)

theorem mem_foldl_erase (ids : List Nat) (s : Finset Nat) (j : Nat) :
    (j ∈ ids.foldl (fun s i => s.erase i) s) ↔ j ∈ s ∧ j ∉ ids := by
  induction ids generalizing s with
  | nil => simp
  | cons i rest ih =>
    simp only [List.foldl_cons, ih, Finset.mem_erase, List.mem_cons]
    constructor
    · rintro ⟨⟨hji, hjs⟩, hjr⟩
      exact ⟨hjs, fun h => h.elim hji hjr⟩
    · rintro ⟨hjs, h⟩
      exact ⟨⟨fun he => h (Or.inl he), hjs⟩, fun hr => h (Or.inr hr)⟩

theorem optHolds_oget2 {m : List (String × Option FolderDoc)} {k : String}
    {P : FolderDoc → Prop} (h : OptHolds (oget2 m k) P) :
    ∃ f, lookupA m k = some (some f) ∧ P f := by
  unfold oget2 at h
  cases hl : lookupA m k with
  | none => rw [hl] at h; simp [OptHolds] at h
  | some ov =>
    cases ov with
    | none => rw [hl] at h; simp [OptHolds] at h
    | some f =>
      rw [hl] at h
      exact ⟨f, rfl, h⟩

theorem collectAffected_keys_prop (noteId : Nat) (tags : List String)
    (m : List (String × List Nat)) (P : String → Prop)
    (hm : ∀ kv ∈ m, P kv.1) (ht : ∀ t ∈ tags, P t) :
    ∀ kv ∈ collectAffected noteId m tags, P kv.1 := by
  induction tags generalizing m with
  | nil => exact hm
  | cons t rest ih =>
    intro kv hkv
    refine ih _ ?_ (fun t' ht' => ht t' (List.mem_cons_of_mem _ ht')) kv hkv
    intro kv' hkv'
    have hPt : P t := ht t (List.mem_cons_self _ _)
    cases hl : lookupA m t with
    | some ids =>
      simp only [hl] at hkv'
      rcases mem_osetA hkv' with h | h
      · rw [h]; exact hPt
      · exact hm kv' h
    | none =>
      simp only [hl] at hkv'
      rcases mem_osetA hkv' with h | h
      · rw [h]; exact hPt
      · exact hm kv' h

theorem collectAffected_nodup (noteId : Nat) (tags : List String)
    (m : List (String × List Nat)) (hm : NoDupKeys m) :
    NoDupKeys (collectAffected noteId m tags) := by
  induction tags generalizing m with
  | nil => exact hm
  | cons t rest ih =>
    refine ih _ ?_
    cases hl : lookupA m t with
    | some ids => simp only [hl]; exact nodupKeys_osetA hm _ _
    | none => simp only [hl]; exact nodupKeys_osetA hm _ _

theorem collectAffected_mono (noteId : Nat) (tags : List String)
    (m : List (String × List Nat)) (t : String) (j : Nat)
    (h : OptHolds (lookupA m t) (fun ids => j ∈ ids)) :
    OptHolds (lookupA (collectAffected noteId m tags) t) (fun ids => j ∈ ids) := by
  induction tags generalizing m with
  | nil => exact h
  | cons tg rest ih =>
    refine ih _ ?_
    by_cases hteq : tg = t
    · subst hteq
      cases hl : lookupA m tg with
      | none => rw [hl] at h; simp [OptHolds] at h
      | some ids =>
        rw [hl] at h
        simp only [hl, lookupA_osetA, if_pos rfl]
        exact List.mem_append_left _ h
    · cases hl : lookupA m tg with
      | none => simp only [hl, lookupA_osetA, if_neg hteq]; exact h
      | some ids => simp only [hl, lookupA_osetA, if_neg hteq]; exact h

theorem collectAffected_mem_self (noteId : Nat) (tags : List String)
    (m : List (String × List Nat)) (t : String) (ht : t ∈ tags) :
    OptHolds (lookupA (collectAffected noteId m tags) t)
      (fun ids => noteId ∈ ids) := by
  induction tags generalizing m with
  | nil => cases ht
  | cons tg rest ih =>
    by_cases hmem : t ∈ rest
    · exact ih _ hmem
    · have hteq : tg = t := by
        rcases List.mem_cons.mp ht with h | h
        · exact h.symm
        · exact absurd h hmem
      subst hteq
      have hstep : OptHolds (lookupA ((fun m tag =>
          match lookupA m tag with
          | some ids => osetA m tag (ids ++ [noteId])
          | none => osetA m tag [noteId]) m tg) tg) (fun ids => noteId ∈ ids) := by
        cases hl : lookupA m tg with
        | none =>
          simp only [hl, lookupA_osetA, if_pos rfl]
          simp [OptHolds]
        | some ids =>
          simp only [hl, lookupA_osetA, if_pos rfl]
          exact List.mem_append_right _ (List.mem_singleton.mpr rfl)
      exact collectAffected_mono noteId rest _ tg noteId hstep

theorem removeFolderStep_snd_skip (deleted : List String)
    (l : List (Nat × NoteDoc)) (acc : List (String × List Nat) × List (Nat × NoteDoc))
    (i : Nat) (hni : i ∉ keysA l) :
    lookupA (l.foldl (removeFolderStep deleted) acc).2 i = lookupA acc.2 i := by
  induction l generalizing acc with
  | nil => rfl
  | cons kv rest ih =>
    have hni' : i ∉ keysA rest := fun h => hni (List.mem_cons_of_mem _ h)
    have hki : kv.1 ≠ i := fun h => hni (by simp [keysA, h])
    rw [List.foldl_cons, ih _ hni']
    unfold removeFolderStep
    by_cases hc : kv.2.folderPathname ∈ deleted
    · rw [if_pos hc]
      show lookupA (osetA acc.2 kv.1 _) i = _
      rw [lookupA_osetA, if_neg hki]
    · rw [if_neg hc]

theorem removeFolderStep_snd_lookup (deleted : List String)
    (l : List (Nat × NoteDoc)) (acc : List (String × List Nat) × List (Nat × NoteDoc))
    (i : Nat) (hnd : NoDupKeys l) (hacc : lookupA acc.2 i = none) :
    lookupA (l.foldl (removeFolderStep deleted) acc).2 i =
      match lookupA l i with
      | some n => if n.folderPathname ∈ deleted then some { n with trashed := true }
                  else none
      | none => none := by
  induction l generalizing acc with
  | nil => simpa [lookupA]
  | cons kv rest ih =>
    obtain ⟨k₁, n₁⟩ := kv
    have hnd' : NoDupKeys rest := by
      unfold NoDupKeys at hnd ⊢
      exact (List.nodup_cons.mp hnd).2
    have hk₁ : k₁ ∉ keysA rest := by
      unfold NoDupKeys at hnd
      simpa [keysA] using (List.nodup_cons.mp hnd).1
    rw [List.foldl_cons]
    by_cases hik : k₁ = i
    · subst hik
      have hskip := removeFolderStep_snd_skip deleted rest
        (removeFolderStep deleted acc (k₁, n₁)) k₁ hk₁
      rw [hskip]
      unfold removeFolderStep
      by_cases hc : n₁.folderPathname ∈ deleted
      · rw [if_pos hc]
        show lookupA (osetA acc.2 k₁ _) k₁ = _
        rw [lookupA_osetA, if_pos rfl]
        simp [lookupA, hc]
      · rw [if_neg hc]
        show lookupA acc.2 k₁ = _
        rw [hacc]
        simp [lookupA, hc]
    · have hstep : lookupA (removeFolderStep deleted acc (k₁, n₁)).2 i = none := by
        unfold removeFolderStep
        by_cases hc : (k₁, n₁).2.folderPathname ∈ deleted
        · rw [if_pos hc]
          show lookupA (osetA acc.2 k₁ _) i = none
          rw [lookupA_osetA, if_neg hik, hacc]
        · rw [if_neg hc]; exact hacc
      rw [ih _ hnd' hstep]
      simp [lookupA, hik]

theorem removeFolderStep_snd_nodup (deleted : List String)
    (l : List (Nat × NoteDoc)) (acc : List (String × List Nat) × List (Nat × NoteDoc))
    (hacc : NoDupKeys acc.2) :
    NoDupKeys (l.foldl (removeFolderStep deleted) acc).2 := by
  induction l generalizing acc with
  | nil => exact hacc
  | cons kv rest ih =>
    rw [List.foldl_cons]
    refine ih _ ?_
    unfold removeFolderStep
    by_cases hc : kv.2.folderPathname ∈ deleted
    · rw [if_pos hc]; exact nodupKeys_osetA hacc _ _
    · rw [if_neg hc]; exact hacc

theorem removeFolderStep_fst_nodup (deleted : List String)
    (l : List (Nat × NoteDoc)) (acc : List (String × List Nat) × List (Nat × NoteDoc))
    (hacc : NoDupKeys acc.1) :
    NoDupKeys (l.foldl (removeFolderStep deleted) acc).1 := by
  induction l generalizing acc with
  | nil => exact hacc
  | cons kv rest ih =>
    rw [List.foldl_cons]
    refine ih _ ?_
    unfold removeFolderStep
    by_cases hc : kv.2.folderPathname ∈ deleted
    · rw [if_pos hc]; exact collectAffected_nodup _ _ _ hacc
    · rw [if_neg hc]; exact hacc

theorem removeFolderStep_fst_keys_prop (deleted : List String)
    (P : String → Prop) (l : List (Nat × NoteDoc))
    (acc : List (String × List Nat) × List (Nat × NoteDoc))
    (hacc : ∀ kv ∈ acc.1, P kv.1)
    (hl : ∀ kv ∈ l, ∀ t ∈ kv.2.tags, P t) :
    ∀ kv ∈ (l.foldl (removeFolderStep deleted) acc).1, P kv.1 := by
  induction l generalizing acc with
  | nil => exact hacc
  | cons kv₀ rest ih =>
    rw [List.foldl_cons]
    refine ih _ ?_ (fun kv hkv t ht => hl kv (List.mem_cons_of_mem _ hkv) t ht)
    unfold removeFolderStep
    by_cases hc : kv₀.2.folderPathname ∈ deleted
    · rw [if_pos hc]
      exact collectAffected_keys_prop _ _ _ P hacc
        (fun t ht => hl kv₀ (List.mem_cons_self _ _) t ht)
    · rw [if_neg hc]; exact hacc

theorem removeFolderStep_fst_mono (deleted : List String)
    (l : List (Nat × NoteDoc)) (acc : List (String × List Nat) × List (Nat × NoteDoc))
    (t : String) (j : Nat)
    (h : OptHolds (lookupA acc.1 t) (fun ids => j ∈ ids)) :
    OptHolds (lookupA (l.foldl (removeFolderStep deleted) acc).1 t)
      (fun ids => j ∈ ids) := by
  induction l generalizing acc with
  | nil => exact h
  | cons kv rest ih =>
    rw [List.foldl_cons]
    refine ih _ ?_
    unfold removeFolderStep
    by_cases hc : kv.2.folderPathname ∈ deleted
    · rw [if_pos hc]
      exact collectAffected_mono _ _ _ _ _ h
    · rw [if_neg hc]; exact h

theorem removeFolderStep_fst_mem (deleted : List String)
    (l : List (Nat × NoteDoc)) (acc : List (String × List Nat) × List (Nat × NoteDoc))
    (i : Nat) (n : NoteDoc) (t : String)
    (hmem : (i, n) ∈ l) (hdel : n.folderPathname ∈ deleted) (ht : t ∈ n.tags) :
    OptHolds (lookupA (l.foldl (removeFolderStep deleted) acc).1 t)
      (fun ids => i ∈ ids) := by
  induction l generalizing acc with
  | nil => cases hmem
  | cons kv rest ih =>
    rw [List.foldl_cons]
    rcases List.mem_cons.mp hmem with h | h
    · subst h
      refine removeFolderStep_fst_mono deleted rest _ t i ?_
      unfold removeFolderStep
      rw [if_pos hdel]
      exact collectAffected_mem_self i n.tags acc.1 t ht
    · exact ih _ h

theorem removeFolderTagStep_foldlM_spec (tagMap : List (String × TagDoc))
    (aff : List (String × List Nat)) (acc : List (String × TagDoc))
    (hk : ∀ kv ∈ aff, (lookupA tagMap kv.1).isSome = true) :
    ∃ mt, aff.foldlM (removeFolderTagStep tagMap) acc = Except.ok mt ∧
      (NoDupKeys acc → NoDupKeys mt) ∧
      (∀ t, t ∉ keysA aff → lookupA mt t = lookupA acc t) ∧
      (NoDupKeys aff → ∀ t ids td, lookupA aff t = some ids →
        lookupA tagMap t = some td →
        lookupA mt t =
          some { td with noteIdSet := ids.foldl (fun s i => s.erase i) td.noteIdSet }) := by
  induction aff generalizing acc with
  | nil =>
    exact ⟨acc, rfl, fun h => h, fun t _ => rfl, fun _ t ids td h => by cases h⟩
  | cons kv rest ih =>
    obtain ⟨t₀, ids₀⟩ := kv
    have hk₀ := hk (t₀, ids₀) (List.mem_cons_self _ _)
    cases htd : lookupA tagMap t₀ with
    | none => rw [htd] at hk₀; simp at hk₀
    | some td₀ =>
      have hstep : removeFolderTagStep tagMap acc (t₀, ids₀) =
          Except.ok (osetA acc t₀
            { td₀ with noteIdSet := ids₀.foldl (fun s i => s.erase i) td₀.noteIdSet }) := by
        unfold removeFolderTagStep
        rw [htd]
      obtain ⟨mt, hmt, hnd, hskip, hset⟩ := ih
        (osetA acc t₀
          { td₀ with noteIdSet := ids₀.foldl (fun s i => s.erase i) td₀.noteIdSet })
        (fun kv hkv => hk kv (List.mem_cons_of_mem _ hkv))
      refine ⟨mt, ?_, ?_, ?_, ?_⟩
      · rw [List.foldlM_cons, hstep]
        simpa using hmt
      · exact fun h => hnd (nodupKeys_osetA h _ _)
      · intro t htn
        have ht₀ : t ≠ t₀ := fun h => htn (by simp [keysA, h])
        have htr : t ∉ keysA rest := by
          intro h
          refine htn ?_
          simp only [keysA, List.map_cons, List.mem_cons]
          exact Or.inr h
        rw [hskip t htr, lookupA_osetA, if_neg (fun h => ht₀ h.symm)]
      · intro hndaff t ids td hlaff htd'
        have hndrest : NoDupKeys rest := by
          unfold NoDupKeys at hndaff ⊢
          exact (List.nodup_cons.mp hndaff).2
        have ht₀r : t₀ ∉ keysA rest := by
          unfold NoDupKeys at hndaff
          simpa [keysA] using (List.nodup_cons.mp hndaff).1
        by_cases hteq : t = t₀
        · subst hteq
          have hids : ids₀ = ids := by simpa [lookupA] using hlaff
          subst hids
          rw [htd] at htd'
          cases htd'
          rw [hskip t ht₀r, lookupA_osetA, if_pos rfl]
        · have ht₀t : ¬ t₀ = t := fun h => hteq h.symm
          have hlr : lookupA rest t = some ids := by
            simpa [lookupA, if_neg ht₀t] using hlaff
          exact hset hndrest t ids td hlr htd'

/-- C4: for a storage whose folder `/x` holds non-trashed note N and whose
descendant `/x/y` holds non-trashed note M, `removeFolder("/x")` marks both N
and M trashed in the note index, deletes the folder-map entries for `/x`,
`/x/y` and every other descendant of `/x`, removes N's and M's ids from the
noteIdSet of every tag those notes carried, and keeps both notes in the note
index. -/
theorem claim_C4_remove_folder_cascade (sm : StorageMap) (sid : String)
    (s : NoteStorage) (hs : lookupA sm sid = some s) (hwf : WfStorage s)
    (nN nM : Nat) (N M : NoteDoc)
    (hN : lookupA s.noteMap nN = some N) (hNf : N.folderPathname = "/x")
    (hNt : N.trashed = false)
    (hM : lookupA s.noteMap nM = some M) (hMf : M.folderPathname = "/x/y")
    (hMt : M.trashed = false) :
    (removeFolder sm sid "/x").2 = .ok () ∧
    ∃ s', lookupA (removeFolder sm sid "/x").1 sid = some s' ∧
      lookupA s'.noteMap nN = some { N with trashed := true } ∧
      lookupA s'.noteMap nM = some { M with trashed := true } ∧
      lookupA s'.folderMap "/x" = none ∧
      lookupA s'.folderMap "/x/y" = none ∧
      (∀ p, strStartsWith p "/x/" = true → lookupA s'.folderMap p = none) ∧
      (∀ t ∈ N.tags, OptHolds (lookupA s'.tagMap t) (fun td => nN ∉ td.noteIdSet)) ∧
      (∀ t ∈ M.tags, OptHolds (lookupA s'.tagMap t) (fun td => nM ∉ td.noteIdSet)) := by
  obtain ⟨hndNote, hndFolder, hndTag, hndDb, hcons, hclosure, htagname, hfoldname,
    hagree1, hagree2, hfolderdb, hfresh, hidkey⟩ := hwf
  set deleted : List String :=
    "/x" :: (keysA s.folderMap).filter (fun p => strStartsWith p ("/x" ++ "/")) with hdeleted
  have hNmem : (nN, N) ∈ s.noteMap := mem_of_lookupA hN
  have hMmem : (nM, M) ∈ s.noteMap := mem_of_lookupA hM
  have hNdel : N.folderPathname ∈ deleted := by
    rw [hNf, hdeleted]; exact List.mem_cons_self _ _
  have hMkeys : "/x/y" ∈ keysA s.folderMap := by
    have h1 := (hcons.1 (nM, M) hMmem hMt).1
    rw [hMf] at h1
    obtain ⟨f, hf, _⟩ := optHolds_oget2 h1
    exact mem_keysA_of_lookupA hf
  have hMdel : M.folderPathname ∈ deleted := by
    rw [hMf, hdeleted]
    refine List.mem_cons_of_mem _ (List.mem_filter.mpr ⟨hMkeys, ?_⟩)
    decide
  set aff := (s.noteMap.foldl (removeFolderStep deleted) ([], [])).1 with haff
  set modNotes := (s.noteMap.foldl (removeFolderStep deleted) ([], [])).2 with hmodNotes
  have hkeys : ∀ kv ∈ aff, (lookupA s.tagMap kv.1).isSome = true := by
    rw [haff]
    exact removeFolderStep_fst_keys_prop deleted _ s.noteMap ([], [])
      (fun kv hkv => by cases hkv)
      (fun kv hkv t ht => hclosure kv hkv t ht)
  have haffnd : NoDupKeys aff :=
    removeFolderStep_fst_nodup deleted s.noteMap ([], []) (by constructor)
  have hmodnd : NoDupKeys modNotes :=
    removeFolderStep_snd_nodup deleted s.noteMap ([], []) (by constructor)
  obtain ⟨mt, hmt, hmtnd, hmtskip, hmtset⟩ :=
    removeFolderTagStep_foldlM_spec s.tagMap aff [] hkeys
  have hmtnd' : NoDupKeys mt := hmtnd (by constructor)
  have hrun : removeFolder sm sid "/x" =
      (osetA sm sid
        { s with
            folderMap := deleted.foldl odelA s.folderMap
            noteMap := omergeA s.noteMap modNotes
            tagMap := omergeA s.tagMap mt
            db := s.db.removeFolder "/x" },
       .ok ()) := by
    unfold removeFolder
    rw [hs]
    simp only [← hdeleted, ← haff, ← hmodNotes, hmt]
  rw [hrun]
  refine ⟨rfl, ?_⟩
  refine ⟨_, by rw [lookupA_osetA, if_pos rfl], ?_, ?_, ?_, ?_, ?_, ?_, ?_⟩
  · -- N trashed in the note index
    show lookupA (omergeA s.noteMap modNotes) nN = _
    rw [lookupA_omergeA _ _ hmodnd]
    have : lookupA modNotes nN = some { N with trashed := true } := by
      rw [hmodNotes, removeFolderStep_snd_lookup deleted s.noteMap ([], []) nN hndNote rfl,
        hN]
      simp [hNdel]
    rw [this]
  · show lookupA (omergeA s.noteMap modNotes) nM = _
    rw [lookupA_omergeA _ _ hmodnd]
    have : lookupA modNotes nM = some { M with trashed := true } := by
      rw [hmodNotes, removeFolderStep_snd_lookup deleted s.noteMap ([], []) nM hndNote rfl,
        hM]
      simp [hMdel]
    rw [this]
  · show lookupA (deleted.foldl odelA s.folderMap) "/x" = none
    rw [lookupA_foldl_odelA]
    rw [if_pos (by rw [hdeleted]; exact List.mem_cons_self _ _)]
  · show lookupA (deleted.foldl odelA s.folderMap) "/x/y" = none
    rw [lookupA_foldl_odelA]
    rw [if_pos (by rw [← hMf]; exact hMdel)]
  · intro p hp
    show lookupA (deleted.foldl odelA s.folderMap) p = none
    rw [lookupA_foldl_odelA]
    by_cases hin : p ∈ deleted
    · rw [if_pos hin]
    · rw [if_neg hin]
      refine lookupA_eq_none_of_not_mem (fun hk => ?_)
      refine hin ?_
      rw [hdeleted]
      refine List.mem_cons_of_mem _ (List.mem_filter.mpr ⟨hk, ?_⟩)
      simpa using hp
  · -- N's tags lose nN
    intro t ht
    show OptHolds (lookupA (omergeA s.tagMap mt) t) _
    have hafft : OptHolds (lookupA aff t) (fun ids => nN ∈ ids) := by
      rw [haff]
      exact removeFolderStep_fst_mem deleted s.noteMap ([], []) nN N t hNmem hNdel ht
    cases hlaff : lookupA aff t with
    | none => rw [hlaff] at hafft; simp [OptHolds] at hafft
    | some ids =>
      rw [hlaff] at hafft
      have hsome := hclosure (nN, N) hNmem t ht
      cases htd : lookupA s.tagMap t with
      | none => rw [htd] at hsome; simp at hsome
      | some td =>
        have hmtt := hmtset haffnd t ids td hlaff htd
        rw [lookupA_omergeA _ _ hmtnd', hmtt]
        show nN ∉ (ids.foldl (fun s i => s.erase i) td.noteIdSet)
        rw [mem_foldl_erase]
        intro hcontra
        exact hcontra.2 hafft
  · intro t ht
    show OptHolds (lookupA (omergeA s.tagMap mt) t) _
    have hafft : OptHolds (lookupA aff t) (fun ids => nM ∈ ids) := by
      rw [haff]
      exact removeFolderStep_fst_mem deleted s.noteMap ([], []) nM M t hMmem hMdel ht
    cases hlaff : lookupA aff t with
    | none => rw [hlaff] at hafft; simp [OptHolds] at hafft
    | some ids =>
      rw [hlaff] at hafft
      have hsome := hclosure (nM, M) hMmem t ht
      cases htd : lookupA s.tagMap t with
      | none => rw [htd] at hsome; simp at hsome
      | some td =>
        have hmtt := hmtset haffnd t ids td hlaff htd
        rw [lookupA_omergeA _ _ hmtnd', hmtt]
        show nM ∉ (ids.foldl (fun s i => s.erase i) td.noteIdSet)
        rw [mem_foldl_erase]
        intro hcontra
        exact hcontra.2 hafft

def exC4NoteN : NoteDoc :=
  { _id := 0, title := "", content := "", data := "", tags := ["u"],
    folderPathname := "/x", trashed := false }

def exC4NoteM : NoteDoc :=
  { _id := 1, title := "", content := "", data := "", tags := ["v"],
    folderPathname := "/x/y", trashed := false }

def exC4Storage : NoteStorage :=
  { id := "S"
    noteMap := [(0, exC4NoteN), (1, exC4NoteM)]
    folderMap := [("/", some ⟨"/", ∅⟩), ("/x", some ⟨"/x", {0}⟩),
                  ("/x/y", some ⟨"/x/y", {1}⟩)]
    tagMap := [("u", ⟨"u", {0}⟩), ("v", ⟨"v", {1}⟩)]
    db := { notes := [(0, exC4NoteN), (1, exC4NoteM)],
            folders := ["/", "/x", "/x/y"], tags := ["u", "v"], nextId := 2 } }

def exC4Map : StorageMap := [("S", exC4Storage)]

theorem claim_C4_witness :
    (removeFolder exC4Map "S" "/x").2 = .ok () ∧
    ∃ s', lookupA (removeFolder exC4Map "S" "/x").1 "S" = some s' ∧
      lookupA s'.noteMap 0 = some { exC4NoteN with trashed := true } ∧
      lookupA s'.noteMap 1 = some { exC4NoteM with trashed := true } ∧
      lookupA s'.folderMap "/x" = none ∧
      lookupA s'.folderMap "/x/y" = none ∧
      (∀ p, strStartsWith p "/x/" = true → lookupA s'.folderMap p = none) ∧
      (∀ t ∈ exC4NoteN.tags, OptHolds (lookupA s'.tagMap t) (fun td => 0 ∉ td.noteIdSet)) ∧
      (∀ t ∈ exC4NoteM.tags, OptHolds (lookupA s'.tagMap t) (fun td => 1 ∉ td.noteIdSet)) :=
  claim_C4_remove_folder_cascade exC4Map "S" exC4Storage (by decide) (by decide)
    0 1 exC4NoteN exC4NoteM (by decide) (by decide) (by decide)
    (by decide) (by decide) (by decide)

/-! ## Characterizations of the shared snapshot-update folds -/

theorem Db.getTag_snd (db : Db) (t : String) : (db.getTag t).2 = t := by
  unfold Db.getTag
  split <;> rfl

theorem refreshTagFold_snd_lookup (tagMap : List (String × TagDoc))
    (hname : ∀ pt ∈ tagMap, pt.2.name = pt.1)
    (noteId : Nat) (tags : List String) (db0 : Db) (acc : List (String × TagDoc))
    (t : String) :
    lookupA (tags.foldl (refreshTagStep tagMap noteId) (db0, acc)).2 t =
      if t ∈ tags then
        some (match lookupA tagMap t with
          | some td => { td with noteIdSet := insert noteId td.noteIdSet }
          | none => { name := t, noteIdSet := {noteId} })
      else lookupA acc t := by
  induction tags generalizing db0 acc with
  | nil => simp
  | cons tg rest ih =>
    rw [List.foldl_cons]
    have hstep : ∃ db', refreshTagStep tagMap noteId (db0, acc) tg =
        (db', osetA acc tg (match lookupA tagMap tg with
          | some td => { td with noteIdSet := insert noteId td.noteIdSet }
          | none => { name := tg, noteIdSet := {noteId} })) := by
      unfold refreshTagStep
      cases htd : lookupA tagMap tg with
      | none =>
        refine ⟨(db0.getTag tg).1, ?_⟩
        show ((db0.getTag tg).1, osetA acc (db0.getTag tg).2
          { name := (db0.getTag tg).2, noteIdSet := {noteId} }) = _
        rw [Db.getTag_snd]
      | some td =>
        refine ⟨db0, ?_⟩
        have hn : td.name = tg := hname (tg, td) (mem_of_lookupA htd)
        show (db0, osetA acc td.name
          { name := td.name, noteIdSet := insert noteId td.noteIdSet }) =
          (db0, osetA acc tg
            { name := td.name, noteIdSet := insert noteId td.noteIdSet })
        rw [hn]
    obtain ⟨db', hdb'⟩ := hstep
    rw [hdb', ih]
    by_cases hmem : t ∈ rest
    · rw [if_pos hmem, if_pos (List.mem_cons_of_mem _ hmem)]
    · rw [if_neg hmem, lookupA_osetA]
      by_cases hteq : tg = t
      · subst hteq
        rw [if_pos rfl, if_pos (List.mem_cons_self _ _)]
      · rw [if_neg hteq, if_neg (by
          intro h
          rcases List.mem_cons.mp h with h | h
          · exact hteq h.symm
          · exact hmem h)]

theorem refreshTagFold_snd_nodup (tagMap : List (String × TagDoc)) (noteId : Nat)
    (tags : List String) (db0 : Db) (acc : List (String × TagDoc))
    (hacc : NoDupKeys acc) :
    NoDupKeys (tags.foldl (refreshTagStep tagMap noteId) (db0, acc)).2 := by
  induction tags generalizing db0 acc with
  | nil => exact hacc
  | cons tg rest ih =>
    rw [List.foldl_cons]
    unfold refreshTagStep
    cases htd : lookupA tagMap tg with
    | none => exact ih _ _ (nodupKeys_osetA hacc _ _)
    | some td => exact ih _ _ (nodupKeys_osetA hacc _ _)

theorem lookupA_refreshParentFolders (folderMap : List (String × Option FolderDoc))
    (ps : List String) (q : String) :
    lookupA (refreshParentFolders folderMap ps) q =
      if q ∈ ps then some (some { pathname := q, noteIdSet := (∅ : Finset Nat) })
      else lookupA folderMap q := by
  unfold refreshParentFolders
  induction ps generalizing folderMap with
  | nil => simp
  | cons p rest ih =>
    rw [List.foldl_cons, ih]
    by_cases hmem : q ∈ rest
    · rw [if_pos hmem, if_pos (List.mem_cons_of_mem _ hmem)]
    · rw [if_neg hmem, lookupA_osetA]
      by_cases hpq : p = q
      · subst hpq
        rw [if_pos rfl, if_pos (List.mem_cons_self _ _)]
      · rw [if_neg hpq, if_neg (by
          intro h
          rcases List.mem_cons.mp h with h | h
          · exact hpq h.symm
          · exact hmem h)]

theorem lookupA_map_pair {β : Type} (key : β → String) (val : β → Option FolderDoc)
    (l : List β) (q : String) :
    lookupA (l.map (fun b => (key b, val b))) q =
      (l.find? (fun b => decide (key b = q))).map val := by
  induction l with
  | nil => rfl
  | cons b rest ih =>
    rw [List.map_cons, List.find?_cons]
    by_cases hk : key b = q
    · simp only [lookupA, if_pos hk, hk, decide_True]
      rfl
    · simp only [lookupA, if_neg hk, hk, decide_False]
      exact ih

theorem lookupA_refreshFolders (folderMap : List (String × Option FolderDoc))
    (fs : List FolderDoc) (q : String) :
    lookupA (refreshFolders folderMap fs) q =
      match (fs.reverse.find? (fun f => decide (f.pathname = q))).map
          (fun f => some f) with
      | some v => some v
      | none => lookupA folderMap q := by
  unfold refreshFolders
  have hmap : fs.foldl (fun fm f => osetA fm f.pathname (some f)) folderMap =
      (fs.map (fun f => (f.pathname, some f))).foldl
        (fun mm kv => osetA mm kv.1 kv.2) folderMap := by
    rw [List.foldl_map]
  rw [hmap, lookupA_foldl_osetA, ← List.map_reverse,
    lookupA_map_pair (fun f => f.pathname) (fun f => some f)]
  cases (fs.reverse.find? (fun f => decide (f.pathname = q))) <;> rfl

theorem lookupA_map_pair_tag {β : Type} (key : β → String) (val : β → TagDoc)
    (l : List β) (q : String) :
    lookupA (l.map (fun b => (key b, val b))) q =
      (l.find? (fun b => decide (key b = q))).map val := by
  induction l with
  | nil => rfl
  | cons b rest ih =>
    rw [List.map_cons, List.find?_cons]
    by_cases hk : key b = q
    · simp only [lookupA, if_pos hk, hk, decide_True]
      rfl
    · simp only [lookupA, if_neg hk, hk, decide_False]
      exact ih

theorem lookupA_refreshTags (tagMap : List (String × TagDoc)) (ts : List TagDoc)
    (q : String) :
    lookupA (refreshTags tagMap ts) q =
      match (ts.reverse.find? (fun td => decide (td.name = q))) with
      | some td => some td
      | none => lookupA tagMap q := by
  unfold refreshTags
  have hmap : ts.foldl (fun tm td => osetA tm td.name td) tagMap =
      (ts.map (fun td => (td.name, td))).foldl
        (fun mm kv => osetA mm kv.1 kv.2) tagMap := by
    rw [List.foldl_map]
  rw [hmap, lookupA_foldl_osetA, ← List.map_reverse,
    lookupA_map_pair_tag (fun td => td.name) (fun td => td)]
  cases (ts.reverse.find? (fun td => decide (td.name = q))) <;> rfl

theorem lookupA_map_pair_note {β : Type} (key : β → Nat) (val : β → NoteDoc)
    (l : List β) (q : Nat) :
    lookupA (l.map (fun b => (key b, val b))) q =
      (l.find? (fun b => decide (key b = q))).map val := by
  induction l with
  | nil => rfl
  | cons b rest ih =>
    rw [List.map_cons, List.find?_cons]
    by_cases hk : key b = q
    · simp only [lookupA, if_pos hk, hk, decide_True]
      rfl
    · simp only [lookupA, if_neg hk, hk, decide_False]
      exact ih

theorem lookupA_refreshNotes (noteMap : List (Nat × NoteDoc)) (ns : List NoteDoc)
    (q : Nat) :
    lookupA (refreshNotes noteMap ns) q =
      match (ns.reverse.find? (fun n => decide (n._id = q))) with
      | some n => some n
      | none => lookupA noteMap q := by
  unfold refreshNotes
  have hmap : ns.foldl (fun m n => osetA m n._id n) noteMap =
      (ns.map (fun n => (n._id, n))).foldl
        (fun mm kv => osetA mm kv.1 kv.2) noteMap := by
    rw [List.foldl_map]
  rw [hmap, lookupA_foldl_osetA, ← List.map_reverse,
    lookupA_map_pair_note (fun n => n._id) (fun n => n)]
  cases (ns.reverse.find? (fun n => decide (n._id = q))) <;> rfl

theorem lookupA_createFolderInsertFold (pre : List (String × Option FolderDoc))
    (fm : List (String × Option FolderDoc)) (ps : List String) (q : String) :
    lookupA (ps.foldl (createFolderInsertStep pre) fm) q =
      if q ∈ ps ∧ (oget2 pre q).isNone = true then
        some (some { pathname := q, noteIdSet := (∅ : Finset Nat) })
      else lookupA fm q := by
  induction ps generalizing fm with
  | nil => simp
  | cons p rest ih =>
    rw [List.foldl_cons, ih]
    unfold createFolderInsertStep
    by_cases hmem : q ∈ rest ∧ (oget2 pre q).isNone = true
    · rw [if_pos hmem, if_pos ⟨List.mem_cons_of_mem _ hmem.1, hmem.2⟩]
    · rw [if_neg hmem]
      by_cases hpre : (oget2 pre p).isNone = true
      · rw [if_pos hpre, lookupA_osetA]
        by_cases hpq : p = q
        · subst hpq
          rw [if_pos rfl, if_pos ⟨List.mem_cons_self _ _, hpre⟩]
        · rw [if_neg hpq, if_neg (by
            rintro ⟨hin, hn⟩
            rcases List.mem_cons.mp hin with h | h
            · exact hpq h.symm
            · exact hmem ⟨h, hn⟩)]
      · rw [if_neg hpre, if_neg (by
          rintro ⟨hin, hn⟩
          rcases List.mem_cons.mp hin with h | h
          · subst h; exact hpre hn
          · exact hmem ⟨h, hn⟩)]

theorem lookupA_trashTagFold (tagMap : List (String × TagDoc)) (noteId : Nat)
    (tags : List String) (acc : List (String × TagDoc)) (t : String) :
    lookupA (tags.foldl (trashTagStep tagMap noteId) acc) t =
      match lookupA tagMap t with
      | some td => if t ∈ tags then
          some { td with noteIdSet := td.noteIdSet.erase noteId }
        else lookupA acc t
      | none => lookupA acc t := by
  induction tags generalizing acc with
  | nil => cases lookupA tagMap t <;> simp
  | cons tg rest ih =>
    rw [List.foldl_cons, ih]
    unfold trashTagStep
    cases htg : lookupA tagMap tg with
    | none =>
      cases htt : lookupA tagMap t with
      | none => rfl
      | some td =>
        by_cases hmem : t ∈ rest
        · simp [hmem, List.mem_cons]
        · have hne : ¬ t = tg := fun h => by subst h; rw [htg] at htt; cases htt
          simp [hmem, List.mem_cons, hne]
    | some tdg =>
      cases htt : lookupA tagMap t with
      | none =>
        have hne : ¬ tg = t := fun h => by subst h; rw [htg] at htt; cases htt
        simp [lookupA_osetA, hne]
      | some td =>
        by_cases hmem : t ∈ rest
        · simp [hmem, List.mem_cons]
        · by_cases hteq : tg = t
          · subst hteq
            rw [htg] at htt
            injection htt with hinj
            subst hinj
            simp [hmem, lookupA_osetA]
          · have hne : ¬ t = tg := fun h => hteq h.symm
            simp [hmem, List.mem_cons, hne, lookupA_osetA, hteq]

theorem trashTagFold_nodup (tagMap : List (String × TagDoc)) (noteId : Nat)
    (tags : List String) (acc : List (String × TagDoc)) (hacc : NoDupKeys acc) :
    NoDupKeys (tags.foldl (trashTagStep tagMap noteId) acc) := by
  induction tags generalizing acc with
  | nil => exact hacc
  | cons tg rest ih =>
    rw [List.foldl_cons]
    unfold trashTagStep
    cases htg : lookupA tagMap tg with
    | none => exact ih _ hacc
    | some td => exact ih _ (nodupKeys_osetA hacc _ _)

theorem eraseTagFold_spec (tagMap : List (String × TagDoc)) (noteId : Nat)
    (tags : List String) (acc : List (String × TagDoc))
    (hk : ∀ t ∈ tags, (lookupA tagMap t).isSome = true) :
    ∃ mt, tags.foldlM (eraseTagStep tagMap noteId) acc = Except.ok mt ∧
      (NoDupKeys acc → NoDupKeys mt) ∧
      ∀ t, lookupA mt t =
        match lookupA tagMap t with
        | some td => if t ∈ tags then
            some { td with noteIdSet := td.noteIdSet.erase noteId }
          else lookupA acc t
        | none => lookupA acc t := by
  induction tags generalizing acc with
  | nil =>
    refine ⟨acc, rfl, fun h => h, fun t => ?_⟩
    cases lookupA tagMap t <;> simp
  | cons tg rest ih =>
    have hk₀ := hk tg (List.mem_cons_self _ _)
    cases htg : lookupA tagMap tg with
    | none => rw [htg] at hk₀; simp at hk₀
    | some tdg =>
      have hstep : eraseTagStep tagMap noteId acc tg =
          Except.ok (osetA acc tg
            { tdg with noteIdSet := tdg.noteIdSet.erase noteId }) := by
        unfold eraseTagStep
        rw [htg]
      obtain ⟨mt, hmt, hnd, hspec⟩ := ih
        (osetA acc tg { tdg with noteIdSet := tdg.noteIdSet.erase noteId })
        (fun t ht => hk t (List.mem_cons_of_mem _ ht))
      refine ⟨mt, ?_, fun h => hnd (nodupKeys_osetA h _ _), fun t => ?_⟩
      · rw [List.foldlM_cons, hstep]
        simpa using hmt
      · rw [hspec t]
        cases htt : lookupA tagMap t with
        | none =>
          have hne : ¬ tg = t := fun h => by subst h; rw [htg] at htt; cases htt
          simp [lookupA_osetA, hne]
        | some td =>
          by_cases hmem : t ∈ rest
          · simp [hmem, List.mem_cons]
          · by_cases hteq : tg = t
            · subst hteq
              rw [htg] at htt
              injection htt with hinj
              subst hinj
              simp [hmem, lookupA_osetA]
            · have hne : ¬ t = tg := fun h => hteq h.symm
              simp [hmem, List.mem_cons, hne, lookupA_osetA, hteq]

/-! ## The create/purge round trip (claim C6) -/

theorem fresh_not_in_folderSet {s : NoteStorage} (hwf : WfStorage s)
    {p : String} {f : FolderDoc} (h : oget2 s.folderMap p = some f) :
    s.db.nextId ∉ f.noteIdSet := by
  obtain ⟨-, -, -, -, hcons, -, -, -, -, -, -, hfresh, -⟩ := hwf
  intro hmem
  unfold oget2 at h
  cases hl : lookupA s.folderMap p with
  | none => rw [hl] at h; cases h
  | some ov =>
    rw [hl] at h
    cases ov with
    | none => cases h
    | some f' =>
      have hf : f' = f := by simpa using h
      subst hf
      have hexact := hcons.2.2.1 (p, some f') (mem_of_lookupA hl)
      rw [optAll_some] at hexact
      have := hexact s.db.nextId hmem
      cases hln : lookupA s.noteMap s.db.nextId with
      | none => rw [hln] at this; exact this
      | some n =>
        have := hfresh (s.db.nextId, n) (mem_of_lookupA hln)
        exact absurd this (lt_irrefl _)

theorem fresh_not_in_tagSet {s : NoteStorage} (hwf : WfStorage s)
    {t : String} {td : TagDoc} (h : lookupA s.tagMap t = some td) :
    s.db.nextId ∉ td.noteIdSet := by
  obtain ⟨-, -, -, -, hcons, -, -, -, -, -, -, hfresh, -⟩ := hwf
  intro hmem
  have hexact := hcons.2.2.2 (t, td) (mem_of_lookupA h) s.db.nextId hmem
  cases hln : lookupA s.noteMap s.db.nextId with
  | none => rw [hln] at hexact; exact hexact
  | some n =>
    have := hfresh (s.db.nextId, n) (mem_of_lookupA hln)
    exact absurd this (lt_irrefl _)

/-- C6 (amended): `createNote` followed by `purgeNote` on the id it returned
restores the noteIdSet of every folder entry and every tag entry that existed
before the create; folder/tag entries freshly materialized by the create
survive the purge with empty noteIdSets (see the counterexample), so the maps
as a whole are not restored. -/
theorem claim_C6_amended (sm : StorageMap) (sid : String) (s : NoteStorage)
    (hs : lookupA sm sid = some s) (hwf : WfStorage s) (props : NoteProps)
    (hvalid : isFolderPathnameValid (props.folderPathname.getD "/") = true) :
    ∃ note sm1 sm2,
      createNote sm sid props = (sm1, .ok note) ∧
      purgeNote sm1 sid note._id = (sm2, .ok ()) ∧
      ∃ s2, lookupA sm2 sid = some s2 ∧
        (∀ p f, oget2 s.folderMap p = some f →
          ∃ f2, oget2 s2.folderMap p = some f2 ∧ f2.noteIdSet = f.noteIdSet) ∧
        (∀ t td, lookupA s.tagMap t = some td →
          ∃ td2, lookupA s2.tagMap t = some td2 ∧ td2.noteIdSet = td.noteIdSet) := by
  obtain ⟨hndNote, hndFolder, hndTag, hndDb, hcons, hclosure, htagname, hfoldname,
    hagree1, hagree2, hfolderdb, hfresh, hidkey⟩ := id hwf
  set nid := s.db.nextId with hnid
  set fp := props.folderPathname.getD "/" with hfp
  set note : NoteDoc :=
    { _id := nid, title := props.title.getD "", content := props.content.getD "",
      data := props.data.getD "", tags := props.tags.getD [],
      folderPathname := fp, trashed := false } with hnote
  have hdbc : s.db.createNote props =
      .ok ({ (s.db.materializeFolder fp) with
               notes := osetA s.db.notes nid note
               nextId := nid + 1 }, note) := by
    unfold Db.createNote
    simp only []
    rw [if_pos hvalid]
  -- the folder entry written for the note's pathname
  set folderVal : FolderDoc :=
    (match oget2 s.folderMap fp with
      | none => { pathname := fp, noteIdSet := {nid} }
      | some f => { f with noteIdSet := insert nid f.noteIdSet }) with hfolderVal
  set db1 : Db := { (s.db.materializeFolder fp) with
      notes := osetA s.db.notes nid note
      nextId := nid + 1 } with hdb1
  set parentsRefresh : List String :=
    db1.getFoldersByPathnames
      ((getAllParentFolderPathnames fp).filter
        (fun p => (oget2 s.folderMap p).isNone)) with hparents
  set tagStep := note.tags.foldl (refreshTagStep s.tagMap nid) (db1, []) with htagStep
  set s1 : NoteStorage :=
    { s with
        noteMap := osetA s.noteMap nid note
        folderMap := osetA (refreshParentFolders s.folderMap parentsRefresh)
          fp (some folderVal)
        tagMap := omergeA s.tagMap tagStep.2
        db := tagStep.1 } with hs1
  have hrun1 : createNote sm sid props = (osetA sm sid s1, .ok note) := by
    unfold createNote
    simp only [hs, hdbc]
  -- s1's lookup characterizations
  have hs1note : lookupA s1.noteMap nid = some note := by
    rw [hs1]
    show lookupA (osetA s.noteMap nid note) nid = some note
    rw [lookupA_osetA, if_pos rfl]
  have hs1tag : ∀ t, lookupA s1.tagMap t =
      if t ∈ note.tags then
        some (match lookupA s.tagMap t with
          | some td => { td with noteIdSet := insert nid td.noteIdSet }
          | none => { name := t, noteIdSet := {nid} })
      else lookupA s.tagMap t := by
    intro t
    rw [hs1]
    show lookupA (omergeA s.tagMap tagStep.2) t = _
    rw [lookupA_omergeA _ _ (by
      rw [htagStep]
      exact refreshTagFold_snd_nodup s.tagMap nid note.tags db1 [] (by constructor))]
    rw [htagStep]
    rw [refreshTagFold_snd_lookup s.tagMap htagname nid note.tags db1 [] t]
    by_cases hmem : t ∈ note.tags
    · rw [if_pos hmem, if_pos hmem]
    · rw [if_neg hmem, if_neg hmem]
      rfl
  have hs1folder : oget2 s1.folderMap fp = some folderVal := by
    rw [hs1]
    show oget2 (osetA (refreshParentFolders s.folderMap parentsRefresh)
      fp (some folderVal)) fp = some folderVal
    unfold oget2
    rw [lookupA_osetA, if_pos rfl]
    rfl
  have hs1folder' : ∀ p, p ≠ fp → oget2 s.folderMap p ≠ none →
      lookupA s1.folderMap p = lookupA s.folderMap p := by
    intro p hne hpre
    rw [hs1]
    show lookupA (osetA (refreshParentFolders s.folderMap parentsRefresh)
      fp (some folderVal)) p = _
    rw [lookupA_osetA, if_neg (fun h => hne h.symm),
      lookupA_refreshParentFolders]
    rw [if_neg (fun hmem => ?_)]
    have hsub : p ∈ (getAllParentFolderPathnames fp).filter
        (fun p => (oget2 s.folderMap p).isNone) := by
      rw [hparents] at hmem
      exact List.mem_of_mem_filter hmem
    have := (List.mem_filter.mp hsub).2
    simp only [Option.isNone_iff_eq_none, decide_eq_true_eq] at this
    exact hpre this
  -- every tag on the new note has an entry in s1's tagMap
  have hs1tagk : ∀ t ∈ note.tags, (lookupA s1.tagMap t).isSome = true := by
    intro t ht
    rw [hs1tag t, if_pos ht]
    rfl
  obtain ⟨mt, hmtrun, hmtnodup, hmtlook⟩ :=
    eraseTagFold_spec s1.tagMap nid note.tags [] hs1tagk
  have hmtnd : NoDupKeys mt := hmtnodup (by constructor)
  set sm1 := osetA sm sid s1 with hsm1
  have hsm1s : lookupA sm1 sid = some s1 := by
    rw [hsm1, lookupA_osetA, if_pos rfl]
  set folder2 : FolderDoc :=
    { folderVal with noteIdSet := folderVal.noteIdSet.erase nid } with hfolder2
  set s2 : NoteStorage :=
    { s1 with
        noteMap := odelA s1.noteMap nid
        folderMap := osetA s1.folderMap fp (some folder2)
        tagMap := omergeA s1.tagMap mt
        db := s1.db.purgeNote nid } with hs2
  have hnfp : note.folderPathname = fp := rfl
  have hnid2 : note._id = nid := rfl
  have hrun2 : purgeNote sm1 sid nid = (osetA sm1 sid s2, .ok ()) := by
    unfold purgeNote
    simp only [hsm1s, hs1note, hnfp, hnid2, hs1folder, hmtrun]
  refine ⟨note, sm1, osetA sm1 sid s2, hrun1, hrun2, s2, ?_, ?_, ?_⟩
  · rw [lookupA_osetA, if_pos rfl]
  · -- folder entries that existed before the create keep their noteIdSet
    intro p f hpf
    have hfreshF : nid ∉ f.noteIdSet := by
      rw [hnid]; exact fresh_not_in_folderSet hwf hpf
    by_cases hp : p = fp
    · subst hp
      refine ⟨folder2, ?_, ?_⟩
      · show oget2 (osetA s1.folderMap fp (some folder2)) fp = some folder2
        unfold oget2
        rw [lookupA_osetA, if_pos rfl]
        rfl
      · rw [hfolder2]
        show folderVal.noteIdSet.erase nid = f.noteIdSet
        have hval : folderVal = { f with noteIdSet := insert nid f.noteIdSet } := by
          rw [hfolderVal, hpf]
        rw [hval]
        exact Finset.erase_insert hfreshF
    · refine ⟨f, ?_, rfl⟩
      have hpre : oget2 s.folderMap p ≠ none := by
        rw [hpf]; exact Option.some_ne_none f
      show oget2 (osetA s1.folderMap fp (some folder2)) p = some f
      unfold oget2
      rw [lookupA_osetA, if_neg (fun h => hp h.symm), hs1folder' p hp hpre]
      exact hpf
  · -- tag entries that existed before the create keep their noteIdSet
    intro t td htd
    have hfreshT : nid ∉ td.noteIdSet := by
      rw [hnid]; exact fresh_not_in_tagSet hwf htd
    show ∃ td2, lookupA (omergeA s1.tagMap mt) t = some td2 ∧
      td2.noteIdSet = td.noteIdSet
    rw [lookupA_omergeA _ _ hmtnd, hmtlook t]
    by_cases ht : t ∈ note.tags
    · have hlk : lookupA s1.tagMap t =
          some { td with noteIdSet := insert nid td.noteIdSet } := by
        rw [hs1tag t, if_pos ht, htd]
      rw [hlk]
      simp only [if_pos ht]
      exact ⟨_, rfl, Finset.erase_insert hfreshT⟩
    · have hlk : lookupA s1.tagMap t = some td := by
        rw [hs1tag t, if_neg ht]
        exact htd
      rw [hlk]
      simp only [if_neg ht]
      exact ⟨td, rfl, rfl⟩

/-- Witness: the amended C6 theorem applied at a concrete storage. -/
theorem claim_C6_witness :
    ∃ note sm1 sm2,
      createNote exRoundtripMap "S"
        { folderPathname := some "/new", tags := some ["t0"] } = (sm1, .ok note) ∧
      purgeNote sm1 "S" note._id = (sm2, .ok ()) ∧
      ∃ s2, lookupA sm2 "S" = some s2 ∧
        (∀ p f, oget2 [("/", some (⟨"/", ∅⟩ : FolderDoc))] p = some f →
          ∃ f2, oget2 s2.folderMap p = some f2 ∧ f2.noteIdSet = f.noteIdSet) ∧
        (∀ t td, lookupA ([] : List (String × TagDoc)) t = some td →
          ∃ td2, lookupA s2.tagMap t = some td2 ∧ td2.noteIdSet = td.noteIdSet) :=
  claim_C6_amended exRoundtripMap "S"
    { id := "S", noteMap := [], folderMap := [("/", some ⟨"/", ∅⟩)], tagMap := [],
      db := { notes := [], folders := ["/"], tags := [], nextId := 0 } }
    (by decide) (by decide)
    { folderPathname := some "/new", tags := some ["t0"] }
    (by decide)

/-! ## Folder-map definedness (claim C10) -/

theorem mem_odelA {κ α : Type} [DecidableEq κ] {m : List (κ × α)} {k : κ}
    {kv : κ × α} (h : kv ∈ odelA m k) : kv ∈ m := by
  induction m with
  | nil => exact h
  | cons a rest ih =>
    obtain ⟨k1, v1⟩ := a
    by_cases hk : k1 = k
    · rw [odelA, if_pos hk] at h
      exact List.mem_cons_of_mem _ (ih h)
    · rw [odelA, if_neg hk] at h
      rcases List.mem_cons.mp h with h1 | h1
      · exact List.mem_cons.mpr (Or.inl h1)
      · exact List.mem_cons_of_mem _ (ih h1)

theorem allSome_osetA {m : List (String × Option FolderDoc)} {k : String}
    {v : Option FolderDoc} (hm : ∀ pf ∈ m, pf.2.isSome = true)
    (hv : v.isSome = true) : ∀ pf ∈ osetA m k v, pf.2.isSome = true := by
  intro pf hpf
  rcases mem_osetA hpf with h | h
  · rw [h]; exact hv
  · exact hm pf h

theorem allSome_odelA {m : List (String × Option FolderDoc)} {k : String}
    (hm : ∀ pf ∈ m, pf.2.isSome = true) :
    ∀ pf ∈ odelA m k, pf.2.isSome = true :=
  fun pf hpf => hm pf (mem_odelA hpf)

theorem allSome_foldl_odelA (ks : List String)
    (m : List (String × Option FolderDoc))
    (hm : ∀ pf ∈ m, pf.2.isSome = true) :
    ∀ pf ∈ ks.foldl odelA m, pf.2.isSome = true := by
  induction ks generalizing m with
  | nil => exact hm
  | cons k rest ih => exact ih _ (allSome_odelA hm)

theorem allSome_refreshParentFolders (m : List (String × Option FolderDoc))
    (ps : List String) (hm : ∀ pf ∈ m, pf.2.isSome = true) :
    ∀ pf ∈ refreshParentFolders m ps, pf.2.isSome = true := by
  unfold refreshParentFolders
  induction ps generalizing m with
  | nil => exact hm
  | cons p rest ih => exact ih _ (allSome_osetA hm rfl)

theorem allSome_refreshFolders (m : List (String × Option FolderDoc))
    (fs : List FolderDoc) (hm : ∀ pf ∈ m, pf.2.isSome = true) :
    ∀ pf ∈ refreshFolders m fs, pf.2.isSome = true := by
  unfold refreshFolders
  induction fs generalizing m with
  | nil => exact hm
  | cons f rest ih => exact ih _ (allSome_osetA hm rfl)

theorem allSome_createFolderFold (pre : List (String × Option FolderDoc))
    (ps : List String) (m : List (String × Option FolderDoc))
    (hm : ∀ pf ∈ m, pf.2.isSome = true) :
    ∀ pf ∈ ps.foldl (createFolderInsertStep pre) m, pf.2.isSome = true := by
  induction ps generalizing m with
  | nil => exact hm
  | cons p rest ih =>
    refine ih _ ?_
    unfold createFolderInsertStep
    by_cases hp : (oget2 pre p).isNone
    · rw [if_pos hp]
      exact allSome_osetA hm rfl
    · rw [if_neg hp]
      exact hm

theorem folderMapDefined_osetA {sm : StorageMap} {sid : String} {st : NoteStorage}
    (hdef : FolderMapDefined sm) (hst : ∀ pf ∈ st.folderMap, pf.2.isSome = true) :
    FolderMapDefined (osetA sm sid st) := by
  intro kv hkv
  rcases mem_osetA hkv with h | h
  · rw [h]; exact hst
  · exact hdef kv h

theorem folderMapDefined_lookup {sm : StorageMap} (hdef : FolderMapDefined sm)
    {sid : String} {st : NoteStorage} (h : lookupA sm sid = some st) :
    ∀ pf ∈ st.folderMap, pf.2.isSome = true :=
  hdef (sid, st) (mem_of_lookupA h)

theorem folderMapDefined_createNote (sm : StorageMap) (sid : String)
    (props : NoteProps) (hdef : FolderMapDefined sm) :
    FolderMapDefined (createNote sm sid props).1 := by
  unfold createNote
  cases hls : lookupA sm sid with
  | none => exact hdef
  | some storage =>
    dsimp only
    cases hdbc : storage.db.createNote props with
    | error e => exact hdef
    | ok pr =>
      obtain ⟨db1, noteDoc⟩ := pr
      exact folderMapDefined_osetA hdef
        (allSome_osetA
          (allSome_refreshParentFolders _ _ (folderMapDefined_lookup hdef hls)) rfl)

theorem folderMapDefined_updateNote (sm : StorageMap) (sid : String)
    (nid : Nat) (props : NoteProps) (hdef : FolderMapDefined sm) :
    FolderMapDefined (updateNote sm sid nid props).1 := by
  unfold updateNote
  cases hls : lookupA sm sid with
  | none => exact hdef
  | some storage =>
    dsimp only
    cases hdbc : storage.db.updateNote nid props with
    | error e => exact hdef
    | ok pr =>
      obtain ⟨db1, r⟩ := pr
      cases r with
      | none => exact folderMapDefined_osetA hdef (fun pf hpf => folderMapDefined_lookup hdef hls pf hpf)
      | some noteDoc =>
        dsimp only
        cases hln : lookupA storage.noteMap noteDoc._id with
        | none => exact folderMapDefined_osetA hdef (fun pf hpf => folderMapDefined_lookup hdef hls pf hpf)
        | some mapNote =>
          dsimp only
          cases hfold : ((mapNote.tags.filter
              (fun t => decide (t ∉ noteDoc.tags))).dedup).foldlM
              (eraseTagStep storage.tagMap noteDoc._id)
              ([] : List (String × TagDoc)) with
          | error e => exact folderMapDefined_osetA hdef (fun pf hpf => folderMapDefined_lookup hdef hls pf hpf)
          | ok removedTags =>
            exact folderMapDefined_osetA hdef
              (allSome_refreshFolders _ _ (folderMapDefined_lookup hdef hls))

theorem folderMapDefined_trashNote (sm : StorageMap) (sid : String)
    (nid : Nat) (hdef : FolderMapDefined sm)
    (hok : ∀ storage noteDoc, lookupA sm sid = some storage →
      (storage.db.trashNote nid).2 = some noteDoc →
      (oget2 storage.folderMap noteDoc.folderPathname).isSome = true) :
    FolderMapDefined (trashNote sm sid nid).1 := by
  unfold trashNote
  cases hls : lookupA sm sid with
  | none => exact hdef
  | some storage =>
    dsimp only
    cases hts : (storage.db.trashNote nid).2 with
    | none => exact folderMapDefined_osetA hdef (fun pf hpf => folderMapDefined_lookup hdef hls pf hpf)
    | some noteDoc =>
      have hfs := hok storage noteDoc hls hts
      dsimp only
      cases hofg : oget2 storage.folderMap noteDoc.folderPathname with
      | none => rw [hofg] at hfs; cases hfs
      | some f =>
        exact folderMapDefined_osetA hdef
          (allSome_osetA (folderMapDefined_lookup hdef hls) rfl)

theorem folderMapDefined_untrashNote (sm : StorageMap) (sid : String)
    (nid : Nat) (hdef : FolderMapDefined sm) :
    FolderMapDefined (untrashNote sm sid nid).1 := by
  unfold untrashNote
  cases hls : lookupA sm sid with
  | none => exact hdef
  | some storage =>
    dsimp only
    cases hts : (storage.db.untrashNote nid).2 with
    | none => exact folderMapDefined_osetA hdef (fun pf hpf => folderMapDefined_lookup hdef hls pf hpf)
    | some noteDoc =>
      exact folderMapDefined_osetA hdef
        (allSome_osetA (folderMapDefined_lookup hdef hls) rfl)

theorem folderMapDefined_purgeNote (sm : StorageMap) (sid : String)
    (nid : Nat) (hdef : FolderMapDefined sm) :
    FolderMapDefined (purgeNote sm sid nid).1 := by
  unfold purgeNote
  cases hls : lookupA sm sid with
  | none => exact hdef
  | some storage =>
    dsimp only
    cases hln : lookupA storage.noteMap nid with
    | none => exact folderMapDefined_osetA hdef (fun pf hpf => folderMapDefined_lookup hdef hls pf hpf)
    | some noteDoc =>
      dsimp only
      cases hofg : oget2 storage.folderMap noteDoc.folderPathname with
      | none => exact folderMapDefined_osetA hdef (fun pf hpf => folderMapDefined_lookup hdef hls pf hpf)
      | some f =>
        dsimp only
        cases hfold : noteDoc.tags.foldlM (eraseTagStep storage.tagMap noteDoc._id)
            ([] : List (String × TagDoc)) with
        | error e => exact folderMapDefined_osetA hdef (fun pf hpf => folderMapDefined_lookup hdef hls pf hpf)
        | ok modifiedTags =>
          exact folderMapDefined_osetA hdef
            (allSome_osetA (folderMapDefined_lookup hdef hls) rfl)

theorem folderMapDefined_createFolder (sm : StorageMap) (sid : String)
    (pathname : String) (hdef : FolderMapDefined sm) :
    FolderMapDefined (createFolder sm sid pathname).1 := by
  unfold createFolder
  cases hls : lookupA sm sid with
  | none => exact hdef
  | some storage =>
    dsimp only
    cases hdbc : storage.db.createFolder pathname with
    | error e => exact hdef
    | ok pr =>
      obtain ⟨db1, folderPathname⟩ := pr
      exact folderMapDefined_osetA hdef
        (allSome_createFolderFold _ _ _ (folderMapDefined_lookup hdef hls))

theorem folderMapDefined_renameFolder (sm : StorageMap) (sid : String)
    (pathname newPathname : String) (hdef : FolderMapDefined sm) :
    FolderMapDefined (renameFolder sm sid pathname newPathname).1 := by
  unfold renameFolder
  cases hls : lookupA sm sid with
  | none => exact hdef
  | some storage =>
    dsimp only
    by_cases hv1 : isFolderPathnameValid pathname
    · rw [if_neg (by simpa using hv1)]
      by_cases hv2 : isFolderPathnameValid newPathname
      · rw [if_neg (by simpa using hv2)]
        cases hfold : (pathname :: (keysA storage.folderMap).filter
            (fun p => strStartsWith p (pathname ++ "/"))).foldlM
            (renameOneFolder pathname newPathname)
            { db := storage.db, folderListToRefresh := [],
              notesListToRefresh := [] } with
        | error pr =>
          obtain ⟨dbE, e⟩ := pr
          exact folderMapDefined_osetA hdef (fun pf hpf => folderMapDefined_lookup hdef hls pf hpf)
        | ok acc =>
          exact folderMapDefined_osetA hdef
            (allSome_foldl_odelA _ _
              (allSome_refreshFolders _ _ (folderMapDefined_lookup hdef hls)))
      · rw [if_pos (by simpa using hv2)]
        exact hdef
    · rw [if_pos (by simpa using hv1)]
      exact hdef

theorem folderMapDefined_removeFolder (sm : StorageMap) (sid : String)
    (pathname : String) (hdef : FolderMapDefined sm) :
    FolderMapDefined (removeFolder sm sid pathname).1 := by
  unfold removeFolder
  cases hls : lookupA sm sid with
  | none => exact hdef
  | some storage =>
    dsimp only
    cases hfold : ((storage.noteMap.foldl
        (removeFolderStep (pathname :: (keysA storage.folderMap).filter
          (fun p => strStartsWith p (pathname ++ "/")))) ([], [])).1).foldlM
        (removeFolderTagStep storage.tagMap) ([] : List (String × TagDoc)) with
    | error e => exact folderMapDefined_osetA hdef (fun pf hpf => folderMapDefined_lookup hdef hls pf hpf)
    | ok modifiedTags =>
      exact folderMapDefined_osetA hdef
        (allSome_foldl_odelA _ _ (folderMapDefined_lookup hdef hls))

theorem folderMapDefined_removeTag (sm : StorageMap) (sid : String)
    (tag : String) (hdef : FolderMapDefined sm) :
    FolderMapDefined (removeTag sm sid tag).1 := by
  unfold removeTag
  cases hls : lookupA sm sid with
  | none => exact hdef
  | some storage =>
    exact folderMapDefined_osetA hdef (fun pf hpf => folderMapDefined_lookup hdef hls pf hpf)

theorem folderMapDefined_moveNote (sm : StorageMap) (o : String) (nid : Nat)
    (t : String) (p : String) (hdef : FolderMapDefined sm) :
    FolderMapDefined (moveNoteToOtherStorage sm o nid t p).1 := by
  unfold moveNoteToOtherStorage
  cases hlo : lookupA sm o with
  | none => exact hdef
  | some os =>
    dsimp only
    cases hlt : lookupA sm t with
    | none => exact hdef
    | some ts =>
      dsimp only
      cases hgn : os.db.getNote nid with
      | none => exact hdef
      | some onote =>
        dsimp only
        cases hcn : ts.db.createNote
            { title := some onote.title, content := some onote.content,
              tags := some onote.tags, data := some onote.data,
              folderPathname := some p } with
        | error e => exact hdef
        | ok pr =>
          obtain ⟨tdb1, newNote⟩ := pr
          dsimp only
          cases hmf : oget2 os.folderMap onote.folderPathname with
          | none =>
            have hR : ∀ pf ∈ os.folderMap, pf.2.isSome = true :=
              folderMapDefined_lookup hdef hlo
            dsimp only [Option.map]
            split
            · exact folderMapDefined_osetA hdef (fun pf hpf => hR pf hpf)
            · rename_i tcur heq
              refine folderMapDefined_osetA ?h1 (fun pf hpf =>
                allSome_refreshFolders _ _
                  (folderMapDefined_lookup ?h1 heq) pf hpf)
              exact folderMapDefined_osetA hdef (fun pf hpf => hR pf hpf)
          | some f =>
            have hR : ∀ pf ∈ osetA os.folderMap f.pathname
                (some { pathname := f.pathname,
                        noteIdSet := f.noteIdSet.erase onote._id }),
                pf.2.isSome = true :=
              allSome_osetA (folderMapDefined_lookup hdef hlo) rfl
            dsimp only [Option.map]
            split
            · exact folderMapDefined_osetA hdef (fun pf hpf => hR pf hpf)
            · rename_i tcur heq
              refine folderMapDefined_osetA ?h2 (fun pf hpf =>
                allSome_refreshFolders _ _
                  (folderMapDefined_lookup ?h2 heq) pf hpf)
              exact folderMapDefined_osetA hdef (fun pf hpf => hR pf hpf)

/-- C10 (amended): after every registry operation other than a `trashNote`
call whose trashed note's folder pathname has no folder-map entry, every key
present in every storage's folderMap is bound to a defined folder document
(pathname and noteIdSet present); the excluded `trashNote` case binds the key
to undefined, as the counterexample shows. -/
theorem claim_C10_amended (sm : StorageMap) (op : RegOp)
    (hdef : FolderMapDefined sm)
    (hok : ∀ sid nid storage noteDoc, op = RegOp.trashNoteOp sid nid →
      lookupA sm sid = some storage →
      (storage.db.trashNote nid).2 = some noteDoc →
      (oget2 storage.folderMap noteDoc.folderPathname).isSome = true) :
    FolderMapDefined (applyOp sm op) := by
  cases op with
  | createNoteOp sid props => exact folderMapDefined_createNote sm sid props hdef
  | updateNoteOp sid nid props =>
      exact folderMapDefined_updateNote sm sid nid props hdef
  | trashNoteOp sid nid =>
      exact folderMapDefined_trashNote sm sid nid hdef
        (fun storage noteDoc hs ht => hok sid nid storage noteDoc rfl hs ht)
  | untrashNoteOp sid nid => exact folderMapDefined_untrashNote sm sid nid hdef
  | purgeNoteOp sid nid => exact folderMapDefined_purgeNote sm sid nid hdef
  | createFolderOp sid p => exact folderMapDefined_createFolder sm sid p hdef
  | renameFolderOp sid p q =>
      exact folderMapDefined_renameFolder sm sid p q hdef
  | removeFolderOp sid p => exact folderMapDefined_removeFolder sm sid p hdef
  | removeTagOp sid t => exact folderMapDefined_removeTag sm sid t hdef
  | moveNoteOp o nid t p => exact folderMapDefined_moveNote sm o nid t p hdef

/-- Witness: the amended C10 theorem applied at a concrete storage and op. -/
theorem claim_C10_witness :
    FolderMapDefined (applyOp exRoundtripMap (RegOp.trashNoteOp "S" 0)) :=
  claim_C10_amended exRoundtripMap (RegOp.trashNoteOp "S" 0) (by decide)
    (by
      intro sid nid storage noteDoc heq hs ht
      injection heq with e1 e2
      subst e1
      subst e2
      rw [show lookupA exRoundtripMap "S" =
        some { id := "S", noteMap := [], folderMap := [("/", some ⟨"/", ∅⟩)],
               tagMap := [],
               db := { notes := [], folders := ["/"], tags := [], nextId := 0 } }
        from rfl] at hs
      injection hs with e3
      subst e3
      exact Option.noConfusion
        (show (none : Option NoteDoc) = some noteDoc from ht))

/-! ## Consistency preservation (claim C1) -/

theorem wfStorage_of_lookup {sm : StorageMap} (hwf : WfStorageMap sm)
    {sid : String} {st : NoteStorage} (h : lookupA sm sid = some st) :
    WfStorage st :=
  (hwf.2 (sid, st) (mem_of_lookupA h)).2

theorem consistent_of_mem {sm : StorageMap} (hwf : WfStorageMap sm)
    {kv : String × NoteStorage} (h : kv ∈ sm) : ConsistentStorage kv.2 :=
  ((hwf.2 kv h).2).2.2.2.2.1

theorem consistent_result_osetA {sm : StorageMap} {sid : String}
    {st : NoteStorage} (hwf : WfStorageMap sm) (hst : ConsistentStorage st) :
    ∀ kv ∈ osetA sm sid st, ConsistentStorage kv.2 := by
  intro kv h
  rcases mem_osetA h with heq | hm
  · rw [heq]; exact hst
  · exact consistent_of_mem hwf hm

theorem mem_odelA_ne {κ α : Type} [DecidableEq κ] {m : List (κ × α)} {k : κ}
    {kv : κ × α} (h : kv ∈ odelA m k) : kv.1 ≠ k := by
  induction m with
  | nil => exact absurd h (List.not_mem_nil kv)
  | cons a rest ih =>
    obtain ⟨k1, v1⟩ := a
    by_cases hk : k1 = k
    · rw [odelA, if_pos hk] at h
      exact ih h
    · rw [odelA, if_neg hk] at h
      rcases List.mem_cons.mp h with h1 | h1
      · rw [h1]; exact hk
      · exact ih h1

theorem nodupKeys_omergeA {κ α : Type} [DecidableEq κ]
    {a : List (κ × α)} (b : List (κ × α)) (ha : NoDupKeys a) :
    NoDupKeys (omergeA a b) := by
  unfold omergeA
  exact nodupKeys_foldl_osetA b Prod.fst Prod.snd a ha

theorem mem_omergeA {κ α : Type} [DecidableEq κ] {a b : List (κ × α)}
    {kv : κ × α} (h : kv ∈ omergeA a b) : kv ∈ a ∨ kv ∈ b := by
  unfold omergeA at h
  induction b generalizing a with
  | nil => exact Or.inl h
  | cons x rest ih =>
    rw [List.foldl_cons] at h
    rcases ih h with h1 | h1
    · rcases mem_osetA h1 with h2 | h2
      · right
        rw [h2]
        exact List.mem_cons_self x rest
      · exact Or.inl h2
    · exact Or.inr (List.mem_cons_of_mem x h1)

theorem stripTagFold_nodup (tag : String) (l acc : List (Nat × NoteDoc))
    (hacc : NoDupKeys acc) : NoDupKeys (l.foldl (stripTagStep tag) acc) := by
  induction l generalizing acc with
  | nil => exact hacc
  | cons kv rest ih =>
    rw [List.foldl_cons]
    refine ih _ ?_
    unfold stripTagStep
    by_cases ht : tag ∈ kv.2.tags
    · rw [if_pos ht]
      exact nodupKeys_osetA hacc _ _
    · rw [if_neg ht]
      exact hacc

theorem stripTagFold_lookup (tag : String) (l acc : List (Nat × NoteDoc))
    (hnd : NoDupKeys l) (i : Nat) :
    lookupA (l.foldl (stripTagStep tag) acc) i =
      match lookupA l i with
      | some n => if tag ∈ n.tags
          then some { n with tags := n.tags.filter (fun t => decide (t ≠ tag)) }
          else lookupA acc i
      | none => lookupA acc i := by
  induction l generalizing acc with
  | nil => rfl
  | cons kv rest ih =>
    have hnd' : NoDupKeys rest := by
      have := hnd
      unfold NoDupKeys at this ⊢
      rw [List.map_cons, List.nodup_cons] at this
      exact this.2
    have hkey : kv.1 ∉ keysA rest := by
      have := hnd
      unfold NoDupKeys at this
      rw [List.map_cons, List.nodup_cons] at this
      exact this.1
    rw [List.foldl_cons, ih _ hnd']
    by_cases hk : kv.1 = i
    · subst hk
      have hrest : lookupA rest kv.1 = none := lookupA_eq_none_of_not_mem hkey
      have hcons : lookupA (kv :: rest) kv.1 = some kv.2 := by
        show (if kv.1 = kv.1 then some kv.2 else lookupA rest kv.1) = some kv.2
        rw [if_pos rfl]
      rw [hrest, hcons]
      show lookupA (stripTagStep tag acc kv) kv.1 =
        if tag ∈ kv.2.tags
        then some { kv.2 with tags := kv.2.tags.filter (fun t => decide (t ≠ tag)) }
        else lookupA acc kv.1
      unfold stripTagStep
      by_cases ht : tag ∈ kv.2.tags
      · rw [if_pos ht, if_pos ht, lookupA_osetA, if_pos rfl]
      · rw [if_neg ht, if_neg ht]
    · have hcons : lookupA (kv :: rest) i = lookupA rest i := by
        show (if kv.1 = i then some kv.2 else lookupA rest i) = lookupA rest i
        rw [if_neg hk]
      rw [hcons]
      have hstep : lookupA (stripTagStep tag acc kv) i = lookupA acc i := by
        unfold stripTagStep
        by_cases ht : tag ∈ kv.2.tags
        · rw [if_pos ht, lookupA_osetA, if_neg hk]
        · rw [if_neg ht]
      cases hp : lookupA rest i with
      | none =>
        show lookupA (stripTagStep tag acc kv) i = lookupA acc i
        exact hstep
      | some n =>
        show (if tag ∈ n.tags
            then some { n with tags := n.tags.filter (fun t => decide (t ≠ tag)) }
            else lookupA (stripTagStep tag acc kv) i) =
          (if tag ∈ n.tags
            then some { n with tags := n.tags.filter (fun t => decide (t ≠ tag)) }
            else lookupA acc i)
        by_cases ht : tag ∈ n.tags
        · rw [if_pos ht, if_pos ht]
        · rw [if_neg ht, if_neg ht]
          exact hstep

theorem consistent_removeTag (sm : StorageMap) (sid tag : String)
    (hwf : WfStorageMap sm) :
    ∀ kv ∈ (removeTag sm sid tag).1, ConsistentStorage kv.2 := by
  unfold removeTag
  cases hls : lookupA sm sid with
  | none => exact fun kv h => consistent_of_mem hwf h
  | some storage =>
    dsimp only
    refine consistent_result_osetA hwf ?_
    obtain ⟨hndN, hndF, hndT, hndDb, hcons, hclosure, htagname, hfoldname,
      hag1, hag2, hfdb, hfresh, hidkey⟩ := wfStorage_of_lookup hwf hls
    obtain ⟨hc1, hc2, hc3, hc4⟩ := hcons
    have hmodnd : NoDupKeys (storage.noteMap.foldl (stripTagStep tag) []) :=
      stripTagFold_nodup tag _ _ (by constructor)
    have hndNM' : NoDupKeys (omergeA storage.noteMap
        (storage.noteMap.foldl (stripTagStep tag) [])) :=
      nodupKeys_omergeA _ hndN
    have hnm : ∀ i, lookupA (omergeA storage.noteMap
        (storage.noteMap.foldl (stripTagStep tag) [])) i =
        match lookupA storage.noteMap i with
        | some n => some (if tag ∈ n.tags
            then { n with tags := n.tags.filter (fun t => decide (t ≠ tag)) }
            else n)
        | none => none := by
      intro i
      rw [lookupA_omergeA _ _ hmodnd, stripTagFold_lookup tag _ _ hndN i]
      cases hp : lookupA storage.noteMap i with
      | none => simp only [hp, lookupA]
      | some n =>
        simp only [hp]
        by_cases ht : tag ∈ n.tags
        · simp only [if_pos ht]
        · simp only [if_neg ht, lookupA]
    unfold ConsistentStorage
    refine ⟨?_, ?_, ?_, ?_⟩
    · intro kv2 hkv2 htr
      obtain ⟨i2, n2⟩ := kv2
      have hl2 : lookupA (omergeA storage.noteMap
          (storage.noteMap.foldl (stripTagStep tag) [])) i2 = some n2 :=
        lookupA_eq_of_mem hndNM' hkv2
      rw [hnm i2] at hl2
      cases hp : lookupA storage.noteMap i2 with
      | none => rw [hp] at hl2; simp at hl2
      | some n =>
        rw [hp] at hl2
        have hv : (if tag ∈ n.tags
            then { n with tags := n.tags.filter (fun t => decide (t ≠ tag)) }
            else n) = n2 := Option.some.inj hl2
        have hpre := hc1 (i2, n) (mem_of_lookupA hp)
        by_cases ht : tag ∈ n.tags
        · rw [if_pos ht] at hv
          have hntr : n.trashed = false := by rw [← hv] at htr; exact htr
          obtain ⟨hfold, htags⟩ := hpre hntr
          constructor
          · show OptHolds (oget2 storage.folderMap (i2, n2).2.folderPathname)
              (fun f => (i2, n2).1 ∈ f.noteIdSet)
            rw [show (i2, n2).2 = n2 from rfl, ← hv]
            exact hfold
          · intro t htag
            rw [show (i2, n2).2 = n2 from rfl, ← hv] at htag
            have htf := List.mem_filter.mp htag
            have htne : t ≠ tag := by simpa using htf.2
            show OptHolds (lookupA (odelA storage.tagMap tag) t)
              (fun td => (i2, n2).1 ∈ td.noteIdSet)
            rw [lookupA_odelA, if_neg (fun h => htne h.symm)]
            exact htags t htf.1
        · rw [if_neg ht] at hv
          have hntr : n.trashed = false := by rw [← hv] at htr; exact htr
          obtain ⟨hfold, htags⟩ := hpre hntr
          constructor
          · show OptHolds (oget2 storage.folderMap (i2, n2).2.folderPathname)
              (fun f => (i2, n2).1 ∈ f.noteIdSet)
            rw [show (i2, n2).2 = n2 from rfl, ← hv]
            exact hfold
          · intro t htag
            rw [show (i2, n2).2 = n2 from rfl, ← hv] at htag
            have htne : t ≠ tag := fun h => ht (h ▸ htag)
            show OptHolds (lookupA (odelA storage.tagMap tag) t)
              (fun td => (i2, n2).1 ∈ td.noteIdSet)
            rw [lookupA_odelA, if_neg (fun h => htne h.symm)]
            exact htags t htag
    · intro kv2 hkv2 htr
      obtain ⟨i2, n2⟩ := kv2
      have hl2 : lookupA (omergeA storage.noteMap
          (storage.noteMap.foldl (stripTagStep tag) [])) i2 = some n2 :=
        lookupA_eq_of_mem hndNM' hkv2
      rw [hnm i2] at hl2
      cases hp : lookupA storage.noteMap i2 with
      | none => rw [hp] at hl2; simp at hl2
      | some n =>
        rw [hp] at hl2
        have hv : (if tag ∈ n.tags
            then { n with tags := n.tags.filter (fun t => decide (t ≠ tag)) }
            else n) = n2 := Option.some.inj hl2
        have hntr : n.trashed = true := by
          by_cases ht : tag ∈ n.tags
          · rw [if_pos ht] at hv; rw [← hv] at htr; exact htr
          · rw [if_neg ht] at hv; rw [← hv] at htr; exact htr
        obtain ⟨hf2, ht2⟩ := hc2 (i2, n) (mem_of_lookupA hp) hntr
        exact ⟨fun pf hpf => hf2 pf hpf, fun pt hpt => ht2 pt (mem_odelA hpt)⟩
    · intro pf hpf f hf i hi
      have hpre := hc3 pf hpf f hf i hi
      cases hp : lookupA storage.noteMap i with
      | none => rw [hp] at hpre; exact hpre.elim
      | some n =>
        rw [hp] at hpre
        have hni := hnm i
        simp only [hp] at hni
        show OptHolds (lookupA (omergeA storage.noteMap
          (storage.noteMap.foldl (stripTagStep tag) [])) i)
          (fun nn => nn.trashed = false ∧ nn.folderPathname = pf.1)
        rw [hni]
        by_cases ht : tag ∈ n.tags
        · rw [if_pos ht]
          exact ⟨hpre.1, hpre.2⟩
        · rw [if_neg ht]
          exact hpre
    · intro pt hpt i hi
      have hptne : pt.1 ≠ tag := mem_odelA_ne hpt
      have hpre := hc4 pt (mem_odelA hpt) i hi
      cases hp : lookupA storage.noteMap i with
      | none => rw [hp] at hpre; exact hpre.elim
      | some n =>
        rw [hp] at hpre
        have hni := hnm i
        simp only [hp] at hni
        show OptHolds (lookupA (omergeA storage.noteMap
          (storage.noteMap.foldl (stripTagStep tag) [])) i)
          (fun nn => nn.trashed = false ∧ pt.1 ∈ nn.tags)
        rw [hni]
        by_cases ht : tag ∈ n.tags
        · rw [if_pos ht]
          refine ⟨hpre.1, ?_⟩
          show pt.1 ∈ n.tags.filter (fun t => decide (t ≠ tag))
          exact List.mem_filter.mpr ⟨hpre.2, by simpa using hptne⟩
        · rw [if_neg ht]
          exact hpre

theorem mem_createFolderFold {pre : List (String × Option FolderDoc)}
    {ps : List String} {m : List (String × Option FolderDoc)}
    {kv : String × Option FolderDoc}
    (h : kv ∈ ps.foldl (createFolderInsertStep pre) m) :
    kv ∈ m ∨ ∃ p, kv = (p, some { pathname := p, noteIdSet := (∅ : Finset Nat) }) := by
  induction ps generalizing m with
  | nil => exact Or.inl h
  | cons p rest ih =>
    rw [List.foldl_cons] at h
    rcases ih h with h1 | h1
    · unfold createFolderInsertStep at h1
      by_cases hp : (oget2 pre p).isNone
      · rw [if_pos hp] at h1
        rcases mem_osetA h1 with h2 | h2
        · exact Or.inr ⟨p, h2⟩
        · exact Or.inl h2
      · rw [if_neg hp] at h1
        exact Or.inl h1
    · exact Or.inr h1

theorem lookupA_createFolderFold_of_some {pre : List (String × Option FolderDoc)}
    (ps : List String) (m : List (String × Option FolderDoc)) (q : String)
    (hq : ¬ (oget2 pre q).isNone = true) :
    lookupA (ps.foldl (createFolderInsertStep pre) m) q = lookupA m q := by
  induction ps generalizing m with
  | nil => rfl
  | cons p rest ih =>
    rw [List.foldl_cons, ih]
    unfold createFolderInsertStep
    by_cases hp : (oget2 pre p).isNone
    · rw [if_pos hp, lookupA_osetA, if_neg (fun hpq => hq (by rw [← hpq]; exact hp))]
    · rw [if_neg hp]

theorem consistent_createFolder (sm : StorageMap) (sid pathname : String)
    (hwf : WfStorageMap sm) :
    ∀ kv ∈ (createFolder sm sid pathname).1, ConsistentStorage kv.2 := by
  unfold createFolder
  cases hls : lookupA sm sid with
  | none => exact fun kv h => consistent_of_mem hwf h
  | some storage =>
    dsimp only
    cases hdbc : storage.db.createFolder pathname with
    | error e => exact fun kv h => consistent_of_mem hwf h
    | ok pr =>
      obtain ⟨db1, folderPathname⟩ := pr
      refine consistent_result_osetA hwf ?_
      obtain ⟨hndN, hndF, hndT, hndDb, hcons, hclosure, htagname, hfoldname,
        hag1, hag2, hfdb, hfresh, hidkey⟩ := wfStorage_of_lookup hwf hls
      obtain ⟨hc1, hc2, hc3, hc4⟩ := hcons
      unfold ConsistentStorage
      refine ⟨?_, ?_, ?_, ?_⟩
      · intro kv2 hkv2 htr
        obtain ⟨i2, n2⟩ := kv2
        obtain ⟨hfold, htags⟩ := hc1 (i2, n2) hkv2 htr
        refine ⟨?_, htags⟩
        obtain ⟨f, hfl, hfP⟩ := optHolds_oget2 hfold
        dsimp only
        unfold oget2
        rw [lookupA_createFolderFold_of_some _ _ _ (by
          unfold oget2
          rw [hfl]
          simp)]
        rw [hfl]
        exact hfP
      · intro kv2 hkv2 htr
        obtain ⟨i2, n2⟩ := kv2
        obtain ⟨hf2, ht2⟩ := hc2 (i2, n2) hkv2 htr
        refine ⟨?_, ht2⟩
        intro pf hpf
        rcases mem_createFolderFold hpf with h1 | ⟨p, h1⟩
        · exact hf2 pf h1
        · rw [h1]
          intro a ha
          have : ({ pathname := p, noteIdSet := (∅ : Finset Nat) } : FolderDoc)
              = a := Option.some.inj ha
          rw [← this]
          simp
      · intro pf hpf
        rcases mem_createFolderFold hpf with h1 | ⟨p, h1⟩
        · exact hc3 pf h1
        · rw [h1]
          intro a ha
          have : ({ pathname := p, noteIdSet := (∅ : Finset Nat) } : FolderDoc)
              = a := Option.some.inj ha
          rw [← this]
          intro i hi
          simp at hi
      · exact hc4

theorem consistent_of_lookup {sm : StorageMap} (hwf : WfStorageMap sm)
    {sid : String} {st : NoteStorage} (h : lookupA sm sid = some st) :
    ConsistentStorage st :=
  consistent_of_mem hwf (mem_of_lookupA h)

theorem noDupKeys_cons {κ α : Type} {a : κ × α} {m : List (κ × α)}
    (h : NoDupKeys (a :: m)) : a.1 ∉ keysA m ∧ NoDupKeys m := by
  unfold NoDupKeys at h
  rw [List.map_cons, List.nodup_cons] at h
  exact h

theorem mem_keysA_of_mem {κ α : Type} {m : List (κ × α)} {kv : κ × α}
    (h : kv ∈ m) : kv.1 ∈ keysA m :=
  List.mem_map_of_mem Prod.fst h

theorem mem_osetA_ne {κ α : Type} [DecidableEq κ] {m : List (κ × α)} {k : κ}
    {v : α} {kv : κ × α} (hnd : NoDupKeys m) (h : kv ∈ osetA m k v) :
    kv = (k, v) ∨ (kv ∈ m ∧ kv.1 ≠ k) := by
  induction m with
  | nil =>
    rcases List.mem_cons.mp h with h1 | h1
    · exact Or.inl h1
    · exact absurd h1 (List.not_mem_nil kv)
  | cons a rest ih =>
    obtain ⟨k1, v1⟩ := a
    obtain ⟨hk1, hnd'⟩ := noDupKeys_cons hnd
    by_cases ha : k1 = k
    · rw [osetA, if_pos ha] at h
      rcases List.mem_cons.mp h with h1 | h1
      · exact Or.inl h1
      · refine Or.inr ⟨List.mem_cons_of_mem _ h1, ?_⟩
        intro hq
        exact hk1 (by rw [ha, ← hq]; exact @mem_keysA_of_mem _ _ rest kv h1)
    · rw [osetA, if_neg ha] at h
      rcases List.mem_cons.mp h with h1 | h1
      · refine Or.inr ⟨List.mem_cons.mpr (Or.inl h1), ?_⟩
        rw [h1]
        exact ha
      · rcases ih hnd' h1 with h2 | h2
        · exact Or.inl h2
        · exact Or.inr ⟨List.mem_cons_of_mem _ h2.1, h2.2⟩

theorem consistent_mk_db {i : String} {nm : List (Nat × NoteDoc)}
    {fm : List (String × Option FolderDoc)} {tm : List (String × TagDoc)}
    (d d' : Db) (h : ConsistentStorage ⟨i, nm, fm, tm, d⟩) :
    ConsistentStorage ⟨i, nm, fm, tm, d'⟩ := by
  unfold ConsistentStorage at h ⊢
  exact h

theorem consistent_trashNote (sm : StorageMap) (sid : String) (nid : Nat)
    (hwf : WfStorageMap sm) :
    ∀ kv ∈ (trashNote sm sid nid).1, ConsistentStorage kv.2 := by
  unfold trashNote
  cases hls : lookupA sm sid with
  | none => exact fun kv h => consistent_of_mem hwf h
  | some storage =>
    dsimp only
    cases hts : (storage.db.trashNote nid).2 with
    | none =>
      refine consistent_result_osetA hwf ?_
      exact consistent_mk_db _ _ (consistent_of_lookup hwf hls)
    | some nd =>
      obtain ⟨old, hdbn, hnd⟩ : ∃ old, lookupA storage.db.notes nid = some old ∧
          nd = { old with trashed := true } := by
        unfold Db.trashNote at hts
        cases hdbn : lookupA storage.db.notes nid with
        | none => rw [hdbn] at hts; simp at hts
        | some old =>
          rw [hdbn] at hts
          exact ⟨old, rfl, (Option.some.inj hts).symm⟩
      refine consistent_result_osetA hwf ?_
      obtain ⟨hndN, hndF, hndT, hndDb, hcons, hclosure, htagname, hfoldname,
        hag1, hag2, hfdb, hfresh, hidkey⟩ := wfStorage_of_lookup hwf hls
      obtain ⟨hc1, hc2, hc3, hc4⟩ := hcons
      have hnm0 : lookupA storage.noteMap nid = some old :=
        hag2 (nid, old) (mem_of_lookupA hdbn)
      have holdmem : (nid, old) ∈ storage.noteMap := mem_of_lookupA hnm0
      have hndid : nd._id = nid := by rw [hnd]; exact hidkey (nid, old) holdmem
      have hndtr : nd.trashed = true := by rw [hnd]
      have hndtags : nd.tags = old.tags := by rw [hnd]
      have hndfp : nd.folderPathname = old.folderPathname := by rw [hnd]
      have hnew : ∀ i, lookupA (osetA storage.noteMap nd._id nd) i =
          if nid = i then some nd else lookupA storage.noteMap i := by
        intro i
        rw [lookupA_osetA, hndid]
      have hmodnd : NoDupKeys (nd.tags.foldl (trashTagStep storage.tagMap nd._id) []) :=
        trashTagFold_nodup _ _ _ _ (by constructor)
      have htm : ∀ t, lookupA (omergeA storage.tagMap
          (nd.tags.foldl (trashTagStep storage.tagMap nd._id) [])) t =
          match lookupA storage.tagMap t with
          | some td => some (if t ∈ nd.tags
              then { td with noteIdSet := td.noteIdSet.erase nid }
              else td)
          | none => none := by
        intro t
        rw [lookupA_omergeA _ _ hmodnd, lookupA_trashTagFold]
        cases hp : lookupA storage.tagMap t with
        | none => simp only [hp, lookupA]
        | some td =>
          simp only [hp]
          by_cases ht : t ∈ nd.tags
          · simp only [if_pos ht, hndid]
          · simp only [if_neg ht, lookupA]
      unfold ConsistentStorage
      refine ⟨?_, ?_, ?_, ?_⟩
      · -- non-trashed notes keep folder and tag membership
        intro kv2 hkv2 htr
        obtain ⟨i2, n2⟩ := kv2
        have hl2 : lookupA (osetA storage.noteMap nd._id nd) i2 = some n2 :=
          lookupA_eq_of_mem (nodupKeys_osetA hndN _ _) hkv2
        rw [hnew i2] at hl2
        by_cases hi : nid = i2
        · rw [if_pos hi] at hl2
          have hveq : nd = n2 := Option.some.inj hl2
          rw [← hveq, hndtr] at htr
          simp at htr
        · rw [if_neg hi] at hl2
          obtain ⟨hfold, htags⟩ := hc1 (i2, n2) (mem_of_lookupA hl2) htr
          constructor
          · -- folder membership under the possibly-rewritten entry
            show OptHolds (oget2 (osetA storage.folderMap nd.folderPathname
              (match oget2 storage.folderMap nd.folderPathname with
                | some f => some { f with noteIdSet := f.noteIdSet.erase nd._id }
                | none => none)) n2.folderPathname)
              (fun f => i2 ∈ f.noteIdSet)
            obtain ⟨f2, hf2l, hf2m⟩ := optHolds_oget2 hfold
            unfold oget2
            rw [lookupA_osetA]
            by_cases hq : nd.folderPathname = n2.folderPathname
            · rw [if_pos hq]
              have hog : (lookupA storage.folderMap nd.folderPathname).bind id
                  = some f2 := by
                rw [hq, hf2l]
                rfl
              rw [hog]
              show i2 ∈ f2.noteIdSet.erase nd._id
              rw [hndid]
              exact Finset.mem_erase.mpr ⟨fun h => hi h.symm, hf2m⟩
            · rw [if_neg hq, hf2l]
              exact hf2m
          · intro t ht
            show OptHolds (lookupA (omergeA storage.tagMap
              (nd.tags.foldl (trashTagStep storage.tagMap nd._id) [])) t)
              (fun td => i2 ∈ td.noteIdSet)
            rw [htm t]
            have hpre := htags t ht
            cases hp : lookupA storage.tagMap t with
            | none => rw [hp] at hpre; exact hpre.elim
            | some td =>
              rw [hp] at hpre
              dsimp only
              by_cases htn : t ∈ nd.tags
              · rw [if_pos htn]
                show i2 ∈ td.noteIdSet.erase nid
                exact Finset.mem_erase.mpr ⟨fun h => hi h.symm, hpre⟩
              · rw [if_neg htn]
                exact hpre
      · -- trashed notes are in no noteIdSet
        intro kv2 hkv2 htr
        obtain ⟨i2, n2⟩ := kv2
        have hl2 : lookupA (osetA storage.noteMap nd._id nd) i2 = some n2 :=
          lookupA_eq_of_mem (nodupKeys_osetA hndN _ _) hkv2
        rw [hnew i2] at hl2
        by_cases hi : nid = i2
        · -- the freshly trashed note: erased from its folder's and tags' sets
          subst hi
          have hveq : nd = n2 := Option.some.inj (by rw [if_pos rfl] at hl2; exact hl2)
          constructor
          · intro pf hpf
            rcases mem_osetA_ne hndF hpf with heq | ⟨hm, hne⟩
            · rw [heq]
              cases hofg : oget2 storage.folderMap nd.folderPathname with
              | none =>
                intro a ha
                exact absurd ha (by simp)
              | some f =>
                intro a ha
                have : ({ f with noteIdSet := f.noteIdSet.erase nd._id } : FolderDoc)
                    = a := Option.some.inj ha
                rw [← this]
                show nid ∉ f.noteIdSet.erase nd._id
                rw [hndid]
                exact Finset.not_mem_erase nid f.noteIdSet
            · intro a ha hmem
              have h3 := hc3 pf hm a ha nid hmem
              rw [hnm0] at h3
              have hfp : old.folderPathname = pf.1 := h3.2
              exact hne (by rw [hndfp, hfp])
          · intro pt hpt
            have hl3 : lookupA (omergeA storage.tagMap
                (nd.tags.foldl (trashTagStep storage.tagMap nd._id) [])) pt.1 =
                some pt.2 :=
              lookupA_eq_of_mem (nodupKeys_omergeA _ hndT) hpt
            rw [htm pt.1] at hl3
            cases hp : lookupA storage.tagMap pt.1 with
            | none => rw [hp] at hl3; simp at hl3
            | some td =>
              rw [hp] at hl3
              have hv := Option.some.inj hl3
              by_cases htn : pt.1 ∈ nd.tags
              · rw [if_pos htn] at hv
                rw [← hv]
                show nid ∉ td.noteIdSet.erase nid
                exact Finset.not_mem_erase nid td.noteIdSet
              · rw [if_neg htn] at hv
                rw [← hv]
                intro hmem
                have h4 := hc4 (pt.1, td) (mem_of_lookupA hp) nid hmem
                rw [hnm0] at h4
                exact htn (by rw [hndtags]; exact h4.2)
        · -- a previously trashed note stays out of all sets
          rw [if_neg hi] at hl2
          obtain ⟨hf2, ht2⟩ := hc2 (i2, n2) (mem_of_lookupA hl2) htr
          constructor
          · intro pf hpf
            rcases mem_osetA_ne hndF hpf with heq | ⟨hm, hne⟩
            · rw [heq]
              cases hofg : oget2 storage.folderMap nd.folderPathname with
              | none =>
                intro a ha
                exact absurd ha (by simp)
              | some f =>
                intro a ha
                have hva : ({ f with noteIdSet := f.noteIdSet.erase nd._id } : FolderDoc)
                    = a := Option.some.inj ha
                rw [← hva]
                intro hmem
                have hmem' : i2 ∈ f.noteIdSet := (Finset.mem_erase.mp hmem).2
                have := optHolds_oget2 (P := fun f => i2 ∈ f.noteIdSet) (by
                  rw [hofg]; exact hmem')
                obtain ⟨f', hfl', hfm'⟩ := this
                exact hf2 (nd.folderPathname, some f') (mem_of_lookupA hfl') f' rfl hfm'
            · exact hf2 pf hm
          · intro pt hpt
            have hl3 : lookupA (omergeA storage.tagMap
                (nd.tags.foldl (trashTagStep storage.tagMap nd._id) [])) pt.1 =
                some pt.2 :=
              lookupA_eq_of_mem (nodupKeys_omergeA _ hndT) hpt
            rw [htm pt.1] at hl3
            cases hp : lookupA storage.tagMap pt.1 with
            | none => rw [hp] at hl3; simp at hl3
            | some td =>
              rw [hp] at hl3
              have hv := Option.some.inj hl3
              have htd := ht2 (pt.1, td) (mem_of_lookupA hp)
              by_cases htn : pt.1 ∈ nd.tags
              · rw [if_pos htn] at hv
                rw [← hv]
                intro hmem
                exact htd (Finset.mem_erase.mp hmem).2
              · rw [if_neg htn] at hv
                rw [← hv]
                exact htd
      · -- folder sets only hold ids of live notes at that exact path
        intro pf hpf
        rcases mem_osetA_ne hndF hpf with heq | ⟨hm, hne⟩
        · rw [heq]
          cases hofg : oget2 storage.folderMap nd.folderPathname with
          | none =>
            intro a ha
            exact absurd ha (by simp)
          | some f =>
            intro a ha i hi
            have hva : ({ f with noteIdSet := f.noteIdSet.erase nd._id } : FolderDoc)
                = a := Option.some.inj ha
            rw [← hva] at hi
            obtain ⟨hine, hif⟩ := Finset.mem_erase.mp hi
            rw [hndid] at hine
            obtain ⟨f', hfl', hfm'⟩ := optHolds_oget2
              (P := fun f => i ∈ f.noteIdSet) (by rw [hofg]; exact hif)
            have h3 := hc3 (nd.folderPathname, some f') (mem_of_lookupA hfl') f' rfl i hfm'
            show OptHolds (lookupA (osetA storage.noteMap nd._id nd) i)
              (fun n => n.trashed = false ∧ n.folderPathname = nd.folderPathname)
            rw [hnew i, if_neg (fun h => hine h.symm)]
            exact h3
        · intro a ha i hi
          have h3 := hc3 pf hm a ha i hi
          have hine : i ≠ nid := by
            intro h
            rw [h, hnm0] at h3
            exact hne (by rw [hndfp, h3.2])
          show OptHolds (lookupA (osetA storage.noteMap nd._id nd) i)
            (fun n => n.trashed = false ∧ n.folderPathname = pf.1)
          rw [hnew i, if_neg (fun h => hine h.symm)]
          exact h3
      · -- tag sets only hold ids of live notes carrying the tag
        intro pt hpt i hi
        have hl3 : lookupA (omergeA storage.tagMap
            (nd.tags.foldl (trashTagStep storage.tagMap nd._id) [])) pt.1 =
            some pt.2 :=
          lookupA_eq_of_mem (nodupKeys_omergeA _ hndT) hpt
        rw [htm pt.1] at hl3
        cases hp : lookupA storage.tagMap pt.1 with
        | none => rw [hp] at hl3; simp at hl3
        | some td =>
          rw [hp] at hl3
          have hv := Option.some.inj hl3
          by_cases htn : pt.1 ∈ nd.tags
          · rw [if_pos htn] at hv
            rw [← hv] at hi
            obtain ⟨hine, hit⟩ := Finset.mem_erase.mp hi
            have h4 := hc4 (pt.1, td) (mem_of_lookupA hp) i hit
            have hkey : pt.1 = (pt.1, td).1 := rfl
            show OptHolds (lookupA (osetA storage.noteMap nd._id nd) i)
              (fun n => n.trashed = false ∧ pt.1 ∈ n.tags)
            rw [hnew i, if_neg (fun h => hine h.symm)]
            exact h4
          · rw [if_neg htn] at hv
            rw [← hv] at hi
            have h4 := hc4 (pt.1, td) (mem_of_lookupA hp) i hi
            have hine : i ≠ nid := by
              intro h
              rw [h, hnm0] at h4
              exact htn (by rw [hndtags]; exact h4.2)
            show OptHolds (lookupA (osetA storage.noteMap nd._id nd) i)
              (fun n => n.trashed = false ∧ pt.1 ∈ n.tags)
            rw [hnew i, if_neg (fun h => hine h.symm)]
            exact h4

theorem consistent_untrashNote (sm : StorageMap) (sid : String) (nid : Nat)
    (hwf : WfStorageMap sm) :
    ∀ kv ∈ (untrashNote sm sid nid).1, ConsistentStorage kv.2 := by
  unfold untrashNote
  cases hls : lookupA sm sid with
  | none => exact fun kv h => consistent_of_mem hwf h
  | some storage =>
    dsimp only
    cases hts : (storage.db.untrashNote nid).2 with
    | none =>
      refine consistent_result_osetA hwf ?_
      exact consistent_mk_db _ _ (consistent_of_lookup hwf hls)
    | some nd =>
      obtain ⟨old, hdbn, hnd⟩ : ∃ old, lookupA storage.db.notes nid = some old ∧
          nd = { old with trashed := false } := by
        unfold Db.untrashNote at hts
        cases hdbn : lookupA storage.db.notes nid with
        | none => rw [hdbn] at hts; simp at hts
        | some old =>
          rw [hdbn] at hts
          exact ⟨old, rfl, (Option.some.inj hts).symm⟩
      refine consistent_result_osetA hwf ?_
      obtain ⟨hndN, hndF, hndT, hndDb, hcons, hclosure, htagname, hfoldname,
        hag1, hag2, hfdb, hfresh, hidkey⟩ := wfStorage_of_lookup hwf hls
      obtain ⟨hc1, hc2, hc3, hc4⟩ := hcons
      have hnm0 : lookupA storage.noteMap nid = some old :=
        hag2 (nid, old) (mem_of_lookupA hdbn)
      have holdmem : (nid, old) ∈ storage.noteMap := mem_of_lookupA hnm0
      have hndid : nd._id = nid := by rw [hnd]; exact hidkey (nid, old) holdmem
      have hndtr : nd.trashed = false := by rw [hnd]
      have hndtags : nd.tags = old.tags := by rw [hnd]
      have hndfp : nd.folderPathname = old.folderPathname := by rw [hnd]
      have hnew : ∀ i, lookupA (osetA storage.noteMap nd._id nd) i =
          if nid = i then some nd else lookupA storage.noteMap i := by
        intro i
        rw [lookupA_osetA, hndid]
      have hmodnd : NoDupKeys (nd.tags.foldl (refreshTagStep storage.tagMap nd._id)
          ((storage.db.untrashNote nid).1, [])).2 :=
        refreshTagFold_snd_nodup _ _ _ _ _ (by constructor)
      have htm : ∀ t, lookupA (omergeA storage.tagMap
          (nd.tags.foldl (refreshTagStep storage.tagMap nd._id)
            ((storage.db.untrashNote nid).1, [])).2) t =
          if t ∈ nd.tags then
            some (match lookupA storage.tagMap t with
              | some td => { td with noteIdSet := insert nid td.noteIdSet }
              | none => { name := t, noteIdSet := {nid} })
          else lookupA storage.tagMap t := by
        intro t
        rw [lookupA_omergeA _ _ hmodnd,
          refreshTagFold_snd_lookup storage.tagMap htagname nd._id nd.tags _ [] t]
        by_cases ht : t ∈ nd.tags
        · simp only [if_pos ht, hndid]
        · simp only [if_neg ht, lookupA]
      unfold ConsistentStorage
      refine ⟨?_, ?_, ?_, ?_⟩
      · -- non-trashed notes keep folder and tag membership
        intro kv2 hkv2 htr
        obtain ⟨i2, n2⟩ := kv2
        have hl2 : lookupA (osetA storage.noteMap nd._id nd) i2 = some n2 :=
          lookupA_eq_of_mem (nodupKeys_osetA hndN _ _) hkv2
        rw [hnew i2] at hl2
        by_cases hi : nid = i2
        · -- the untrashed note itself: freshly inserted everywhere
          rw [if_pos hi] at hl2
          have hveq : nd = n2 := Option.some.inj hl2
          constructor
          · show OptHolds (oget2 (osetA storage.folderMap nd.folderPathname
              (some (match oget2 storage.folderMap nd.folderPathname with
                | none => { pathname := nd.folderPathname, noteIdSet := {nd._id} }
                | some f => { f with noteIdSet := insert nd._id f.noteIdSet })))
              n2.folderPathname)
              (fun f => i2 ∈ f.noteIdSet)
            unfold oget2
            rw [lookupA_osetA, if_pos (by rw [hveq])]
            cases hofg : (lookupA storage.folderMap nd.folderPathname).bind id with
            | none =>
              show i2 ∈ ({nd._id} : Finset Nat)
              rw [hndid, ← hi]
              simp
            | some f =>
              show i2 ∈ insert nd._id f.noteIdSet
              rw [hndid, ← hi]
              exact Finset.mem_insert_self nid f.noteIdSet
          · intro t ht
            rw [← hveq] at ht
            show OptHolds (lookupA (omergeA storage.tagMap
              (nd.tags.foldl (refreshTagStep storage.tagMap nd._id)
                ((storage.db.untrashNote nid).1, [])).2) t)
              (fun td => i2 ∈ td.noteIdSet)
            rw [htm t, if_pos ht]
            cases hp : lookupA storage.tagMap t with
            | none =>
              show i2 ∈ ({nid} : Finset Nat)
              rw [← hi]
              simp
            | some td =>
              show i2 ∈ insert nid td.noteIdSet
              rw [← hi]
              exact Finset.mem_insert_self nid td.noteIdSet
        · rw [if_neg hi] at hl2
          obtain ⟨hfold, htags⟩ := hc1 (i2, n2) (mem_of_lookupA hl2) htr
          constructor
          · show OptHolds (oget2 (osetA storage.folderMap nd.folderPathname
              (some (match oget2 storage.folderMap nd.folderPathname with
                | none => { pathname := nd.folderPathname, noteIdSet := {nd._id} }
                | some f => { f with noteIdSet := insert nd._id f.noteIdSet })))
              n2.folderPathname)
              (fun f => i2 ∈ f.noteIdSet)
            obtain ⟨f2, hf2l, hf2m⟩ := optHolds_oget2 hfold
            unfold oget2
            rw [lookupA_osetA]
            by_cases hq : nd.folderPathname = n2.folderPathname
            · rw [if_pos hq]
              have hog : (lookupA storage.folderMap nd.folderPathname).bind id
                  = some f2 := by
                rw [hq, hf2l]
                rfl
              rw [hog]
              show i2 ∈ insert nd._id f2.noteIdSet
              exact Finset.mem_insert_of_mem hf2m
            · rw [if_neg hq, hf2l]
              exact hf2m
          · intro t ht
            show OptHolds (lookupA (omergeA storage.tagMap
              (nd.tags.foldl (refreshTagStep storage.tagMap nd._id)
                ((storage.db.untrashNote nid).1, [])).2) t)
              (fun td => i2 ∈ td.noteIdSet)
            rw [htm t]
            have hpre := htags t ht
            by_cases htn : t ∈ nd.tags
            · rw [if_pos htn]
              cases hp : lookupA storage.tagMap t with
              | none => rw [hp] at hpre; exact hpre.elim
              | some td =>
                rw [hp] at hpre
                show i2 ∈ insert nid td.noteIdSet
                exact Finset.mem_insert_of_mem hpre
            · rw [if_neg htn]
              exact hpre
      · -- trashed notes are in no noteIdSet
        intro kv2 hkv2 htr
        obtain ⟨i2, n2⟩ := kv2
        have hl2 : lookupA (osetA storage.noteMap nd._id nd) i2 = some n2 :=
          lookupA_eq_of_mem (nodupKeys_osetA hndN _ _) hkv2
        rw [hnew i2] at hl2
        by_cases hi : nid = i2
        · rw [if_pos hi] at hl2
          have hveq : nd = n2 := Option.some.inj hl2
          rw [← hveq, hndtr] at htr
          simp at htr
        · rw [if_neg hi] at hl2
          obtain ⟨hf2, ht2⟩ := hc2 (i2, n2) (mem_of_lookupA hl2) htr
          constructor
          · intro pf hpf
            rcases mem_osetA_ne hndF hpf with heq | ⟨hm, hne⟩
            · rw [heq]
              intro a ha hi3
              have hva : (match oget2 storage.folderMap nd.folderPathname with
                | none => { pathname := nd.folderPathname, noteIdSet := ({nd._id} : Finset Nat) }
                | some f => { f with noteIdSet := insert nd._id f.noteIdSet }) = a :=
                Option.some.inj ha
              rw [← hva] at hi3
              cases hofg : oget2 storage.folderMap nd.folderPathname with
              | none =>
                rw [hofg] at hi3
                have : i2 = nd._id := by simpa using hi3
                rw [hndid] at this
                exact hi (this.symm)
              | some f =>
                rw [hofg] at hi3
                rcases Finset.mem_insert.mp hi3 with h1 | h1
                · rw [hndid] at h1
                  exact hi h1.symm
                · obtain ⟨f', hfl', hfm'⟩ := optHolds_oget2
                    (P := fun f => i2 ∈ f.noteIdSet) (by rw [hofg]; exact h1)
                  exact hf2 (nd.folderPathname, some f') (mem_of_lookupA hfl') f' rfl hfm'
            · exact hf2 pf hm
          · intro pt hpt
            have hl3 : lookupA (omergeA storage.tagMap
                (nd.tags.foldl (refreshTagStep storage.tagMap nd._id)
                  ((storage.db.untrashNote nid).1, [])).2) pt.1 = some pt.2 :=
              lookupA_eq_of_mem (nodupKeys_omergeA _ hndT) hpt
            rw [htm pt.1] at hl3
            by_cases htn : pt.1 ∈ nd.tags
            · rw [if_pos htn] at hl3
              have hv := Option.some.inj hl3
              cases hp : lookupA storage.tagMap pt.1 with
              | none =>
                rw [hp] at hv
                rw [← hv]
                intro hmem
                have : i2 = nid := by simpa using hmem
                exact hi this.symm
              | some td =>
                rw [hp] at hv
                rw [← hv]
                intro hmem
                rcases Finset.mem_insert.mp hmem with h1 | h1
                · exact hi h1.symm
                · exact ht2 (pt.1, td) (mem_of_lookupA hp) h1
            · rw [if_neg htn] at hl3
              exact ht2 (pt.1, pt.2) (mem_of_lookupA hl3)
      · -- folder sets only hold ids of live notes at that exact path
        intro pf hpf
        rcases mem_osetA_ne hndF hpf with heq | ⟨hm, hne⟩
        · rw [heq]
          intro a ha i hi
          have hva : (match oget2 storage.folderMap nd.folderPathname with
            | none => { pathname := nd.folderPathname, noteIdSet := ({nd._id} : Finset Nat) }
            | some f => { f with noteIdSet := insert nd._id f.noteIdSet }) = a :=
            Option.some.inj ha
          rw [← hva] at hi
          show OptHolds (lookupA (osetA storage.noteMap nd._id nd) i)
            (fun n => n.trashed = false ∧ n.folderPathname = nd.folderPathname)
          cases hofg : oget2 storage.folderMap nd.folderPathname with
          | none =>
            rw [hofg] at hi
            have : i = nd._id := by simpa using hi
            rw [hndid] at this
            rw [hnew i, if_pos this.symm]
            exact ⟨hndtr, rfl⟩
          | some f =>
            rw [hofg] at hi
            rcases Finset.mem_insert.mp hi with h1 | h1
            · rw [hndid] at h1
              rw [hnew i, if_pos h1.symm]
              exact ⟨hndtr, rfl⟩
            · obtain ⟨f', hfl', hfm'⟩ := optHolds_oget2
                (P := fun f => i ∈ f.noteIdSet) (by rw [hofg]; exact h1)
              have h3 := hc3 (nd.folderPathname, some f') (mem_of_lookupA hfl') f' rfl i hfm'
              by_cases hine : nid = i
              · rw [hnew i, if_pos hine]
                exact ⟨hndtr, rfl⟩
              · rw [hnew i, if_neg hine]
                exact h3
        · intro a ha i hi
          have h3 := hc3 pf hm a ha i hi
          show OptHolds (lookupA (osetA storage.noteMap nd._id nd) i)
            (fun n => n.trashed = false ∧ n.folderPathname = pf.1)
          have hine : i ≠ nid := by
            intro h
            rw [h, hnm0] at h3
            exact hne (by rw [hndfp, h3.2])
          rw [hnew i, if_neg (fun h => hine h.symm)]
          exact h3
      · -- tag sets only hold ids of live notes carrying the tag
        intro pt hpt i hi
        have hl3 : lookupA (omergeA storage.tagMap
            (nd.tags.foldl (refreshTagStep storage.tagMap nd._id)
              ((storage.db.untrashNote nid).1, [])).2) pt.1 = some pt.2 :=
          lookupA_eq_of_mem (nodupKeys_omergeA _ hndT) hpt
        rw [htm pt.1] at hl3
        by_cases htn : pt.1 ∈ nd.tags
        · rw [if_pos htn] at hl3
          have hv := Option.some.inj hl3
          show OptHolds (lookupA (osetA storage.noteMap nd._id nd) i)
            (fun n => n.trashed = false ∧ pt.1 ∈ n.tags)
          cases hp : lookupA storage.tagMap pt.1 with
          | none =>
            rw [hp] at hv
            rw [← hv] at hi
            have hieq : i = nid := by simpa using hi
            rw [hnew i, if_pos hieq.symm]
            exact ⟨hndtr, htn⟩
          | some td =>
            rw [hp] at hv
            rw [← hv] at hi
            rcases Finset.mem_insert.mp hi with h1 | h1
            · rw [hnew i, if_pos h1.symm]
              exact ⟨hndtr, htn⟩
            · have h4 := hc4 (pt.1, td) (mem_of_lookupA hp) i h1
              by_cases hine : nid = i
              · rw [hnew i, if_pos hine]
                exact ⟨hndtr, htn⟩
              · rw [hnew i, if_neg hine]
                exact h4
        · rw [if_neg htn] at hl3
          have h4 := hc4 (pt.1, pt.2) (mem_of_lookupA hl3) i hi
          have hine : i ≠ nid := by
            intro h
            rw [h, hnm0] at h4
            exact htn (by rw [hndtags]; exact h4.2)
          show OptHolds (lookupA (osetA storage.noteMap nd._id nd) i)
            (fun n => n.trashed = false ∧ pt.1 ∈ n.tags)
          rw [hnew i, if_neg (fun h => hine h.symm)]
          exact h4

theorem consistent_purgeNote (sm : StorageMap) (sid : String) (nid : Nat)
    (hwf : WfStorageMap sm) :
    ∀ kv ∈ (purgeNote sm sid nid).1, ConsistentStorage kv.2 := by
  unfold purgeNote
  cases hls : lookupA sm sid with
  | none => exact fun kv h => consistent_of_mem hwf h
  | some storage =>
    dsimp only
    obtain ⟨hndN, hndF, hndT, hndDb, hcons, hclosure, htagname, hfoldname,
      hag1, hag2, hfdb, hfresh, hidkey⟩ := wfStorage_of_lookup hwf hls
    obtain ⟨hc1, hc2, hc3, hc4⟩ := hcons
    cases hnd0 : lookupA storage.noteMap nid with
    | none =>
      refine consistent_result_osetA hwf ?_
      exact consistent_mk_db _ _ (consistent_of_lookup hwf hls)
    | some nd =>
      dsimp only
      have hndmem : (nid, nd) ∈ storage.noteMap := mem_of_lookupA hnd0
      have hndid : nd._id = nid := hidkey (nid, nd) hndmem
      cases hofg : oget2 storage.folderMap nd.folderPathname with
      | none =>
        refine consistent_result_osetA hwf ?_
        exact consistent_mk_db _ _ (consistent_of_lookup hwf hls)
      | some f =>
        dsimp only
        cases hfold : nd.tags.foldlM (eraseTagStep storage.tagMap nd._id)
            ([] : List (String × TagDoc)) with
        | error e =>
          refine consistent_result_osetA hwf ?_
          exact consistent_mk_db _ _ (consistent_of_lookup hwf hls)
        | ok mt =>
          refine consistent_result_osetA hwf ?_
          obtain ⟨mt', hrun, hmtnodup, hmtlook⟩ :=
            eraseTagFold_spec storage.tagMap nd._id nd.tags []
              (fun t ht => hclosure (nid, nd) hndmem t ht)
          have hmteq : mt' = mt := by
            rw [hfold] at hrun
            exact (Except.ok.inj hrun).symm
          subst hmteq
          have hmtnd : NoDupKeys mt' := hmtnodup (by constructor)
          have hfl : lookupA storage.folderMap nd.folderPathname = some (some f) := by
            unfold oget2 at hofg
            cases hq : lookupA storage.folderMap nd.folderPathname with
            | none => rw [hq] at hofg; simp at hofg
            | some ov =>
              rw [hq] at hofg
              cases ov with
              | none => simp at hofg
              | some f0 =>
                have : f0 = f := by simpa using hofg
                rw [this]
          have hfmem : (nd.folderPathname, some f) ∈ storage.folderMap :=
            mem_of_lookupA hfl
          have hdel : ∀ i, lookupA (odelA storage.noteMap nid) i =
              if nid = i then none else lookupA storage.noteMap i := by
            intro i
            rw [lookupA_odelA]
          have htm : ∀ t, lookupA (omergeA storage.tagMap mt') t =
              match lookupA storage.tagMap t with
              | some td => some (if t ∈ nd.tags
                  then { td with noteIdSet := td.noteIdSet.erase nid }
                  else td)
              | none => none := by
            intro t
            rw [lookupA_omergeA _ _ hmtnd, hmtlook t]
            cases hp : lookupA storage.tagMap t with
            | none => simp only [hp, lookupA]
            | some td =>
              simp only [hp]
              by_cases ht : t ∈ nd.tags
              · simp only [if_pos ht, hndid]
              · simp only [if_neg ht, lookupA]
          unfold ConsistentStorage
          refine ⟨?_, ?_, ?_, ?_⟩
          · -- non-trashed surviving notes keep membership
            intro kv2 hkv2 htr
            obtain ⟨i2, n2⟩ := kv2
            have hne2 : i2 ≠ nid := mem_odelA_ne hkv2
            have hm2 : (i2, n2) ∈ storage.noteMap := mem_odelA hkv2
            obtain ⟨hfold1, htags⟩ := hc1 (i2, n2) hm2 htr
            constructor
            · show OptHolds (oget2 (osetA storage.folderMap nd.folderPathname
                (some { f with noteIdSet := f.noteIdSet.erase nd._id }))
                n2.folderPathname)
                (fun g => i2 ∈ g.noteIdSet)
              obtain ⟨f2, hf2l, hf2m⟩ := optHolds_oget2 hfold1
              unfold oget2
              rw [lookupA_osetA]
              by_cases hq : nd.folderPathname = n2.folderPathname
              · rw [if_pos hq]
                have : f2 = f := by
                  rw [hq] at hfl
                  rw [hfl] at hf2l
                  simpa using hf2l.symm
                subst this
                show i2 ∈ f2.noteIdSet.erase nd._id
                rw [hndid]
                exact Finset.mem_erase.mpr ⟨hne2, hf2m⟩
              · rw [if_neg hq, hf2l]
                exact hf2m
            · intro t ht
              show OptHolds (lookupA (omergeA storage.tagMap mt') t)
                (fun td => i2 ∈ td.noteIdSet)
              rw [htm t]
              have hpre := htags t ht
              cases hp : lookupA storage.tagMap t with
              | none => rw [hp] at hpre; exact hpre.elim
              | some td =>
                rw [hp] at hpre
                dsimp only
                by_cases htn : t ∈ nd.tags
                · rw [if_pos htn]
                  show i2 ∈ td.noteIdSet.erase nid
                  exact Finset.mem_erase.mpr ⟨hne2, hpre⟩
                · rw [if_neg htn]
                  exact hpre
          · -- trashed surviving notes stay out of all sets
            intro kv2 hkv2 htr
            obtain ⟨i2, n2⟩ := kv2
            have hm2 : (i2, n2) ∈ storage.noteMap := mem_odelA hkv2
            obtain ⟨hf2, ht2⟩ := hc2 (i2, n2) hm2 htr
            constructor
            · intro pf hpf
              rcases mem_osetA_ne hndF hpf with heq | ⟨hm, hne⟩
              · rw [heq]
                intro a ha hi3
                have hva : ({ f with noteIdSet := f.noteIdSet.erase nd._id } :
                    FolderDoc) = a := Option.some.inj ha
                rw [← hva] at hi3
                have : i2 ∈ f.noteIdSet := (Finset.mem_erase.mp hi3).2
                exact hf2 (nd.folderPathname, some f) hfmem f rfl this
              · exact hf2 pf hm
            · intro pt hpt
              have hl3 : lookupA (omergeA storage.tagMap mt') pt.1 = some pt.2 :=
                lookupA_eq_of_mem (nodupKeys_omergeA _ hndT) hpt
              rw [htm pt.1] at hl3
              cases hp : lookupA storage.tagMap pt.1 with
              | none => rw [hp] at hl3; simp at hl3
              | some td =>
                rw [hp] at hl3
                have hv := Option.some.inj hl3
                have htd := ht2 (pt.1, td) (mem_of_lookupA hp)
                by_cases htn : pt.1 ∈ nd.tags
                · rw [if_pos htn] at hv
                  rw [← hv]
                  intro hmem
                  exact htd (Finset.mem_erase.mp hmem).2
                · rw [if_neg htn] at hv
                  rw [← hv]
                  exact htd
          · -- folder sets only hold ids of surviving live notes at that path
            intro pf hpf
            rcases mem_osetA_ne hndF hpf with heq | ⟨hm, hne⟩
            · rw [heq]
              intro a ha i hi
              have hva : ({ f with noteIdSet := f.noteIdSet.erase nd._id } :
                  FolderDoc) = a := Option.some.inj ha
              rw [← hva] at hi
              obtain ⟨hine, hif⟩ := Finset.mem_erase.mp hi
              rw [hndid] at hine
              have h3 := hc3 (nd.folderPathname, some f) hfmem f rfl i hif
              show OptHolds (lookupA (odelA storage.noteMap nid) i)
                (fun n => n.trashed = false ∧ n.folderPathname = nd.folderPathname)
              rw [hdel i, if_neg (fun h => hine h.symm)]
              exact h3
            · intro a ha i hi
              have h3 := hc3 pf hm a ha i hi
              have hine : i ≠ nid := by
                intro h
                rw [h, hnd0] at h3
                apply hne
                rw [← h3.2]
              show OptHolds (lookupA (odelA storage.noteMap nid) i)
                (fun n => n.trashed = false ∧ n.folderPathname = pf.1)
              rw [hdel i, if_neg (fun h => hine h.symm)]
              exact h3
          · -- tag sets only hold ids of surviving live notes carrying the tag
            intro pt hpt i hi
            have hl3 : lookupA (omergeA storage.tagMap mt') pt.1 = some pt.2 :=
              lookupA_eq_of_mem (nodupKeys_omergeA _ hndT) hpt
            rw [htm pt.1] at hl3
            cases hp : lookupA storage.tagMap pt.1 with
            | none => rw [hp] at hl3; simp at hl3
            | some td =>
              rw [hp] at hl3
              have hv := Option.some.inj hl3
              by_cases htn : pt.1 ∈ nd.tags
              · rw [if_pos htn] at hv
                rw [← hv] at hi
                obtain ⟨hine, hit⟩ := Finset.mem_erase.mp hi
                have h4 := hc4 (pt.1, td) (mem_of_lookupA hp) i hit
                show OptHolds (lookupA (odelA storage.noteMap nid) i)
                  (fun n => n.trashed = false ∧ pt.1 ∈ n.tags)
                rw [hdel i, if_neg (fun h => hine h.symm)]
                exact h4
              · rw [if_neg htn] at hv
                rw [← hv] at hi
                have h4 := hc4 (pt.1, td) (mem_of_lookupA hp) i hi
                have hine : i ≠ nid := by
                  intro h
                  rw [h, hnd0] at h4
                  exact htn h4.2
                show OptHolds (lookupA (odelA storage.noteMap nid) i)
                  (fun n => n.trashed = false ∧ pt.1 ∈ n.tags)
                rw [hdel i, if_neg (fun h => hine h.symm)]
                exact h4

theorem mem_refreshParentFolders {m : List (String × Option FolderDoc)}
    {ps : List String} {kv : String × Option FolderDoc}
    (h : kv ∈ refreshParentFolders m ps) :
    kv ∈ m ∨ ∃ p, kv = (p, some { pathname := p, noteIdSet := (∅ : Finset Nat) }) := by
  unfold refreshParentFolders at h
  induction ps generalizing m with
  | nil => exact Or.inl h
  | cons p rest ih =>
    rw [List.foldl_cons] at h
    rcases ih h with h1 | h1
    · rcases mem_osetA h1 with h2 | h2
      · exact Or.inr ⟨p, h2⟩
      · exact Or.inl h2
    · exact Or.inr h1

theorem nodupKeys_refreshParentFolders (m : List (String × Option FolderDoc))
    (ps : List String) (hnd : NoDupKeys m) :
    NoDupKeys (refreshParentFolders m ps) := by
  unfold refreshParentFolders
  exact nodupKeys_foldl_osetA ps (fun p => p)
    (fun p => some { pathname := p, noteIdSet := (∅ : Finset Nat) }) m hnd

theorem consistent_createNote (sm : StorageMap) (sid : String)
    (props : NoteProps) (hwf : WfStorageMap sm) :
    ∀ kv ∈ (createNote sm sid props).1, ConsistentStorage kv.2 := by
  unfold createNote
  cases hls : lookupA sm sid with
  | none => exact fun kv h => consistent_of_mem hwf h
  | some storage =>
    dsimp only
    cases hdbc : storage.db.createNote props with
    | error e => exact fun kv h => consistent_of_mem hwf h
    | ok pr =>
      obtain ⟨db1, nd⟩ := pr
      refine consistent_result_osetA hwf ?_
      obtain ⟨hndN, hndF, hndT, hndDb, hcons, hclosure, htagname, hfoldname,
        hag1, hag2, hfdb, hfresh, hidkey⟩ := wfStorage_of_lookup hwf hls
      obtain ⟨hc1, hc2, hc3, hc4⟩ := hcons
      have hnd : nd =
          { _id := storage.db.nextId, title := props.title.getD "",
            content := props.content.getD "", data := props.data.getD "",
            tags := props.tags.getD [],
            folderPathname := props.folderPathname.getD "/",
            trashed := false } := by
        unfold Db.createNote at hdbc
        simp only [] at hdbc
        by_cases hval : isFolderPathnameValid (props.folderPathname.getD "/")
        · rw [if_pos hval] at hdbc
          exact (congrArg Prod.snd (Except.ok.inj hdbc)).symm
        · rw [if_neg hval] at hdbc
          simp at hdbc
      have hndid : nd._id = storage.db.nextId := by rw [hnd]
      have hndtr : nd.trashed = false := by rw [hnd]
      have hfreshid : ∀ (i : Nat) (n3 : NoteDoc),
          lookupA storage.noteMap i = some n3 → i ≠ nd._id := by
        intro i n3 hq hcontra
        have hlt := hfresh (i, n3) (mem_of_lookupA hq)
        rw [hcontra, hndid] at hlt
        exact absurd hlt (lt_irrefl _)
      set MT := (nd.tags.foldl (refreshTagStep storage.tagMap nd._id) (db1, [])).2
        with hMT
      set PAR := db1.getFoldersByPathnames
        ((getAllParentFolderPathnames nd.folderPathname).filter
          (fun p => (oget2 storage.folderMap p).isNone)) with hPAR
      have hparents : ∀ p, p ∈ PAR → (oget2 storage.folderMap p).isNone = true := by
        intro p hp
        rw [hPAR] at hp
        unfold Db.getFoldersByPathnames at hp
        have hp2 := List.mem_of_mem_filter hp
        have hp3 := List.mem_filter.mp hp2
        simpa using hp3.2
      have hmodnd : NoDupKeys MT := by
        rw [hMT]
        exact refreshTagFold_snd_nodup _ _ _ _ _ (by constructor)
      have htm : ∀ t, lookupA (omergeA storage.tagMap MT) t =
          if t ∈ nd.tags then
            some (match lookupA storage.tagMap t with
              | some td => { td with noteIdSet := insert nd._id td.noteIdSet }
              | none => { name := t, noteIdSet := {nd._id} })
          else lookupA storage.tagMap t := by
        intro t
        rw [lookupA_omergeA _ _ hmodnd, hMT,
          refreshTagFold_snd_lookup storage.tagMap htagname nd._id nd.tags db1 [] t]
        by_cases ht : t ∈ nd.tags
        · simp only [if_pos ht]
        · simp only [if_neg ht, lookupA]
      cases hofg : oget2 storage.folderMap nd.folderPathname with
      | none =>
        have hndFM1 : NoDupKeys (refreshParentFolders storage.folderMap PAR) :=
          nodupKeys_refreshParentFolders _ _ hndF
        have hfm : ∀ q, lookupA (osetA (refreshParentFolders storage.folderMap PAR)
            nd.folderPathname (some { pathname := nd.folderPathname, noteIdSet := ({nd._id} : Finset Nat) })) q =
            if nd.folderPathname = q then some (some { pathname := nd.folderPathname, noteIdSet := ({nd._id} : Finset Nat) })
            else if q ∈ PAR then
              some (some { pathname := q, noteIdSet := (∅ : Finset Nat) })
            else lookupA storage.folderMap q := by
          intro q
          rw [lookupA_osetA, lookupA_refreshParentFolders]
        unfold ConsistentStorage
        dsimp only
        refine ⟨?_, ?_, ?_, ?_⟩
        · intro kv2 hkv2 htr
          obtain ⟨i2, n2⟩ := kv2
          have hl2 : lookupA (osetA storage.noteMap nd._id nd) i2 = some n2 :=
            lookupA_eq_of_mem (nodupKeys_osetA hndN _ _) hkv2
          rw [lookupA_osetA] at hl2
          by_cases hi : nd._id = i2
          · rw [if_pos hi] at hl2
            have hveq : nd = n2 := Option.some.inj hl2
            constructor
            · unfold oget2
              rw [hfm n2.folderPathname, if_pos (by rw [hveq])]
              show i2 ∈ ({nd._id} : Finset Nat)
              rw [← hi]
              exact Finset.mem_singleton_self nd._id
            · intro t ht
              rw [← hveq] at ht
              rw [htm t, if_pos ht]
              cases hp : lookupA storage.tagMap t with
              | none =>
                show i2 ∈ ({nd._id} : Finset Nat)
                rw [← hi]
                exact Finset.mem_singleton_self nd._id
              | some td =>
                show i2 ∈ insert nd._id td.noteIdSet
                rw [← hi]
                exact Finset.mem_insert_self nd._id td.noteIdSet
          · rw [if_neg hi] at hl2
            obtain ⟨hfold1, htags⟩ := hc1 (i2, n2) (mem_of_lookupA hl2) htr
            constructor
            · obtain ⟨f2, hf2l, hf2m⟩ := optHolds_oget2 hfold1
              unfold oget2
              rw [hfm n2.folderPathname]
              by_cases hq : nd.folderPathname = n2.folderPathname
              · exfalso
                have hx : oget2 storage.folderMap n2.folderPathname = some f2 := by
                  unfold oget2
                  rw [hf2l]
                  rfl
                rw [← hq] at hx
                rw [hx] at hofg
                simp at hofg
              · rw [if_neg hq]
                by_cases hqp : n2.folderPathname ∈ PAR
                · exfalso
                  have hno := hparents _ hqp
                  have hx : oget2 storage.folderMap n2.folderPathname = some f2 := by
                    unfold oget2
                    rw [hf2l]
                    rfl
                  rw [hx] at hno
                  simp at hno
                · rw [if_neg hqp, hf2l]
                  exact hf2m
            · intro t ht
              rw [htm t]
              have hpre := htags t ht
              by_cases htn : t ∈ nd.tags
              · rw [if_pos htn]
                cases hp : lookupA storage.tagMap t with
                | none => rw [hp] at hpre; exact hpre.elim
                | some td =>
                  rw [hp] at hpre
                  show i2 ∈ insert nd._id td.noteIdSet
                  exact Finset.mem_insert_of_mem hpre
              · rw [if_neg htn]
                exact hpre
        · intro kv2 hkv2 htr
          obtain ⟨i2, n2⟩ := kv2
          have hl2 : lookupA (osetA storage.noteMap nd._id nd) i2 = some n2 :=
            lookupA_eq_of_mem (nodupKeys_osetA hndN _ _) hkv2
          rw [lookupA_osetA] at hl2
          by_cases hi : nd._id = i2
          · rw [if_pos hi] at hl2
            have hveq : nd = n2 := Option.some.inj hl2
            rw [← hveq, hndtr] at htr
            simp at htr
          · rw [if_neg hi] at hl2
            obtain ⟨hf2, ht2⟩ := hc2 (i2, n2) (mem_of_lookupA hl2) htr
            constructor
            · intro pf hpf
              rcases mem_osetA_ne hndFM1 hpf with heq | ⟨hm1, hne⟩
              · rw [heq]
                intro a ha hi3
                have hva : ({ pathname := nd.folderPathname, noteIdSet := ({nd._id} : Finset Nat) } : FolderDoc) = a := Option.some.inj ha
                rw [← hva] at hi3
                have hieq : i2 = nd._id := by simpa using hi3
                exact hi hieq.symm
              · rcases mem_refreshParentFolders hm1 with hm2 | ⟨p, hp2⟩
                · exact hf2 pf hm2
                · rw [hp2]
                  intro a ha hi3
                  have hva : ({ pathname := p, noteIdSet := (∅ : Finset Nat) } :
                      FolderDoc) = a := Option.some.inj ha
                  rw [← hva] at hi3
                  simp at hi3
            · intro pt hpt
              have hl3 : lookupA (omergeA storage.tagMap MT) pt.1 = some pt.2 :=
                lookupA_eq_of_mem (nodupKeys_omergeA _ hndT) hpt
              rw [htm pt.1] at hl3
              by_cases htn : pt.1 ∈ nd.tags
              · rw [if_pos htn] at hl3
                have hv := Option.some.inj hl3
                cases hp : lookupA storage.tagMap pt.1 with
                | none =>
                  rw [hp] at hv
                  rw [← hv]
                  intro hmem
                  have : i2 = nd._id := by simpa using hmem
                  exact hi this.symm
                | some td =>
                  rw [hp] at hv
                  rw [← hv]
                  intro hmem
                  rcases Finset.mem_insert.mp hmem with h1 | h1
                  · exact hi h1.symm
                  · exact ht2 (pt.1, td) (mem_of_lookupA hp) h1
              · rw [if_neg htn] at hl3
                exact ht2 (pt.1, pt.2) (mem_of_lookupA hl3)
        · intro pf hpf
          rcases mem_osetA_ne hndFM1 hpf with heq | ⟨hm1, hne⟩
          · rw [heq]
            intro a ha i hi
            have hva : ({ pathname := nd.folderPathname, noteIdSet := ({nd._id} : Finset Nat) } : FolderDoc) = a := Option.some.inj ha
            rw [← hva] at hi
            have hieq : i = nd._id := by simpa using hi
            rw [lookupA_osetA, if_pos hieq.symm]
            exact ⟨hndtr, rfl⟩
          · rcases mem_refreshParentFolders hm1 with hm2 | ⟨p, hp2⟩
            · intro a ha i hi
              have h3 := hc3 pf hm2 a ha i hi
              cases hq2 : lookupA storage.noteMap i with
              | none => rw [hq2] at h3; exact h3.elim
              | some n3 =>
                rw [lookupA_osetA, if_neg (fun h => hfreshid i n3 hq2 h.symm), hq2]
                rw [hq2] at h3
                exact h3
            · rw [hp2]
              intro a ha i hi
              have hva : ({ pathname := p, noteIdSet := (∅ : Finset Nat) } :
                  FolderDoc) = a := Option.some.inj ha
              rw [← hva] at hi
              simp at hi
        · intro pt hpt i hi
          have hl3 : lookupA (omergeA storage.tagMap MT) pt.1 = some pt.2 :=
            lookupA_eq_of_mem (nodupKeys_omergeA _ hndT) hpt
          rw [htm pt.1] at hl3
          by_cases htn : pt.1 ∈ nd.tags
          · rw [if_pos htn] at hl3
            have hv := Option.some.inj hl3
            cases hp : lookupA storage.tagMap pt.1 with
            | none =>
              rw [hp] at hv
              rw [← hv] at hi
              have hieq : i = nd._id := by simpa using hi
              rw [lookupA_osetA, if_pos hieq.symm]
              exact ⟨hndtr, htn⟩
            | some td =>
              rw [hp] at hv
              rw [← hv] at hi
              rcases Finset.mem_insert.mp hi with h1 | h1
              · rw [lookupA_osetA, if_pos h1.symm]
                exact ⟨hndtr, htn⟩
              · have h4 := hc4 (pt.1, td) (mem_of_lookupA hp) i h1
                cases hq2 : lookupA storage.noteMap i with
                | none => rw [hq2] at h4; exact h4.elim
                | some n3 =>
                  rw [lookupA_osetA, if_neg (fun h => hfreshid i n3 hq2 h.symm), hq2]
                  rw [hq2] at h4
                  exact h4
          · rw [if_neg htn] at hl3
            have h4 := hc4 (pt.1, pt.2) (mem_of_lookupA hl3) i hi
            cases hq2 : lookupA storage.noteMap i with
            | none => rw [hq2] at h4; exact h4.elim
            | some n3 =>
              rw [lookupA_osetA, if_neg (fun h => hfreshid i n3 hq2 h.symm), hq2]
              rw [hq2] at h4
              exact h4
      | some f =>
        have hfl : lookupA storage.folderMap nd.folderPathname = some (some f) := by
          unfold oget2 at hofg
          cases hq : lookupA storage.folderMap nd.folderPathname with
          | none => rw [hq] at hofg; simp at hofg
          | some ov =>
            rw [hq] at hofg
            cases ov with
            | none => simp at hofg
            | some f0 =>
              have : f0 = f := by simpa using hofg
              rw [this]
        have hfmem : (nd.folderPathname, some f) ∈ storage.folderMap :=
          mem_of_lookupA hfl
        have hndFM1 : NoDupKeys (refreshParentFolders storage.folderMap PAR) :=
          nodupKeys_refreshParentFolders _ _ hndF
        have hfm : ∀ q, lookupA (osetA (refreshParentFolders storage.folderMap PAR)
            nd.folderPathname (some { f with noteIdSet := insert nd._id f.noteIdSet })) q =
            if nd.folderPathname = q then some (some { f with noteIdSet := insert nd._id f.noteIdSet })
            else if q ∈ PAR then
              some (some { pathname := q, noteIdSet := (∅ : Finset Nat) })
            else lookupA storage.folderMap q := by
          intro q
          rw [lookupA_osetA, lookupA_refreshParentFolders]
        unfold ConsistentStorage
        dsimp only
        refine ⟨?_, ?_, ?_, ?_⟩
        · intro kv2 hkv2 htr
          obtain ⟨i2, n2⟩ := kv2
          have hl2 : lookupA (osetA storage.noteMap nd._id nd) i2 = some n2 :=
            lookupA_eq_of_mem (nodupKeys_osetA hndN _ _) hkv2
          rw [lookupA_osetA] at hl2
          by_cases hi : nd._id = i2
          · rw [if_pos hi] at hl2
            have hveq : nd = n2 := Option.some.inj hl2
            constructor
            · unfold oget2
              rw [hfm n2.folderPathname, if_pos (by rw [hveq])]
              show i2 ∈ insert nd._id f.noteIdSet
              rw [← hi]
              exact Finset.mem_insert_self nd._id f.noteIdSet
            · intro t ht
              rw [← hveq] at ht
              rw [htm t, if_pos ht]
              cases hp : lookupA storage.tagMap t with
              | none =>
                show i2 ∈ ({nd._id} : Finset Nat)
                rw [← hi]
                exact Finset.mem_singleton_self nd._id
              | some td =>
                show i2 ∈ insert nd._id td.noteIdSet
                rw [← hi]
                exact Finset.mem_insert_self nd._id td.noteIdSet
          · rw [if_neg hi] at hl2
            obtain ⟨hfold1, htags⟩ := hc1 (i2, n2) (mem_of_lookupA hl2) htr
            constructor
            · obtain ⟨f2, hf2l, hf2m⟩ := optHolds_oget2 hfold1
              unfold oget2
              rw [hfm n2.folderPathname]
              by_cases hq : nd.folderPathname = n2.folderPathname
              · rw [if_pos hq]
                have hx : lookupA storage.folderMap n2.folderPathname
                    = some (some f) := by
                  rw [← hq]
                  exact hfl
                rw [hf2l] at hx
                have hfeq : f2 = f := by simpa using hx
                show i2 ∈ insert nd._id f.noteIdSet
                rw [← hfeq]
                exact Finset.mem_insert_of_mem hf2m
              · rw [if_neg hq]
                by_cases hqp : n2.folderPathname ∈ PAR
                · exfalso
                  have hno := hparents _ hqp
                  have hx : oget2 storage.folderMap n2.folderPathname = some f2 := by
                    unfold oget2
                    rw [hf2l]
                    rfl
                  rw [hx] at hno
                  simp at hno
                · rw [if_neg hqp, hf2l]
                  exact hf2m
            · intro t ht
              rw [htm t]
              have hpre := htags t ht
              by_cases htn : t ∈ nd.tags
              · rw [if_pos htn]
                cases hp : lookupA storage.tagMap t with
                | none => rw [hp] at hpre; exact hpre.elim
                | some td =>
                  rw [hp] at hpre
                  show i2 ∈ insert nd._id td.noteIdSet
                  exact Finset.mem_insert_of_mem hpre
              · rw [if_neg htn]
                exact hpre
        · intro kv2 hkv2 htr
          obtain ⟨i2, n2⟩ := kv2
          have hl2 : lookupA (osetA storage.noteMap nd._id nd) i2 = some n2 :=
            lookupA_eq_of_mem (nodupKeys_osetA hndN _ _) hkv2
          rw [lookupA_osetA] at hl2
          by_cases hi : nd._id = i2
          · rw [if_pos hi] at hl2
            have hveq : nd = n2 := Option.some.inj hl2
            rw [← hveq, hndtr] at htr
            simp at htr
          · rw [if_neg hi] at hl2
            obtain ⟨hf2, ht2⟩ := hc2 (i2, n2) (mem_of_lookupA hl2) htr
            constructor
            · intro pf hpf
              rcases mem_osetA_ne hndFM1 hpf with heq | ⟨hm1, hne⟩
              · rw [heq]
                intro a ha hi3
                have hva : ({ f with noteIdSet := insert nd._id f.noteIdSet } : FolderDoc) = a := Option.some.inj ha
                rw [← hva] at hi3
                rcases Finset.mem_insert.mp hi3 with h1 | h1
                · exact hi h1.symm
                · exact hf2 (nd.folderPathname, some f) hfmem f rfl h1
              · rcases mem_refreshParentFolders hm1 with hm2 | ⟨p, hp2⟩
                · exact hf2 pf hm2
                · rw [hp2]
                  intro a ha hi3
                  have hva : ({ pathname := p, noteIdSet := (∅ : Finset Nat) } :
                      FolderDoc) = a := Option.some.inj ha
                  rw [← hva] at hi3
                  simp at hi3
            · intro pt hpt
              have hl3 : lookupA (omergeA storage.tagMap MT) pt.1 = some pt.2 :=
                lookupA_eq_of_mem (nodupKeys_omergeA _ hndT) hpt
              rw [htm pt.1] at hl3
              by_cases htn : pt.1 ∈ nd.tags
              · rw [if_pos htn] at hl3
                have hv := Option.some.inj hl3
                cases hp : lookupA storage.tagMap pt.1 with
                | none =>
                  rw [hp] at hv
                  rw [← hv]
                  intro hmem
                  have : i2 = nd._id := by simpa using hmem
                  exact hi this.symm
                | some td =>
                  rw [hp] at hv
                  rw [← hv]
                  intro hmem
                  rcases Finset.mem_insert.mp hmem with h1 | h1
                  · exact hi h1.symm
                  · exact ht2 (pt.1, td) (mem_of_lookupA hp) h1
              · rw [if_neg htn] at hl3
                exact ht2 (pt.1, pt.2) (mem_of_lookupA hl3)
        · intro pf hpf
          rcases mem_osetA_ne hndFM1 hpf with heq | ⟨hm1, hne⟩
          · rw [heq]
            intro a ha i hi
            have hva : ({ f with noteIdSet := insert nd._id f.noteIdSet } : FolderDoc) = a := Option.some.inj ha
            rw [← hva] at hi
            rcases Finset.mem_insert.mp hi with h1 | h1
            · rw [lookupA_osetA, if_pos h1.symm]
              exact ⟨hndtr, rfl⟩
            · have h3 := hc3 (nd.folderPathname, some f) hfmem f rfl i h1
              cases hq2 : lookupA storage.noteMap i with
              | none => rw [hq2] at h3; exact h3.elim
              | some n3 =>
                rw [lookupA_osetA, if_neg (fun h => hfreshid i n3 hq2 h.symm), hq2]
                rw [hq2] at h3
                exact h3
          · rcases mem_refreshParentFolders hm1 with hm2 | ⟨p, hp2⟩
            · intro a ha i hi
              have h3 := hc3 pf hm2 a ha i hi
              cases hq2 : lookupA storage.noteMap i with
              | none => rw [hq2] at h3; exact h3.elim
              | some n3 =>
                rw [lookupA_osetA, if_neg (fun h => hfreshid i n3 hq2 h.symm), hq2]
                rw [hq2] at h3
                exact h3
            · rw [hp2]
              intro a ha i hi
              have hva : ({ pathname := p, noteIdSet := (∅ : Finset Nat) } :
                  FolderDoc) = a := Option.some.inj ha
              rw [← hva] at hi
              simp at hi
        · intro pt hpt i hi
          have hl3 : lookupA (omergeA storage.tagMap MT) pt.1 = some pt.2 :=
            lookupA_eq_of_mem (nodupKeys_omergeA _ hndT) hpt
          rw [htm pt.1] at hl3
          by_cases htn : pt.1 ∈ nd.tags
          · rw [if_pos htn] at hl3
            have hv := Option.some.inj hl3
            cases hp : lookupA storage.tagMap pt.1 with
            | none =>
              rw [hp] at hv
              rw [← hv] at hi
              have hieq : i = nd._id := by simpa using hi
              rw [lookupA_osetA, if_pos hieq.symm]
              exact ⟨hndtr, htn⟩
            | some td =>
              rw [hp] at hv
              rw [← hv] at hi
              rcases Finset.mem_insert.mp hi with h1 | h1
              · rw [lookupA_osetA, if_pos h1.symm]
                exact ⟨hndtr, htn⟩
              · have h4 := hc4 (pt.1, td) (mem_of_lookupA hp) i h1
                cases hq2 : lookupA storage.noteMap i with
                | none => rw [hq2] at h4; exact h4.elim
                | some n3 =>
                  rw [lookupA_osetA, if_neg (fun h => hfreshid i n3 hq2 h.symm), hq2]
                  rw [hq2] at h4
                  exact h4
          · rw [if_neg htn] at hl3
            have h4 := hc4 (pt.1, pt.2) (mem_of_lookupA hl3) i hi
            cases hq2 : lookupA storage.noteMap i with
            | none => rw [hq2] at h4; exact h4.elim
            | some n3 =>
              rw [lookupA_osetA, if_neg (fun h => hfreshid i n3 hq2 h.symm), hq2]
              rw [hq2] at h4
              exact h4

theorem mem_refreshFolders {m : List (String × Option FolderDoc)}
    {fs : List FolderDoc} {kv : String × Option FolderDoc}
    (h : kv ∈ refreshFolders m fs) :
    kv ∈ m ∨ ∃ g, g ∈ fs ∧ kv = (g.pathname, some g) := by
  unfold refreshFolders at h
  induction fs generalizing m with
  | nil => exact Or.inl h
  | cons g rest ih =>
    rw [List.foldl_cons] at h
    rcases ih h with h1 | h1
    · rcases mem_osetA h1 with h2 | h2
      · exact Or.inr ⟨g, List.mem_cons_self g rest, h2⟩
      · exact Or.inl h2
    · obtain ⟨g2, hg2, hkv⟩ := h1
      exact Or.inr ⟨g2, List.mem_cons_of_mem g hg2, hkv⟩

theorem nodupKeys_refreshFolders (m : List (String × Option FolderDoc))
    (fs : List FolderDoc) (hnd : NoDupKeys m) :
    NoDupKeys (refreshFolders m fs) := by
  unfold refreshFolders
  exact nodupKeys_foldl_osetA fs (fun f => f.pathname) (fun f => some f) m hnd

theorem refreshFolders_append (m : List (String × Option FolderDoc))
    (a b : List FolderDoc) :
    refreshFolders m (a ++ b) = refreshFolders (refreshFolders m a) b := by
  unfold refreshFolders
  rw [List.foldl_append]

theorem refreshFolders_map_empty (m : List (String × Option FolderDoc))
    (ps : List String) :
    refreshFolders m (ps.map
      (fun p => { pathname := p, noteIdSet := (∅ : Finset Nat) })) =
    refreshParentFolders m ps := by
  unfold refreshFolders refreshParentFolders
  rw [List.foldl_map]

theorem lookupA_of_oget2 {m : List (String × Option FolderDoc)} {k : String}
    {f : FolderDoc} (h : oget2 m k = some f) :
    lookupA m k = some (some f) := by
  unfold oget2 at h
  cases hq : lookupA m k with
  | none => rw [hq] at h; simp at h
  | some ov =>
    rw [hq] at h
    cases ov with
    | none => simp at h
    | some f0 =>
      have : f0 = f := by simpa using h
      rw [this]

theorem consistent_updateNote (sm : StorageMap) (sid : String) (nid : Nat)
    (props : NoteProps) (hwf : WfStorageMap sm)
    (hok : OptAll (lookupA sm sid) (fun s =>
      OptAll (lookupA s.noteMap nid) (fun n => n.trashed = false))) :
    ∀ kv ∈ (updateNote sm sid nid props).1, ConsistentStorage kv.2 := by
  unfold updateNote
  cases hls : lookupA sm sid with
  | none => exact fun kv h => consistent_of_mem hwf h
  | some storage =>
    dsimp only
    cases hdbu : storage.db.updateNote nid props with
    | error e => exact fun kv h => consistent_of_mem hwf h
    | ok pr =>
      obtain ⟨db1, res⟩ := pr
      cases res with
      | none =>
        refine consistent_result_osetA hwf ?_
        exact consistent_mk_db _ _ (consistent_of_lookup hwf hls)
      | some nd =>
        dsimp only
        obtain ⟨hndN, hndF, hndT, hndDb, hcons, hclosure, htagname, hfoldname,
          hag1, hag2, hfdb, hfresh, hidkey⟩ := wfStorage_of_lookup hwf hls
        obtain ⟨hc1, hc2, hc3, hc4⟩ := hcons
        obtain ⟨old, hdbn, hnd⟩ : ∃ old, lookupA storage.db.notes nid = some old ∧
            nd = { old with title := props.title.getD old.title,
                            content := props.content.getD old.content,
                            data := props.data.getD old.data,
                            tags := props.tags.getD old.tags,
                            folderPathname :=
                              props.folderPathname.getD old.folderPathname } := by
          unfold Db.updateNote at hdbu
          cases hq : lookupA storage.db.notes nid with
          | none => rw [hq] at hdbu; simp at hdbu
          | some old0 =>
            rw [hq] at hdbu
            simp only [] at hdbu
            by_cases hval : isFolderPathnameValid
                (props.folderPathname.getD old0.folderPathname)
            · rw [if_pos hval] at hdbu
              refine ⟨old0, rfl, ?_⟩
              have hnd2 := congrArg Prod.snd (Except.ok.inj hdbu)
              exact (Option.some.inj hnd2).symm
            · rw [if_neg hval] at hdbu
              simp at hdbu
        have hnm0 : lookupA storage.noteMap nid = some old :=
          hag2 (nid, old) (mem_of_lookupA hdbn)
        have holdmem : (nid, old) ∈ storage.noteMap := mem_of_lookupA hnm0
        have holdid : old._id = nid := hidkey (nid, old) holdmem
        have hndid : nd._id = nid := by rw [hnd]; exact holdid
        have holdtr : old.trashed = false := hok storage hls old hnm0
        have hndtrf : nd.trashed = false := by rw [hnd]; exact holdtr
        have hgetd : (storage.db.getNote nid).getD nd = old := by
          show (lookupA storage.db.notes nid).getD nd = old
          rw [hdbn]
          rfl
        have hmap : lookupA storage.noteMap nd._id = some old := by
          rw [hndid]; exact hnm0
        simp only [hgetd, hmap]
        cases hfold : ((old.tags.filter (fun t => decide (t ∉ nd.tags))).dedup).foldlM
            (eraseTagStep storage.tagMap nd._id) ([] : List (String × TagDoc)) with
        | error e =>
          refine consistent_result_osetA hwf ?_
          exact consistent_mk_db _ _ (consistent_of_lookup hwf hls)
        | ok removedTags =>
          refine consistent_result_osetA hwf ?_
          have hDT : ∀ t, t ∈ (old.tags.filter
              (fun t => decide (t ∉ nd.tags))).dedup ↔
              (t ∈ old.tags ∧ t ∉ nd.tags) := by
            intro t
            rw [List.mem_dedup, List.mem_filter]
            simp
          obtain ⟨mt', hrun, hmtnodup, hmtlook⟩ :=
            eraseTagFold_spec storage.tagMap nd._id
              ((old.tags.filter (fun t => decide (t ∉ nd.tags))).dedup) []
              (fun t ht => hclosure (nid, old) holdmem t ((hDT t).mp ht).1)
          have hmteq : mt' = removedTags := by
            rw [hfold] at hrun
            exact (Except.ok.inj hrun).symm
          rw [← hmteq]
          have hmtnd : NoDupKeys mt' := hmtnodup (by constructor)
          set MT2 := (nd.tags.foldl (refreshTagStep storage.tagMap nd._id)
            (db1, [])).2 with hMT2
          have hmodnd2 : NoDupKeys MT2 := by
            rw [hMT2]
            exact refreshTagFold_snd_nodup _ _ _ _ _ (by constructor)
          have htm : ∀ t, lookupA (omergeA (omergeA storage.tagMap mt') MT2) t =
              if t ∈ nd.tags then
                some (match lookupA storage.tagMap t with
                  | some td => { td with noteIdSet := insert nd._id td.noteIdSet }
                  | none => { name := t, noteIdSet := {nd._id} })
              else match lookupA storage.tagMap t with
                | some td => some (if t ∈ (old.tags.filter
                    (fun t => decide (t ∉ nd.tags))).dedup
                    then { td with noteIdSet := td.noteIdSet.erase nd._id }
                    else td)
                | none => none := by
            intro t
            rw [lookupA_omergeA _ _ hmodnd2, hMT2,
              refreshTagFold_snd_lookup storage.tagMap htagname nd._id nd.tags db1 [] t]
            by_cases htn : t ∈ nd.tags
            · simp only [if_pos htn]
            · simp only [if_neg htn, lookupA]
              rw [lookupA_omergeA _ _ hmtnd, hmtlook t]
              cases hp : lookupA storage.tagMap t with
              | none => simp only [hp, lookupA]
              | some td =>
                simp only [hp]
                by_cases htd : t ∈ (old.tags.filter
                    (fun t => decide (t ∉ nd.tags))).dedup
                · simp only [if_pos htd]
                · simp only [if_neg htd, lookupA]
          have hOld : ∀ (q : String) (v : Option FolderDoc) (a : FolderDoc),
              (q, v) ∈ storage.folderMap → v = some a → nid ∈ a.noteIdSet →
              q = old.folderPathname := by
            intro q v a hm hv hix
            have h3 := hc3 (q, v) hm a hv nid hix
            rw [hnm0] at h3
            exact h3.2.symm
          set PARS := db1.getFoldersByPathnames
            ((getAllParentFolderPathnames nd.folderPathname).filter
              (fun p => (oget2 storage.folderMap p).isNone)) with hPAR
          have hparents : ∀ p, p ∈ PARS →
              (oget2 storage.folderMap p).isNone = true := by
            intro p hp
            rw [hPAR] at hp
            unfold Db.getFoldersByPathnames at hp
            have hp2 := List.mem_of_mem_filter hp
            have hp3 := List.mem_filter.mp hp2
            simpa using hp3.2
          by_cases hch : old.folderPathname = nd.folderPathname
          · rw [if_neg (fun hcc => hcc hch)]
            simp only [List.nil_append]
            cases hofg : oget2 storage.folderMap nd.folderPathname with
            | none =>
              have hkeyeq : nd.folderPathname = nd.folderPathname := rfl
              have hFm1 : nd._id ∈ ({ pathname := nd.folderPathname, noteIdSet := ({nd._id} : Finset Nat) } : FolderDoc).noteIdSet := by simp
              have hFm2 : ∀ i, i ∈ ({ pathname := nd.folderPathname, noteIdSet := ({nd._id} : Finset Nat) } : FolderDoc).noteIdSet →
                  i = nd._id ∨ ∃ ff, oget2 storage.folderMap nd.folderPathname = some ff ∧
                    i ∈ ff.noteIdSet := by
                intro i hi3
                left
                simpa using hi3
              have hFm3 : ∀ f2, oget2 storage.folderMap nd.folderPathname = some f2 →
                  ∀ i, i ∈ f2.noteIdSet → i ∈ ({ pathname := nd.folderPathname, noteIdSet := ({nd._id} : Finset Nat) } : FolderDoc).noteIdSet := by
                intro f2 hf2x i hi4
                rw [hofg] at hf2x
                simp at hf2x
              have hsplit : refreshFolders storage.folderMap
                  ((PARS.map (fun p => { pathname := p, noteIdSet := (∅ : Finset Nat) })) ++ [({ pathname := nd.folderPathname, noteIdSet := ({nd._id} : Finset Nat) } : FolderDoc)]) =
                  osetA (refreshParentFolders storage.folderMap PARS)
                    (nd.folderPathname) (some ({ pathname := nd.folderPathname, noteIdSet := ({nd._id} : Finset Nat) } : FolderDoc)) := by
                rw [refreshFolders_append, refreshFolders_map_empty]
                rfl
              have hndFM : NoDupKeys (osetA (refreshParentFolders storage.folderMap PARS)
                  (nd.folderPathname) (some ({ pathname := nd.folderPathname, noteIdSet := ({nd._id} : Finset Nat) } : FolderDoc))) :=
                nodupKeys_osetA (nodupKeys_refreshParentFolders _ _ hndF) _ _
              have hfm : ∀ q, lookupA (osetA (refreshParentFolders storage.folderMap PARS)
                  (nd.folderPathname) (some ({ pathname := nd.folderPathname, noteIdSet := ({nd._id} : Finset Nat) } : FolderDoc))) q =
                  if nd.folderPathname = q then some (some ({ pathname := nd.folderPathname, noteIdSet := ({nd._id} : Finset Nat) } : FolderDoc))
                  else if q ∈ PARS then
                    some (some { pathname := q, noteIdSet := (∅ : Finset Nat) })
                  else lookupA storage.folderMap q := by
                intro q
                rw [lookupA_osetA, lookupA_refreshParentFolders]
              rw [hsplit]
              unfold ConsistentStorage
              dsimp only
              refine ⟨?_, ?_, ?_, ?_⟩
              · intro kv2 hkv2 htr
                obtain ⟨i2, n2⟩ := kv2
                have hl2 : lookupA (osetA storage.noteMap nd._id nd) i2 = some n2 :=
                  lookupA_eq_of_mem (nodupKeys_osetA hndN _ _) hkv2
                rw [lookupA_osetA] at hl2
                by_cases hi : nd._id = i2
                · rw [if_pos hi] at hl2
                  have hveq : nd = n2 := Option.some.inj hl2
                  constructor
                  · unfold oget2
                    rw [hfm n2.folderPathname, if_pos (by rw [hkeyeq, hveq])]
                    show i2 ∈ ({ pathname := nd.folderPathname, noteIdSet := ({nd._id} : Finset Nat) } : FolderDoc).noteIdSet
                    rw [← hi]
                    exact hFm1
                  · intro t ht
                    rw [← hveq] at ht
                    rw [htm t, if_pos ht]
                    cases hp : lookupA storage.tagMap t with
                    | none =>
                      show i2 ∈ ({nd._id} : Finset Nat)
                      rw [← hi]
                      exact Finset.mem_singleton_self nd._id
                    | some td =>
                      show i2 ∈ insert nd._id td.noteIdSet
                      rw [← hi]
                      exact Finset.mem_insert_self nd._id td.noteIdSet
                · rw [if_neg hi] at hl2
                  obtain ⟨hfold1, htags⟩ := hc1 (i2, n2) (mem_of_lookupA hl2) htr
                  constructor
                  · obtain ⟨f2, hf2l, hf2m⟩ := optHolds_oget2 hfold1
                    unfold oget2
                    rw [hfm n2.folderPathname]
                    by_cases hq : nd.folderPathname = n2.folderPathname
                    · rw [if_pos hq]
                      show i2 ∈ ({ pathname := nd.folderPathname, noteIdSet := ({nd._id} : Finset Nat) } : FolderDoc).noteIdSet
                      refine hFm3 f2 ?_ i2 hf2m
                      rw [hkeyeq] at hq
                      rw [hq]
                      unfold oget2
                      rw [hf2l]
                      rfl
                    · rw [if_neg hq]
                      by_cases hqp : n2.folderPathname ∈ PARS
                      · exfalso
                        have hno := hparents _ hqp
                        have hx : oget2 storage.folderMap n2.folderPathname = some f2 := by
                          unfold oget2
                          rw [hf2l]
                          rfl
                        rw [hx] at hno
                        simp at hno
                      · rw [if_neg hqp, hf2l]
                        exact hf2m
                  · intro t ht
                    rw [htm t]
                    have hpre := htags t ht
                    by_cases htn : t ∈ nd.tags
                    · rw [if_pos htn]
                      cases hp : lookupA storage.tagMap t with
                      | none => rw [hp] at hpre; exact hpre.elim
                      | some td =>
                        rw [hp] at hpre
                        show i2 ∈ insert nd._id td.noteIdSet
                        exact Finset.mem_insert_of_mem hpre
                    · rw [if_neg htn]
                      cases hp : lookupA storage.tagMap t with
                      | none => rw [hp] at hpre; exact hpre.elim
                      | some td =>
                        rw [hp] at hpre
                        dsimp only
                        by_cases htd : t ∈ (old.tags.filter
                            (fun t => decide (t ∉ nd.tags))).dedup
                        · rw [if_pos htd]
                          show i2 ∈ td.noteIdSet.erase nd._id
                          exact Finset.mem_erase.mpr ⟨fun hh => hi hh.symm, hpre⟩
                        · rw [if_neg htd]
                          exact hpre
              · intro kv2 hkv2 htr
                obtain ⟨i2, n2⟩ := kv2
                have hl2 : lookupA (osetA storage.noteMap nd._id nd) i2 = some n2 :=
                  lookupA_eq_of_mem (nodupKeys_osetA hndN _ _) hkv2
                rw [lookupA_osetA] at hl2
                by_cases hi : nd._id = i2
                · rw [if_pos hi] at hl2
                  have hveq : nd = n2 := Option.some.inj hl2
                  rw [← hveq, hndtrf] at htr
                  simp at htr
                · rw [if_neg hi] at hl2
                  obtain ⟨hf2, ht2⟩ := hc2 (i2, n2) (mem_of_lookupA hl2) htr
                  constructor
                  · intro pf0 hpf0
                    rcases mem_osetA_ne (nodupKeys_refreshParentFolders _ _ hndF) hpf0
                      with heq | ⟨hm1, hne⟩
                    · rw [heq]
                      intro a ha hi3
                      have hva : ({ pathname := nd.folderPathname, noteIdSet := ({nd._id} : Finset Nat) } : FolderDoc) = a := Option.some.inj ha
                      rw [← hva] at hi3
                      rcases hFm2 i2 hi3 with h1 | ⟨ff, hff, h1⟩
                      · exact hi h1.symm
                      · have hffl := lookupA_of_oget2 hff
                        exact hf2 (nd.folderPathname, some ff) (mem_of_lookupA hffl) ff rfl h1
                    · rcases mem_refreshParentFolders hm1 with hm2 | ⟨p, hp2⟩
                      · exact hf2 pf0 hm2
                      · rw [hp2]
                        intro a ha hi3
                        have hva : ({ pathname := p, noteIdSet := (∅ : Finset Nat) } :
                            FolderDoc) = a := Option.some.inj ha
                        rw [← hva] at hi3
                        simp at hi3
                  · intro pt hpt
                    have hl3 : lookupA (omergeA (omergeA storage.tagMap mt') MT2) pt.1
                        = some pt.2 :=
                      lookupA_eq_of_mem (nodupKeys_omergeA _ (nodupKeys_omergeA _ hndT)) hpt
                    rw [htm pt.1] at hl3
                    by_cases htn : pt.1 ∈ nd.tags
                    · rw [if_pos htn] at hl3
                      have hv := Option.some.inj hl3
                      cases hp : lookupA storage.tagMap pt.1 with
                      | none =>
                        rw [hp] at hv
                        rw [← hv]
                        intro hmem
                        have : i2 = nd._id := by simpa using hmem
                        exact hi this.symm
                      | some td =>
                        rw [hp] at hv
                        rw [← hv]
                        intro hmem
                        rcases Finset.mem_insert.mp hmem with h1 | h1
                        · exact hi h1.symm
                        · exact ht2 (pt.1, td) (mem_of_lookupA hp) h1
                    · rw [if_neg htn] at hl3
                      cases hp : lookupA storage.tagMap pt.1 with
                      | none => rw [hp] at hl3; simp at hl3
                      | some td =>
                        rw [hp] at hl3
                        have hv := Option.some.inj hl3
                        have htd2 := ht2 (pt.1, td) (mem_of_lookupA hp)
                        by_cases htd : pt.1 ∈ (old.tags.filter
                            (fun t => decide (t ∉ nd.tags))).dedup
                        · rw [if_pos htd] at hv
                          rw [← hv]
                          intro hmem
                          exact htd2 (Finset.mem_erase.mp hmem).2
                        · rw [if_neg htd] at hv
                          rw [← hv]
                          exact htd2
              · intro pf0 hpf0
                rcases mem_osetA_ne (nodupKeys_refreshParentFolders _ _ hndF) hpf0
                  with heq | ⟨hm1, hne⟩
                · rw [heq]
                  intro a ha i hi3
                  have hva : ({ pathname := nd.folderPathname, noteIdSet := ({nd._id} : Finset Nat) } : FolderDoc) = a := Option.some.inj ha
                  rw [← hva] at hi3
                  rcases hFm2 i hi3 with h1 | ⟨ff, hff, h1⟩
                  · rw [lookupA_osetA, if_pos h1.symm]
                    exact ⟨hndtrf, hkeyeq.symm⟩
                  · have hffl := lookupA_of_oget2 hff
                    have h3 := hc3 (nd.folderPathname, some ff) (mem_of_lookupA hffl)
                      ff rfl i h1
                    by_cases hii : nd._id = i
                    · rw [lookupA_osetA, if_pos hii]
                      exact ⟨hndtrf, hkeyeq.symm⟩
                    · rw [lookupA_osetA, if_neg hii]
                      cases hq2 : lookupA storage.noteMap i with
                      | none => rw [hq2] at h3; exact h3.elim
                      | some n3 =>
                        rw [hq2] at h3
                        exact ⟨h3.1, by rw [h3.2]; try exact hkeyeq.symm⟩
                · rcases mem_refreshParentFolders hm1 with hm2 | ⟨p, hp2⟩
                  · intro a ha i hi3
                    have h3 := hc3 pf0 hm2 a ha i hi3
                    by_cases hii : nd._id = i
                    · exfalso
                      have hqold := hOld pf0.1 pf0.2 a hm2 ha
                        (by rw [← hndid, hii]; exact hi3)
                      exact hne (by rw [hqold, hch]; try exact hkeyeq.symm)
                    · rw [lookupA_osetA, if_neg hii]
                      exact h3
                  · rw [hp2]
                    intro a ha i hi3
                    have hva : ({ pathname := p, noteIdSet := (∅ : Finset Nat) } :
                        FolderDoc) = a := Option.some.inj ha
                    rw [← hva] at hi3
                    simp at hi3
              · intro pt hpt i hi3
                have hl3 : lookupA (omergeA (omergeA storage.tagMap mt') MT2) pt.1
                    = some pt.2 :=
                  lookupA_eq_of_mem (nodupKeys_omergeA _ (nodupKeys_omergeA _ hndT)) hpt
                rw [htm pt.1] at hl3
                by_cases htn : pt.1 ∈ nd.tags
                · rw [if_pos htn] at hl3
                  have hv := Option.some.inj hl3
                  cases hp : lookupA storage.tagMap pt.1 with
                  | none =>
                    rw [hp] at hv
                    rw [← hv] at hi3
                    have hieq : i = nd._id := by simpa using hi3
                    rw [lookupA_osetA, if_pos hieq.symm]
                    exact ⟨hndtrf, htn⟩
                  | some td =>
                    rw [hp] at hv
                    rw [← hv] at hi3
                    rcases Finset.mem_insert.mp hi3 with h1 | h1
                    · rw [lookupA_osetA, if_pos h1.symm]
                      exact ⟨hndtrf, htn⟩
                    · have h4 := hc4 (pt.1, td) (mem_of_lookupA hp) i h1
                      by_cases hii : nd._id = i
                      · rw [lookupA_osetA, if_pos hii]
                        exact ⟨hndtrf, htn⟩
                      · rw [lookupA_osetA, if_neg hii]
                        exact h4
                · rw [if_neg htn] at hl3
                  cases hp : lookupA storage.tagMap pt.1 with
                  | none => rw [hp] at hl3; simp at hl3
                  | some td =>
                    rw [hp] at hl3
                    have hv := Option.some.inj hl3
                    by_cases htd : pt.1 ∈ (old.tags.filter
                        (fun t => decide (t ∉ nd.tags))).dedup
                    · rw [if_pos htd] at hv
                      rw [← hv] at hi3
                      obtain ⟨hine, hit⟩ := Finset.mem_erase.mp hi3
                      have h4 := hc4 (pt.1, td) (mem_of_lookupA hp) i hit
                      rw [lookupA_osetA, if_neg (fun hh => hine hh.symm)]
                      exact h4
                    · rw [if_neg htd] at hv
                      rw [← hv] at hi3
                      have h4 := hc4 (pt.1, td) (mem_of_lookupA hp) i hi3
                      have hii : ¬ (nd._id = i) := by
                        intro hh
                        rw [← hh, hndid, hnm0] at h4
                        exact htd ((hDT pt.1).mpr ⟨h4.2, htn⟩)
                      rw [lookupA_osetA, if_neg hii]
                      exact h4
            | some f =>
              have hfl : lookupA storage.folderMap nd.folderPathname = some (some f) :=
                lookupA_of_oget2 hofg
              have hfmem : (nd.folderPathname, some f) ∈ storage.folderMap := mem_of_lookupA hfl
              have hkeyeq : f.pathname = nd.folderPathname :=
                hfoldname (nd.folderPathname, some f) hfmem f rfl
              have hFm1 : nd._id ∈ ({ f with noteIdSet := insert nd._id f.noteIdSet } : FolderDoc).noteIdSet :=
                Finset.mem_insert_self nd._id f.noteIdSet
              have hFm2 : ∀ i, i ∈ ({ f with noteIdSet := insert nd._id f.noteIdSet } : FolderDoc).noteIdSet →
                  i = nd._id ∨ ∃ ff, oget2 storage.folderMap nd.folderPathname = some ff ∧
                    i ∈ ff.noteIdSet := by
                intro i hi3
                rcases Finset.mem_insert.mp hi3 with h1 | h1
                · exact Or.inl h1
                · exact Or.inr ⟨f, hofg, h1⟩
              have hFm3 : ∀ f2, oget2 storage.folderMap nd.folderPathname = some f2 →
                  ∀ i, i ∈ f2.noteIdSet → i ∈ ({ f with noteIdSet := insert nd._id f.noteIdSet } : FolderDoc).noteIdSet := by
                intro f2 hf2x i hi4
                rw [hofg] at hf2x
                have hfe : f = f2 := by simpa using hf2x
                rw [← hfe] at hi4
                exact Finset.mem_insert_of_mem hi4
              have hsplit : refreshFolders storage.folderMap
                  ((PARS.map (fun p => { pathname := p, noteIdSet := (∅ : Finset Nat) })) ++ [({ f with noteIdSet := insert nd._id f.noteIdSet } : FolderDoc)]) =
                  osetA (refreshParentFolders storage.folderMap PARS)
                    (f.pathname) (some ({ f with noteIdSet := insert nd._id f.noteIdSet } : FolderDoc)) := by
                rw [refreshFolders_append, refreshFolders_map_empty]
                rfl
              have hndFM : NoDupKeys (osetA (refreshParentFolders storage.folderMap PARS)
                  (f.pathname) (some ({ f with noteIdSet := insert nd._id f.noteIdSet } : FolderDoc))) :=
                nodupKeys_osetA (nodupKeys_refreshParentFolders _ _ hndF) _ _
              have hfm : ∀ q, lookupA (osetA (refreshParentFolders storage.folderMap PARS)
                  (f.pathname) (some ({ f with noteIdSet := insert nd._id f.noteIdSet } : FolderDoc))) q =
                  if f.pathname = q then some (some ({ f with noteIdSet := insert nd._id f.noteIdSet } : FolderDoc))
                  else if q ∈ PARS then
                    some (some { pathname := q, noteIdSet := (∅ : Finset Nat) })
                  else lookupA storage.folderMap q := by
                intro q
                rw [lookupA_osetA, lookupA_refreshParentFolders]
              rw [hsplit]
              unfold ConsistentStorage
              dsimp only
              refine ⟨?_, ?_, ?_, ?_⟩
              · intro kv2 hkv2 htr
                obtain ⟨i2, n2⟩ := kv2
                have hl2 : lookupA (osetA storage.noteMap nd._id nd) i2 = some n2 :=
                  lookupA_eq_of_mem (nodupKeys_osetA hndN _ _) hkv2
                rw [lookupA_osetA] at hl2
                by_cases hi : nd._id = i2
                · rw [if_pos hi] at hl2
                  have hveq : nd = n2 := Option.some.inj hl2
                  constructor
                  · unfold oget2
                    rw [hfm n2.folderPathname, if_pos (by rw [hkeyeq, hveq])]
                    show i2 ∈ ({ f with noteIdSet := insert nd._id f.noteIdSet } : FolderDoc).noteIdSet
                    rw [← hi]
                    exact hFm1
                  · intro t ht
                    rw [← hveq] at ht
                    rw [htm t, if_pos ht]
                    cases hp : lookupA storage.tagMap t with
                    | none =>
                      show i2 ∈ ({nd._id} : Finset Nat)
                      rw [← hi]
                      exact Finset.mem_singleton_self nd._id
                    | some td =>
                      show i2 ∈ insert nd._id td.noteIdSet
                      rw [← hi]
                      exact Finset.mem_insert_self nd._id td.noteIdSet
                · rw [if_neg hi] at hl2
                  obtain ⟨hfold1, htags⟩ := hc1 (i2, n2) (mem_of_lookupA hl2) htr
                  constructor
                  · obtain ⟨f2, hf2l, hf2m⟩ := optHolds_oget2 hfold1
                    unfold oget2
                    rw [hfm n2.folderPathname]
                    by_cases hq : f.pathname = n2.folderPathname
                    · rw [if_pos hq]
                      show i2 ∈ ({ f with noteIdSet := insert nd._id f.noteIdSet } : FolderDoc).noteIdSet
                      refine hFm3 f2 ?_ i2 hf2m
                      rw [hkeyeq] at hq
                      rw [hq]
                      unfold oget2
                      rw [hf2l]
                      rfl
                    · rw [if_neg hq]
                      by_cases hqp : n2.folderPathname ∈ PARS
                      · exfalso
                        have hno := hparents _ hqp
                        have hx : oget2 storage.folderMap n2.folderPathname = some f2 := by
                          unfold oget2
                          rw [hf2l]
                          rfl
                        rw [hx] at hno
                        simp at hno
                      · rw [if_neg hqp, hf2l]
                        exact hf2m
                  · intro t ht
                    rw [htm t]
                    have hpre := htags t ht
                    by_cases htn : t ∈ nd.tags
                    · rw [if_pos htn]
                      cases hp : lookupA storage.tagMap t with
                      | none => rw [hp] at hpre; exact hpre.elim
                      | some td =>
                        rw [hp] at hpre
                        show i2 ∈ insert nd._id td.noteIdSet
                        exact Finset.mem_insert_of_mem hpre
                    · rw [if_neg htn]
                      cases hp : lookupA storage.tagMap t with
                      | none => rw [hp] at hpre; exact hpre.elim
                      | some td =>
                        rw [hp] at hpre
                        dsimp only
                        by_cases htd : t ∈ (old.tags.filter
                            (fun t => decide (t ∉ nd.tags))).dedup
                        · rw [if_pos htd]
                          show i2 ∈ td.noteIdSet.erase nd._id
                          exact Finset.mem_erase.mpr ⟨fun hh => hi hh.symm, hpre⟩
                        · rw [if_neg htd]
                          exact hpre
              · intro kv2 hkv2 htr
                obtain ⟨i2, n2⟩ := kv2
                have hl2 : lookupA (osetA storage.noteMap nd._id nd) i2 = some n2 :=
                  lookupA_eq_of_mem (nodupKeys_osetA hndN _ _) hkv2
                rw [lookupA_osetA] at hl2
                by_cases hi : nd._id = i2
                · rw [if_pos hi] at hl2
                  have hveq : nd = n2 := Option.some.inj hl2
                  rw [← hveq, hndtrf] at htr
                  simp at htr
                · rw [if_neg hi] at hl2
                  obtain ⟨hf2, ht2⟩ := hc2 (i2, n2) (mem_of_lookupA hl2) htr
                  constructor
                  · intro pf0 hpf0
                    rcases mem_osetA_ne (nodupKeys_refreshParentFolders _ _ hndF) hpf0
                      with heq | ⟨hm1, hne⟩
                    · rw [heq]
                      intro a ha hi3
                      have hva : ({ f with noteIdSet := insert nd._id f.noteIdSet } : FolderDoc) = a := Option.some.inj ha
                      rw [← hva] at hi3
                      rcases hFm2 i2 hi3 with h1 | ⟨ff, hff, h1⟩
                      · exact hi h1.symm
                      · have hffl := lookupA_of_oget2 hff
                        exact hf2 (nd.folderPathname, some ff) (mem_of_lookupA hffl) ff rfl h1
                    · rcases mem_refreshParentFolders hm1 with hm2 | ⟨p, hp2⟩
                      · exact hf2 pf0 hm2
                      · rw [hp2]
                        intro a ha hi3
                        have hva : ({ pathname := p, noteIdSet := (∅ : Finset Nat) } :
                            FolderDoc) = a := Option.some.inj ha
                        rw [← hva] at hi3
                        simp at hi3
                  · intro pt hpt
                    have hl3 : lookupA (omergeA (omergeA storage.tagMap mt') MT2) pt.1
                        = some pt.2 :=
                      lookupA_eq_of_mem (nodupKeys_omergeA _ (nodupKeys_omergeA _ hndT)) hpt
                    rw [htm pt.1] at hl3
                    by_cases htn : pt.1 ∈ nd.tags
                    · rw [if_pos htn] at hl3
                      have hv := Option.some.inj hl3
                      cases hp : lookupA storage.tagMap pt.1 with
                      | none =>
                        rw [hp] at hv
                        rw [← hv]
                        intro hmem
                        have : i2 = nd._id := by simpa using hmem
                        exact hi this.symm
                      | some td =>
                        rw [hp] at hv
                        rw [← hv]
                        intro hmem
                        rcases Finset.mem_insert.mp hmem with h1 | h1
                        · exact hi h1.symm
                        · exact ht2 (pt.1, td) (mem_of_lookupA hp) h1
                    · rw [if_neg htn] at hl3
                      cases hp : lookupA storage.tagMap pt.1 with
                      | none => rw [hp] at hl3; simp at hl3
                      | some td =>
                        rw [hp] at hl3
                        have hv := Option.some.inj hl3
                        have htd2 := ht2 (pt.1, td) (mem_of_lookupA hp)
                        by_cases htd : pt.1 ∈ (old.tags.filter
                            (fun t => decide (t ∉ nd.tags))).dedup
                        · rw [if_pos htd] at hv
                          rw [← hv]
                          intro hmem
                          exact htd2 (Finset.mem_erase.mp hmem).2
                        · rw [if_neg htd] at hv
                          rw [← hv]
                          exact htd2
              · intro pf0 hpf0
                rcases mem_osetA_ne (nodupKeys_refreshParentFolders _ _ hndF) hpf0
                  with heq | ⟨hm1, hne⟩
                · rw [heq]
                  intro a ha i hi3
                  have hva : ({ f with noteIdSet := insert nd._id f.noteIdSet } : FolderDoc) = a := Option.some.inj ha
                  rw [← hva] at hi3
                  rcases hFm2 i hi3 with h1 | ⟨ff, hff, h1⟩
                  · rw [lookupA_osetA, if_pos h1.symm]
                    exact ⟨hndtrf, hkeyeq.symm⟩
                  · have hffl := lookupA_of_oget2 hff
                    have h3 := hc3 (nd.folderPathname, some ff) (mem_of_lookupA hffl)
                      ff rfl i h1
                    by_cases hii : nd._id = i
                    · rw [lookupA_osetA, if_pos hii]
                      exact ⟨hndtrf, hkeyeq.symm⟩
                    · rw [lookupA_osetA, if_neg hii]
                      cases hq2 : lookupA storage.noteMap i with
                      | none => rw [hq2] at h3; exact h3.elim
                      | some n3 =>
                        rw [hq2] at h3
                        exact ⟨h3.1, by rw [h3.2]; try exact hkeyeq.symm⟩
                · rcases mem_refreshParentFolders hm1 with hm2 | ⟨p, hp2⟩
                  · intro a ha i hi3
                    have h3 := hc3 pf0 hm2 a ha i hi3
                    by_cases hii : nd._id = i
                    · exfalso
                      have hqold := hOld pf0.1 pf0.2 a hm2 ha
                        (by rw [← hndid, hii]; exact hi3)
                      exact hne (by rw [hqold, hch]; try exact hkeyeq.symm)
                    · rw [lookupA_osetA, if_neg hii]
                      exact h3
                  · rw [hp2]
                    intro a ha i hi3
                    have hva : ({ pathname := p, noteIdSet := (∅ : Finset Nat) } :
                        FolderDoc) = a := Option.some.inj ha
                    rw [← hva] at hi3
                    simp at hi3
              · intro pt hpt i hi3
                have hl3 : lookupA (omergeA (omergeA storage.tagMap mt') MT2) pt.1
                    = some pt.2 :=
                  lookupA_eq_of_mem (nodupKeys_omergeA _ (nodupKeys_omergeA _ hndT)) hpt
                rw [htm pt.1] at hl3
                by_cases htn : pt.1 ∈ nd.tags
                · rw [if_pos htn] at hl3
                  have hv := Option.some.inj hl3
                  cases hp : lookupA storage.tagMap pt.1 with
                  | none =>
                    rw [hp] at hv
                    rw [← hv] at hi3
                    have hieq : i = nd._id := by simpa using hi3
                    rw [lookupA_osetA, if_pos hieq.symm]
                    exact ⟨hndtrf, htn⟩
                  | some td =>
                    rw [hp] at hv
                    rw [← hv] at hi3
                    rcases Finset.mem_insert.mp hi3 with h1 | h1
                    · rw [lookupA_osetA, if_pos h1.symm]
                      exact ⟨hndtrf, htn⟩
                    · have h4 := hc4 (pt.1, td) (mem_of_lookupA hp) i h1
                      by_cases hii : nd._id = i
                      · rw [lookupA_osetA, if_pos hii]
                        exact ⟨hndtrf, htn⟩
                      · rw [lookupA_osetA, if_neg hii]
                        exact h4
                · rw [if_neg htn] at hl3
                  cases hp : lookupA storage.tagMap pt.1 with
                  | none => rw [hp] at hl3; simp at hl3
                  | some td =>
                    rw [hp] at hl3
                    have hv := Option.some.inj hl3
                    by_cases htd : pt.1 ∈ (old.tags.filter
                        (fun t => decide (t ∉ nd.tags))).dedup
                    · rw [if_pos htd] at hv
                      rw [← hv] at hi3
                      obtain ⟨hine, hit⟩ := Finset.mem_erase.mp hi3
                      have h4 := hc4 (pt.1, td) (mem_of_lookupA hp) i hit
                      rw [lookupA_osetA, if_neg (fun hh => hine hh.symm)]
                      exact h4
                    · rw [if_neg htd] at hv
                      rw [← hv] at hi3
                      have h4 := hc4 (pt.1, td) (mem_of_lookupA hp) i hi3
                      have hii : ¬ (nd._id = i) := by
                        intro hh
                        rw [← hh, hndid, hnm0] at h4
                        exact htd ((hDT pt.1).mpr ⟨h4.2, htn⟩)
                      rw [lookupA_osetA, if_neg hii]
                      exact h4
          · rw [if_pos hch]
            cases hopf : oget2 storage.folderMap old.folderPathname with
            | none =>
              simp only [List.nil_append]
              cases hofg : oget2 storage.folderMap nd.folderPathname with
              | none =>
                have hkeyeq : nd.folderPathname = nd.folderPathname := rfl
                have hFm1 : nd._id ∈ ({ pathname := nd.folderPathname, noteIdSet := ({nd._id} : Finset Nat) } : FolderDoc).noteIdSet := by simp
                have hFm2 : ∀ i, i ∈ ({ pathname := nd.folderPathname, noteIdSet := ({nd._id} : Finset Nat) } : FolderDoc).noteIdSet →
                    i = nd._id ∨ ∃ ff, oget2 storage.folderMap nd.folderPathname = some ff ∧
                      i ∈ ff.noteIdSet := by
                  intro i hi3
                  left
                  simpa using hi3
                have hFm3 : ∀ f2, oget2 storage.folderMap nd.folderPathname = some f2 →
                    ∀ i, i ∈ f2.noteIdSet → i ∈ ({ pathname := nd.folderPathname, noteIdSet := ({nd._id} : Finset Nat) } : FolderDoc).noteIdSet := by
                  intro f2 hf2x i hi4
                  rw [hofg] at hf2x
                  simp at hf2x
                have hsplit : refreshFolders storage.folderMap
                    ((PARS.map (fun p => { pathname := p, noteIdSet := (∅ : Finset Nat) })) ++ [({ pathname := nd.folderPathname, noteIdSet := ({nd._id} : Finset Nat) } : FolderDoc)]) =
                    osetA (refreshParentFolders storage.folderMap PARS)
                      (nd.folderPathname) (some ({ pathname := nd.folderPathname, noteIdSet := ({nd._id} : Finset Nat) } : FolderDoc)) := by
                  rw [refreshFolders_append, refreshFolders_map_empty]
                  rfl
                have hndFM : NoDupKeys (osetA (refreshParentFolders storage.folderMap PARS)
                    (nd.folderPathname) (some ({ pathname := nd.folderPathname, noteIdSet := ({nd._id} : Finset Nat) } : FolderDoc))) :=
                  nodupKeys_osetA (nodupKeys_refreshParentFolders _ _ hndF) _ _
                have hfm : ∀ q, lookupA (osetA (refreshParentFolders storage.folderMap PARS)
                    (nd.folderPathname) (some ({ pathname := nd.folderPathname, noteIdSet := ({nd._id} : Finset Nat) } : FolderDoc))) q =
                    if nd.folderPathname = q then some (some ({ pathname := nd.folderPathname, noteIdSet := ({nd._id} : Finset Nat) } : FolderDoc))
                    else if q ∈ PARS then
                      some (some { pathname := q, noteIdSet := (∅ : Finset Nat) })
                    else lookupA storage.folderMap q := by
                  intro q
                  rw [lookupA_osetA, lookupA_refreshParentFolders]
                rw [hsplit]
                unfold ConsistentStorage
                dsimp only
                refine ⟨?_, ?_, ?_, ?_⟩
                · intro kv2 hkv2 htr
                  obtain ⟨i2, n2⟩ := kv2
                  have hl2 : lookupA (osetA storage.noteMap nd._id nd) i2 = some n2 :=
                    lookupA_eq_of_mem (nodupKeys_osetA hndN _ _) hkv2
                  rw [lookupA_osetA] at hl2
                  by_cases hi : nd._id = i2
                  · rw [if_pos hi] at hl2
                    have hveq : nd = n2 := Option.some.inj hl2
                    constructor
                    · unfold oget2
                      rw [hfm n2.folderPathname, if_pos (by rw [hkeyeq, hveq])]
                      show i2 ∈ ({ pathname := nd.folderPathname, noteIdSet := ({nd._id} : Finset Nat) } : FolderDoc).noteIdSet
                      rw [← hi]
                      exact hFm1
                    · intro t ht
                      rw [← hveq] at ht
                      rw [htm t, if_pos ht]
                      cases hp : lookupA storage.tagMap t with
                      | none =>
                        show i2 ∈ ({nd._id} : Finset Nat)
                        rw [← hi]
                        exact Finset.mem_singleton_self nd._id
                      | some td =>
                        show i2 ∈ insert nd._id td.noteIdSet
                        rw [← hi]
                        exact Finset.mem_insert_self nd._id td.noteIdSet
                  · rw [if_neg hi] at hl2
                    obtain ⟨hfold1, htags⟩ := hc1 (i2, n2) (mem_of_lookupA hl2) htr
                    constructor
                    · obtain ⟨f2, hf2l, hf2m⟩ := optHolds_oget2 hfold1
                      unfold oget2
                      rw [hfm n2.folderPathname]
                      by_cases hq : nd.folderPathname = n2.folderPathname
                      · rw [if_pos hq]
                        show i2 ∈ ({ pathname := nd.folderPathname, noteIdSet := ({nd._id} : Finset Nat) } : FolderDoc).noteIdSet
                        refine hFm3 f2 ?_ i2 hf2m
                        rw [hkeyeq] at hq
                        rw [hq]
                        unfold oget2
                        rw [hf2l]
                        rfl
                      · rw [if_neg hq]
                        by_cases hqp : n2.folderPathname ∈ PARS
                        · exfalso
                          have hno := hparents _ hqp
                          have hx : oget2 storage.folderMap n2.folderPathname = some f2 := by
                            unfold oget2
                            rw [hf2l]
                            rfl
                          rw [hx] at hno
                          simp at hno
                        · rw [if_neg hqp, hf2l]
                          exact hf2m
                    · intro t ht
                      rw [htm t]
                      have hpre := htags t ht
                      by_cases htn : t ∈ nd.tags
                      · rw [if_pos htn]
                        cases hp : lookupA storage.tagMap t with
                        | none => rw [hp] at hpre; exact hpre.elim
                        | some td =>
                          rw [hp] at hpre
                          show i2 ∈ insert nd._id td.noteIdSet
                          exact Finset.mem_insert_of_mem hpre
                      · rw [if_neg htn]
                        cases hp : lookupA storage.tagMap t with
                        | none => rw [hp] at hpre; exact hpre.elim
                        | some td =>
                          rw [hp] at hpre
                          dsimp only
                          by_cases htd : t ∈ (old.tags.filter
                              (fun t => decide (t ∉ nd.tags))).dedup
                          · rw [if_pos htd]
                            show i2 ∈ td.noteIdSet.erase nd._id
                            exact Finset.mem_erase.mpr ⟨fun hh => hi hh.symm, hpre⟩
                          · rw [if_neg htd]
                            exact hpre
                · intro kv2 hkv2 htr
                  obtain ⟨i2, n2⟩ := kv2
                  have hl2 : lookupA (osetA storage.noteMap nd._id nd) i2 = some n2 :=
                    lookupA_eq_of_mem (nodupKeys_osetA hndN _ _) hkv2
                  rw [lookupA_osetA] at hl2
                  by_cases hi : nd._id = i2
                  · rw [if_pos hi] at hl2
                    have hveq : nd = n2 := Option.some.inj hl2
                    rw [← hveq, hndtrf] at htr
                    simp at htr
                  · rw [if_neg hi] at hl2
                    obtain ⟨hf2, ht2⟩ := hc2 (i2, n2) (mem_of_lookupA hl2) htr
                    constructor
                    · intro pf0 hpf0
                      rcases mem_osetA_ne (nodupKeys_refreshParentFolders _ _ hndF) hpf0
                        with heq | ⟨hm1, hne⟩
                      · rw [heq]
                        intro a ha hi3
                        have hva : ({ pathname := nd.folderPathname, noteIdSet := ({nd._id} : Finset Nat) } : FolderDoc) = a := Option.some.inj ha
                        rw [← hva] at hi3
                        rcases hFm2 i2 hi3 with h1 | ⟨ff, hff, h1⟩
                        · exact hi h1.symm
                        · have hffl := lookupA_of_oget2 hff
                          exact hf2 (nd.folderPathname, some ff) (mem_of_lookupA hffl) ff rfl h1
                      · rcases mem_refreshParentFolders hm1 with hm2 | ⟨p, hp2⟩
                        · exact hf2 pf0 hm2
                        · rw [hp2]
                          intro a ha hi3
                          have hva : ({ pathname := p, noteIdSet := (∅ : Finset Nat) } :
                              FolderDoc) = a := Option.some.inj ha
                          rw [← hva] at hi3
                          simp at hi3
                    · intro pt hpt
                      have hl3 : lookupA (omergeA (omergeA storage.tagMap mt') MT2) pt.1
                          = some pt.2 :=
                        lookupA_eq_of_mem (nodupKeys_omergeA _ (nodupKeys_omergeA _ hndT)) hpt
                      rw [htm pt.1] at hl3
                      by_cases htn : pt.1 ∈ nd.tags
                      · rw [if_pos htn] at hl3
                        have hv := Option.some.inj hl3
                        cases hp : lookupA storage.tagMap pt.1 with
                        | none =>
                          rw [hp] at hv
                          rw [← hv]
                          intro hmem
                          have : i2 = nd._id := by simpa using hmem
                          exact hi this.symm
                        | some td =>
                          rw [hp] at hv
                          rw [← hv]
                          intro hmem
                          rcases Finset.mem_insert.mp hmem with h1 | h1
                          · exact hi h1.symm
                          · exact ht2 (pt.1, td) (mem_of_lookupA hp) h1
                      · rw [if_neg htn] at hl3
                        cases hp : lookupA storage.tagMap pt.1 with
                        | none => rw [hp] at hl3; simp at hl3
                        | some td =>
                          rw [hp] at hl3
                          have hv := Option.some.inj hl3
                          have htd2 := ht2 (pt.1, td) (mem_of_lookupA hp)
                          by_cases htd : pt.1 ∈ (old.tags.filter
                              (fun t => decide (t ∉ nd.tags))).dedup
                          · rw [if_pos htd] at hv
                            rw [← hv]
                            intro hmem
                            exact htd2 (Finset.mem_erase.mp hmem).2
                          · rw [if_neg htd] at hv
                            rw [← hv]
                            exact htd2
                · intro pf0 hpf0
                  rcases mem_osetA_ne (nodupKeys_refreshParentFolders _ _ hndF) hpf0
                    with heq | ⟨hm1, hne⟩
                  · rw [heq]
                    intro a ha i hi3
                    have hva : ({ pathname := nd.folderPathname, noteIdSet := ({nd._id} : Finset Nat) } : FolderDoc) = a := Option.some.inj ha
                    rw [← hva] at hi3
                    rcases hFm2 i hi3 with h1 | ⟨ff, hff, h1⟩
                    · rw [lookupA_osetA, if_pos h1.symm]
                      exact ⟨hndtrf, hkeyeq.symm⟩
                    · have hffl := lookupA_of_oget2 hff
                      have h3 := hc3 (nd.folderPathname, some ff) (mem_of_lookupA hffl)
                        ff rfl i h1
                      by_cases hii : nd._id = i
                      · rw [lookupA_osetA, if_pos hii]
                        exact ⟨hndtrf, hkeyeq.symm⟩
                      · rw [lookupA_osetA, if_neg hii]
                        cases hq2 : lookupA storage.noteMap i with
                        | none => rw [hq2] at h3; exact h3.elim
                        | some n3 =>
                          rw [hq2] at h3
                          exact ⟨h3.1, by rw [h3.2]; try exact hkeyeq.symm⟩
                  · rcases mem_refreshParentFolders hm1 with hm2 | ⟨p, hp2⟩
                    · intro a ha i hi3
                      have h3 := hc3 pf0 hm2 a ha i hi3
                      by_cases hii : nd._id = i
                      · exfalso
                        have hqold := hOld pf0.1 pf0.2 a hm2 ha
                          (by rw [← hndid, hii]; exact hi3)
                        have hlk : lookupA storage.folderMap pf0.1 = some pf0.2 :=
                          lookupA_eq_of_mem hndF hm2
                        rw [hqold] at hlk
                        have hx : oget2 storage.folderMap old.folderPathname = some a := by
                          unfold oget2
                          rw [hlk, ha]
                          rfl
                        rw [hopf] at hx
                        exact Option.noConfusion hx
                      · rw [lookupA_osetA, if_neg hii]
                        exact h3
                    · rw [hp2]
                      intro a ha i hi3
                      have hva : ({ pathname := p, noteIdSet := (∅ : Finset Nat) } :
                          FolderDoc) = a := Option.some.inj ha
                      rw [← hva] at hi3
                      simp at hi3
                · intro pt hpt i hi3
                  have hl3 : lookupA (omergeA (omergeA storage.tagMap mt') MT2) pt.1
                      = some pt.2 :=
                    lookupA_eq_of_mem (nodupKeys_omergeA _ (nodupKeys_omergeA _ hndT)) hpt
                  rw [htm pt.1] at hl3
                  by_cases htn : pt.1 ∈ nd.tags
                  · rw [if_pos htn] at hl3
                    have hv := Option.some.inj hl3
                    cases hp : lookupA storage.tagMap pt.1 with
                    | none =>
                      rw [hp] at hv
                      rw [← hv] at hi3
                      have hieq : i = nd._id := by simpa using hi3
                      rw [lookupA_osetA, if_pos hieq.symm]
                      exact ⟨hndtrf, htn⟩
                    | some td =>
                      rw [hp] at hv
                      rw [← hv] at hi3
                      rcases Finset.mem_insert.mp hi3 with h1 | h1
                      · rw [lookupA_osetA, if_pos h1.symm]
                        exact ⟨hndtrf, htn⟩
                      · have h4 := hc4 (pt.1, td) (mem_of_lookupA hp) i h1
                        by_cases hii : nd._id = i
                        · rw [lookupA_osetA, if_pos hii]
                          exact ⟨hndtrf, htn⟩
                        · rw [lookupA_osetA, if_neg hii]
                          exact h4
                  · rw [if_neg htn] at hl3
                    cases hp : lookupA storage.tagMap pt.1 with
                    | none => rw [hp] at hl3; simp at hl3
                    | some td =>
                      rw [hp] at hl3
                      have hv := Option.some.inj hl3
                      by_cases htd : pt.1 ∈ (old.tags.filter
                          (fun t => decide (t ∉ nd.tags))).dedup
                      · rw [if_pos htd] at hv
                        rw [← hv] at hi3
                        obtain ⟨hine, hit⟩ := Finset.mem_erase.mp hi3
                        have h4 := hc4 (pt.1, td) (mem_of_lookupA hp) i hit
                        rw [lookupA_osetA, if_neg (fun hh => hine hh.symm)]
                        exact h4
                      · rw [if_neg htd] at hv
                        rw [← hv] at hi3
                        have h4 := hc4 (pt.1, td) (mem_of_lookupA hp) i hi3
                        have hii : ¬ (nd._id = i) := by
                          intro hh
                          rw [← hh, hndid, hnm0] at h4
                          exact htd ((hDT pt.1).mpr ⟨h4.2, htn⟩)
                        rw [lookupA_osetA, if_neg hii]
                        exact h4
              | some f =>
                have hfl : lookupA storage.folderMap nd.folderPathname = some (some f) :=
                  lookupA_of_oget2 hofg
                have hfmem : (nd.folderPathname, some f) ∈ storage.folderMap := mem_of_lookupA hfl
                have hkeyeq : f.pathname = nd.folderPathname :=
                  hfoldname (nd.folderPathname, some f) hfmem f rfl
                have hFm1 : nd._id ∈ ({ f with noteIdSet := insert nd._id f.noteIdSet } : FolderDoc).noteIdSet :=
                  Finset.mem_insert_self nd._id f.noteIdSet
                have hFm2 : ∀ i, i ∈ ({ f with noteIdSet := insert nd._id f.noteIdSet } : FolderDoc).noteIdSet →
                    i = nd._id ∨ ∃ ff, oget2 storage.folderMap nd.folderPathname = some ff ∧
                      i ∈ ff.noteIdSet := by
                  intro i hi3
                  rcases Finset.mem_insert.mp hi3 with h1 | h1
                  · exact Or.inl h1
                  · exact Or.inr ⟨f, hofg, h1⟩
                have hFm3 : ∀ f2, oget2 storage.folderMap nd.folderPathname = some f2 →
                    ∀ i, i ∈ f2.noteIdSet → i ∈ ({ f with noteIdSet := insert nd._id f.noteIdSet } : FolderDoc).noteIdSet := by
                  intro f2 hf2x i hi4
                  rw [hofg] at hf2x
                  have hfe : f = f2 := by simpa using hf2x
                  rw [← hfe] at hi4
                  exact Finset.mem_insert_of_mem hi4
                have hsplit : refreshFolders storage.folderMap
                    ((PARS.map (fun p => { pathname := p, noteIdSet := (∅ : Finset Nat) })) ++ [({ f with noteIdSet := insert nd._id f.noteIdSet } : FolderDoc)]) =
                    osetA (refreshParentFolders storage.folderMap PARS)
                      (f.pathname) (some ({ f with noteIdSet := insert nd._id f.noteIdSet } : FolderDoc)) := by
                  rw [refreshFolders_append, refreshFolders_map_empty]
                  rfl
                have hndFM : NoDupKeys (osetA (refreshParentFolders storage.folderMap PARS)
                    (f.pathname) (some ({ f with noteIdSet := insert nd._id f.noteIdSet } : FolderDoc))) :=
                  nodupKeys_osetA (nodupKeys_refreshParentFolders _ _ hndF) _ _
                have hfm : ∀ q, lookupA (osetA (refreshParentFolders storage.folderMap PARS)
                    (f.pathname) (some ({ f with noteIdSet := insert nd._id f.noteIdSet } : FolderDoc))) q =
                    if f.pathname = q then some (some ({ f with noteIdSet := insert nd._id f.noteIdSet } : FolderDoc))
                    else if q ∈ PARS then
                      some (some { pathname := q, noteIdSet := (∅ : Finset Nat) })
                    else lookupA storage.folderMap q := by
                  intro q
                  rw [lookupA_osetA, lookupA_refreshParentFolders]
                rw [hsplit]
                unfold ConsistentStorage
                dsimp only
                refine ⟨?_, ?_, ?_, ?_⟩
                · intro kv2 hkv2 htr
                  obtain ⟨i2, n2⟩ := kv2
                  have hl2 : lookupA (osetA storage.noteMap nd._id nd) i2 = some n2 :=
                    lookupA_eq_of_mem (nodupKeys_osetA hndN _ _) hkv2
                  rw [lookupA_osetA] at hl2
                  by_cases hi : nd._id = i2
                  · rw [if_pos hi] at hl2
                    have hveq : nd = n2 := Option.some.inj hl2
                    constructor
                    · unfold oget2
                      rw [hfm n2.folderPathname, if_pos (by rw [hkeyeq, hveq])]
                      show i2 ∈ ({ f with noteIdSet := insert nd._id f.noteIdSet } : FolderDoc).noteIdSet
                      rw [← hi]
                      exact hFm1
                    · intro t ht
                      rw [← hveq] at ht
                      rw [htm t, if_pos ht]
                      cases hp : lookupA storage.tagMap t with
                      | none =>
                        show i2 ∈ ({nd._id} : Finset Nat)
                        rw [← hi]
                        exact Finset.mem_singleton_self nd._id
                      | some td =>
                        show i2 ∈ insert nd._id td.noteIdSet
                        rw [← hi]
                        exact Finset.mem_insert_self nd._id td.noteIdSet
                  · rw [if_neg hi] at hl2
                    obtain ⟨hfold1, htags⟩ := hc1 (i2, n2) (mem_of_lookupA hl2) htr
                    constructor
                    · obtain ⟨f2, hf2l, hf2m⟩ := optHolds_oget2 hfold1
                      unfold oget2
                      rw [hfm n2.folderPathname]
                      by_cases hq : f.pathname = n2.folderPathname
                      · rw [if_pos hq]
                        show i2 ∈ ({ f with noteIdSet := insert nd._id f.noteIdSet } : FolderDoc).noteIdSet
                        refine hFm3 f2 ?_ i2 hf2m
                        rw [hkeyeq] at hq
                        rw [hq]
                        unfold oget2
                        rw [hf2l]
                        rfl
                      · rw [if_neg hq]
                        by_cases hqp : n2.folderPathname ∈ PARS
                        · exfalso
                          have hno := hparents _ hqp
                          have hx : oget2 storage.folderMap n2.folderPathname = some f2 := by
                            unfold oget2
                            rw [hf2l]
                            rfl
                          rw [hx] at hno
                          simp at hno
                        · rw [if_neg hqp, hf2l]
                          exact hf2m
                    · intro t ht
                      rw [htm t]
                      have hpre := htags t ht
                      by_cases htn : t ∈ nd.tags
                      · rw [if_pos htn]
                        cases hp : lookupA storage.tagMap t with
                        | none => rw [hp] at hpre; exact hpre.elim
                        | some td =>
                          rw [hp] at hpre
                          show i2 ∈ insert nd._id td.noteIdSet
                          exact Finset.mem_insert_of_mem hpre
                      · rw [if_neg htn]
                        cases hp : lookupA storage.tagMap t with
                        | none => rw [hp] at hpre; exact hpre.elim
                        | some td =>
                          rw [hp] at hpre
                          dsimp only
                          by_cases htd : t ∈ (old.tags.filter
                              (fun t => decide (t ∉ nd.tags))).dedup
                          · rw [if_pos htd]
                            show i2 ∈ td.noteIdSet.erase nd._id
                            exact Finset.mem_erase.mpr ⟨fun hh => hi hh.symm, hpre⟩
                          · rw [if_neg htd]
                            exact hpre
                · intro kv2 hkv2 htr
                  obtain ⟨i2, n2⟩ := kv2
                  have hl2 : lookupA (osetA storage.noteMap nd._id nd) i2 = some n2 :=
                    lookupA_eq_of_mem (nodupKeys_osetA hndN _ _) hkv2
                  rw [lookupA_osetA] at hl2
                  by_cases hi : nd._id = i2
                  · rw [if_pos hi] at hl2
                    have hveq : nd = n2 := Option.some.inj hl2
                    rw [← hveq, hndtrf] at htr
                    simp at htr
                  · rw [if_neg hi] at hl2
                    obtain ⟨hf2, ht2⟩ := hc2 (i2, n2) (mem_of_lookupA hl2) htr
                    constructor
                    · intro pf0 hpf0
                      rcases mem_osetA_ne (nodupKeys_refreshParentFolders _ _ hndF) hpf0
                        with heq | ⟨hm1, hne⟩
                      · rw [heq]
                        intro a ha hi3
                        have hva : ({ f with noteIdSet := insert nd._id f.noteIdSet } : FolderDoc) = a := Option.some.inj ha
                        rw [← hva] at hi3
                        rcases hFm2 i2 hi3 with h1 | ⟨ff, hff, h1⟩
                        · exact hi h1.symm
                        · have hffl := lookupA_of_oget2 hff
                          exact hf2 (nd.folderPathname, some ff) (mem_of_lookupA hffl) ff rfl h1
                      · rcases mem_refreshParentFolders hm1 with hm2 | ⟨p, hp2⟩
                        · exact hf2 pf0 hm2
                        · rw [hp2]
                          intro a ha hi3
                          have hva : ({ pathname := p, noteIdSet := (∅ : Finset Nat) } :
                              FolderDoc) = a := Option.some.inj ha
                          rw [← hva] at hi3
                          simp at hi3
                    · intro pt hpt
                      have hl3 : lookupA (omergeA (omergeA storage.tagMap mt') MT2) pt.1
                          = some pt.2 :=
                        lookupA_eq_of_mem (nodupKeys_omergeA _ (nodupKeys_omergeA _ hndT)) hpt
                      rw [htm pt.1] at hl3
                      by_cases htn : pt.1 ∈ nd.tags
                      · rw [if_pos htn] at hl3
                        have hv := Option.some.inj hl3
                        cases hp : lookupA storage.tagMap pt.1 with
                        | none =>
                          rw [hp] at hv
                          rw [← hv]
                          intro hmem
                          have : i2 = nd._id := by simpa using hmem
                          exact hi this.symm
                        | some td =>
                          rw [hp] at hv
                          rw [← hv]
                          intro hmem
                          rcases Finset.mem_insert.mp hmem with h1 | h1
                          · exact hi h1.symm
                          · exact ht2 (pt.1, td) (mem_of_lookupA hp) h1
                      · rw [if_neg htn] at hl3
                        cases hp : lookupA storage.tagMap pt.1 with
                        | none => rw [hp] at hl3; simp at hl3
                        | some td =>
                          rw [hp] at hl3
                          have hv := Option.some.inj hl3
                          have htd2 := ht2 (pt.1, td) (mem_of_lookupA hp)
                          by_cases htd : pt.1 ∈ (old.tags.filter
                              (fun t => decide (t ∉ nd.tags))).dedup
                          · rw [if_pos htd] at hv
                            rw [← hv]
                            intro hmem
                            exact htd2 (Finset.mem_erase.mp hmem).2
                          · rw [if_neg htd] at hv
                            rw [← hv]
                            exact htd2
                · intro pf0 hpf0
                  rcases mem_osetA_ne (nodupKeys_refreshParentFolders _ _ hndF) hpf0
                    with heq | ⟨hm1, hne⟩
                  · rw [heq]
                    intro a ha i hi3
                    have hva : ({ f with noteIdSet := insert nd._id f.noteIdSet } : FolderDoc) = a := Option.some.inj ha
                    rw [← hva] at hi3
                    rcases hFm2 i hi3 with h1 | ⟨ff, hff, h1⟩
                    · rw [lookupA_osetA, if_pos h1.symm]
                      exact ⟨hndtrf, hkeyeq.symm⟩
                    · have hffl := lookupA_of_oget2 hff
                      have h3 := hc3 (nd.folderPathname, some ff) (mem_of_lookupA hffl)
                        ff rfl i h1
                      by_cases hii : nd._id = i
                      · rw [lookupA_osetA, if_pos hii]
                        exact ⟨hndtrf, hkeyeq.symm⟩
                      · rw [lookupA_osetA, if_neg hii]
                        cases hq2 : lookupA storage.noteMap i with
                        | none => rw [hq2] at h3; exact h3.elim
                        | some n3 =>
                          rw [hq2] at h3
                          exact ⟨h3.1, by rw [h3.2]; try exact hkeyeq.symm⟩
                  · rcases mem_refreshParentFolders hm1 with hm2 | ⟨p, hp2⟩
                    · intro a ha i hi3
                      have h3 := hc3 pf0 hm2 a ha i hi3
                      by_cases hii : nd._id = i
                      · exfalso
                        have hqold := hOld pf0.1 pf0.2 a hm2 ha
                          (by rw [← hndid, hii]; exact hi3)
                        have hlk : lookupA storage.folderMap pf0.1 = some pf0.2 :=
                          lookupA_eq_of_mem hndF hm2
                        rw [hqold] at hlk
                        have hx : oget2 storage.folderMap old.folderPathname = some a := by
                          unfold oget2
                          rw [hlk, ha]
                          rfl
                        rw [hopf] at hx
                        exact Option.noConfusion hx
                      · rw [lookupA_osetA, if_neg hii]
                        exact h3
                    · rw [hp2]
                      intro a ha i hi3
                      have hva : ({ pathname := p, noteIdSet := (∅ : Finset Nat) } :
                          FolderDoc) = a := Option.some.inj ha
                      rw [← hva] at hi3
                      simp at hi3
                · intro pt hpt i hi3
                  have hl3 : lookupA (omergeA (omergeA storage.tagMap mt') MT2) pt.1
                      = some pt.2 :=
                    lookupA_eq_of_mem (nodupKeys_omergeA _ (nodupKeys_omergeA _ hndT)) hpt
                  rw [htm pt.1] at hl3
                  by_cases htn : pt.1 ∈ nd.tags
                  · rw [if_pos htn] at hl3
                    have hv := Option.some.inj hl3
                    cases hp : lookupA storage.tagMap pt.1 with
                    | none =>
                      rw [hp] at hv
                      rw [← hv] at hi3
                      have hieq : i = nd._id := by simpa using hi3
                      rw [lookupA_osetA, if_pos hieq.symm]
                      exact ⟨hndtrf, htn⟩
                    | some td =>
                      rw [hp] at hv
                      rw [← hv] at hi3
                      rcases Finset.mem_insert.mp hi3 with h1 | h1
                      · rw [lookupA_osetA, if_pos h1.symm]
                        exact ⟨hndtrf, htn⟩
                      · have h4 := hc4 (pt.1, td) (mem_of_lookupA hp) i h1
                        by_cases hii : nd._id = i
                        · rw [lookupA_osetA, if_pos hii]
                          exact ⟨hndtrf, htn⟩
                        · rw [lookupA_osetA, if_neg hii]
                          exact h4
                  · rw [if_neg htn] at hl3
                    cases hp : lookupA storage.tagMap pt.1 with
                    | none => rw [hp] at hl3; simp at hl3
                    | some td =>
                      rw [hp] at hl3
                      have hv := Option.some.inj hl3
                      by_cases htd : pt.1 ∈ (old.tags.filter
                          (fun t => decide (t ∉ nd.tags))).dedup
                      · rw [if_pos htd] at hv
                        rw [← hv] at hi3
                        obtain ⟨hine, hit⟩ := Finset.mem_erase.mp hi3
                        have h4 := hc4 (pt.1, td) (mem_of_lookupA hp) i hit
                        rw [lookupA_osetA, if_neg (fun hh => hine hh.symm)]
                        exact h4
                      · rw [if_neg htd] at hv
                        rw [← hv] at hi3
                        have h4 := hc4 (pt.1, td) (mem_of_lookupA hp) i hi3
                        have hii : ¬ (nd._id = i) := by
                          intro hh
                          rw [← hh, hndid, hnm0] at h4
                          exact htd ((hDT pt.1).mpr ⟨h4.2, htn⟩)
                        rw [lookupA_osetA, if_neg hii]
                        exact h4
            | some pf =>
              dsimp only
              cases hofg : oget2 storage.folderMap nd.folderPathname with
              | none =>
                have hkeyeq : nd.folderPathname = nd.folderPathname := rfl
                have hFm1 : nd._id ∈ ({ pathname := nd.folderPathname, noteIdSet := ({nd._id} : Finset Nat) } : FolderDoc).noteIdSet := by simp
                have hFm2 : ∀ i, i ∈ ({ pathname := nd.folderPathname, noteIdSet := ({nd._id} : Finset Nat) } : FolderDoc).noteIdSet →
                    i = nd._id ∨ ∃ ff, oget2 storage.folderMap nd.folderPathname = some ff ∧
                      i ∈ ff.noteIdSet := by
                  intro i hi3
                  left
                  simpa using hi3
                have hFm3 : ∀ f2, oget2 storage.folderMap nd.folderPathname = some f2 →
                    ∀ i, i ∈ f2.noteIdSet → i ∈ ({ pathname := nd.folderPathname, noteIdSet := ({nd._id} : Finset Nat) } : FolderDoc).noteIdSet := by
                  intro f2 hf2x i hi4
                  rw [hofg] at hf2x
                  simp at hf2x
                have hpfl : lookupA storage.folderMap old.folderPathname = some (some pf) :=
                  lookupA_of_oget2 hopf
                have hpfmem : (old.folderPathname, some pf) ∈ storage.folderMap :=
                  mem_of_lookupA hpfl
                have hpfpath : pf.pathname = old.folderPathname :=
                  hfoldname (old.folderPathname, some pf) hpfmem pf rfl
                have hsplit : refreshFolders storage.folderMap
                    ([({ pf with noteIdSet := pf.noteIdSet.erase nid } : FolderDoc)] ++ (PARS.map (fun p => { pathname := p, noteIdSet := (∅ : Finset Nat) })) ++ [({ pathname := nd.folderPathname, noteIdSet := ({nd._id} : Finset Nat) } : FolderDoc)]) =
                    osetA (refreshParentFolders
                      (osetA storage.folderMap pf.pathname (some ({ pf with noteIdSet := pf.noteIdSet.erase nid } : FolderDoc))) PARS)
                      (nd.folderPathname) (some ({ pathname := nd.folderPathname, noteIdSet := ({nd._id} : Finset Nat) } : FolderDoc)) := by
                  rw [refreshFolders_append, refreshFolders_append, refreshFolders_map_empty]
                  rfl
                have hndFM : NoDupKeys (osetA (refreshParentFolders
                    (osetA storage.folderMap pf.pathname (some ({ pf with noteIdSet := pf.noteIdSet.erase nid } : FolderDoc))) PARS)
                    (nd.folderPathname) (some ({ pathname := nd.folderPathname, noteIdSet := ({nd._id} : Finset Nat) } : FolderDoc))) :=
                  nodupKeys_osetA (nodupKeys_refreshParentFolders _ _
                    (nodupKeys_osetA hndF _ _)) _ _
                have hfm : ∀ q, lookupA (osetA (refreshParentFolders
                    (osetA storage.folderMap pf.pathname (some ({ pf with noteIdSet := pf.noteIdSet.erase nid } : FolderDoc))) PARS)
                    (nd.folderPathname) (some ({ pathname := nd.folderPathname, noteIdSet := ({nd._id} : Finset Nat) } : FolderDoc))) q =
                    if nd.folderPathname = q then some (some ({ pathname := nd.folderPathname, noteIdSet := ({nd._id} : Finset Nat) } : FolderDoc))
                    else if q ∈ PARS then
                      some (some { pathname := q, noteIdSet := (∅ : Finset Nat) })
                    else if pf.pathname = q then some (some ({ pf with noteIdSet := pf.noteIdSet.erase nid } : FolderDoc))
                    else lookupA storage.folderMap q := by
                  intro q
                  rw [lookupA_osetA, lookupA_refreshParentFolders, lookupA_osetA]
                rw [hsplit]
                unfold ConsistentStorage
                dsimp only
                refine ⟨?_, ?_, ?_, ?_⟩
                · intro kv2 hkv2 htr
                  obtain ⟨i2, n2⟩ := kv2
                  have hl2 : lookupA (osetA storage.noteMap nd._id nd) i2 = some n2 :=
                    lookupA_eq_of_mem (nodupKeys_osetA hndN _ _) hkv2
                  rw [lookupA_osetA] at hl2
                  by_cases hi : nd._id = i2
                  · rw [if_pos hi] at hl2
                    have hveq : nd = n2 := Option.some.inj hl2
                    constructor
                    · unfold oget2
                      rw [hfm n2.folderPathname, if_pos (by rw [hkeyeq, hveq])]
                      show i2 ∈ ({ pathname := nd.folderPathname, noteIdSet := ({nd._id} : Finset Nat) } : FolderDoc).noteIdSet
                      rw [← hi]
                      exact hFm1
                    · intro t ht
                      rw [← hveq] at ht
                      rw [htm t, if_pos ht]
                      cases hp : lookupA storage.tagMap t with
                      | none =>
                        show i2 ∈ ({nd._id} : Finset Nat)
                        rw [← hi]
                        exact Finset.mem_singleton_self nd._id
                      | some td =>
                        show i2 ∈ insert nd._id td.noteIdSet
                        rw [← hi]
                        exact Finset.mem_insert_self nd._id td.noteIdSet
                  · rw [if_neg hi] at hl2
                    obtain ⟨hfold1, htags⟩ := hc1 (i2, n2) (mem_of_lookupA hl2) htr
                    constructor
                    · obtain ⟨f2, hf2l, hf2m⟩ := optHolds_oget2 hfold1
                      unfold oget2
                      rw [hfm n2.folderPathname]
                      by_cases hq : nd.folderPathname = n2.folderPathname
                      · rw [if_pos hq]
                        show i2 ∈ ({ pathname := nd.folderPathname, noteIdSet := ({nd._id} : Finset Nat) } : FolderDoc).noteIdSet
                        refine hFm3 f2 ?_ i2 hf2m
                        rw [hkeyeq] at hq
                        rw [hq]
                        unfold oget2
                        rw [hf2l]
                        rfl
                      · rw [if_neg hq]
                        by_cases hqp : n2.folderPathname ∈ PARS
                        · exfalso
                          have hno := hparents _ hqp
                          have hx : oget2 storage.folderMap n2.folderPathname = some f2 := by
                            unfold oget2
                            rw [hf2l]
                            rfl
                          rw [hx] at hno
                          simp at hno
                        · rw [if_neg hqp]
                          by_cases hqo : pf.pathname = n2.folderPathname
                          · rw [if_pos hqo]
                            have hqo2 : old.folderPathname = n2.folderPathname := by
                              rw [← hpfpath]
                              exact hqo
                            have hx : lookupA storage.folderMap n2.folderPathname
                                = some (some pf) := by
                              rw [← hqo2]
                              exact hpfl
                            rw [hx] at hf2l
                            have hf2pf : pf = f2 := by simpa using hf2l
                            show i2 ∈ pf.noteIdSet.erase nid
                            rw [Finset.mem_erase]
                            refine ⟨?_, ?_⟩
                            · intro hh
                              apply hi
                              rw [hndid, hh]
                            · rw [hf2pf]
                              exact hf2m
                          · rw [if_neg hqo, hf2l]
                            exact hf2m
                    · intro t ht
                      rw [htm t]
                      have hpre := htags t ht
                      by_cases htn : t ∈ nd.tags
                      · rw [if_pos htn]
                        cases hp : lookupA storage.tagMap t with
                        | none => rw [hp] at hpre; exact hpre.elim
                        | some td =>
                          rw [hp] at hpre
                          show i2 ∈ insert nd._id td.noteIdSet
                          exact Finset.mem_insert_of_mem hpre
                      · rw [if_neg htn]
                        cases hp : lookupA storage.tagMap t with
                        | none => rw [hp] at hpre; exact hpre.elim
                        | some td =>
                          rw [hp] at hpre
                          dsimp only
                          by_cases htd : t ∈ (old.tags.filter
                              (fun t => decide (t ∉ nd.tags))).dedup
                          · rw [if_pos htd]
                            show i2 ∈ td.noteIdSet.erase nd._id
                            exact Finset.mem_erase.mpr ⟨fun hh => hi hh.symm, hpre⟩
                          · rw [if_neg htd]
                            exact hpre
                · intro kv2 hkv2 htr
                  obtain ⟨i2, n2⟩ := kv2
                  have hl2 : lookupA (osetA storage.noteMap nd._id nd) i2 = some n2 :=
                    lookupA_eq_of_mem (nodupKeys_osetA hndN _ _) hkv2
                  rw [lookupA_osetA] at hl2
                  by_cases hi : nd._id = i2
                  · rw [if_pos hi] at hl2
                    have hveq : nd = n2 := Option.some.inj hl2
                    rw [← hveq, hndtrf] at htr
                    simp at htr
                  · rw [if_neg hi] at hl2
                    obtain ⟨hf2, ht2⟩ := hc2 (i2, n2) (mem_of_lookupA hl2) htr
                    constructor
                    · intro pf0 hpf0
                      rcases mem_osetA_ne (nodupKeys_refreshParentFolders _ _
                          (nodupKeys_osetA hndF _ _)) hpf0 with heq | ⟨hm1, hne⟩
                      · rw [heq]
                        intro a ha hi3
                        have hva : ({ pathname := nd.folderPathname, noteIdSet := ({nd._id} : Finset Nat) } : FolderDoc) = a := Option.some.inj ha
                        rw [← hva] at hi3
                        rcases hFm2 i2 hi3 with h1 | ⟨ff, hff, h1⟩
                        · exact hi h1.symm
                        · have hffl := lookupA_of_oget2 hff
                          exact hf2 (nd.folderPathname, some ff) (mem_of_lookupA hffl) ff rfl h1
                      · rcases mem_refreshParentFolders hm1 with hm2 | ⟨p, hp2⟩
                        · rcases mem_osetA_ne hndF hm2 with heq2 | ⟨hm3, hne3⟩
                          · rw [heq2]
                            intro a ha hi3
                            have hva : ({ pf with noteIdSet := pf.noteIdSet.erase nid } : FolderDoc) = a := Option.some.inj ha
                            rw [← hva] at hi3
                            exact hf2 (old.folderPathname, some pf) hpfmem pf rfl
                              (Finset.mem_erase.mp hi3).2
                          · exact hf2 pf0 hm3
                        · rw [hp2]
                          intro a ha hi3
                          have hva : ({ pathname := p, noteIdSet := (∅ : Finset Nat) } :
                              FolderDoc) = a := Option.some.inj ha
                          rw [← hva] at hi3
                          simp at hi3
                    · intro pt hpt
                      have hl3 : lookupA (omergeA (omergeA storage.tagMap mt') MT2) pt.1
                          = some pt.2 :=
                        lookupA_eq_of_mem (nodupKeys_omergeA _ (nodupKeys_omergeA _ hndT)) hpt
                      rw [htm pt.1] at hl3
                      by_cases htn : pt.1 ∈ nd.tags
                      · rw [if_pos htn] at hl3
                        have hv := Option.some.inj hl3
                        cases hp : lookupA storage.tagMap pt.1 with
                        | none =>
                          rw [hp] at hv
                          rw [← hv]
                          intro hmem
                          have : i2 = nd._id := by simpa using hmem
                          exact hi this.symm
                        | some td =>
                          rw [hp] at hv
                          rw [← hv]
                          intro hmem
                          rcases Finset.mem_insert.mp hmem with h1 | h1
                          · exact hi h1.symm
                          · exact ht2 (pt.1, td) (mem_of_lookupA hp) h1
                      · rw [if_neg htn] at hl3
                        cases hp : lookupA storage.tagMap pt.1 with
                        | none => rw [hp] at hl3; simp at hl3
                        | some td =>
                          rw [hp] at hl3
                          have hv := Option.some.inj hl3
                          have htd2 := ht2 (pt.1, td) (mem_of_lookupA hp)
                          by_cases htd : pt.1 ∈ (old.tags.filter
                              (fun t => decide (t ∉ nd.tags))).dedup
                          · rw [if_pos htd] at hv
                            rw [← hv]
                            intro hmem
                            exact htd2 (Finset.mem_erase.mp hmem).2
                          · rw [if_neg htd] at hv
                            rw [← hv]
                            exact htd2
                · intro pf0 hpf0
                  rcases mem_osetA_ne (nodupKeys_refreshParentFolders _ _
                      (nodupKeys_osetA hndF _ _)) hpf0 with heq | ⟨hm1, hne⟩
                  · rw [heq]
                    intro a ha i hi3
                    have hva : ({ pathname := nd.folderPathname, noteIdSet := ({nd._id} : Finset Nat) } : FolderDoc) = a := Option.some.inj ha
                    rw [← hva] at hi3
                    rcases hFm2 i hi3 with h1 | ⟨ff, hff, h1⟩
                    · rw [lookupA_osetA, if_pos h1.symm]
                      exact ⟨hndtrf, hkeyeq.symm⟩
                    · have hffl := lookupA_of_oget2 hff
                      have h3 := hc3 (nd.folderPathname, some ff) (mem_of_lookupA hffl)
                        ff rfl i h1
                      by_cases hii : nd._id = i
                      · rw [lookupA_osetA, if_pos hii]
                        exact ⟨hndtrf, hkeyeq.symm⟩
                      · rw [lookupA_osetA, if_neg hii]
                        cases hq2 : lookupA storage.noteMap i with
                        | none => rw [hq2] at h3; exact h3.elim
                        | some n3 =>
                          rw [hq2] at h3
                          exact ⟨h3.1, by rw [h3.2]; try exact hkeyeq.symm⟩
                  · rcases mem_refreshParentFolders hm1 with hm2 | ⟨p, hp2⟩
                    · rcases mem_osetA_ne hndF hm2 with heq2 | ⟨hm3, hne3⟩
                      · rw [heq2]
                        intro a ha i hi3
                        have hva : ({ pf with noteIdSet := pf.noteIdSet.erase nid } : FolderDoc) = a := Option.some.inj ha
                        rw [← hva] at hi3
                        obtain ⟨hine, hif⟩ := Finset.mem_erase.mp hi3
                        have h3 := hc3 (old.folderPathname, some pf) hpfmem pf rfl i hif
                        rw [lookupA_osetA, if_neg (fun hh => hine (by rw [← hh]; exact hndid))]
                        cases hq2 : lookupA storage.noteMap i with
                        | none => rw [hq2] at h3; exact h3.elim
                        | some n3 =>
                          rw [hq2] at h3
                          exact ⟨h3.1, by rw [h3.2]; exact hpfpath.symm⟩
                      · intro a ha i hi3
                        have h3 := hc3 pf0 hm3 a ha i hi3
                        by_cases hii : nd._id = i
                        · exfalso
                          have hqold := hOld pf0.1 pf0.2 a hm3 ha
                            (by rw [← hndid, hii]; exact hi3)
                          exact hne3 (by rw [hqold]; exact hpfpath.symm)
                        · rw [lookupA_osetA, if_neg hii]
                          exact h3
                    · rw [hp2]
                      intro a ha i hi3
                      have hva : ({ pathname := p, noteIdSet := (∅ : Finset Nat) } :
                          FolderDoc) = a := Option.some.inj ha
                      rw [← hva] at hi3
                      simp at hi3
                · intro pt hpt i hi3
                  have hl3 : lookupA (omergeA (omergeA storage.tagMap mt') MT2) pt.1
                      = some pt.2 :=
                    lookupA_eq_of_mem (nodupKeys_omergeA _ (nodupKeys_omergeA _ hndT)) hpt
                  rw [htm pt.1] at hl3
                  by_cases htn : pt.1 ∈ nd.tags
                  · rw [if_pos htn] at hl3
                    have hv := Option.some.inj hl3
                    cases hp : lookupA storage.tagMap pt.1 with
                    | none =>
                      rw [hp] at hv
                      rw [← hv] at hi3
                      have hieq : i = nd._id := by simpa using hi3
                      rw [lookupA_osetA, if_pos hieq.symm]
                      exact ⟨hndtrf, htn⟩
                    | some td =>
                      rw [hp] at hv
                      rw [← hv] at hi3
                      rcases Finset.mem_insert.mp hi3 with h1 | h1
                      · rw [lookupA_osetA, if_pos h1.symm]
                        exact ⟨hndtrf, htn⟩
                      · have h4 := hc4 (pt.1, td) (mem_of_lookupA hp) i h1
                        by_cases hii : nd._id = i
                        · rw [lookupA_osetA, if_pos hii]
                          exact ⟨hndtrf, htn⟩
                        · rw [lookupA_osetA, if_neg hii]
                          exact h4
                  · rw [if_neg htn] at hl3
                    cases hp : lookupA storage.tagMap pt.1 with
                    | none => rw [hp] at hl3; simp at hl3
                    | some td =>
                      rw [hp] at hl3
                      have hv := Option.some.inj hl3
                      by_cases htd : pt.1 ∈ (old.tags.filter
                          (fun t => decide (t ∉ nd.tags))).dedup
                      · rw [if_pos htd] at hv
                        rw [← hv] at hi3
                        obtain ⟨hine, hit⟩ := Finset.mem_erase.mp hi3
                        have h4 := hc4 (pt.1, td) (mem_of_lookupA hp) i hit
                        rw [lookupA_osetA, if_neg (fun hh => hine hh.symm)]
                        exact h4
                      · rw [if_neg htd] at hv
                        rw [← hv] at hi3
                        have h4 := hc4 (pt.1, td) (mem_of_lookupA hp) i hi3
                        have hii : ¬ (nd._id = i) := by
                          intro hh
                          rw [← hh, hndid, hnm0] at h4
                          exact htd ((hDT pt.1).mpr ⟨h4.2, htn⟩)
                        rw [lookupA_osetA, if_neg hii]
                        exact h4
              | some f =>
                have hfl : lookupA storage.folderMap nd.folderPathname = some (some f) :=
                  lookupA_of_oget2 hofg
                have hfmem : (nd.folderPathname, some f) ∈ storage.folderMap := mem_of_lookupA hfl
                have hkeyeq : f.pathname = nd.folderPathname :=
                  hfoldname (nd.folderPathname, some f) hfmem f rfl
                have hFm1 : nd._id ∈ ({ f with noteIdSet := insert nd._id f.noteIdSet } : FolderDoc).noteIdSet :=
                  Finset.mem_insert_self nd._id f.noteIdSet
                have hFm2 : ∀ i, i ∈ ({ f with noteIdSet := insert nd._id f.noteIdSet } : FolderDoc).noteIdSet →
                    i = nd._id ∨ ∃ ff, oget2 storage.folderMap nd.folderPathname = some ff ∧
                      i ∈ ff.noteIdSet := by
                  intro i hi3
                  rcases Finset.mem_insert.mp hi3 with h1 | h1
                  · exact Or.inl h1
                  · exact Or.inr ⟨f, hofg, h1⟩
                have hFm3 : ∀ f2, oget2 storage.folderMap nd.folderPathname = some f2 →
                    ∀ i, i ∈ f2.noteIdSet → i ∈ ({ f with noteIdSet := insert nd._id f.noteIdSet } : FolderDoc).noteIdSet := by
                  intro f2 hf2x i hi4
                  rw [hofg] at hf2x
                  have hfe : f = f2 := by simpa using hf2x
                  rw [← hfe] at hi4
                  exact Finset.mem_insert_of_mem hi4
                have hpfl : lookupA storage.folderMap old.folderPathname = some (some pf) :=
                  lookupA_of_oget2 hopf
                have hpfmem : (old.folderPathname, some pf) ∈ storage.folderMap :=
                  mem_of_lookupA hpfl
                have hpfpath : pf.pathname = old.folderPathname :=
                  hfoldname (old.folderPathname, some pf) hpfmem pf rfl
                have hsplit : refreshFolders storage.folderMap
                    ([({ pf with noteIdSet := pf.noteIdSet.erase nid } : FolderDoc)] ++ (PARS.map (fun p => { pathname := p, noteIdSet := (∅ : Finset Nat) })) ++ [({ f with noteIdSet := insert nd._id f.noteIdSet } : FolderDoc)]) =
                    osetA (refreshParentFolders
                      (osetA storage.folderMap pf.pathname (some ({ pf with noteIdSet := pf.noteIdSet.erase nid } : FolderDoc))) PARS)
                      (f.pathname) (some ({ f with noteIdSet := insert nd._id f.noteIdSet } : FolderDoc)) := by
                  rw [refreshFolders_append, refreshFolders_append, refreshFolders_map_empty]
                  rfl
                have hndFM : NoDupKeys (osetA (refreshParentFolders
                    (osetA storage.folderMap pf.pathname (some ({ pf with noteIdSet := pf.noteIdSet.erase nid } : FolderDoc))) PARS)
                    (f.pathname) (some ({ f with noteIdSet := insert nd._id f.noteIdSet } : FolderDoc))) :=
                  nodupKeys_osetA (nodupKeys_refreshParentFolders _ _
                    (nodupKeys_osetA hndF _ _)) _ _
                have hfm : ∀ q, lookupA (osetA (refreshParentFolders
                    (osetA storage.folderMap pf.pathname (some ({ pf with noteIdSet := pf.noteIdSet.erase nid } : FolderDoc))) PARS)
                    (f.pathname) (some ({ f with noteIdSet := insert nd._id f.noteIdSet } : FolderDoc))) q =
                    if f.pathname = q then some (some ({ f with noteIdSet := insert nd._id f.noteIdSet } : FolderDoc))
                    else if q ∈ PARS then
                      some (some { pathname := q, noteIdSet := (∅ : Finset Nat) })
                    else if pf.pathname = q then some (some ({ pf with noteIdSet := pf.noteIdSet.erase nid } : FolderDoc))
                    else lookupA storage.folderMap q := by
                  intro q
                  rw [lookupA_osetA, lookupA_refreshParentFolders, lookupA_osetA]
                rw [hsplit]
                unfold ConsistentStorage
                dsimp only
                refine ⟨?_, ?_, ?_, ?_⟩
                · intro kv2 hkv2 htr
                  obtain ⟨i2, n2⟩ := kv2
                  have hl2 : lookupA (osetA storage.noteMap nd._id nd) i2 = some n2 :=
                    lookupA_eq_of_mem (nodupKeys_osetA hndN _ _) hkv2
                  rw [lookupA_osetA] at hl2
                  by_cases hi : nd._id = i2
                  · rw [if_pos hi] at hl2
                    have hveq : nd = n2 := Option.some.inj hl2
                    constructor
                    · unfold oget2
                      rw [hfm n2.folderPathname, if_pos (by rw [hkeyeq, hveq])]
                      show i2 ∈ ({ f with noteIdSet := insert nd._id f.noteIdSet } : FolderDoc).noteIdSet
                      rw [← hi]
                      exact hFm1
                    · intro t ht
                      rw [← hveq] at ht
                      rw [htm t, if_pos ht]
                      cases hp : lookupA storage.tagMap t with
                      | none =>
                        show i2 ∈ ({nd._id} : Finset Nat)
                        rw [← hi]
                        exact Finset.mem_singleton_self nd._id
                      | some td =>
                        show i2 ∈ insert nd._id td.noteIdSet
                        rw [← hi]
                        exact Finset.mem_insert_self nd._id td.noteIdSet
                  · rw [if_neg hi] at hl2
                    obtain ⟨hfold1, htags⟩ := hc1 (i2, n2) (mem_of_lookupA hl2) htr
                    constructor
                    · obtain ⟨f2, hf2l, hf2m⟩ := optHolds_oget2 hfold1
                      unfold oget2
                      rw [hfm n2.folderPathname]
                      by_cases hq : f.pathname = n2.folderPathname
                      · rw [if_pos hq]
                        show i2 ∈ ({ f with noteIdSet := insert nd._id f.noteIdSet } : FolderDoc).noteIdSet
                        refine hFm3 f2 ?_ i2 hf2m
                        rw [hkeyeq] at hq
                        rw [hq]
                        unfold oget2
                        rw [hf2l]
                        rfl
                      · rw [if_neg hq]
                        by_cases hqp : n2.folderPathname ∈ PARS
                        · exfalso
                          have hno := hparents _ hqp
                          have hx : oget2 storage.folderMap n2.folderPathname = some f2 := by
                            unfold oget2
                            rw [hf2l]
                            rfl
                          rw [hx] at hno
                          simp at hno
                        · rw [if_neg hqp]
                          by_cases hqo : pf.pathname = n2.folderPathname
                          · rw [if_pos hqo]
                            have hqo2 : old.folderPathname = n2.folderPathname := by
                              rw [← hpfpath]
                              exact hqo
                            have hx : lookupA storage.folderMap n2.folderPathname
                                = some (some pf) := by
                              rw [← hqo2]
                              exact hpfl
                            rw [hx] at hf2l
                            have hf2pf : pf = f2 := by simpa using hf2l
                            show i2 ∈ pf.noteIdSet.erase nid
                            rw [Finset.mem_erase]
                            refine ⟨?_, ?_⟩
                            · intro hh
                              apply hi
                              rw [hndid, hh]
                            · rw [hf2pf]
                              exact hf2m
                          · rw [if_neg hqo, hf2l]
                            exact hf2m
                    · intro t ht
                      rw [htm t]
                      have hpre := htags t ht
                      by_cases htn : t ∈ nd.tags
                      · rw [if_pos htn]
                        cases hp : lookupA storage.tagMap t with
                        | none => rw [hp] at hpre; exact hpre.elim
                        | some td =>
                          rw [hp] at hpre
                          show i2 ∈ insert nd._id td.noteIdSet
                          exact Finset.mem_insert_of_mem hpre
                      · rw [if_neg htn]
                        cases hp : lookupA storage.tagMap t with
                        | none => rw [hp] at hpre; exact hpre.elim
                        | some td =>
                          rw [hp] at hpre
                          dsimp only
                          by_cases htd : t ∈ (old.tags.filter
                              (fun t => decide (t ∉ nd.tags))).dedup
                          · rw [if_pos htd]
                            show i2 ∈ td.noteIdSet.erase nd._id
                            exact Finset.mem_erase.mpr ⟨fun hh => hi hh.symm, hpre⟩
                          · rw [if_neg htd]
                            exact hpre
                · intro kv2 hkv2 htr
                  obtain ⟨i2, n2⟩ := kv2
                  have hl2 : lookupA (osetA storage.noteMap nd._id nd) i2 = some n2 :=
                    lookupA_eq_of_mem (nodupKeys_osetA hndN _ _) hkv2
                  rw [lookupA_osetA] at hl2
                  by_cases hi : nd._id = i2
                  · rw [if_pos hi] at hl2
                    have hveq : nd = n2 := Option.some.inj hl2
                    rw [← hveq, hndtrf] at htr
                    simp at htr
                  · rw [if_neg hi] at hl2
                    obtain ⟨hf2, ht2⟩ := hc2 (i2, n2) (mem_of_lookupA hl2) htr
                    constructor
                    · intro pf0 hpf0
                      rcases mem_osetA_ne (nodupKeys_refreshParentFolders _ _
                          (nodupKeys_osetA hndF _ _)) hpf0 with heq | ⟨hm1, hne⟩
                      · rw [heq]
                        intro a ha hi3
                        have hva : ({ f with noteIdSet := insert nd._id f.noteIdSet } : FolderDoc) = a := Option.some.inj ha
                        rw [← hva] at hi3
                        rcases hFm2 i2 hi3 with h1 | ⟨ff, hff, h1⟩
                        · exact hi h1.symm
                        · have hffl := lookupA_of_oget2 hff
                          exact hf2 (nd.folderPathname, some ff) (mem_of_lookupA hffl) ff rfl h1
                      · rcases mem_refreshParentFolders hm1 with hm2 | ⟨p, hp2⟩
                        · rcases mem_osetA_ne hndF hm2 with heq2 | ⟨hm3, hne3⟩
                          · rw [heq2]
                            intro a ha hi3
                            have hva : ({ pf with noteIdSet := pf.noteIdSet.erase nid } : FolderDoc) = a := Option.some.inj ha
                            rw [← hva] at hi3
                            exact hf2 (old.folderPathname, some pf) hpfmem pf rfl
                              (Finset.mem_erase.mp hi3).2
                          · exact hf2 pf0 hm3
                        · rw [hp2]
                          intro a ha hi3
                          have hva : ({ pathname := p, noteIdSet := (∅ : Finset Nat) } :
                              FolderDoc) = a := Option.some.inj ha
                          rw [← hva] at hi3
                          simp at hi3
                    · intro pt hpt
                      have hl3 : lookupA (omergeA (omergeA storage.tagMap mt') MT2) pt.1
                          = some pt.2 :=
                        lookupA_eq_of_mem (nodupKeys_omergeA _ (nodupKeys_omergeA _ hndT)) hpt
                      rw [htm pt.1] at hl3
                      by_cases htn : pt.1 ∈ nd.tags
                      · rw [if_pos htn] at hl3
                        have hv := Option.some.inj hl3
                        cases hp : lookupA storage.tagMap pt.1 with
                        | none =>
                          rw [hp] at hv
                          rw [← hv]
                          intro hmem
                          have : i2 = nd._id := by simpa using hmem
                          exact hi this.symm
                        | some td =>
                          rw [hp] at hv
                          rw [← hv]
                          intro hmem
                          rcases Finset.mem_insert.mp hmem with h1 | h1
                          · exact hi h1.symm
                          · exact ht2 (pt.1, td) (mem_of_lookupA hp) h1
                      · rw [if_neg htn] at hl3
                        cases hp : lookupA storage.tagMap pt.1 with
                        | none => rw [hp] at hl3; simp at hl3
                        | some td =>
                          rw [hp] at hl3
                          have hv := Option.some.inj hl3
                          have htd2 := ht2 (pt.1, td) (mem_of_lookupA hp)
                          by_cases htd : pt.1 ∈ (old.tags.filter
                              (fun t => decide (t ∉ nd.tags))).dedup
                          · rw [if_pos htd] at hv
                            rw [← hv]
                            intro hmem
                            exact htd2 (Finset.mem_erase.mp hmem).2
                          · rw [if_neg htd] at hv
                            rw [← hv]
                            exact htd2
                · intro pf0 hpf0
                  rcases mem_osetA_ne (nodupKeys_refreshParentFolders _ _
                      (nodupKeys_osetA hndF _ _)) hpf0 with heq | ⟨hm1, hne⟩
                  · rw [heq]
                    intro a ha i hi3
                    have hva : ({ f with noteIdSet := insert nd._id f.noteIdSet } : FolderDoc) = a := Option.some.inj ha
                    rw [← hva] at hi3
                    rcases hFm2 i hi3 with h1 | ⟨ff, hff, h1⟩
                    · rw [lookupA_osetA, if_pos h1.symm]
                      exact ⟨hndtrf, hkeyeq.symm⟩
                    · have hffl := lookupA_of_oget2 hff
                      have h3 := hc3 (nd.folderPathname, some ff) (mem_of_lookupA hffl)
                        ff rfl i h1
                      by_cases hii : nd._id = i
                      · rw [lookupA_osetA, if_pos hii]
                        exact ⟨hndtrf, hkeyeq.symm⟩
                      · rw [lookupA_osetA, if_neg hii]
                        cases hq2 : lookupA storage.noteMap i with
                        | none => rw [hq2] at h3; exact h3.elim
                        | some n3 =>
                          rw [hq2] at h3
                          exact ⟨h3.1, by rw [h3.2]; try exact hkeyeq.symm⟩
                  · rcases mem_refreshParentFolders hm1 with hm2 | ⟨p, hp2⟩
                    · rcases mem_osetA_ne hndF hm2 with heq2 | ⟨hm3, hne3⟩
                      · rw [heq2]
                        intro a ha i hi3
                        have hva : ({ pf with noteIdSet := pf.noteIdSet.erase nid } : FolderDoc) = a := Option.some.inj ha
                        rw [← hva] at hi3
                        obtain ⟨hine, hif⟩ := Finset.mem_erase.mp hi3
                        have h3 := hc3 (old.folderPathname, some pf) hpfmem pf rfl i hif
                        rw [lookupA_osetA, if_neg (fun hh => hine (by rw [← hh]; exact hndid))]
                        cases hq2 : lookupA storage.noteMap i with
                        | none => rw [hq2] at h3; exact h3.elim
                        | some n3 =>
                          rw [hq2] at h3
                          exact ⟨h3.1, by rw [h3.2]; exact hpfpath.symm⟩
                      · intro a ha i hi3
                        have h3 := hc3 pf0 hm3 a ha i hi3
                        by_cases hii : nd._id = i
                        · exfalso
                          have hqold := hOld pf0.1 pf0.2 a hm3 ha
                            (by rw [← hndid, hii]; exact hi3)
                          exact hne3 (by rw [hqold]; exact hpfpath.symm)
                        · rw [lookupA_osetA, if_neg hii]
                          exact h3
                    · rw [hp2]
                      intro a ha i hi3
                      have hva : ({ pathname := p, noteIdSet := (∅ : Finset Nat) } :
                          FolderDoc) = a := Option.some.inj ha
                      rw [← hva] at hi3
                      simp at hi3
                · intro pt hpt i hi3
                  have hl3 : lookupA (omergeA (omergeA storage.tagMap mt') MT2) pt.1
                      = some pt.2 :=
                    lookupA_eq_of_mem (nodupKeys_omergeA _ (nodupKeys_omergeA _ hndT)) hpt
                  rw [htm pt.1] at hl3
                  by_cases htn : pt.1 ∈ nd.tags
                  · rw [if_pos htn] at hl3
                    have hv := Option.some.inj hl3
                    cases hp : lookupA storage.tagMap pt.1 with
                    | none =>
                      rw [hp] at hv
                      rw [← hv] at hi3
                      have hieq : i = nd._id := by simpa using hi3
                      rw [lookupA_osetA, if_pos hieq.symm]
                      exact ⟨hndtrf, htn⟩
                    | some td =>
                      rw [hp] at hv
                      rw [← hv] at hi3
                      rcases Finset.mem_insert.mp hi3 with h1 | h1
                      · rw [lookupA_osetA, if_pos h1.symm]
                        exact ⟨hndtrf, htn⟩
                      · have h4 := hc4 (pt.1, td) (mem_of_lookupA hp) i h1
                        by_cases hii : nd._id = i
                        · rw [lookupA_osetA, if_pos hii]
                          exact ⟨hndtrf, htn⟩
                        · rw [lookupA_osetA, if_neg hii]
                          exact h4
                  · rw [if_neg htn] at hl3
                    cases hp : lookupA storage.tagMap pt.1 with
                    | none => rw [hp] at hl3; simp at hl3
                    | some td =>
                      rw [hp] at hl3
                      have hv := Option.some.inj hl3
                      by_cases htd : pt.1 ∈ (old.tags.filter
                          (fun t => decide (t ∉ nd.tags))).dedup
                      · rw [if_pos htd] at hv
                        rw [← hv] at hi3
                        obtain ⟨hine, hit⟩ := Finset.mem_erase.mp hi3
                        have h4 := hc4 (pt.1, td) (mem_of_lookupA hp) i hit
                        rw [lookupA_osetA, if_neg (fun hh => hine hh.symm)]
                        exact h4
                      · rw [if_neg htd] at hv
                        rw [← hv] at hi3
                        have h4 := hc4 (pt.1, td) (mem_of_lookupA hp) i hi3
                        have hii : ¬ (nd._id = i) := by
                          intro hh
                          rw [← hh, hndid, hnm0] at h4
                          exact htd ((hDT pt.1).mpr ⟨h4.2, htn⟩)
                        rw [lookupA_osetA, if_neg hii]
                        exact h4

/-! ## Consistency preservation: `removeFolder` -/

theorem mem_foldl_odelA {κ α : Type} [DecidableEq κ] {ds : List κ}
    {m : List (κ × α)} {kv : κ × α} (h : kv ∈ ds.foldl odelA m) : kv ∈ m := by
  induction ds generalizing m with
  | nil => exact h
  | cons d rest ih =>
    rw [List.foldl_cons] at h
    exact mem_odelA (ih h)

/-- Soundness of `collectAffected`: every id recorded under a tag is either
the folded note id (for a carried tag) or was already in the accumulator. -/
theorem collectAffected_sound (noteId : Nat) (tags : List String)
    (m : List (String × List Nat)) :
    ∀ t ids, lookupA (collectAffected noteId m tags) t = some ids →
      ∀ i ∈ ids, (i = noteId ∧ t ∈ tags) ∨
        OptHolds (lookupA m t) (fun ids0 => i ∈ ids0) := by
  induction tags generalizing m with
  | nil =>
    intro t ids h i hi
    right
    have h' : lookupA m t = some ids := h
    rw [h']
    exact hi
  | cons tag rest ih =>
    intro t ids h i hi
    have hstep : collectAffected noteId m (tag :: rest) =
        collectAffected noteId
          (match lookupA m tag with
           | some ids0 => osetA m tag (ids0 ++ [noteId])
           | none => osetA m tag [noteId]) rest := rfl
    rw [hstep] at h
    cases hlm : lookupA m tag with
    | none =>
      simp only [hlm] at h
      rcases ih _ t ids h i hi with ⟨hin, htr⟩ | hopt
      · exact Or.inl ⟨hin, List.mem_cons_of_mem _ htr⟩
      · rw [lookupA_osetA] at hopt
        by_cases htt : tag = t
        · rw [if_pos htt] at hopt
          have hmem1 : i ∈ [noteId] := hopt
          have : i = noteId := by simpa using hmem1
          exact Or.inl ⟨this, by rw [← htt]; exact List.mem_cons_self _ _⟩
        · rw [if_neg htt] at hopt
          exact Or.inr hopt
    | some ids0 =>
      simp only [hlm] at h
      rcases ih _ t ids h i hi with ⟨hin, htr⟩ | hopt
      · exact Or.inl ⟨hin, List.mem_cons_of_mem _ htr⟩
      · rw [lookupA_osetA] at hopt
        by_cases htt : tag = t
        · rw [if_pos htt] at hopt
          have hmem1 : i ∈ ids0 ++ [noteId] := hopt
          rcases List.mem_append.mp hmem1 with h2 | h2
          · refine Or.inr ?_
            rw [← htt, hlm]
            exact h2
          · have : i = noteId := by simpa using h2
            exact Or.inl ⟨this, by rw [← htt]; exact List.mem_cons_self _ _⟩
        · rw [if_neg htt] at hopt
          exact Or.inr hopt

/-- Soundness of the affected-tag map built by `removeFolder`: every recorded
id comes from a note filed under a deleted pathname that carries the tag. -/
theorem removeFolderStep_fst_sound (deleted : List String)
    (l : List (Nat × NoteDoc))
    (acc : List (String × List Nat) × List (Nat × NoteDoc)) :
    ∀ t ids, lookupA (l.foldl (removeFolderStep deleted) acc).1 t = some ids →
      ∀ i ∈ ids, (∃ n, (i, n) ∈ l ∧ n.folderPathname ∈ deleted ∧ t ∈ n.tags) ∨
        OptHolds (lookupA acc.1 t) (fun ids0 => i ∈ ids0) := by
  induction l generalizing acc with
  | nil =>
    intro t ids h i hi
    right
    have h' : lookupA acc.1 t = some ids := h
    rw [h']
    exact hi
  | cons kv rest ih =>
    obtain ⟨k1, n1⟩ := kv
    intro t ids h i hi
    rw [List.foldl_cons] at h
    rcases ih _ t ids h i hi with ⟨n, hn, hd, ht⟩ | hopt
    · exact Or.inl ⟨n, List.mem_cons_of_mem _ hn, hd, ht⟩
    · unfold removeFolderStep at hopt
      by_cases hc : n1.folderPathname ∈ deleted
      · rw [if_pos hc] at hopt
        dsimp only at hopt
        cases hca : lookupA (collectAffected k1 acc.1 n1.tags) t with
        | none =>
          rw [hca] at hopt
          exact hopt.elim
        | some ids1 =>
          rw [hca] at hopt
          rcases collectAffected_sound k1 n1.tags acc.1 t ids1 hca i hopt with
            ⟨hieq, htt⟩ | h2
          · refine Or.inl ⟨n1, ?_, hc, htt⟩
            rw [hieq]
            exact List.mem_cons_self _ _
          · exact Or.inr h2
      · rw [if_neg hc] at hopt
        exact Or.inr hopt

/-- `removeFolder` preserves the cross-index consistency invariant: the notes
filed under the deleted subtree are marked trashed and pulled out of every tag
set, the subtree's folder entries are deleted, and everything else is kept. -/
theorem consistent_removeFolder (sm : StorageMap) (sid pathname : String)
    (hwf : WfStorageMap sm) :
    ∀ kv ∈ (removeFolder sm sid pathname).1, ConsistentStorage kv.2 := by
  cases hs : lookupA sm sid with
  | none =>
    unfold removeFolder
    rw [hs]
    intro kv h
    exact consistent_of_mem hwf h
  | some storage =>
    obtain ⟨hndNote, hndFolder, hndTag, hndDb, hcons, hclosure, htagname, hfoldname,
      hag1, hag2, hfdb, hfresh, hidkey⟩ := wfStorage_of_lookup hwf hs
    obtain ⟨hc1, hc2, hc3, hc4⟩ := id hcons
    set deleted : List String :=
      pathname :: (keysA storage.folderMap).filter
        (fun p => strStartsWith p (pathname ++ "/")) with hdeleted
    set aff := (storage.noteMap.foldl (removeFolderStep deleted) ([], [])).1 with haff
    set modNotes := (storage.noteMap.foldl (removeFolderStep deleted) ([], [])).2
      with hmodNotes
    have hkeys : ∀ kv ∈ aff, (lookupA storage.tagMap kv.1).isSome = true := by
      rw [haff]
      exact removeFolderStep_fst_keys_prop deleted _ storage.noteMap ([], [])
        (fun kv hkv => by cases hkv)
        (fun kv hkv t ht => hclosure kv hkv t ht)
    have haffnd : NoDupKeys aff :=
      removeFolderStep_fst_nodup deleted storage.noteMap ([], []) (by constructor)
    have hmodnd : NoDupKeys modNotes :=
      removeFolderStep_snd_nodup deleted storage.noteMap ([], []) (by constructor)
    obtain ⟨mt, hmt, hmtnd, hmtskip, hmtset⟩ :=
      removeFolderTagStep_foldlM_spec storage.tagMap aff [] hkeys
    have hmtnd' : NoDupKeys mt := hmtnd (by constructor)
    have hrun : removeFolder sm sid pathname =
        (osetA sm sid
          { storage with
              folderMap := deleted.foldl odelA storage.folderMap
              noteMap := omergeA storage.noteMap modNotes
              tagMap := omergeA storage.tagMap mt
              db := storage.db.removeFolder pathname },
         .ok ()) := by
      unfold removeFolder
      rw [hs]
      simp only [← hdeleted, ← haff, ← hmodNotes, hmt]
    rw [hrun]
    have hnmA : ∀ i, lookupA storage.noteMap i = none →
        lookupA (omergeA storage.noteMap modNotes) i = none := by
      intro i hq
      rw [lookupA_omergeA _ _ hmodnd, hmodNotes,
        removeFolderStep_snd_lookup deleted storage.noteMap ([], []) i hndNote rfl, hq]
    have hnmB : ∀ i n, lookupA storage.noteMap i = some n →
        lookupA (omergeA storage.noteMap modNotes) i =
          some (if n.folderPathname ∈ deleted then { n with trashed := true }
                else n) := by
      intro i n hq
      rw [lookupA_omergeA _ _ hmodnd, hmodNotes,
        removeFolderStep_snd_lookup deleted storage.noteMap ([], []) i hndNote rfl, hq]
      by_cases hd : n.folderPathname ∈ deleted
      · simp only [if_pos hd]
      · simp only [if_neg hd]
    have htmA : ∀ t, lookupA aff t = none →
        lookupA (omergeA storage.tagMap mt) t = lookupA storage.tagMap t := by
      intro t ht
      rw [lookupA_omergeA _ _ hmtnd',
        hmtskip t (not_mem_keys_of_lookupA_none ht)]
      rfl
    have htmB : ∀ t ids td, lookupA aff t = some ids →
        lookupA storage.tagMap t = some td →
        lookupA (omergeA storage.tagMap mt) t =
          some { td with
                   noteIdSet := ids.foldl (fun s i => s.erase i) td.noteIdSet } := by
      intro t ids td hids htd
      rw [lookupA_omergeA _ _ hmtnd', hmtset haffnd t ids td hids htd]
    have hsound : ∀ t ids, lookupA aff t = some ids → ∀ i ∈ ids,
        ∃ n, lookupA storage.noteMap i = some n ∧
          n.folderPathname ∈ deleted ∧ t ∈ n.tags := by
      intro t ids hids i hi
      rcases removeFolderStep_fst_sound deleted storage.noteMap ([], []) t ids
          (by rw [← haff]; exact hids) i hi with ⟨n, hn, hd, ht⟩ | hopt
      · exact ⟨n, lookupA_eq_of_mem hndNote hn, hd, ht⟩
      · exact hopt.elim
    have hmemN : ∀ i n, lookupA storage.noteMap i = some n →
        n.folderPathname ∈ deleted → ∀ t ∈ n.tags,
        ∃ ids, lookupA aff t = some ids ∧ i ∈ ids := by
      intro i n hn hd t ht
      have h := removeFolderStep_fst_mem deleted storage.noteMap ([], []) i n t
        (mem_of_lookupA hn) hd ht
      rw [← haff] at h
      cases hq : lookupA aff t with
      | none =>
        rw [hq] at h
        exact h.elim
      | some ids =>
        rw [hq] at h
        exact ⟨ids, rfl, h⟩
    refine consistent_result_osetA hwf ?_
    unfold ConsistentStorage
    dsimp only
    refine ⟨?_, ?_, ?_, ?_⟩
    · -- non-trashed notes stay indexed
      intro kv hkv htr
      obtain ⟨i, nv⟩ := kv
      have hlk : lookupA (omergeA storage.noteMap modNotes) i = some nv :=
        lookupA_eq_of_mem (nodupKeys_omergeA _ hndNote) hkv
      cases hq : lookupA storage.noteMap i with
      | none =>
        rw [hnmA i hq] at hlk
        exact Option.noConfusion hlk
      | some n =>
        rw [hnmB i n hq] at hlk
        have hkv2 := Option.some.inj hlk
        by_cases hd : n.folderPathname ∈ deleted
        · rw [if_pos hd] at hkv2
          rw [← hkv2] at htr
          simp at htr
        · rw [if_neg hd] at hkv2
          rw [← hkv2] at htr
          rw [← hkv2]
          constructor
          · have h1 := (hc1 (i, n) (mem_of_lookupA hq) htr).1
            have hsame : oget2 (deleted.foldl odelA storage.folderMap)
                n.folderPathname = oget2 storage.folderMap n.folderPathname := by
              unfold oget2
              rw [lookupA_foldl_odelA, if_neg hd]
            rw [hsame]
            exact h1
          · intro t ht
            have h2 := (hc1 (i, n) (mem_of_lookupA hq) htr).2 t ht
            cases hq2 : lookupA aff t with
            | none =>
              rw [htmA t hq2]
              exact h2
            | some ids =>
              cases htd : lookupA storage.tagMap t with
              | none =>
                rw [htd] at h2
                exact h2.elim
              | some td =>
                rw [htd] at h2
                rw [htmB t ids td hq2 htd]
                show i ∈ ids.foldl (fun s j => s.erase j) td.noteIdSet
                rw [mem_foldl_erase]
                refine ⟨h2, ?_⟩
                intro hmem
                obtain ⟨n', hn', hd', _⟩ := hsound t ids hq2 i hmem
                rw [hq] at hn'
                rw [← Option.some.inj hn'] at hd'
                exact hd hd'
    · -- trashed notes are absent from every set
      intro kv hkv htr
      obtain ⟨i, nv⟩ := kv
      have hlk : lookupA (omergeA storage.noteMap modNotes) i = some nv :=
        lookupA_eq_of_mem (nodupKeys_omergeA _ hndNote) hkv
      cases hq : lookupA storage.noteMap i with
      | none =>
        rw [hnmA i hq] at hlk
        exact Option.noConfusion hlk
      | some n =>
        rw [hnmB i n hq] at hlk
        have hkv2 := Option.some.inj hlk
        constructor
        · intro pf hpf f hf hin
          have hpfl : lookupA (deleted.foldl odelA storage.folderMap) pf.1
              = some pf.2 :=
            lookupA_eq_of_mem (nodupKeys_foldl_odelA _ _ hndFolder) hpf
          rw [lookupA_foldl_odelA] at hpfl
          by_cases hpd : pf.1 ∈ deleted
          · rw [if_pos hpd] at hpfl
            exact Option.noConfusion hpfl
          · rw [if_neg hpd] at hpfl
            by_cases hnt : n.trashed = true
            · exact (hc2 (i, n) (mem_of_lookupA hq) hnt).1 pf
                (mem_of_lookupA hpfl) f hf hin
            · have hnt' : n.trashed = false := Bool.eq_false_iff.mpr hnt
              by_cases hd : n.folderPathname ∈ deleted
              · have h3 := hc3 pf (mem_of_lookupA hpfl) f hf i hin
                rw [hq] at h3
                exact hpd (by rw [← h3.2]; exact hd)
              · rw [if_neg hd] at hkv2
                rw [hkv2] at hnt'
                rw [htr] at hnt'
                exact Bool.noConfusion hnt'
        · intro pt hpt hin
          have hptl : lookupA (omergeA storage.tagMap mt) pt.1 = some pt.2 :=
            lookupA_eq_of_mem (nodupKeys_omergeA _ hndTag) hpt
          cases hq2 : lookupA aff pt.1 with
          | none =>
            rw [htmA pt.1 hq2] at hptl
            by_cases hnt : n.trashed = true
            · exact (hc2 (i, n) (mem_of_lookupA hq) hnt).2 pt
                (mem_of_lookupA hptl) hin
            · have hnt' : n.trashed = false := Bool.eq_false_iff.mpr hnt
              by_cases hd : n.folderPathname ∈ deleted
              · have h4 := hc4 pt (mem_of_lookupA hptl) i hin
                rw [hq] at h4
                obtain ⟨ids, hids, _⟩ := hmemN i n hq hd pt.1 h4.2
                rw [hq2] at hids
                exact Option.noConfusion hids
              · rw [if_neg hd] at hkv2
                rw [hkv2] at hnt'
                rw [htr] at hnt'
                exact Bool.noConfusion hnt'
          | some ids =>
            have hsome : (lookupA storage.tagMap pt.1).isSome = true :=
              hkeys (pt.1, ids) (mem_of_lookupA hq2)
            cases htd : lookupA storage.tagMap pt.1 with
            | none =>
              rw [htd] at hsome
              exact Bool.noConfusion hsome
            | some td =>
              rw [htmB pt.1 ids td hq2 htd] at hptl
              have hpt2 := Option.some.inj hptl
              rw [← hpt2] at hin
              dsimp only at hin
              rw [mem_foldl_erase] at hin
              obtain ⟨hitd, hnid⟩ := hin
              by_cases hnt : n.trashed = true
              · exact (hc2 (i, n) (mem_of_lookupA hq) hnt).2 (pt.1, td)
                  (mem_of_lookupA htd) hitd
              · have hnt' : n.trashed = false := Bool.eq_false_iff.mpr hnt
                by_cases hd : n.folderPathname ∈ deleted
                · have h4 := hc4 (pt.1, td) (mem_of_lookupA htd) i hitd
                  rw [hq] at h4
                  obtain ⟨ids', hids', hin'⟩ := hmemN i n hq hd pt.1 h4.2
                  rw [hq2] at hids'
                  exact hnid (by rw [Option.some.inj hids']; exact hin')
                · rw [if_neg hd] at hkv2
                  rw [hkv2] at hnt'
                  rw [htr] at hnt'
                  exact Bool.noConfusion hnt'
    · -- folder-set exactness
      intro pf hpf f hf i hi
      have hpfl : lookupA (deleted.foldl odelA storage.folderMap) pf.1
          = some pf.2 :=
        lookupA_eq_of_mem (nodupKeys_foldl_odelA _ _ hndFolder) hpf
      rw [lookupA_foldl_odelA] at hpfl
      by_cases hpd : pf.1 ∈ deleted
      · rw [if_pos hpd] at hpfl
        exact Option.noConfusion hpfl
      · rw [if_neg hpd] at hpfl
        have h3 := hc3 pf (mem_of_lookupA hpfl) f hf i hi
        cases hq : lookupA storage.noteMap i with
        | none =>
          rw [hq] at h3
          exact h3.elim
        | some n =>
          rw [hq] at h3
          have hd : n.folderPathname ∉ deleted := by
            intro hcc
            exact hpd (by rw [← h3.2]; exact hcc)
          rw [hnmB i n hq, if_neg hd]
          exact h3
    · -- tag-set exactness
      intro pt hpt i hi
      have hptl : lookupA (omergeA storage.tagMap mt) pt.1 = some pt.2 :=
        lookupA_eq_of_mem (nodupKeys_omergeA _ hndTag) hpt
      cases hq2 : lookupA aff pt.1 with
      | none =>
        rw [htmA pt.1 hq2] at hptl
        have h4 := hc4 pt (mem_of_lookupA hptl) i hi
        cases hq : lookupA storage.noteMap i with
        | none =>
          rw [hq] at h4
          exact h4.elim
        | some n =>
          rw [hq] at h4
          have hd : n.folderPathname ∉ deleted := by
            intro hcc
            obtain ⟨ids, hids, _⟩ := hmemN i n hq hcc pt.1 h4.2
            rw [hq2] at hids
            exact Option.noConfusion hids
          rw [hnmB i n hq, if_neg hd]
          exact h4
      | some ids =>
        have hsome : (lookupA storage.tagMap pt.1).isSome = true :=
          hkeys (pt.1, ids) (mem_of_lookupA hq2)
        cases htd : lookupA storage.tagMap pt.1 with
        | none =>
          rw [htd] at hsome
          exact Bool.noConfusion hsome
        | some td =>
          rw [htmB pt.1 ids td hq2 htd] at hptl
          have hpt2 := Option.some.inj hptl
          rw [← hpt2] at hi
          dsimp only at hi
          rw [mem_foldl_erase] at hi
          obtain ⟨hitd, hnid⟩ := hi
          have h4 := hc4 (pt.1, td) (mem_of_lookupA htd) i hitd
          cases hq : lookupA storage.noteMap i with
          | none =>
            rw [hq] at h4
            exact h4.elim
          | some n =>
            rw [hq] at h4
            have hd : n.folderPathname ∉ deleted := by
              intro hcc
              obtain ⟨ids', hids', hin'⟩ := hmemN i n hq hcc pt.1 h4.2
              rw [hq2] at hids'
              exact hnid (by rw [Option.some.inj hids']; exact hin')
            rw [hnmB i n hq, if_neg hd]
            exact h4

/-! ## Consistency preservation: `moveNoteToOtherStorage` -/

theorem mem_getAllParentFolderPathnames_ne {p q : String}
    (h : q ∈ getAllParentFolderPathnames p) : q ≠ p := by
  unfold getAllParentFolderPathnames at h
  rw [List.mem_filterMap] at h
  obtain ⟨i, hi, hq⟩ := h
  rw [List.mem_range] at hi
  by_cases hc : i = 1 ∨ (2 ≤ i ∧ p.data.get? i = some '/')
  · rw [if_pos hc] at hq
    have hq' : String.mk (p.data.take i) = q := Option.some.inj hq
    intro he
    rw [he] at hq'
    have hdata : p.data.take i = p.data := congrArg String.data hq'
    have hlen : (p.data.take i).length = p.data.length := by rw [hdata]
    rw [List.length_take, Nat.min_eq_left (Nat.le_of_lt hi)] at hlen
    exact absurd hlen (Nat.ne_of_lt hi)
  · rw [if_neg hc] at hq
    exact Option.noConfusion hq

/-- Lookup in a tag map refreshed with per-name docs: the doc of the last
occurrence wins; since every occurrence of the same name produces the same
doc, the entry for a listed name is exactly its doc. -/
theorem lookupA_refreshTags_map (g : String → TagDoc) (hg : ∀ x, (g x).name = x) :
    ∀ (tags : List String) (tm : List (String × TagDoc)) (q : String),
    lookupA (refreshTags tm (tags.map g)) q =
      if q ∈ tags then some (g q) else lookupA tm q := by
  intro tags
  induction tags with
  | nil =>
    intro tm q
    simp [refreshTags]
  | cons tn rest ih =>
    intro tm q
    have h1 : refreshTags tm ((tn :: rest).map g) =
        refreshTags (osetA tm (g tn).name (g tn)) (rest.map g) := rfl
    rw [h1, hg tn, ih]
    by_cases hqr : q ∈ rest
    · rw [if_pos hqr, if_pos (List.mem_cons_of_mem _ hqr)]
    · rw [if_neg hqr, lookupA_osetA]
      by_cases hqt : tn = q
      · rw [if_pos hqt, if_pos (List.mem_cons.mpr (Or.inl hqt.symm)), hqt]
      · have hnm : q ∉ tn :: rest := by
          intro hmem
          rcases List.mem_cons.mp hmem with he | hr
          · exact hqt he.symm
          · exact hqr hr
        rw [if_neg hqt, if_neg hnm]

/-- The tag-doc list accumulated by `moveNoteToOtherStorage`'s target-tag
fold: one doc per carried tag, inserting the new id into the existing entry
or seeding a singleton, independent of the threaded store handle. -/
theorem collectTargetTagFold_snd (tagMap : List (String × TagDoc)) (noteId : Nat) :
    ∀ (tags : List String) (db : Db) (lst : List TagDoc),
    (tags.foldl (collectTargetTagStep tagMap noteId) (db, lst)).2 =
      lst ++ tags.map (fun tn =>
        match lookupA tagMap tn with
        | none => { name := tn, noteIdSet := ({noteId} : Finset Nat) }
        | some td => { td with noteIdSet := insert noteId td.noteIdSet }) := by
  intro tags
  induction tags with
  | nil =>
    intro db lst
    simp
  | cons tn rest ih =>
    intro db lst
    rw [List.foldl_cons]
    cases hlt : lookupA tagMap tn with
    | none =>
      have hstep : collectTargetTagStep tagMap noteId (db, lst) tn =
          ((db.getTag tn).1,
           lst ++ [{ name := tn, noteIdSet := ({noteId} : Finset Nat) }]) := by
        unfold collectTargetTagStep
        rw [hlt]
        dsimp only
        rw [Db.getTag_snd]
      rw [hstep, ih]
      simp [hlt]
    | some td =>
      have hstep : collectTargetTagStep tagMap noteId (db, lst) tn =
          (db, lst ++ [{ td with noteIdSet := insert noteId td.noteIdSet }]) := by
        unfold collectTargetTagStep
        rw [hlt]
      rw [hstep, ih]
      simp [hlt]

/-- Lookup in the original storage's tag map after the per-tag erase rewrite
of `moveNoteToOtherStorage`: entries of carried tags lose the moved id,
missing tags are skipped, and other entries are untouched. -/
theorem eraseTagListRefresh_lookup (tagMap : List (String × TagDoc))
    (hname : ∀ pt ∈ tagMap, pt.2.name = pt.1) (oid : Nat) :
    ∀ (tags : List String) (tm : List (String × TagDoc)) (q : String),
    lookupA (refreshTags tm
        (((tags.map (fun tn => lookupA tagMap tn)).filterMap id).map
          (fun td => { td with noteIdSet := td.noteIdSet.erase oid }))) q =
      match lookupA tagMap q with
      | some td =>
          if q ∈ tags then some { td with noteIdSet := td.noteIdSet.erase oid }
          else lookupA tm q
      | none => lookupA tm q := by
  intro tags
  induction tags with
  | nil =>
    intro tm q
    cases hq : lookupA tagMap q with
    | none => rfl
    | some td => simp [refreshTags]
  | cons tn rest ih =>
    intro tm q
    cases hlt : lookupA tagMap tn with
    | none =>
      have hlist : ((((tn :: rest).map (fun tn => lookupA tagMap tn)).filterMap
            id).map (fun td => { td with noteIdSet := td.noteIdSet.erase oid })) =
          (((rest.map (fun tn => lookupA tagMap tn)).filterMap id).map
            (fun td => { td with noteIdSet := td.noteIdSet.erase oid })) := by
        simp [hlt]
      rw [hlist, ih tm q]
      cases hq : lookupA tagMap q with
      | none => rfl
      | some td =>
        dsimp only
        by_cases hqr : q ∈ rest
        · rw [if_pos hqr, if_pos (List.mem_cons_of_mem _ hqr)]
        · have hnm : q ∉ tn :: rest := by
            intro hmem
            rcases List.mem_cons.mp hmem with he | hr
            · rw [he] at hq
              rw [hlt] at hq
              exact Option.noConfusion hq
            · exact hqr hr
          rw [if_neg hqr, if_neg hnm]
    | some td0 =>
      have htn : td0.name = tn := hname (tn, td0) (mem_of_lookupA hlt)
      have hlist : ((((tn :: rest).map (fun tn => lookupA tagMap tn)).filterMap
            id).map (fun td => { td with noteIdSet := td.noteIdSet.erase oid })) =
          { td0 with noteIdSet := td0.noteIdSet.erase oid } ::
            (((rest.map (fun tn => lookupA tagMap tn)).filterMap id).map
              (fun td => { td with noteIdSet := td.noteIdSet.erase oid })) := by
        simp [hlt]
      rw [hlist]
      have h1 : refreshTags tm ({ td0 with noteIdSet := td0.noteIdSet.erase oid } ::
            (((rest.map (fun tn => lookupA tagMap tn)).filterMap id).map
              (fun td => { td with noteIdSet := td.noteIdSet.erase oid }))) =
          refreshTags (osetA tm td0.name { td0 with noteIdSet := td0.noteIdSet.erase oid })
            (((rest.map (fun tn => lookupA tagMap tn)).filterMap id).map
              (fun td => { td with noteIdSet := td.noteIdSet.erase oid })) := rfl
    
      rw [h1, htn, ih]
      cases hq : lookupA tagMap q with
      | none =>
        dsimp only
        rw [lookupA_osetA]
        have hne : ¬ tn = q := by
          intro he
          rw [← he] at hq
          rw [hlt] at hq
          exact Option.noConfusion hq
        rw [if_neg hne]
      | some td =>
        dsimp only
        by_cases hqr : q ∈ rest
        · rw [if_pos hqr, if_pos (List.mem_cons_of_mem _ hqr)]
        · rw [if_neg hqr]
          by_cases hqt : q = tn
          · have htd : td0 = td := by
              rw [hqt] at hq
              rw [hlt] at hq
              exact Option.some.inj hq
            rw [lookupA_osetA, if_pos hqt.symm,
              if_pos (List.mem_cons.mpr (Or.inl hqt)), ← htd, htn]
          · have hnm : q ∉ tn :: rest := by
              intro hmem
              rcases List.mem_cons.mp hmem with he | hr
              · exact hqt he
              · exact hqr hr
            rw [lookupA_osetA, if_neg (fun he => hqt he.symm), if_neg hnm]

/-- `moveNoteToOtherStorage` between two distinct storages preserves the
cross-index consistency invariant in both storages: the source loses the note
and its id is erased from its folder's and tags' sets, the target gains the
note under a fresh id inserted into its folder's and tags' sets. -/
theorem consistent_moveNote (sm : StorageMap) (o : String) (nid : Nat)
    (t tfp : String) (hwf : WfStorageMap sm) (hne : o ≠ t) :
    ∀ kv ∈ (moveNoteToOtherStorage sm o nid t tfp).1, ConsistentStorage kv.2 := by
  unfold moveNoteToOtherStorage
  cases ho : lookupA sm o with
  | none => exact fun kv h => consistent_of_mem hwf h
  | some os =>
    dsimp only
    cases ht : lookupA sm t with
    | none => exact fun kv h => consistent_of_mem hwf h
    | some ts =>
      dsimp only
      cases hgn : os.db.getNote nid with
      | none => exact fun kv h => consistent_of_mem hwf h
      | some onote =>
        dsimp only
        cases hcn : ts.db.createNote
            { title := some onote.title
              content := some onote.content
              tags := some onote.tags
              data := some onote.data
              folderPathname := some tfp } with
        | error err => exact fun kv h => consistent_of_mem hwf h
        | ok pr =>
          obtain ⟨tdb1, newNote⟩ := pr
          dsimp only
          simp only [Db.createNote, Option.getD_some] at hcn
          by_cases hval : isFolderPathnameValid tfp = true
          case neg =>
            rw [if_neg hval] at hcn
            exact Except.noConfusion hcn
          case pos =>
          rw [if_pos hval] at hcn
          injection hcn with hpair
          injection hpair with htdb hnew
          have hnid : newNote._id = ts.db.nextId := by rw [← hnew]
          have hntags : newNote.tags = onote.tags := by rw [← hnew]
          have hnfp : newNote.folderPathname = tfp := by rw [← hnew]
          have hntr : newNote.trashed = false := by rw [← hnew]
          have hwfos := wfStorage_of_lookup hwf ho
          have hwfts := wfStorage_of_lookup hwf ht
          obtain ⟨hndNo, hndFo, hndTo, hndDo, hconso, hcloso, htago, hfoldo,
            hag1o, hag2o, hfdbo, hfresho, hido⟩ := id hwfos
          obtain ⟨hc1o, hc2o, hc3o, hc4o⟩ := id hconso
          obtain ⟨hndNt, hndFt, hndTt, hndDt, hconst, hclost, htagt, hfoldt,
            hag1t, hag2t, hfdbt, hfretst, hidt⟩ := id hwfts
          obtain ⟨hc1t, hc2t, hc3t, hc4t⟩ := id hconst
          have honm : lookupA os.noteMap nid = some onote :=
            hag2o (nid, onote) (mem_of_lookupA (show lookupA os.db.notes nid = some onote from hgn))
          have hoid : onote._id = nid := hido (nid, onote) (mem_of_lookupA honm)
          have honid : lookupA os.noteMap onote._id = some onote := by
            rw [hoid]
            exact honm
          simp only [if_neg hne]
          rw [lookupA_osetA, if_neg hne, ht]
          dsimp only
          intro kv hkv
          rcases mem_osetA hkv with heq | hm1
          · -- the target storage entry
            rw [heq]
            dsimp only
            have hTG2 : (newNote.tags.foldl
                (collectTargetTagStep ts.tagMap newNote._id) (tdb1, [])).2 =
                newNote.tags.map (fun tn =>
                  match lookupA ts.tagMap tn with
                  | none => { name := tn, noteIdSet := ({newNote._id} : Finset Nat) }
                  | some td => { td with noteIdSet := insert newNote._id td.noteIdSet }) := by
              rw [collectTargetTagFold_snd]
              rw [List.nil_append]
            rw [hTG2]
            set G : String → TagDoc := (fun tn =>
              match lookupA ts.tagMap tn with
              | none => { name := tn, noteIdSet := ({newNote._id} : Finset Nat) }
              | some td => { td with noteIdSet := insert newNote._id td.noteIdSet })
              with hGdef
            set F : FolderDoc := (match oget2 ts.folderMap tfp with
              | none => { pathname := tfp, noteIdSet := (∅ : Finset Nat) }
              | some f => f) with hFdef
            set P : List String := tdb1.getFoldersByPathnames
              ((getAllParentFolderPathnames tfp).filter
                (fun p => (oget2 ts.folderMap p).isNone)) with hPdef
            have hGname : ∀ tn, (G tn).name = tn := by
              intro tn
              rw [hGdef]
              cases hl : lookupA ts.tagMap tn with
              | none => simp only [hl]
              | some td =>
                simp only [hl]
                exact htagt (tn, td) (mem_of_lookupA hl)
            have htmt : ∀ q, lookupA (refreshTags ts.tagMap (newNote.tags.map G)) q =
                if q ∈ newNote.tags then some (G q) else lookupA ts.tagMap q :=
              fun q => lookupA_refreshTags_map G hGname newNote.tags ts.tagMap q
            have hFpath : F.pathname = tfp := by
              rw [hFdef]
              cases hofg : oget2 ts.folderMap tfp with
              | none => simp only [hofg]
              | some f =>
                simp only [hofg]
                exact hfoldt (tfp, some f) (mem_of_lookupA (lookupA_of_oget2 hofg)) f rfl
            have hPprop : ∀ q ∈ P, (oget2 ts.folderMap q).isNone = true ∧
                q ∈ getAllParentFolderPathnames tfp := by
              intro q hq
              rw [hPdef] at hq
              unfold Db.getFoldersByPathnames at hq
              have h1 := (List.mem_filter.mp hq).1
              have h2 := List.mem_filter.mp h1
              exact ⟨h2.2, h2.1⟩
            have htfpP : tfp ∉ P := by
              intro h
              exact mem_getAllParentFolderPathnames_ne (hPprop tfp h).2 rfl
            have hfmt : ∀ q, lookupA (refreshFolders ts.folderMap
                  ({ F with noteIdSet := insert newNote._id F.noteIdSet } ::
                    P.map (fun p => { pathname := p, noteIdSet := (∅ : Finset Nat) }))) q =
                if q ∈ P then some (some { pathname := q, noteIdSet := (∅ : Finset Nat) })
                else if tfp = q
                then some (some { F with noteIdSet := insert newNote._id F.noteIdSet })
                else lookupA ts.folderMap q := by
              intro q
              have hsplit : refreshFolders ts.folderMap
                  ({ F with noteIdSet := insert newNote._id F.noteIdSet } ::
                    P.map (fun p => { pathname := p, noteIdSet := (∅ : Finset Nat) })) =
                  refreshParentFolders
                    (osetA ts.folderMap
                      ({ F with noteIdSet := insert newNote._id F.noteIdSet }).pathname
                      (some { F with noteIdSet := insert newNote._id F.noteIdSet })) P := by
                have h0 : refreshFolders ts.folderMap
                    ({ F with noteIdSet := insert newNote._id F.noteIdSet } ::
                      P.map (fun p => { pathname := p, noteIdSet := (∅ : Finset Nat) })) =
                    refreshFolders
                      (osetA ts.folderMap
                        ({ F with noteIdSet := insert newNote._id F.noteIdSet }).pathname
                        (some { F with noteIdSet := insert newNote._id F.noteIdSet }))
                      (P.map (fun p => { pathname := p, noteIdSet := (∅ : Finset Nat) })) := by
                  unfold refreshFolders
                  rw [List.foldl_cons]
                rw [h0, refreshFolders_map_empty]
              rw [hsplit, lookupA_refreshParentFolders]
              by_cases hqP : q ∈ P
              · rw [if_pos hqP, if_pos hqP]
              · rw [if_neg hqP, if_neg hqP, lookupA_osetA]
                have hpe : ({ F with noteIdSet := insert newNote._id F.noteIdSet }).pathname
                    = tfp := hFpath
                rw [hpe]
            have hndFMt : NoDupKeys (refreshFolders ts.folderMap
                ({ F with noteIdSet := insert newNote._id F.noteIdSet } ::
                  P.map (fun p => { pathname := p, noteIdSet := (∅ : Finset Nat) }))) :=
              nodupKeys_refreshFolders _ _ hndFt
            have hndTMt : NoDupKeys (refreshTags ts.tagMap (newNote.tags.map G)) := by
              unfold refreshTags
              exact nodupKeys_foldl_osetA _ _ _ _ hndTt
            have hfreshlook : lookupA ts.noteMap newNote._id = none := by
              cases hl : lookupA ts.noteMap newNote._id with
              | none => rfl
              | some n2 =>
                have hlt := hfretst (newNote._id, n2) (mem_of_lookupA hl)
                rw [hnid] at hlt
                exact absurd hlt (lt_irrefl _)
            unfold ConsistentStorage
            dsimp only
            refine ⟨?_, ?_, ?_, ?_⟩
            · -- non-trashed notes of the target stay indexed
              intro kv2 hkv2 htr
              obtain ⟨i, nv⟩ := kv2
              rcases mem_osetA_ne hndNt hkv2 with heqn | ⟨hmemn, hnen⟩
              · have hi : i = newNote._id := congrArg Prod.fst heqn
                have hv : nv = newNote := congrArg Prod.snd heqn
                constructor
                · rw [hv, hnfp]
                  unfold oget2
                  rw [hfmt tfp, if_neg htfpP, if_pos rfl]
                  show i ∈ insert newNote._id F.noteIdSet
                  rw [hi]
                  exact Finset.mem_insert_self _ _
                · intro tg htg
                  rw [hv] at htg
                  rw [htmt tg, if_pos htg]
                  show i ∈ (G tg).noteIdSet
                  rw [hGdef]
                  cases hl : lookupA ts.tagMap tg with
                  | none =>
                    simp only [hl]
                    rw [hi]
                    exact Finset.mem_singleton_self _
                  | some td =>
                    simp only [hl]
                    rw [hi]
                    exact Finset.mem_insert_self _ _
              · have h1 := (hc1t (i, nv) hmemn htr).1
                have h2 := (hc1t (i, nv) hmemn htr).2
                constructor
                · cases hOH : oget2 ts.folderMap nv.folderPathname with
                  | none =>
                    rw [hOH] at h1
                    exact h1.elim
                  | some f =>
                    rw [hOH] at h1
                    have hqP : nv.folderPathname ∉ P := by
                      intro hq
                      have hnone := (hPprop _ hq).1
                      rw [hOH] at hnone
                      exact Bool.noConfusion hnone
                    unfold oget2
                    rw [hfmt _, if_neg hqP]
                    by_cases hqt : tfp = nv.folderPathname
                    · rw [if_pos hqt]
                      show i ∈ insert newNote._id F.noteIdSet
                      refine Finset.mem_insert_of_mem ?_
                      have hFf : F = f := by
                        rw [hFdef, hqt]
                        simp only [hOH]
                      rw [hFf]
                      exact h1
                    · rw [if_neg hqt]
                      show OptHolds (oget2 ts.folderMap nv.folderPathname)
                        (fun g => i ∈ g.noteIdSet)
                      rw [hOH]
                      exact h1
                · intro tg htg
                  have h2t := h2 tg htg
                  cases hltg : lookupA ts.tagMap tg with
                  | none =>
                    rw [hltg] at h2t
                    exact h2t.elim
                  | some td =>
                    rw [hltg] at h2t
                    rw [htmt tg]
                    by_cases hgt : tg ∈ newNote.tags
                    · rw [if_pos hgt]
                      show i ∈ (G tg).noteIdSet
                      rw [hGdef]
                      simp only [hltg]
                      exact Finset.mem_insert_of_mem h2t
                    · rw [if_neg hgt]
                      rw [hltg]
                      exact h2t
            · -- trashed notes of the target are absent from every set
              intro kv2 hkv2 htr
              obtain ⟨i, nv⟩ := kv2
              rcases mem_osetA_ne hndNt hkv2 with heqn | ⟨hmemn, hnen⟩
              · have hv : nv = newNote := congrArg Prod.snd heqn
                rw [hv, hntr] at htr
                exact Bool.noConfusion htr
              · have h2 := hc2t (i, nv) hmemn htr
                constructor
                · intro pf hpf f hf hin
                  have hpfl := lookupA_eq_of_mem hndFMt hpf
                  rw [hfmt pf.1] at hpfl
                  by_cases hqP : pf.1 ∈ P
                  · rw [if_pos hqP] at hpfl
                    have h3 := Option.some.inj hpfl
                    rw [hf] at h3
                    have hfe : f = { pathname := pf.1, noteIdSet := (∅ : Finset Nat) } :=
                      (Option.some.inj h3).symm
                    rw [hfe] at hin
                    exact absurd hin (Finset.not_mem_empty i)
                  · rw [if_neg hqP] at hpfl
                    by_cases hqt : tfp = pf.1
                    · rw [if_pos hqt] at hpfl
                      have h4 := Option.some.inj hpfl
                      rw [hf] at h4
                      have hFf := Option.some.inj h4
                      rw [← hFf] at hin
                      have hin' : i ∈ insert newNote._id F.noteIdSet := hin
                      rcases Finset.mem_insert.mp hin' with hie | hiF
                      · have hlt := hfretst (i, nv) hmemn
                        rw [hie, hnid] at hlt
                        exact absurd hlt (lt_irrefl _)
                      · cases hofg : oget2 ts.folderMap tfp with
                        | none =>
                          have hF0 : F = { pathname := tfp, noteIdSet := (∅ : Finset Nat) } := by
                            rw [hFdef]
                            simp only [hofg]
                          rw [hF0] at hiF
                          exact absurd hiF (Finset.not_mem_empty i)
                        | some f0 =>
                          have hF0 : F = f0 := by
                            rw [hFdef]
                            simp only [hofg]
                          rw [hF0] at hiF
                          exact h2.1 (tfp, some f0)
                            (mem_of_lookupA (lookupA_of_oget2 hofg)) f0 rfl hiF
                    · rw [if_neg hqt] at hpfl
                      exact h2.1 (pf.1, pf.2) (mem_of_lookupA hpfl) f hf hin
                · intro pt hpt hin
                  have hptl := lookupA_eq_of_mem hndTMt hpt
                  rw [htmt pt.1] at hptl
                  by_cases hgt : pt.1 ∈ newNote.tags
                  · rw [if_pos hgt] at hptl
                    have hG2 := Option.some.inj hptl
                    rw [← hG2] at hin
                    simp only [hGdef] at hin
                    cases hltg : lookupA ts.tagMap pt.1 with
                    | none =>
                      simp only [hltg] at hin
                      have hie : i = newNote._id := by simpa using hin
                      have hlt := hfretst (i, nv) hmemn
                      rw [hie, hnid] at hlt
                      exact absurd hlt (lt_irrefl _)
                    | some td =>
                      simp only [hltg] at hin
                      rcases Finset.mem_insert.mp hin with hie | hiT
                      · have hlt := hfretst (i, nv) hmemn
                        rw [hie, hnid] at hlt
                        exact absurd hlt (lt_irrefl _)
                      · exact h2.2 (pt.1, td) (mem_of_lookupA hltg) hiT
                  · rw [if_neg hgt] at hptl
                    exact h2.2 (pt.1, pt.2) (mem_of_lookupA hptl) hin
            · -- target folder sets point to live notes
              intro pf hpf f hf idx hidx
              have hpfl := lookupA_eq_of_mem hndFMt hpf
              rw [hfmt pf.1] at hpfl
              by_cases hqP : pf.1 ∈ P
              · rw [if_pos hqP] at hpfl
                have h3 := Option.some.inj hpfl
                rw [hf] at h3
                have hfe : f = { pathname := pf.1, noteIdSet := (∅ : Finset Nat) } :=
                  (Option.some.inj h3).symm
                rw [hfe] at hidx
                exact absurd hidx (Finset.not_mem_empty idx)
              · rw [if_neg hqP] at hpfl
                by_cases hqt : tfp = pf.1
                · rw [if_pos hqt] at hpfl
                  have h4 := Option.some.inj hpfl
                  rw [hf] at h4
                  have hFf := Option.some.inj h4
                  rw [← hFf] at hidx
                  have hidx' : idx ∈ insert newNote._id F.noteIdSet := hidx
                  rcases Finset.mem_insert.mp hidx' with hie | hiF
                  · rw [lookupA_osetA, if_pos hie.symm]
                    exact ⟨hntr, hnfp.trans hqt⟩
                  · cases hofg : oget2 ts.folderMap tfp with
                    | none =>
                      have hF0 : F = { pathname := tfp, noteIdSet := (∅ : Finset Nat) } := by
                        rw [hFdef]
                        simp only [hofg]
                      rw [hF0] at hiF
                      exact absurd hiF (Finset.not_mem_empty idx)
                    | some f0 =>
                      have hF0 : F = f0 := by
                        rw [hFdef]
                        simp only [hofg]
                      rw [hF0] at hiF
                      have h3 := hc3t (tfp, some f0)
                        (mem_of_lookupA (lookupA_of_oget2 hofg)) f0 rfl idx hiF
                      cases hq : lookupA ts.noteMap idx with
                      | none =>
                        rw [hq] at h3
                        exact h3.elim
                      | some n =>
                        rw [hq] at h3
                        have hne2 : ¬ (newNote._id = idx) := by
                          intro he
                          rw [← he, hfreshlook] at hq
                          exact Option.noConfusion hq
                        rw [lookupA_osetA, if_neg hne2, hq]
                        exact ⟨h3.1, h3.2.trans hqt⟩
                · rw [if_neg hqt] at hpfl
                  have h3 := hc3t (pf.1, pf.2) (mem_of_lookupA hpfl) f hf idx hidx
                  cases hq : lookupA ts.noteMap idx with
                  | none =>
                    rw [hq] at h3
                    exact h3.elim
                  | some n =>
                    rw [hq] at h3
                    have hne2 : ¬ (newNote._id = idx) := by
                      intro he
                      rw [← he, hfreshlook] at hq
                      exact Option.noConfusion hq
                    rw [lookupA_osetA, if_neg hne2, hq]
                    exact h3
            · -- target tag sets point to live notes carrying the tag
              intro pt hpt idx hidx
              have hptl := lookupA_eq_of_mem hndTMt hpt
              rw [htmt pt.1] at hptl
              by_cases hgt : pt.1 ∈ newNote.tags
              · rw [if_pos hgt] at hptl
                have hG2 := Option.some.inj hptl
                rw [← hG2] at hidx
                simp only [hGdef] at hidx
                cases hltg : lookupA ts.tagMap pt.1 with
                | none =>
                  simp only [hltg] at hidx
                  have hie : idx = newNote._id := by simpa using hidx
                  rw [lookupA_osetA, if_pos hie.symm]
                  exact ⟨hntr, hgt⟩
                | some td =>
                  simp only [hltg] at hidx
                  rcases Finset.mem_insert.mp hidx with hie | hiT
                  · rw [lookupA_osetA, if_pos hie.symm]
                    exact ⟨hntr, hgt⟩
                  · have h4 := hc4t (pt.1, td) (mem_of_lookupA hltg) idx hiT
                    cases hq : lookupA ts.noteMap idx with
                    | none =>
                      rw [hq] at h4
                      exact h4.elim
                    | some n =>
                      rw [hq] at h4
                      have hne2 : ¬ (newNote._id = idx) := by
                        intro he
                        rw [← he, hfreshlook] at hq
                        exact Option.noConfusion hq
                      rw [lookupA_osetA, if_neg hne2, hq]
                      exact h4
              · rw [if_neg hgt] at hptl
                have h4 := hc4t (pt.1, pt.2) (mem_of_lookupA hptl) idx hidx
                cases hq : lookupA ts.noteMap idx with
                | none =>
                  rw [hq] at h4
                  exact h4.elim
                | some n =>
                  rw [hq] at h4
                  have hne2 : ¬ (newNote._id = idx) := by
                    intro he
                    rw [← he, hfreshlook] at hq
                    exact Option.noConfusion hq
                  rw [lookupA_osetA, if_neg hne2, hq]
                  exact h4
          · rcases mem_osetA hm1 with heq2 | hm2
            · -- the source storage entry
              rw [heq2]
              dsimp only
              have htmo : ∀ q, lookupA (refreshTags os.tagMap
                  (((onote.tags.map (fun tagName => lookupA os.tagMap tagName)).filterMap
                    id).map (fun tagDoc =>
                      { tagDoc with noteIdSet := tagDoc.noteIdSet.erase onote._id }))) q =
                  match lookupA os.tagMap q with
                  | some td =>
                      if q ∈ onote.tags
                      then some { td with noteIdSet := td.noteIdSet.erase onote._id }
                      else lookupA os.tagMap q
                  | none => lookupA os.tagMap q :=
                fun q => eraseTagListRefresh_lookup os.tagMap htago onote._id
                  onote.tags os.tagMap q
              have hndTMo : NoDupKeys (refreshTags os.tagMap
                  (((onote.tags.map (fun tagName => lookupA os.tagMap tagName)).filterMap
                    id).map (fun tagDoc =>
                      { tagDoc with noteIdSet := tagDoc.noteIdSet.erase onote._id }))) := by
                unfold refreshTags
                exact nodupKeys_foldl_osetA _ _ _ _ hndTo
              cases hofo : oget2 os.folderMap onote.folderPathname with
              | none =>
                simp only [Option.map_none']
                unfold ConsistentStorage
                dsimp only
                refine ⟨?_, ?_, ?_, ?_⟩
                · intro kv2 hkv2 htr
                  obtain ⟨i, nv⟩ := kv2
                  have hne3 : i ≠ onote._id := mem_odelA_ne hkv2
                  have hmem0 : (i, nv) ∈ os.noteMap := mem_odelA hkv2
                  have h1 := (hc1o (i, nv) hmem0 htr).1
                  have h2 := (hc1o (i, nv) hmem0 htr).2
                  constructor
                  · exact h1
                  · intro tg htg
                    have h2t := h2 tg htg
                    cases hltg : lookupA os.tagMap tg with
                    | none =>
                      rw [hltg] at h2t
                      exact h2t.elim
                    | some td =>
                      rw [hltg] at h2t
                      rw [htmo tg]
                      simp only [hltg]
                      by_cases hgo : tg ∈ onote.tags
                      · rw [if_pos hgo]
                        show i ∈ td.noteIdSet.erase onote._id
                        exact Finset.mem_erase.mpr ⟨hne3, h2t⟩
                      · rw [if_neg hgo]
                        exact h2t
                · intro kv2 hkv2 htr
                  obtain ⟨i, nv⟩ := kv2
                  have hmem0 : (i, nv) ∈ os.noteMap := mem_odelA hkv2
                  have h2 := hc2o (i, nv) hmem0 htr
                  constructor
                  · intro pf hpf g hg hin
                    exact h2.1 pf hpf g hg hin
                  · intro pt hpt hin
                    have hptl := lookupA_eq_of_mem hndTMo hpt
                    rw [htmo pt.1] at hptl
                    cases hltg : lookupA os.tagMap pt.1 with
                    | none =>
                      simp only [hltg] at hptl
                      exact Option.noConfusion hptl
                    | some td =>
                      simp only [hltg] at hptl
                      by_cases hgo : pt.1 ∈ onote.tags
                      · rw [if_pos hgo] at hptl
                        have hpt2 := Option.some.inj hptl
                        rw [← hpt2] at hin
                        have hin' : i ∈ td.noteIdSet.erase onote._id := hin
                        exact h2.2 (pt.1, td) (mem_of_lookupA hltg)
                          (Finset.mem_of_mem_erase hin')
                      · rw [if_neg hgo] at hptl
                        have hpt2 := Option.some.inj hptl
                        rw [← hpt2] at hin
                        exact h2.2 (pt.1, td) (mem_of_lookupA hltg) hin
                · intro pf hpf g hg idx hidx
                  have h3 := hc3o pf hpf g hg idx hidx
                  cases hq : lookupA os.noteMap idx with
                  | none =>
                    rw [hq] at h3
                    exact h3.elim
                  | some n =>
                    rw [hq] at h3
                    have hne4 : ¬ (onote._id = idx) := by
                      intro he
                      have hn : n = onote := by
                        rw [← he, honid] at hq
                        exact (Option.some.inj hq).symm
                      have h1o := (hc1o (onote._id, onote) (mem_of_lookupA honid)
                        (by rw [← hn]; exact h3.1)).1
                      rw [hofo] at h1o
                      exact h1o
                    rw [lookupA_odelA, if_neg hne4, hq]
                    exact h3
                · intro pt hpt idx hidx
                  have hptl := lookupA_eq_of_mem hndTMo hpt
                  rw [htmo pt.1] at hptl
                  cases hltg : lookupA os.tagMap pt.1 with
                  | none =>
                    simp only [hltg] at hptl
                    exact Option.noConfusion hptl
                  | some td =>
                    simp only [hltg] at hptl
                    by_cases hgo : pt.1 ∈ onote.tags
                    · rw [if_pos hgo] at hptl
                      have hpt2 := Option.some.inj hptl
                      rw [← hpt2] at hidx
                      have hidx' : idx ∈ td.noteIdSet.erase onote._id := hidx
                      obtain ⟨hne4, hidx0⟩ := Finset.mem_erase.mp hidx'
                      have h4 := hc4o (pt.1, td) (mem_of_lookupA hltg) idx hidx0
                      cases hq : lookupA os.noteMap idx with
                      | none =>
                        rw [hq] at h4
                        exact h4.elim
                      | some n =>
                        rw [hq] at h4
                        rw [lookupA_odelA, if_neg (fun he => hne4 he.symm), hq]
                        exact h4
                    · rw [if_neg hgo] at hptl
                      have hpt2 := Option.some.inj hptl
                      rw [← hpt2] at hidx
                      have h4 := hc4o (pt.1, td) (mem_of_lookupA hltg) idx hidx
                      cases hq : lookupA os.noteMap idx with
                      | none =>
                        rw [hq] at h4
                        exact h4.elim
                      | some n =>
                        rw [hq] at h4
                        have hne4 : ¬ (onote._id = idx) := by
                          intro he
                          have hn : n = onote := by
                            rw [← he, honid] at hq
                            exact (Option.some.inj hq).symm
                          rw [hn] at h4
                          exact hgo h4.2
                        rw [lookupA_odelA, if_neg hne4, hq]
                        exact h4
              | some f0 =>
                simp only [Option.map_some']
                have hf0p : f0.pathname = onote.folderPathname :=
                  hfoldo (onote.folderPathname, some f0)
                    (mem_of_lookupA (lookupA_of_oget2 hofo)) f0 rfl
                rw [hf0p]
                unfold ConsistentStorage
                dsimp only
                refine ⟨?_, ?_, ?_, ?_⟩
                · intro kv2 hkv2 htr
                  obtain ⟨i, nv⟩ := kv2
                  have hne3 : i ≠ onote._id := mem_odelA_ne hkv2
                  have hmem0 : (i, nv) ∈ os.noteMap := mem_odelA hkv2
                  have h1 := (hc1o (i, nv) hmem0 htr).1
                  have h2 := (hc1o (i, nv) hmem0 htr).2
                  constructor
                  · cases hOH : oget2 os.folderMap nv.folderPathname with
                    | none =>
                      rw [hOH] at h1
                      exact h1.elim
                    | some f =>
                      rw [hOH] at h1
                      unfold oget2
                      rw [lookupA_osetA]
                      by_cases hqq : onote.folderPathname = nv.folderPathname
                      · rw [if_pos hqq]
                        show i ∈ f0.noteIdSet.erase onote._id
                        refine Finset.mem_erase.mpr ⟨hne3, ?_⟩
                        have hff : f = f0 := by
                          rw [hqq] at hofo
                          exact (Option.some.inj (hofo.symm.trans hOH)).symm
                        rw [← hff]
                        exact h1
                      · rw [if_neg hqq]
                        show OptHolds (oget2 os.folderMap nv.folderPathname)
                          (fun g => i ∈ g.noteIdSet)
                        rw [hOH]
                        exact h1
                  · intro tg htg
                    have h2t := h2 tg htg
                    cases hltg : lookupA os.tagMap tg with
                    | none =>
                      rw [hltg] at h2t
                      exact h2t.elim
                    | some td =>
                      rw [hltg] at h2t
                      rw [htmo tg]
                      simp only [hltg]
                      by_cases hgo : tg ∈ onote.tags
                      · rw [if_pos hgo]
                        show i ∈ td.noteIdSet.erase onote._id
                        exact Finset.mem_erase.mpr ⟨hne3, h2t⟩
                      · rw [if_neg hgo]
                        exact h2t
                · intro kv2 hkv2 htr
                  obtain ⟨i, nv⟩ := kv2
                  have hmem0 : (i, nv) ∈ os.noteMap := mem_odelA hkv2
                  have h2 := hc2o (i, nv) hmem0 htr
                  constructor
                  · intro pf hpf g hg hin
                    rcases mem_osetA hpf with hpe | hpm
                    · have hpf2 : pf.2 =
                          some { pathname := onote.folderPathname,
                                 noteIdSet := f0.noteIdSet.erase onote._id } :=
                        congrArg Prod.snd hpe
                      rw [hpf2] at hg
                      have hgg := Option.some.inj hg
                      rw [← hgg] at hin
                      have hin' : i ∈ f0.noteIdSet.erase onote._id := hin
                      exact h2.1 (onote.folderPathname, some f0)
                        (mem_of_lookupA (lookupA_of_oget2 hofo)) f0 rfl
                        (Finset.mem_of_mem_erase hin')
                    · exact h2.1 pf hpm g hg hin
                  · intro pt hpt hin
                    have hptl := lookupA_eq_of_mem hndTMo hpt
                    rw [htmo pt.1] at hptl
                    cases hltg : lookupA os.tagMap pt.1 with
                    | none =>
                      simp only [hltg] at hptl
                      exact Option.noConfusion hptl
                    | some td =>
                      simp only [hltg] at hptl
                      by_cases hgo : pt.1 ∈ onote.tags
                      · rw [if_pos hgo] at hptl
                        have hpt2 := Option.some.inj hptl
                        rw [← hpt2] at hin
                        have hin' : i ∈ td.noteIdSet.erase onote._id := hin
                        exact h2.2 (pt.1, td) (mem_of_lookupA hltg)
                          (Finset.mem_of_mem_erase hin')
                      · rw [if_neg hgo] at hptl
                        have hpt2 := Option.some.inj hptl
                        rw [← hpt2] at hin
                        exact h2.2 (pt.1, td) (mem_of_lookupA hltg) hin
                · intro pf hpf g hg idx hidx
                  rcases mem_osetA_ne hndFo hpf with hpe | ⟨hpm, hpne⟩
                  · have hpf1 : pf.1 = onote.folderPathname := congrArg Prod.fst hpe
                    have hpf2 : pf.2 =
                        some { pathname := onote.folderPathname,
                               noteIdSet := f0.noteIdSet.erase onote._id } :=
                      congrArg Prod.snd hpe
                    rw [hpf2] at hg
                    have hgg := Option.some.inj hg
                    rw [← hgg] at hidx
                    have hidx' : idx ∈ f0.noteIdSet.erase onote._id := hidx
                    obtain ⟨hne4, hidx0⟩ := Finset.mem_erase.mp hidx'
                    have h3 := hc3o (onote.folderPathname, some f0)
                      (mem_of_lookupA (lookupA_of_oget2 hofo)) f0 rfl idx hidx0
                    cases hq : lookupA os.noteMap idx with
                    | none =>
                      rw [hq] at h3
                      exact h3.elim
                    | some n =>
                      rw [hq] at h3
                      rw [lookupA_odelA, if_neg (fun he => hne4 he.symm), hq]
                      exact ⟨h3.1, h3.2.trans hpf1.symm⟩
                  · have h3 := hc3o pf hpm g hg idx hidx
                    cases hq : lookupA os.noteMap idx with
                    | none =>
                      rw [hq] at h3
                      exact h3.elim
                    | some n =>
                      rw [hq] at h3
                      have hne4 : ¬ (onote._id = idx) := by
                        intro he
                        have hn : n = onote := by
                          rw [← he, honid] at hq
                          exact (Option.some.inj hq).symm
                        rw [hn] at h3
                        exact hpne h3.2.symm
                      rw [lookupA_odelA, if_neg hne4, hq]
                      exact h3
                · intro pt hpt idx hidx
                  have hptl := lookupA_eq_of_mem hndTMo hpt
                  rw [htmo pt.1] at hptl
                  cases hltg : lookupA os.tagMap pt.1 with
                  | none =>
                    simp only [hltg] at hptl
                    exact Option.noConfusion hptl
                  | some td =>
                    simp only [hltg] at hptl
                    by_cases hgo : pt.1 ∈ onote.tags
                    · rw [if_pos hgo] at hptl
                      have hpt2 := Option.some.inj hptl
                      rw [← hpt2] at hidx
                      have hidx' : idx ∈ td.noteIdSet.erase onote._id := hidx
                      obtain ⟨hne4, hidx0⟩ := Finset.mem_erase.mp hidx'
                      have h4 := hc4o (pt.1, td) (mem_of_lookupA hltg) idx hidx0
                      cases hq : lookupA os.noteMap idx with
                      | none =>
                        rw [hq] at h4
                        exact h4.elim
                      | some n =>
                        rw [hq] at h4
                        rw [lookupA_odelA, if_neg (fun he => hne4 he.symm), hq]
                        exact h4
                    · rw [if_neg hgo] at hptl
                      have hpt2 := Option.some.inj hptl
                      rw [← hpt2] at hidx
                      have h4 := hc4o (pt.1, td) (mem_of_lookupA hltg) idx hidx
                      cases hq : lookupA os.noteMap idx with
                      | none =>
                        rw [hq] at h4
                        exact h4.elim
                      | some n =>
                        rw [hq] at h4
                        have hne4 : ¬ (onote._id = idx) := by
                          intro he
                          have hn : n = onote := by
                            rw [← he, honid] at hq
                            exact (Option.some.inj hq).symm
                          rw [hn] at h4
                          exact hgo h4.2
                        rw [lookupA_odelA, if_neg hne4, hq]
                        exact h4
            · exact consistent_of_mem hwf hm2

/-! ## Consistency preservation: `renameFolder` -/

theorem Db.notes_addFolder (db : Db) (p : String) : (db.addFolder p).notes = db.notes := by
  unfold Db.addFolder
  split <;> rfl

theorem Db.notes_materializeFolder (db : Db) (p : String) :
    (db.materializeFolder p).notes = db.notes := by
  unfold Db.materializeFolder
  generalize getAllParentFolderPathnames p = ps
  have h0 : (db.addFolder p).notes = db.notes := Db.notes_addFolder db p
  generalize hdb : db.addFolder p = db1
  rw [hdb] at h0
  clear hdb
  induction ps generalizing db1 with
  | nil => exact h0
  | cons q rest ih =>
    rw [List.foldl_cons]
    exact ih _ ((Db.notes_addFolder db1 q).trans h0)

theorem Db.hasFolder_addFolder_mono (db : Db) (p q : String)
    (h : db.hasFolder q = true) : (db.addFolder p).hasFolder q = true := by
  unfold Db.addFolder
  split
  · exact h
  · unfold Db.hasFolder at h ⊢
    simp only [decide_eq_true_eq] at h ⊢
    exact List.mem_cons_of_mem _ h

theorem Db.hasFolder_materializeFolder_mono (db : Db) (p q : String)
    (h : db.hasFolder q = true) : (db.materializeFolder p).hasFolder q = true := by
  unfold Db.materializeFolder
  generalize getAllParentFolderPathnames p = ps
  have h0 : (db.addFolder p).hasFolder q = true := Db.hasFolder_addFolder_mono db p q h
  generalize hdb : db.addFolder p = db1
  rw [hdb] at h0
  clear hdb
  induction ps generalizing db1 with
  | nil => exact h0
  | cons r rest ih =>
    rw [List.foldl_cons]
    exact ih _ (Db.hasFolder_addFolder_mono db1 r q h0)

theorem mem_findNotesByFolder {db : Db} {p : String} {n : NoteDoc} :
    n ∈ db.findNotesByFolder p ↔
      ∃ i, (i, n) ∈ db.notes ∧ n.folderPathname = p ∧ n.trashed = false := by
  unfold Db.findNotesByFolder
  rw [List.mem_map]
  constructor
  · rintro ⟨kv, hkv, hsnd⟩
    have h1 := List.mem_filter.mp hkv
    have h2 := h1.2
    simp only [Bool.and_eq_true, decide_eq_true_eq, Bool.not_eq_true'] at h2
    refine ⟨kv.1, ?_, ?_, ?_⟩
    · rw [← hsnd]
      exact h1.1
    · rw [← hsnd]
      exact h2.1
    · rw [← hsnd]
      exact h2.2
  · rintro ⟨i, hmem, hfp, htr⟩
    refine ⟨(i, n), List.mem_filter.mpr ⟨hmem, ?_⟩, rfl⟩
    simp only [Bool.and_eq_true, decide_eq_true_eq, Bool.not_eq_true']
    exact ⟨hfp, htr⟩

theorem findNotes_ids_nodup (db : Db) (p : String) (hnd : NoDupKeys db.notes)
    (hid : ∀ kv ∈ db.notes, kv.2._id = kv.1) :
    ((db.findNotesByFolder p).map (fun n => n._id)).Nodup := by
  unfold Db.findNotesByFolder
  rw [List.map_map]
  have hcongr : (db.notes.filter
        (fun kv => decide (kv.2.folderPathname = p) && !kv.2.trashed)).map
        ((fun n => n._id) ∘ Prod.snd) =
      (db.notes.filter
        (fun kv => decide (kv.2.folderPathname = p) && !kv.2.trashed)).map
        Prod.fst := by
    refine List.map_congr_left ?_
    intro kv hkv
    exact hid kv (List.mem_of_mem_filter hkv)
  rw [hcongr]
  exact List.Nodup.sublist (List.Sublist.map _ (List.filter_sublist _)) hnd

theorem string_eq_of_data {s1 s2 : String} (h : s1.data = s2.data) : s1 = s2 := by
  cases s1
  cases s2
  exact congrArg String.mk h

theorem data_append (s t : String) : (s ++ t).data = s.data ++ t.data := rfl

theorem prefix_of_source {pathname s : String}
    (h : s = pathname ∨ strStartsWith s (pathname ++ "/") = true) :
    s.data = pathname.data ++ s.data.drop pathname.data.length := by
  rcases h with h | h
  · rw [h, List.drop_length, List.append_nil]
  · unfold strStartsWith at h
    have hpre : (pathname ++ "/").data <+: s.data := by
      rw [← List.isPrefixOf_iff_prefix]
      exact h
    obtain ⟨t, ht⟩ := hpre
    rw [data_append] at ht
    have hs : s.data = pathname.data ++ (("/").data ++ t) := by
      rw [← List.append_assoc, ht]
    rw [hs]
    congr 1
    rw [List.drop_left]

theorem rewritePath_inj_on {pathname newPathname s1 s2 : String}
    (h1 : s1 = pathname ∨ strStartsWith s1 (pathname ++ "/") = true)
    (h2 : s2 = pathname ∨ strStartsWith s2 (pathname ++ "/") = true)
    (he : rewritePath pathname newPathname s1 = rewritePath pathname newPathname s2) :
    s1 = s2 := by
  unfold rewritePath at he
  have hd : newPathname.data ++ s1.data.drop pathname.data.length =
      newPathname.data ++ s2.data.drop pathname.data.length := congrArg String.data he
  have hdrop := List.append_cancel_left hd
  apply string_eq_of_data
  rw [prefix_of_source h1, prefix_of_source h2, hdrop]

theorem not_strStartsWith_self (p : String) : strStartsWith p (p ++ "/") = false := by
  cases h : strStartsWith p (p ++ "/") with
  | false => rfl
  | true =>
    exfalso
    unfold strStartsWith at h
    have hpre : (p ++ "/").data <+: p.data := by
      rw [← List.isPrefixOf_iff_prefix]
      exact h
    have hlen := List.IsPrefix.length_le hpre
    rw [data_append, List.length_append] at hlen
    simp at hlen

/-- The state invariant maintained along `renameFolder`'s per-sub-path fold,
relating the accumulator to the pre-operation store `db0` and the full
sub-path list `allSrc`, with `done` the already-processed prefix. -/
structure RenameInv (pathname newPathname : String) (db0 : Db)
    (allSrc done : List String) (a : RenameAcc) : Prop where
  notesChar : ∀ i, lookupA a.db.notes i =
    match lookupA db0.notes i with
    | some old =>
        if old.folderPathname ∈ done ∧ old.trashed = false
        then some { old with
            folderPathname := rewritePath pathname newPathname old.folderPathname }
        else some old
    | none => none
  notesNd : NoDupKeys a.db.notes
  foldersMono : ∀ p, db0.hasFolder p = true → a.db.hasFolder p = true
  doneFolders : ∀ d ∈ done, a.db.hasFolder d = true
  destFresh : ∀ d ∈ done, rewritePath pathname newPathname d ∉ allSrc ∧
    db0.hasFolder (rewritePath pathname newPathname d) = false
  idKey : ∀ kv ∈ a.db.notes, kv.2._id = kv.1
  nlMem : ∀ n ∈ a.notesListToRefresh, ∃ old, lookupA db0.notes n._id = some old ∧
    old.trashed = false ∧ old.folderPathname ∈ done ∧
    n = { old with folderPathname := rewritePath pathname newPathname old.folderPathname }
  nlComplete : ∀ i old, lookupA db0.notes i = some old → old.trashed = false →
    old.folderPathname ∈ done →
    { old with folderPathname := rewritePath pathname newPathname old.folderPathname } ∈
      a.notesListToRefresh
  nlNd : (a.notesListToRefresh.map (fun n => n._id)).Nodup
  flMem : ∀ F ∈ a.folderListToRefresh, ∃ s, s ∈ done ∧
    F.pathname = rewritePath pathname newPathname s ∧
    ∀ i, (i ∈ F.noteIdSet ↔ ∃ old, lookupA db0.notes i = some old ∧
      old.trashed = false ∧ old.folderPathname = s)
  flComplete : ∀ s ∈ done, ∃ F ∈ a.folderListToRefresh,
    F.pathname = rewritePath pathname newPathname s

/-- Specification of the note-reassignment fold of one `renameFolder` sub-path:
each listed note is rewritten to the destination pathname in the store and
appended to the collected list; other notes, key discipline and existing
folder records are untouched. -/
theorem rewriteNoteFold_spec (dst : String) :
    ∀ (ns : List NoteDoc) (dbIn : Db) (lst : List NoteDoc) (dbOut : Db)
      (out : List NoteDoc),
    (∀ n ∈ ns, lookupA dbIn.notes n._id = some n) →
    NoDupKeys dbIn.notes →
    (ns.map (fun n => n._id)).Nodup →
    (∀ kv ∈ dbIn.notes, kv.2._id = kv.1) →
    ns.foldlM (rewriteNoteStep dst) (dbIn, lst) = Except.ok (dbOut, out) →
    out = lst ++ ns.map (fun n => { n with folderPathname := dst }) ∧
    (∀ n ∈ ns, lookupA dbOut.notes n._id =
      some { n with folderPathname := dst }) ∧
    (∀ i, i ∉ ns.map (fun n => n._id) →
      lookupA dbOut.notes i = lookupA dbIn.notes i) ∧
    NoDupKeys dbOut.notes ∧
    (∀ p, dbIn.hasFolder p = true → dbOut.hasFolder p = true) ∧
    (∀ kv ∈ dbOut.notes, kv.2._id = kv.1) := by
  intro ns
  induction ns with
  | nil =>
    intro dbIn lst dbOut out hlk hnd hids hid hfold
    have hpair : (dbIn, lst) = (dbOut, out) := Except.ok.inj hfold
    injection hpair with h1 h2
    subst h1
    subst h2
    refine ⟨by simp, ?_, ?_, hnd, ?_, hid⟩
    · intro n hn
      cases hn
    · intro i _
      rfl
    · intro p h
      exact h
  | cons n ns' ih =>
    intro dbIn lst dbOut out hlk hnd hids hid hfold
    have hlkn := hlk n (List.mem_cons_self _ _)
    rw [List.foldlM_cons] at hfold
    rw [List.map_cons] at hids
    have hidn : n._id ∉ ns'.map (fun m => m._id) := (List.nodup_cons.mp hids).1
    have hids' : (ns'.map (fun m => m._id)).Nodup := (List.nodup_cons.mp hids).2
    have hstep : rewriteNoteStep dst (dbIn, lst) n =
        (match dbIn.updateNote n._id { folderPathname := some dst } with
         | .error _ => Except.error (dbIn, RegError.dbError)
         | .ok (db', none) => Except.error (db', RegError.typeError)
         | .ok (db', some m) => Except.ok (db', lst ++ [m])) := rfl
    have hup : dbIn.updateNote n._id { folderPathname := some dst } =
        (if isFolderPathnameValid dst = true
         then Except.ok ({ (dbIn.materializeFolder dst) with
             notes := osetA dbIn.notes n._id { n with folderPathname := dst } },
           some { n with folderPathname := dst })
         else Except.error ()) := by
      unfold Db.updateNote
      rw [hlkn]
      simp only [Option.getD_some, Option.getD_none]
    cases hv : isFolderPathnameValid dst with
    | false =>
      rw [hv] at hup
      rw [if_neg (by simp)] at hup
      rw [hstep, hup] at hfold
      dsimp only at hfold
      exact Except.noConfusion hfold
    | true =>
      rw [hv, if_pos rfl] at hup
      rw [hstep, hup] at hfold
      dsimp only at hfold
      set db' : Db := { (dbIn.materializeFolder dst) with
        notes := osetA dbIn.notes n._id { n with folderPathname := dst } } with hdb'
      have hnotes' : db'.notes = osetA dbIn.notes n._id { n with folderPathname := dst } := rfl
      have hlk' : ∀ m ∈ ns', lookupA db'.notes m._id = some m := by
        intro m hm
        rw [hnotes', lookupA_osetA]
        have hne : ¬ (n._id = m._id) := by
          intro he
          refine hidn ?_
          rw [he]
          exact List.mem_map.mpr ⟨m, hm, rfl⟩
        rw [if_neg hne]
        exact hlk m (List.mem_cons_of_mem _ hm)
      have hnd' : NoDupKeys db'.notes := by
        rw [hnotes']
        exact nodupKeys_osetA hnd _ _
      have hid' : ∀ kv ∈ db'.notes, kv.2._id = kv.1 := by
        intro kv hkv
        rw [hnotes'] at hkv
        rcases mem_osetA hkv with he | hm
        · rw [he]
        · exact hid kv hm
      have hfold' : ns'.foldlM (rewriteNoteStep dst)
          (db', lst ++ [{ n with folderPathname := dst }]) = Except.ok (dbOut, out) := hfold
      obtain ⟨hout, hset, hskip, hndo, hmono, hido⟩ :=
        ih db' (lst ++ [{ n with folderPathname := dst }]) dbOut out hlk' hnd' hids' hid'
          hfold'
      refine ⟨?_, ?_, ?_, hndo, ?_, hido⟩
      · rw [hout, List.map_cons, List.append_assoc]
        rfl
      · intro m hm
        rcases List.mem_cons.mp hm with he | hm'
        · rw [he]
          rw [hskip n._id hidn, hnotes', lookupA_osetA, if_pos rfl]
        · exact hset m hm'
      · intro i hi
        have hi' : i ∉ ns'.map (fun m => m._id) := by
          intro h
          exact hi (by rw [List.map_cons]; exact List.mem_cons_of_mem _ h)
        have hin : ¬ (n._id = i) := by
          intro he
          exact hi (by rw [List.map_cons, ← he]; exact List.mem_cons_self _ _)
        rw [hskip i hi', hnotes', lookupA_osetA, if_neg hin]
      · intro p hp
        refine hmono p ?_
        show (dbIn.materializeFolder dst).hasFolder p = true
        exact Db.hasFolder_materializeFolder_mono dbIn dst p hp

/-- One successful `renameFolder` sub-path step preserves the fold invariant,
extending the processed prefix. -/
theorem renameOneFolder_step (pathname newPathname : String) (db0 : Db)
    (allSrc : List String)
    (hsrcpre : ∀ x ∈ allSrc, x = pathname ∨ strStartsWith x (pathname ++ "/") = true)
    (hsrcdb : ∀ x ∈ allSrc, x = pathname ∨ db0.hasFolder x = true)
    (hnd : allSrc.Nodup) (hhead : ∃ tl, allSrc = pathname :: tl)
    (done L' : List String) (s : String) (hsplit : done ++ s :: L' = allSrc)
    (a a' : RenameAcc) (hinv : RenameInv pathname newPathname db0 allSrc done a)
    (hok : renameOneFolder pathname newPathname a s = Except.ok a') :
    RenameInv pathname newPathname db0 allSrc (done ++ [s]) a' := by
  obtain ⟨inv1, inv2, inv3, inv4, inv7, inv8, nlm, nlc, nln, flm, flc⟩ := hinv
  have hsmem : s ∈ allSrc := by
    rw [← hsplit]
    exact List.mem_append.mpr (Or.inr (List.mem_cons_self _ _))
  have hsdone : s ∉ done := by
    intro h
    rw [← hsplit] at hnd
    rcases List.nodup_append.mp hnd with ⟨-, -, hdis⟩
    exact hdis h (List.mem_cons_self _ _)
  unfold renameOneFolder at hok
  dsimp only at hok
  set dst := rewritePath pathname newPathname s with hdst
  cases hgf : a.db.getFolder s with
  | none =>
    rw [hgf] at hok
    exact Except.noConfusion hok
  | some sfound =>
    rw [hgf] at hok
    dsimp only at hok
    have hsfolder : a.db.hasFolder s = true := by
      unfold Db.getFolder at hgf
      by_cases h : a.db.hasFolder s = true
      · exact h
      · rw [if_neg h] at hgf
        exact Option.noConfusion hgf
    cases hdfree : (a.db.getFolder dst).isSome with
    | true =>
      rw [hdfree, if_pos rfl] at hok
      exact Except.noConfusion hok
    | false =>
      rw [hdfree, if_neg (by simp)] at hok
      by_cases hdep : pathDepth s ≠ pathDepth dst
      · rw [if_pos hdep] at hok
        exact Except.noConfusion hok
      · rw [if_neg hdep] at hok
        cases hcf : a.db.createFolder dst with
        | error e =>
          rw [hcf] at hok
          exact Except.noConfusion hok
        | ok pr =>
          obtain ⟨db1, newFolder⟩ := pr
          rw [hcf] at hok
          dsimp only at hok
          unfold Db.createFolder at hcf
          by_cases hvd : isFolderPathnameValid dst = true
          case neg =>
            rw [if_neg hvd] at hcf
            exact Except.noConfusion hcf
          case pos =>
          rw [if_pos hvd] at hcf
          injection hcf with hcf2
          injection hcf2 with hdb1 hnf
          cases hrw : (a.db.findNotesByFolder s).foldlM (rewriteNoteStep dst)
              (db1, []) with
          | error e =>
            rw [hrw] at hok
            exact Except.noConfusion hok
          | ok pr2 =>
            obtain ⟨db2, rws⟩ := pr2
            rw [hrw] at hok
            dsimp only at hok
            have ha'2 := Except.ok.inj hok
            rw [← ha'2]
            have hnotes1 : db1.notes = a.db.notes := by
              rw [← hdb1]
              exact Db.notes_materializeFolder a.db dst
            have hlkfound : ∀ n ∈ a.db.findNotesByFolder s,
                lookupA db1.notes n._id = some n := by
              intro n hn
              obtain ⟨i, hmem, hfp, htr⟩ := mem_findNotesByFolder.mp hn
              have hkey : n._id = i := inv8 (i, n) hmem
              rw [hnotes1, hkey]
              exact lookupA_eq_of_mem inv2 hmem
            have hnd1 : NoDupKeys db1.notes := by
              rw [hnotes1]
              exact inv2
            have hidsnd : ((a.db.findNotesByFolder s).map (fun n => n._id)).Nodup :=
              findNotes_ids_nodup a.db s inv2 inv8
            have hid1 : ∀ kv ∈ db1.notes, kv.2._id = kv.1 := by
              rw [hnotes1]
              exact inv8
            obtain ⟨hout, hsetl, hskip, hnd2, hmono2, hid2⟩ :=
              rewriteNoteFold_spec dst (a.db.findNotesByFolder s) db1 [] db2 rws
                hlkfound hnd1 hidsnd hid1 hrw
            rw [List.nil_append] at hout
            have hmonoA : ∀ p, a.db.hasFolder p = true → db2.hasFolder p = true := by
              intro p hp
              refine hmono2 p ?_
              rw [← hdb1]
              exact Db.hasFolder_materializeFolder_mono a.db dst p hp
            have hfound : ∀ n, n ∈ a.db.findNotesByFolder s ↔
                (lookupA db0.notes n._id = some n ∧ n.folderPathname = s ∧
                  n.trashed = false) := by
              intro n
              constructor
              · intro hn
                obtain ⟨i, hmem, hfp, htr⟩ := mem_findNotesByFolder.mp hn
                have hkey : n._id = i := inv8 (i, n) hmem
                have hlka : lookupA a.db.notes i = some n := lookupA_eq_of_mem inv2 hmem
                have h1 := inv1 i
                rw [hlka] at h1
                cases hq : lookupA db0.notes i with
                | none =>
                  simp only [hq] at h1
                  exact Option.noConfusion h1
                | some old =>
                  simp only [hq] at h1
                  by_cases hmv : old.folderPathname ∈ done ∧ old.trashed = false
                  · rw [if_pos hmv] at h1
                    exfalso
                    have hn2 := Option.some.inj h1
                    have hfp2 : n.folderPathname =
                        rewritePath pathname newPathname old.folderPathname := by
                      rw [hn2]
                    have hfr := inv7 old.folderPathname hmv.1
                    refine hfr.1 ?_
                    rw [← hfp2, hfp]
                    exact hsmem
                  · rw [if_neg hmv] at h1
                    have hn2 := Option.some.inj h1
                    exact ⟨by rw [hkey, hq, hn2], hfp, htr⟩
              · rintro ⟨hlk0, hfp, htr⟩
                have h1 := inv1 n._id
                simp only [hlk0] at h1
                have hcond : ¬ (n.folderPathname ∈ done ∧ n.trashed = false) := by
                  intro hc
                  exact hsdone (by rw [← hfp]; exact hc.1)
                rw [if_neg hcond] at h1
                exact mem_findNotesByFolder.mpr ⟨n._id, mem_of_lookupA h1, hfp, htr⟩
            have hdstfree : ∀ x, a.db.hasFolder x = true → dst ≠ x := by
              intro x hx he
              have hh : a.db.hasFolder dst = true := by
                rw [he]
                exact hx
              unfold Db.getFolder at hdfree
              rw [if_pos hh] at hdfree
              simp at hdfree
            have hdstAFR : dst ∉ allSrc := by
              intro hx
              rcases hsrcdb dst hx with hp | hdb
              · have hpm : pathname ∈ done ∨ pathname = s := by
                  obtain ⟨tl, htl⟩ := hhead
                  cases hD : done with
                  | nil =>
                    rw [hD, List.nil_append, htl] at hsplit
                    have h := List.head_eq_of_cons_eq hsplit
                    exact Or.inr h.symm
                  | cons d ds =>
                    rw [hD, List.cons_append, htl] at hsplit
                    have hd := List.head_eq_of_cons_eq hsplit
                    rw [hd]
                    exact Or.inl (List.mem_cons_self _ _)
                rcases hpm with hd | hs2
                · exact hdstfree pathname (inv4 pathname hd) hp
                · refine hdstfree s hsfolder ?_
                  rw [hp, hs2]
              · exact hdstfree dst (inv3 dst hdb) rfl
            have hdstdb0 : db0.hasFolder dst = false := by
              cases hh : db0.hasFolder dst with
              | false => rfl
              | true => exact absurd rfl (hdstfree dst (inv3 dst hh))
            have hidk0 : ∀ i old, lookupA db0.notes i = some old →
                ¬ (old.folderPathname ∈ done ∧ old.trashed = false) →
                old._id = i := by
              intro i old hq hmv
              have hlka : lookupA a.db.notes i = some old := by
                rw [inv1 i]
                simp only [hq]
                rw [if_neg hmv]
              exact inv8 (i, old) (mem_of_lookupA hlka)
            have hrwids : rws.map (fun n => n._id) =
                (a.db.findNotesByFolder s).map (fun n => n._id) := by
              rw [hout, List.map_map]
              rfl
            refine ⟨?_, hnd2, ?_, ?_, ?_, hid2, ?_, ?_, ?_, ?_, ?_⟩
            · -- notesChar
              intro i
              show lookupA db2.notes i = _
              by_cases hseg : i ∈ (a.db.findNotesByFolder s).map (fun n => n._id)
              · obtain ⟨n, hn, hni⟩ := List.mem_map.mp hseg
                have hchar := (hfound n).mp hn
                have hset2 := hsetl n hn
                rw [← hni, hset2]
                simp only [hchar.1]
                have hfpm : n.folderPathname ∈ done ++ [s] := by
                  rw [hchar.2.1]
                  exact List.mem_append.mpr (Or.inr (List.mem_cons_self _ _))
                have hcond : n.folderPathname ∈ done ++ [s] ∧ n.trashed = false :=
                  ⟨hfpm, hchar.2.2⟩
                rw [if_pos hcond, hchar.2.1]
              · rw [hskip i hseg, hnotes1, inv1 i]
                cases hq : lookupA db0.notes i with
                | none => rfl
                | some old =>
                  dsimp only
                  by_cases hmv : old.folderPathname ∈ done ∧ old.trashed = false
                  · have hc2 : old.folderPathname ∈ done ++ [s] ∧ old.trashed = false :=
                      ⟨List.mem_append.mpr (Or.inl hmv.1), hmv.2⟩
                    rw [if_pos hmv, if_pos hc2]
                  · by_cases hmv2 : old.folderPathname ∈ done ++ [s] ∧
                        old.trashed = false
                    · exfalso
                      rcases List.mem_append.mp hmv2.1 with h | h
                      · exact hmv ⟨h, hmv2.2⟩
                      · have hfpS : old.folderPathname = s := by simpa using h
                        have hidk : old._id = i := hidk0 i old hq hmv
                        have hmem2 : old ∈ a.db.findNotesByFolder s :=
                          (hfound old).mpr ⟨by rw [hidk]; exact hq, hfpS, hmv2.2⟩
                        exact hseg (List.mem_map.mpr ⟨old, hmem2, hidk⟩)
                    · rw [if_neg hmv, if_neg hmv2]
            · -- foldersMono
              intro p hp
              exact hmonoA p (inv3 p hp)
            · -- doneFolders
              intro d hd
              rcases List.mem_append.mp hd with h | h
              · exact hmonoA d (inv4 d h)
              · have hds : d = s := by simpa using h
                rw [hds]
                exact hmonoA s hsfolder
            · -- destFresh
              intro d hd
              rcases List.mem_append.mp hd with h | h
              · exact inv7 d h
              · have hds : d = s := by simpa using h
                rw [hds, ← hdst]
                exact ⟨hdstAFR, hdstdb0⟩
            · -- nlMem
              intro n hn
              rcases List.mem_append.mp hn with h | h
              · obtain ⟨old, h1, h2, h3, h4⟩ := nlm n h
                exact ⟨old, h1, h2, List.mem_append.mpr (Or.inl h3), h4⟩
              · rw [hout] at h
                obtain ⟨m, hm, hmn⟩ := List.mem_map.mp h
                have hchar := (hfound m).mp hm
                refine ⟨m, ?_, hchar.2.2, ?_, ?_⟩
                · rw [← hmn]
                  exact hchar.1
                · rw [hchar.2.1]
                  exact List.mem_append.mpr (Or.inr (List.mem_cons_self _ _))
                · rw [← hmn, hchar.2.1, ← hdst]
            · -- nlComplete
              intro i old hq htr hfp
              rcases List.mem_append.mp hfp with h | h
              · exact List.mem_append.mpr (Or.inl (nlc i old hq htr h))
              · have hfpS : old.folderPathname = s := by simpa using h
                have hmv : ¬ (old.folderPathname ∈ done ∧ old.trashed = false) := by
                  intro hc
                  exact hsdone (by rw [← hfpS]; exact hc.1)
                have hidk : old._id = i := hidk0 i old hq hmv
                have hmem2 : old ∈ a.db.findNotesByFolder s :=
                  (hfound old).mpr ⟨by rw [hidk]; exact hq, hfpS, htr⟩
                refine List.mem_append.mpr (Or.inr ?_)
                rw [hout]
                refine List.mem_map.mpr ⟨old, hmem2, ?_⟩
                rw [hfpS, ← hdst]
            · -- nlNd
              show ((a.notesListToRefresh ++ rws).map (fun n => n._id)).Nodup
              rw [List.map_append]
              rw [List.nodup_append]
              refine ⟨nln, by rw [hrwids]; exact hidsnd, ?_⟩
              intro i h1 h2
              obtain ⟨n, hn, hni⟩ := List.mem_map.mp h1
              rw [hrwids] at h2
              obtain ⟨m, hm, hmi⟩ := List.mem_map.mp h2
              obtain ⟨old, ho1, ho2, ho3, ho4⟩ := nlm n hn
              have hcharm := (hfound m).mp hm
              rw [hni] at ho1
              rw [hmi] at hcharm
              have : old = m := by
                have := ho1.symm.trans hcharm.1
                exact Option.some.inj this
              rw [this] at ho3
              rw [hcharm.2.1] at ho3
              exact hsdone ho3
            · -- flMem
              intro F hF
              rcases List.mem_append.mp hF with h | h
              · obtain ⟨s0, h1, h2, h3⟩ := flm F h
                exact ⟨s0, List.mem_append.mpr (Or.inl h1), h2, h3⟩
              · have hFe : F =
                    { pathname := newFolder,
                      noteIdSet := (rws.map (fun n => n._id)).toFinset } := by
                  simpa using h
                refine ⟨s, List.mem_append.mpr (Or.inr (List.mem_cons_self _ _)), ?_, ?_⟩
                · rw [hFe, ← hnf, hdst]
                · intro i
                  rw [hFe]
                  show i ∈ (rws.map (fun n => n._id)).toFinset ↔ _
                  rw [List.mem_toFinset, hrwids]
                  constructor
                  · intro hmem
                    obtain ⟨m, hm, hmi⟩ := List.mem_map.mp hmem
                    have hchar := (hfound m).mp hm
                    rw [hmi] at hchar
                    exact ⟨m, hchar.1, hchar.2.2, hchar.2.1⟩
                  · rintro ⟨old, hq, htr, hfp⟩
                    have hmv : ¬ (old.folderPathname ∈ done ∧ old.trashed = false) := by
                      intro hc
                      exact hsdone (by rw [← hfp]; exact hc.1)
                    have hidk : old._id = i := hidk0 i old hq hmv
                    have hmem2 : old ∈ a.db.findNotesByFolder s :=
                      (hfound old).mpr ⟨by rw [hidk]; exact hq, hfp, htr⟩
                    exact List.mem_map.mpr ⟨old, hmem2, hidk⟩
            · -- flComplete
              intro s0 hs0
              rcases List.mem_append.mp hs0 with h | h
              · obtain ⟨F, hF1, hF2⟩ := flc s0 h
                exact ⟨F, List.mem_append.mpr (Or.inl hF1), hF2⟩
              · have hds : s0 = s := by simpa using h
                refine ⟨{ pathname := newFolder,
                          noteIdSet := (rws.map (fun n => n._id)).toFinset },
                  List.mem_append.mpr (Or.inr (List.mem_cons_self _ _)), ?_⟩
                rw [hds, ← hnf, hdst]

/-- The whole `renameFolder` sub-path fold establishes the invariant at the
full source list. -/
theorem renameFold_inv (pathname newPathname : String) (db0 : Db)
    (allSrc : List String)
    (hsrcpre : ∀ x ∈ allSrc, x = pathname ∨ strStartsWith x (pathname ++ "/") = true)
    (hsrcdb : ∀ x ∈ allSrc, x = pathname ∨ db0.hasFolder x = true)
    (hnd : allSrc.Nodup) (hhead : ∃ tl, allSrc = pathname :: tl) :
    ∀ (L done : List String) (a accF : RenameAcc),
    done ++ L = allSrc →
    RenameInv pathname newPathname db0 allSrc done a →
    L.foldlM (renameOneFolder pathname newPathname) a = Except.ok accF →
    RenameInv pathname newPathname db0 allSrc allSrc accF := by
  intro L
  induction L with
  | nil =>
    intro done a accF hsp hinv hf
    rw [List.append_nil] at hsp
    have hf' : Except.ok a = Except.ok accF := hf
    have ha := Except.ok.inj hf'
    rw [hsp] at hinv
    rw [← ha]
    exact hinv
  | cons s L' ih =>
    intro done a accF hsp hinv hf
    rw [List.foldlM_cons] at hf
    cases hstep : renameOneFolder pathname newPathname a s with
    | error e =>
      rw [hstep] at hf
      exact Except.noConfusion hf
    | ok a1 =>
      rw [hstep] at hf
      have hf' : L'.foldlM (renameOneFolder pathname newPathname) a1 =
          Except.ok accF := hf
      have hinv1 := renameOneFolder_step pathname newPathname db0 allSrc hsrcpre
        hsrcdb hnd hhead done L' s hsp a a1 hinv hstep
      refine ih (done ++ [s]) a1 accF ?_ hinv1 hf'
      rw [List.append_assoc]
      exact hsp

/-- `renameFolder` preserves the cross-index consistency invariant: on success
the notes filed under the renamed subtree move to the rewritten pathnames
with matching fresh folder entries, the old subtree's entries are deleted,
and tag sets (which reference ids, not pathnames) are untouched; on failure
only the store handle is written back. -/
theorem consistent_renameFolder (sm : StorageMap) (sid pathname newPathname : String)
    (hwf : WfStorageMap sm) :
    ∀ kv ∈ (renameFolder sm sid pathname newPathname).1, ConsistentStorage kv.2 := by
  unfold renameFolder
  cases hs : lookupA sm sid with
  | none => exact fun kv h => consistent_of_mem hwf h
  | some storage =>
    dsimp only
    obtain ⟨hndNote, hndFolder, hndTag, hndDb, hcons, hclosure, htagname, hfoldname,
      hag1, hag2, hfdb, hfresh, hidkey⟩ := wfStorage_of_lookup hwf hs
    obtain ⟨hc1, hc2, hc3, hc4⟩ := id hcons
    by_cases hv1 : ¬ isFolderPathnameValid pathname = true
    · rw [if_pos hv1]
      exact fun kv h => consistent_of_mem hwf h
    · rw [if_neg hv1]
      by_cases hv2 : ¬ isFolderPathnameValid newPathname = true
      · rw [if_pos hv2]
        exact fun kv h => consistent_of_mem hwf h
      · rw [if_neg hv2]
        set AFR : List String := pathname :: (keysA storage.folderMap).filter
          (fun p => strStartsWith p (pathname ++ "/")) with hAFR
        cases hfold : AFR.foldlM (renameOneFolder pathname newPathname)
            { db := storage.db, folderListToRefresh := [],
              notesListToRefresh := [] } with
        | error pr =>
          obtain ⟨dbE, e⟩ := pr
          dsimp only
          refine consistent_result_osetA hwf ?_
          exact consistent_mk_db _ _ (consistent_of_lookup hwf hs)
        | ok acc =>
          dsimp only
          have hsrcpre : ∀ x ∈ AFR, x = pathname ∨
              strStartsWith x (pathname ++ "/") = true := by
            intro x hx
            rw [hAFR] at hx
            rcases List.mem_cons.mp hx with h | h
            · exact Or.inl h
            · exact Or.inr (List.mem_filter.mp h).2
          have hsrcdb : ∀ x ∈ AFR, x = pathname ∨ storage.db.hasFolder x = true := by
            intro x hx
            rw [hAFR] at hx
            rcases List.mem_cons.mp hx with h | h
            · exact Or.inl h
            · refine Or.inr ?_
              have hk := (List.mem_filter.mp h).1
              have hsome := lookupA_isSome_of_mem_keys hk
              cases hlx : lookupA storage.folderMap x with
              | none =>
                rw [hlx] at hsome
                exact Bool.noConfusion hsome
              | some v => exact hfdb (x, v) (mem_of_lookupA hlx)
          have hndAFR : AFR.Nodup := by
            rw [hAFR]
            refine List.nodup_cons.mpr ⟨?_, ?_⟩
            · intro h
              have h2 := (List.mem_filter.mp h).2
              rw [not_strStartsWith_self pathname] at h2
              exact Bool.noConfusion h2
            · exact List.Nodup.filter _ hndFolder
          have hhead : ∃ tl, AFR = pathname :: tl := ⟨_, hAFR⟩
          have hinv0 : RenameInv pathname newPathname storage.db AFR []
              { db := storage.db, folderListToRefresh := [],
                notesListToRefresh := [] } := by
            refine ⟨?_, hndDb, ?_, ?_, ?_, ?_, ?_, ?_, ?_, ?_, ?_⟩
            · intro i
              show lookupA storage.db.notes i = _
              cases hq : lookupA storage.db.notes i with
              | none => rfl
              | some old =>
                dsimp only
                rw [if_neg (by simp)]
            · exact fun p h => h
            · intro d hd
              cases hd
            · intro d hd
              cases hd
            · intro kv hkv
              have h := hag2 kv hkv
              exact hidkey (kv.1, kv.2) (mem_of_lookupA h)
            · intro n hn
              cases hn
            · intro i old _ _ h
              cases h
            · exact List.nodup_nil
            · intro F hF
              cases hF
            · intro s hs2
              cases hs2
          have hinv := renameFold_inv pathname newPathname storage.db AFR hsrcpre
            hsrcdb hndAFR hhead AFR [] _ acc rfl hinv0 hfold
          obtain ⟨inv1, inv2, inv3, inv4, inv7, inv8, nlm, nlc, nln, flm, flc⟩ := hinv
          have hagr : ∀ i, lookupA storage.db.notes i = lookupA storage.noteMap i := by
            intro i
            cases hq : lookupA storage.noteMap i with
            | none =>
              cases hq2 : lookupA storage.db.notes i with
              | none => rfl
              | some v =>
                have h := hag2 (i, v) (mem_of_lookupA hq2)
                rw [hq] at h
                exact Option.noConfusion h
            | some v => exact hag1 (i, v) (mem_of_lookupA hq)
          have hnm : ∀ i, lookupA (refreshNotes storage.noteMap
              acc.notesListToRefresh) i =
              match lookupA storage.noteMap i with
              | some old =>
                  if old.folderPathname ∈ AFR ∧ old.trashed = false
                  then some
                    { old with folderPathname :=
                        rewritePath pathname newPathname old.folderPathname }
                  else some old
              | none => none := by
            intro i
            rw [lookupA_refreshNotes]
            cases hq : lookupA storage.noteMap i with
            | none =>
              have hfind : acc.notesListToRefresh.reverse.find?
                  (fun n => decide (n._id = i)) = none := by
                rw [List.find?_eq_none]
                intro n hn hni
                rw [List.mem_reverse] at hn
                obtain ⟨old, ho1, -, -, -⟩ := nlm n hn
                have hnid := of_decide_eq_true hni
                rw [hnid, hagr i, hq] at ho1
                exact Option.noConfusion ho1
              rw [hfind]
            | some old =>
              by_cases hmv : old.folderPathname ∈ AFR ∧ old.trashed = false
              · have hmem :
                    { old with folderPathname :=
                        rewritePath pathname newPathname old.folderPathname } ∈
                      acc.notesListToRefresh :=
                  nlc i old (by rw [hagr i]; exact hq) hmv.2 hmv.1
                have hidk : old._id = i := hidkey (i, old) (mem_of_lookupA hq)
                have hfind : acc.notesListToRefresh.reverse.find?
                    (fun n => decide (n._id = i)) =
                    some
                      { old with folderPathname :=
                          rewritePath pathname newPathname old.folderPathname } := by
                  cases hf : acc.notesListToRefresh.reverse.find?
                      (fun n => decide (n._id = i)) with
                  | none =>
                    exfalso
                    rw [List.find?_eq_none] at hf
                    exact hf _ (List.mem_reverse.mpr hmem) (decide_eq_true hidk)
                  | some m =>
                    have hpm := List.find?_some hf
                    have hmm := List.mem_of_find?_eq_some hf
                    rw [List.mem_reverse] at hmm
                    have hmi : m._id = i := of_decide_eq_true hpm
                    have hme := List.inj_on_of_nodup_map nln hmm hmem
                      (by show m._id = _; rw [hmi]; exact hidk.symm)
                    rw [hme]
                rw [hfind]
                dsimp only
                rw [if_pos hmv]
              · have hfind : acc.notesListToRefresh.reverse.find?
                    (fun n => decide (n._id = i)) = none := by
                  rw [List.find?_eq_none]
                  intro n hn hni
                  rw [List.mem_reverse] at hn
                  obtain ⟨old2, ho1, ho2, ho3, -⟩ := nlm n hn
                  have hnid := of_decide_eq_true hni
                  rw [hnid, hagr i, hq] at ho1
                  have hoe := Option.some.inj ho1
                  refine hmv ?_
                  rw [← hoe] at ho2 ho3
                  exact ⟨ho3, ho2⟩
                rw [hfind]
                dsimp only
                rw [if_neg hmv]
          have hfm : ∀ q, lookupA (AFR.foldl odelA
              (refreshFolders storage.folderMap acc.folderListToRefresh)) q =
              if q ∈ AFR then none
              else match acc.folderListToRefresh.reverse.find?
                  (fun f => decide (f.pathname = q)) with
                | some F => some (some F)
                | none => lookupA storage.folderMap q := by
            intro q
            rw [lookupA_foldl_odelA]
            by_cases hq : q ∈ AFR
            · rw [if_pos hq, if_pos hq]
            · rw [if_neg hq, if_neg hq, lookupA_refreshFolders]
              cases hf : acc.folderListToRefresh.reverse.find?
                  (fun f => decide (f.pathname = q)) with
              | none => simp only [hf, Option.map_none']
              | some F => simp only [hf, Option.map_some']
          have hflfind : ∀ q F, acc.folderListToRefresh.reverse.find?
              (fun f => decide (f.pathname = q)) = some F →
              F ∈ acc.folderListToRefresh ∧ F.pathname = q := by
            intro q F hf
            have hps := List.find?_some hf
            have hmm := List.mem_of_find?_eq_some hf
            exact ⟨List.mem_reverse.mp hmm, of_decide_eq_true hps⟩
          have hndNM : NoDupKeys (refreshNotes storage.noteMap
              acc.notesListToRefresh) := by
            unfold refreshNotes
            exact nodupKeys_foldl_osetA _ _ _ _ hndNote
          have hndFM : NoDupKeys (AFR.foldl odelA
              (refreshFolders storage.folderMap acc.folderListToRefresh)) :=
            nodupKeys_foldl_odelA _ _ (nodupKeys_refreshFolders _ _ hndFolder)
          refine consistent_result_osetA hwf ?_
          unfold ConsistentStorage
          dsimp only
          refine ⟨?_, ?_, ?_, ?_⟩
          · -- non-trashed notes stay indexed
            intro kv hkv htr
            obtain ⟨i, nv⟩ := kv
            have hlk := lookupA_eq_of_mem hndNM hkv
            rw [hnm i] at hlk
            cases hq : lookupA storage.noteMap i with
            | none =>
              simp only [hq] at hlk
              exact Option.noConfusion hlk
            | some old =>
              simp only [hq] at hlk
              by_cases hmv : old.folderPathname ∈ AFR ∧ old.trashed = false
              · rw [if_pos hmv] at hlk
                have hnv := Option.some.inj hlk
                constructor
                · rw [← hnv]
                  unfold oget2
                  dsimp only
                  rw [hfm]
                  have hdfr := inv7 old.folderPathname hmv.1
                  rw [if_neg hdfr.1]
                  obtain ⟨F, hF1, hF2⟩ := flc old.folderPathname hmv.1
                  cases hff : acc.folderListToRefresh.reverse.find?
                      (fun f => decide (f.pathname =
                        rewritePath pathname newPathname old.folderPathname)) with
                  | none =>
                    rw [List.find?_eq_none] at hff
                    exact absurd (decide_eq_true hF2)
                      (hff F (List.mem_reverse.mpr hF1))
                  | some F2 =>
                    obtain ⟨hF2mem, hF2p⟩ := hflfind _ _ hff
                    show i ∈ F2.noteIdSet
                    obtain ⟨s0, hs0, hs0p, hs0iff⟩ := flm F2 hF2mem
                    have hs0e : s0 = old.folderPathname := by
                      refine @rewritePath_inj_on pathname newPathname s0
                        old.folderPathname (hsrcpre s0 hs0)
                        (hsrcpre old.folderPathname hmv.1) ?_
                      rw [← hs0p, hF2p]
                    refine (hs0iff i).mpr ⟨old, ?_, hmv.2, ?_⟩
                    · rw [hagr i]
                      exact hq
                    · rw [hs0e]
                · intro tg htg
                  rw [← hnv] at htg
                  have htg2 : tg ∈ old.tags := htg
                  exact (hc1 (i, old) (mem_of_lookupA hq) hmv.2).2 tg htg2
              · rw [if_neg hmv] at hlk
                have hnv := Option.some.inj hlk
                constructor
                · rw [← hnv]
                  have htro : old.trashed = false := by
                    rw [hnv]
                    exact htr
                  have h1 := (hc1 (i, old) (mem_of_lookupA hq) htro).1
                  cases hOH : oget2 storage.folderMap old.folderPathname with
                  | none =>
                    rw [hOH] at h1
                    exact h1.elim
                  | some f =>
                    rw [hOH] at h1
                    have hnA : old.folderPathname ∉ AFR := fun h => hmv ⟨h, htro⟩
                    unfold oget2
                    rw [hfm, if_neg hnA]
                    have hhasf : storage.db.hasFolder old.folderPathname = true := by
                      have hl2 := lookupA_of_oget2 hOH
                      exact hfdb (old.folderPathname, some f) (mem_of_lookupA hl2)
                    cases hff : acc.folderListToRefresh.reverse.find?
                        (fun g => decide (g.pathname = old.folderPathname)) with
                    | some F2 =>
                      exfalso
                      obtain ⟨hF2mem, hF2p⟩ := hflfind _ _ hff
                      obtain ⟨s0, hs0, hs0p, -⟩ := flm F2 hF2mem
                      have hff2 := (inv7 s0 hs0).2
                      rw [← hs0p, hF2p] at hff2
                      rw [hff2] at hhasf
                      exact Bool.noConfusion hhasf
                    | none =>
                      show OptHolds (oget2 storage.folderMap old.folderPathname)
                        (fun g => i ∈ g.noteIdSet)
                      rw [hOH]
                      exact h1
                · intro tg htg
                  rw [← hnv] at htg
                  have htro : old.trashed = false := by
                    rw [hnv]
                    exact htr
                  exact (hc1 (i, old) (mem_of_lookupA hq) htro).2 tg htg
          · -- trashed notes absent from every set
            intro kv hkv htr
            obtain ⟨i, nv⟩ := kv
            have hlk := lookupA_eq_of_mem hndNM hkv
            rw [hnm i] at hlk
            cases hq : lookupA storage.noteMap i with
            | none =>
              simp only [hq] at hlk
              exact Option.noConfusion hlk
            | some old =>
              simp only [hq] at hlk
              by_cases hmv : old.folderPathname ∈ AFR ∧ old.trashed = false
              · rw [if_pos hmv] at hlk
                have hnv := Option.some.inj hlk
                exfalso
                rw [← hnv] at htr
                have htr2 : old.trashed = true := htr
                rw [hmv.2] at htr2
                exact Bool.noConfusion htr2
              · rw [if_neg hmv] at hlk
                have hnv := Option.some.inj hlk
                have htro : old.trashed = true := by
                  rw [hnv]
                  exact htr
                have h2 := hc2 (i, old) (mem_of_lookupA hq) htro
                constructor
                · intro pf hpf g hg hin
                  have hpf2 := mem_foldl_odelA hpf
                  rcases mem_refreshFolders hpf2 with hold | ⟨F, hFmem, hFe⟩
                  · exact h2.1 pf hold g hg hin
                  · have hpfsnd : pf.2 = some F := by rw [hFe]
                    rw [hpfsnd] at hg
                    have hgF := Option.some.inj hg
                    rw [← hgF] at hin
                    obtain ⟨s0, hs0, hs0p, hs0iff⟩ := flm F hFmem
                    obtain ⟨old2, ho1, ho2, -⟩ := (hs0iff i).mp hin
                    rw [hagr i, hq] at ho1
                    have hoe := Option.some.inj ho1
                    rw [← hoe] at ho2
                    rw [htro] at ho2
                    exact Bool.noConfusion ho2
                · intro pt hpt hin
                  exact h2.2 pt hpt hin
          · -- folder sets point to live notes at the entry's pathname
            intro pf hpf g hg idx hidx
            have hpfl := lookupA_eq_of_mem hndFM hpf
            rw [hfm pf.1] at hpfl
            by_cases hqA : pf.1 ∈ AFR
            · rw [if_pos hqA] at hpfl
              exact Option.noConfusion hpfl
            · rw [if_neg hqA] at hpfl
              cases hff : acc.folderListToRefresh.reverse.find?
                  (fun f => decide (f.pathname = pf.1)) with
              | some F =>
                simp only [hff] at hpfl
                have hp2 := Option.some.inj hpfl
                rw [← hp2] at hg
                have hFg := Option.some.inj hg
                rw [← hFg] at hidx
                obtain ⟨s0, hs0, hs0p, hs0iff⟩ := flm F (hflfind _ _ hff).1
                obtain ⟨old, ho1, ho2, ho3⟩ := (hs0iff idx).mp hidx
                rw [hagr idx] at ho1
                rw [hnm idx]
                simp only [ho1]
                rw [if_pos ⟨(by rw [ho3]; exact hs0), ho2⟩]
                refine ⟨ho2, ?_⟩
                show rewritePath pathname newPathname old.folderPathname = pf.1
                rw [ho3, ← hs0p]
                exact (hflfind _ _ hff).2
              | none =>
                simp only [hff] at hpfl
                have h3 := hc3 (pf.1, pf.2) (mem_of_lookupA hpfl) g hg idx hidx
                cases hq : lookupA storage.noteMap idx with
                | none =>
                  rw [hq] at h3
                  exact h3.elim
                | some n =>
                  rw [hq] at h3
                  rw [hnm idx]
                  simp only [hq]
                  rw [if_neg (fun hc => hqA (by rw [← h3.2]; exact hc.1))]
                  exact h3
          · -- tag sets point to live notes carrying the tag
            intro pt hpt idx hidx
            have h4 := hc4 pt hpt idx hidx
            cases hq : lookupA storage.noteMap idx with
            | none =>
              rw [hq] at h4
              exact h4.elim
            | some n =>
              rw [hq] at h4
              rw [hnm idx]
              simp only [hq]
              by_cases hmv : n.folderPathname ∈ AFR ∧ n.trashed = false
              · rw [if_pos hmv]
                exact ⟨h4.1, h4.2⟩
              · rw [if_neg hmv]
                exact h4

/-- C1 (amended): for a well-formed registry snapshot, every registry
operation preserves the cross-index consistency invariant in every storage,
excluding the two genuinely breaking uses: `updateNote` applied to a note
that is trashed in the index, and `moveNoteToOtherStorage` invoked with the
same source and target storage id. -/
theorem claim_C1_amended (sm : StorageMap) (op : RegOp) (hwf : WfStorageMap sm)
    (hok : OpOk sm op) :
    ∀ kv ∈ applyOp sm op, ConsistentStorage kv.2 := by
  cases op with
  | createNoteOp sid props => exact consistent_createNote sm sid props hwf
  | updateNoteOp sid nid props =>
    exact consistent_updateNote sm sid nid props hwf hok
  | trashNoteOp sid nid => exact consistent_trashNote sm sid nid hwf
  | untrashNoteOp sid nid => exact consistent_untrashNote sm sid nid hwf
  | purgeNoteOp sid nid => exact consistent_purgeNote sm sid nid hwf
  | createFolderOp sid p => exact consistent_createFolder sm sid p hwf
  | renameFolderOp sid p np => exact consistent_renameFolder sm sid p np hwf
  | removeFolderOp sid p => exact consistent_removeFolder sm sid p hwf
  | removeTagOp sid t => exact consistent_removeTag sm sid t hwf
  | moveNoteOp o nid t tfp => exact consistent_moveNote sm o nid t tfp hwf hok

/-- Witness for C1 (amended) at a concrete well-formed snapshot and
operation, every hypothesis discharged by evaluation. -/
theorem claim_C1_witness :
    WfStorageMap exRoundtripMap ∧
    OpOk exRoundtripMap (RegOp.removeFolderOp "S" "/x") ∧
    ∀ kv ∈ applyOp exRoundtripMap (RegOp.removeFolderOp "S" "/x"),
      ConsistentStorage kv.2 :=
  ⟨by decide, by decide,
   claim_C1_amended exRoundtripMap (RegOp.removeFolderOp "S" "/x")
     (by decide) (by decide)⟩
